import Mathlib

/-!
Verification of openphy: timestamped ring buffer and polyphase resampler.

Shallow embedding of `src/buffer.cc` / `src/buffer.h` (class `ts_buffer`) and of
`src/Resampler.cc` (class `Resampler`), followed by the properties proved about them.

Conventions of the embedding:

* `int64_t` values are integers (`Int`); a conversion of such a value to `size_t` is the
  explicit reduction `toSizeT` modulo `2 ^ 64`.  Properties that quantify over timestamps
  carry the `int64_t` range as a hypothesis where the conversion matters.
* The sample store is a list of 32 bit samples (one `uint32_t` per interleaved I/Q pair).
  All byte counts of the source are multiples of `type_sz = 4`, the size of one sample, so
  copies are expressed in samples.
* Pointers handed out by the zero-copy interface are values of `Ptr`: null, a position in
  the sample store, or a scratch block obtained from `new`.
* The `int` members of `Resampler` (`P`, `Q`, filter length, delay) are natural numbers;
  products such as `mQ * i` are exact, as they are in the source while they stay in `int`
  range.  Samples and partition filters are of arbitrary types; the library routine
  `single_convolve`, which is not part of the repository sources, is a parameter.
-/

namespace OpenPhy

/-! ## Ring buffer: data model and operations -/

/-- Conversion of an `int64_t` value to `size_t` (64 bit, unsigned): reduction modulo `2 ^ 64`. -/
def toSizeT (x : Int) : Nat := (x % 2 ^ 64).toNat

/-- Largest `ssize_t` value. -/
def SSIZE_MAX : Nat := 2 ^ 63 - 1

/-- Pointers returned by the zero-copy calls: `NULL`, `data + off` (in samples), or the
block number of a scratch block allocated with `new char[]`. -/
inductive Ptr where
  | null : Ptr
  | store (off : Nat) : Ptr
  | scratch (id : Nat) : Ptr
  deriving DecidableEq, Repr

/-- The class `ts_buffer` of `buffer.h`.  `heap` lists the scratch blocks the buffer has
allocated (block `id` is `heap[id]`); `tag_start` and `tag_split` are kept in samples and are
left unset by the constructor (modelled as `0`). -/
structure ts_buffer where
  data : List Nat
  buf_len : Nat
  time_start : Int
  time_end : Int
  data_start : Int
  data_end : Int
  tag : Ptr
  tag_len : Nat
  tag_start : Nat
  tag_split : Nat
  tag_alloc : Bool
  heap : List (List Nat)
  deriving DecidableEq, Repr

namespace ts_buffer

/-- Member of `enum err`. -/
def ERR_MEM : Int := 0
/-- Member of `enum err`. -/
def ERR_TIMESTAMP : Int := 1
/-- Member of `enum err`. -/
def ERR_OVERFLOW : Int := 2

/-- Library `memcpy(dst + off, src, n)` on sample lists: `n` samples of `src` replace the
samples `off .. off + n - 1` of `dst`. -/
def memcpy (dst : List Nat) (off : Nat) (src : List Nat) (n : Nat) : List Nat :=
  dst.take off ++ src.take n ++ dst.drop (off + n)

/-- Constructor `ts_buffer::ts_buffer(len)`: no store yet, all markers zero, no tag. -/
def construct (len : Nat) : ts_buffer :=
  { data := [], buf_len := len, time_start := 0, time_end := 0, data_start := 0,
    data_end := 0, tag := Ptr.null, tag_len := 0, tag_start := 0, tag_split := 0,
    tag_alloc := false, heap := [] }

/-- Method `ts_buffer::init()`: allocates the store; `mem` is the (indeterminate) content of
the `buf_len` freshly allocated samples. -/
def init (s : ts_buffer) (mem : List Nat) : Bool × ts_buffer :=
  if s.buf_len > SSIZE_MAX then (false, s) else (true, { s with data := mem })

/-- Method `ts_buffer::reset()`. -/
def reset (s : ts_buffer) : ts_buffer :=
  { s with time_start := 0, time_end := 0, data_start := 0, data_end := 0 }

/-- Method `ts_buffer::avail_smpls(ts)`. -/
def avail_smpls (s : ts_buffer) (ts : Int) : Nat :=
  if ts ≥ s.time_end then 0 else toSizeT (s.time_end - ts)

/-- Method `ts_buffer::read(buf, len, ts)`: result code, the caller's buffer after the call,
and the buffer afterwards.  The statement `if (num_smpls > len);` of the source has an empty
body, so `num_smpls = len` is assigned unconditionally. -/
def read (s : ts_buffer) (buf : List Nat) (len : Nat) (ts : Int) :
    Int × List Nat × ts_buffer :=
  if len ≥ s.buf_len ∨ ts + (len : Int) > s.time_end then (-ERR_TIMESTAMP, buf, s)
  else if ts + (len : Int) < s.time_start then (ERR_TIMESTAMP, buf, s)
  else
    let num_smpls := len
    let rd_start := toSizeT (s.data_start + (ts - s.time_start)) % s.buf_len
    let out :=
      if rd_start + num_smpls < s.buf_len then
        memcpy buf 0 (s.data.drop rd_start) len
      else
        let copy0 := s.buf_len - rd_start
        let copy1 := len - copy0
        memcpy (memcpy buf 0 (s.data.drop rd_start) copy0) copy0 s.data copy1
    let s1 := { s with data_start := ((rd_start + len) % s.buf_len : Nat),
                       time_start := ts + (len : Int) }
    if s1.time_start > s1.time_end then (-ERR_TIMESTAMP, out, s1)
    else ((num_smpls : Int), out, s1)

/-- Method `ts_buffer::get_rd_buf(ts, len, err)`: returned pointer, the value stored to
`*err` (`none` when nothing is stored), and the buffer afterwards. -/
def get_rd_buf (s : ts_buffer) (ts : Int) (len : Nat) : Ptr × Option Int × ts_buffer :=
  if s.tag ≠ Ptr.null then (Ptr.null, some ERR_MEM, s)
  else if len ≥ s.buf_len ∨ ts < 0 ∨ ts + (len : Int) > s.time_end then
    (Ptr.null, some ERR_TIMESTAMP, s)
  else if ts + (len : Int) < s.time_start then (Ptr.null, some ERR_TIMESTAMP, s)
  else
    let num_smpls := len
    let rd_start := toSizeT (s.data_start + (ts - s.time_start)) % s.buf_len
    if rd_start + num_smpls < s.buf_len then
      let buf := Ptr.store rd_start
      (buf, none,
        { s with data_start := ((rd_start + len) % s.buf_len : Nat),
                 time_start := ts + (len : Int),
                 tag := buf, tag_len := len, tag_alloc := false })
    else
      let copy0 := s.buf_len - rd_start
      let copy1 := len - copy0
      let blk := memcpy (memcpy (List.replicate len 0) 0 (s.data.drop rd_start) copy0)
        copy0 s.data copy1
      let buf := Ptr.scratch s.heap.length
      (buf, none,
        { s with heap := s.heap ++ [blk],
                 data_start := ((rd_start + len) % s.buf_len : Nat),
                 time_start := ts + (len : Int),
                 tag := buf, tag_len := len, tag_alloc := true })

/-- The `n` samples a caller reads through pointer `p`. -/
def deref (s : ts_buffer) (p : Ptr) (n : Nat) : List Nat :=
  match p with
  | Ptr.null => []
  | Ptr.store off => (s.data.drop off).take n
  | Ptr.scratch id => (s.heap.getD id []).take n

/-- Effect of `delete` on the scratch blocks: the block behind `p` is released. -/
def release (heap : List (List Nat)) (p : Ptr) : List (List Nat) :=
  match p with
  | Ptr.scratch id => heap.set id []
  | _ => heap

/-- Method `ts_buffer::commit_rd(buf)`. -/
def commit_rd (s : ts_buffer) (buf : Ptr) : Bool × ts_buffer :=
  if buf = Ptr.null ∨ buf ≠ s.tag then (false, s)
  else
    (true, { s with heap := if s.tag_alloc then release s.heap s.tag else s.heap,
                    tag := Ptr.null })

/-- Method `ts_buffer::write(buf, len, ts)`: result code and the buffer afterwards. -/
def write (s : ts_buffer) (buf : List Nat) (len : Nat) (ts : Int) : Int × ts_buffer :=
  if len ≥ s.buf_len ∨ ts < 0 ∨ ts + (len : Int) ≤ s.time_end then (-ERR_TIMESTAMP, s)
  else
    let wr_start0 := toSizeT (s.data_start + (ts - s.time_start))
    let wrap0 : Bool := decide (wr_start0 ≥ s.buf_len)
    let wr_start := if wr_start0 ≥ s.buf_len then wr_start0 % s.buf_len else wr_start0
    let split : Bool := decide (len ≠ 0 ∧ ¬ (wr_start + len < s.buf_len))
    let data1 :=
      if len ≠ 0 then
        if wr_start + len < s.buf_len then memcpy s.data wr_start buf len
        else
          let copy0 := s.buf_len - wr_start
          let copy1 := len - copy0
          memcpy (memcpy s.data wr_start buf copy0) 0 (buf.drop copy0) copy1
      else s.data
    let wrap : Bool := wrap0 || split
    let init : Bool := decide (s.data_start = 0)
    let data_start1 : Int := if s.data_start = 0 then (wr_start : Int) else s.data_start
    let time_start1 : Int := if s.data_start = 0 then ts else s.time_start
    let s1 := { s with data := data1, data_start := data_start1, time_start := time_start1,
                       data_end := ((wr_start + len) % s.buf_len : Nat),
                       time_end := ts + (len : Int) }
    if !init && wrap && decide (s1.data_end > s1.data_start) then (-ERR_OVERFLOW, s1)
    else if s1.time_end ≤ s1.time_start then (-ERR_TIMESTAMP, s1)
    else ((len : Int), s1)

/-- Method `ts_buffer::get_wr_buf(ts, len, err)`: returned pointer, the value stored to
`*err` (`none` when nothing is stored), and the buffer afterwards.  A scratch block is
allocated with indeterminate content (modelled as zeros). -/
def get_wr_buf (s : ts_buffer) (ts : Int) (len : Nat) : Ptr × Option Int × ts_buffer :=
  if s.tag ≠ Ptr.null then (Ptr.null, some ERR_MEM, s)
  else if len ≥ s.buf_len ∨ ts < 0 ∨ ts + (len : Int) ≤ s.time_end then
    (Ptr.null, some ERR_TIMESTAMP, s)
  else
    let wr_start0 := toSizeT (s.data_start + (ts - s.time_start))
    let wrap0 : Bool := decide (wr_start0 ≥ s.buf_len)
    let wr_start := if wr_start0 ≥ s.buf_len then wr_start0 % s.buf_len else wr_start0
    let wrap1 : Bool := decide (len ≠ 0 ∧ ¬ (wr_start + len < s.buf_len))
    let buf : Ptr :=
      if len ≠ 0 then
        if wr_start + len < s.buf_len then Ptr.store wr_start else Ptr.scratch s.heap.length
      else Ptr.null
    let copy0 := if wrap1 then s.buf_len - wr_start else 0
    let heap1 := if wrap1 then s.heap ++ [List.replicate len 0] else s.heap
    let init : Bool := decide (s.data_start = 0)
    let data_start1 : Int := if s.data_start = 0 then (wr_start : Int) else s.data_start
    let time_start1 : Int := if s.data_start = 0 then ts else s.time_start
    let s1 := { s with heap := heap1, data_start := data_start1, time_start := time_start1,
                       data_end := ((wr_start + len) % s.buf_len : Nat),
                       time_end := ts + (len : Int) }
    if !init && wrap0 && decide (s1.data_end > s1.data_start) then (Ptr.null, none, s1)
    else if s1.time_end ≤ s1.time_start then (Ptr.null, none, s1)
    else
      (buf, none,
        { s1 with tag := buf, tag_len := len, tag_alloc := wrap1,
                  tag_split := if wrap1 then copy0 else 0,
                  tag_start := if wrap1 then wr_start else 0 })

/-- Method `ts_buffer::commit_wr(buf)`: a scratch block is copied into the store in two
pieces, `tag_split` samples at `tag_start` and the rest at the start of the store. -/
def commit_wr (s : ts_buffer) (buf : Ptr) : Bool × ts_buffer :=
  if buf = Ptr.null ∨ buf ≠ s.tag then (false, s)
  else if s.tag_alloc then
    let blk := deref s buf s.tag_len
    let data1 := memcpy (memcpy s.data s.tag_start blk s.tag_split) 0
      (blk.drop s.tag_split) (s.tag_len - s.tag_split)
    (true, { s with data := data1, heap := release s.heap s.tag, tag := Ptr.null })
  else (true, { s with tag := Ptr.null })

/-- Overload `ts_buffer::write(buf, len)`: append at `time_end`. -/
def write_next (s : ts_buffer) (buf : List Nat) (len : Nat) : Int × ts_buffer :=
  s.write buf len s.time_end

/-- Overload `ts_buffer::write(timestamp)`: zero-length write. -/
def write_ts (s : ts_buffer) (timestamp : Int) : Int × ts_buffer :=
  s.write [] 0 timestamp

/-- A newly constructed buffer of capacity `len` whose store was allocated by `init`. -/
def fresh (len : Nat) (mem : List Nat) : ts_buffer :=
  ((construct len).init mem).2

/-- One call on the buffer, as made by a client. -/
inductive Op where
  | write (buf : List Nat) (len : Nat) (ts : Int) : Op
  | read (buf : List Nat) (len : Nat) (ts : Int) : Op
  | get_rd_buf (ts : Int) (len : Nat) : Op
  | commit_rd (p : Ptr) : Op
  | get_wr_buf (ts : Int) (len : Nat) : Op
  | commit_wr (p : Ptr) : Op
  | reset : Op
  deriving DecidableEq, Repr

/-- The buffer after one call (results dropped). -/
def step (s : ts_buffer) : Op → ts_buffer
  | Op.write buf len ts => (s.write buf len ts).2
  | Op.read buf len ts => (s.read buf len ts).2.2
  | Op.get_rd_buf ts len => (s.get_rd_buf ts len).2.2
  | Op.commit_rd p => (s.commit_rd p).2
  | Op.get_wr_buf ts len => (s.get_wr_buf ts len).2.2
  | Op.commit_wr p => (s.commit_wr p).2
  | Op.reset => s.reset

/-- The buffer after a sequence of calls. -/
def run (s : ts_buffer) (ops : List Op) : ts_buffer :=
  ops.foldl step s

/-- Buffer of capacity 16 after a first write of five samples at timestamp 5: the window is
`[5, 10)` and occupies the slots 5 .. 9. -/
def exWindow : ts_buffer :=
  ((fresh 16 (List.replicate 16 0)).write [1, 2, 3, 4, 5] 5 5).2

/-- The buffer `exWindow` after `get_rd_buf(5, 2)`: a read tag is outstanding. -/
def exTagged : ts_buffer := (exWindow.get_rd_buf 5 2).2.2

/-- Buffer of capacity 16 after a first write of ten samples at timestamp 15: the window
`[15, 25)` occupies the slots 15, 0, 1, .., 8 and nothing has been read. -/
def exFull : ts_buffer :=
  ((fresh 16 (List.replicate 16 0)).write [1, 2, 3, 4, 5, 6, 7, 8, 9, 10] 10 15).2

/-- Fifteen fresh samples. -/
def exBurst : List Nat :=
  [101, 102, 103, 104, 105, 106, 107, 108, 109, 110, 111, 112, 113, 114, 115]

/-- Start slot of a request at timestamp `ts`: the index expression of the source reduced
modulo the capacity. -/
def slot (s : ts_buffer) (ts : Int) : Nat :=
  toSizeT (s.data_start + (ts - s.time_start)) % s.buf_len

/-- The index expression `data_start + (ts - time_start)` of a request converts to `size_t`
without wrapping. -/
def index_in_range (s : ts_buffer) (ts : Int) : Bool :=
  decide (0 ≤ s.data_start + (ts - s.time_start) ∧ s.data_start + (ts - s.time_start) < 2 ^ 64)

/-- The call `op` made in state `s` computes its start index without `size_t` wrap-around
(calls that compute no index are always in range). -/
def in_range (s : ts_buffer) : Op → Bool
  | Op.write _ _ ts => index_in_range s ts
  | Op.read _ _ ts => index_in_range s ts
  | Op.get_rd_buf ts _ => index_in_range s ts
  | Op.get_wr_buf ts _ => index_in_range s ts
  | _ => true

/-- Every call of the sequence is in range in the state in which it is made. -/
def trace_in_range (s : ts_buffer) : List Op → Bool
  | [] => true
  | op :: ops => in_range s op && trace_in_range (step s op) ops

/-- The differences of the time markers and of the data markers agree modulo the capacity. -/
def markers_congruent (s : ts_buffer) : Prop :=
  s.time_end - s.time_start ≡ s.data_end - s.data_start [ZMOD (s.buf_len : Int)]

/-- Buffer of capacity 16 after a first write of three samples at timestamp 16: the window
is `[16, 19)` and starts in slot 0, so `data_start` is 0 again. -/
def exAligned : ts_buffer := ((fresh 16 (List.replicate 16 0)).write [1, 2, 3] 3 16).2

/-- Buffer of capacity 16 after a first write of eight samples at timestamp 0: the window is
`[0, 8)`, nothing has been read. -/
def exFromZero : ts_buffer :=
  ((fresh 16 (List.replicate 16 0)).write [1, 2, 3, 4, 5, 6, 7, 8] 8 0).2

end ts_buffer

/-! ## Polyphase resampler: data model and operations -/

/-- Constant `MAX_OUTPUT_LEN` of `Resampler.cc`. -/
def MAX_OUTPUT_LEN : Nat := 4096 * 8

/-- A `struct cxvec` as the resampler sees it: the `data` samples and the samples stored in
the headroom immediately before them (`head`, the last one adjacent to `data[0]`). -/
structure cxvec (α : Type) where
  head : List α
  data : List α
  deriving DecidableEq, Repr

/-- Library `cxvec_len`. -/
def cxvec_len {α : Type} (v : cxvec α) : Nat := v.data.length

/-- Sample `_cxvec_data(v)[k]` for a signed index `k`: negative indices address the
headroom.  Addresses outside the vector yield `default`. -/
def cxvec.at {α : Type} [Inhabited α] (v : cxvec α) (k : Int) : α :=
  if 0 ≤ (v.head.length : Int) + k then
    (v.head ++ v.data).getD ((v.head.length : Int) + k).toNat default
  else default

/-- Effect of `memcpy(_cxvec_data(v) - hlen, h, hlen * 2 * sizeof(float))` with
`hlen = h.length`: the last `hlen` samples of the headroom are replaced by `h`. -/
def cxvec.insert_history {α : Type} (v : cxvec α) (h : List α) : cxvec α :=
  { v with head := v.head.take (v.head.length - h.length) ++ h }

/-- The class `Resampler`.  Sample type `α`, partition filter type `H`.  The partition
filters are those produced by `initFilters`; `partitions n` is `partitions[n]`. -/
structure Resampler (α H : Type) where
  mP : Nat
  mQ : Nat
  mFiltLen : Nat
  mDelay : Nat
  inputIndex : List Nat
  outputPath : List Nat
  partitions : Nat → H
  history : List α

namespace Resampler

variable {α H β : Type}

/-- Static function `check_vec_len(in, out, p, q)` on the vector lengths; `out = none` is the
call with a null output vector. -/
def check_vec_len (in_len : Nat) (out_len : Option Nat) (p q : Nat) : Bool :=
  if in_len % q ≠ 0 then false
  else
    match out_len with
    | none => true
    | some olen =>
      if olen % p ≠ 0 then false
      else if in_len / q ≠ olen / p then false
      else if olen > MAX_OUTPUT_LEN then false
      else true

/-- Method `Resampler::computePath()`. -/
def computePath (r : Resampler α H) : Resampler α H :=
  { r with
    inputIndex := (List.range MAX_OUTPUT_LEN).map (fun i => (r.mQ * i) / r.mP),
    outputPath := (List.range MAX_OUTPUT_LEN).map (fun i => (r.mQ * i) % r.mP) }

/-- Method `Resampler::rotate(in, out, len)`.  The library routine `single_convolve(in, h, out)`
is the parameter `single_convolve`: it receives the samples around its input pointer
(`k ↦ in[k]`) and a partition filter and yields the output sample.  Result: return value,
the input vector afterwards (its headroom holds the history), the output samples and the
resampler afterwards. -/
def rotate [Inhabited α] (single_convolve : (Int → α) → H → β) (r : Resampler α H)
    (inp : cxvec α) (out : List β) (len : Nat) : Int × cxvec α × List β × Resampler α H :=
  let hlen := r.history.length
  let ilen := cxvec_len inp
  if !check_vec_len (cxvec_len inp) (some out.length) r.mP r.mQ then (-1, inp, out, r)
  else
    let inp1 := inp.insert_history r.history
    let out1 := (List.range len).map (fun (i : Nat) =>
        let n := r.inputIndex.getD i 0
        let path := r.outputPath.getD i 0
        single_convolve (fun k => inp1.at ((n : Int) - (r.mDelay : Int) + k))
          (r.partitions path))
      ++ out.drop len
    let history1 := (List.range hlen).map (fun (j : Nat) =>
        inp1.at ((ilen : Int) - (hlen : Int) + (j : Int)))
    ((out.length : Int), inp1, out1, { r with history := history1 })

/-- Overload `Resampler::rotate(in, out)`. -/
def rotate_all [Inhabited α] (single_convolve : (Int → α) → H → β) (r : Resampler α H)
    (inp : cxvec α) (out : List β) : Int × cxvec α × List β × Resampler α H :=
  rotate single_convolve r inp out out.length

/-- Method `Resampler::update(in)`. -/
def update [Inhabited α] (r : Resampler α H) (inp : cxvec α) : Int × Resampler α H :=
  let ilen := cxvec_len inp
  let hlen := r.history.length
  if !check_vec_len (cxvec_len inp) none r.mP r.mQ then (-1, r)
  else
    (0, { r with history := (List.range hlen).map (fun (j : Nat) =>
        inp.at ((ilen : Int) - (hlen : Int) + (j : Int))) })

/-- Method `Resampler::initFilters()`.  `alloc_ok` says whether the `malloc` of the partition
table succeeded; `filters` are the partition filters the method derives from the windowed
sinc prototype (floating point arithmetic, taken as given). -/
def initFilters (r : Resampler α H) (alloc_ok : Bool) (filters : Nat → H) :
    Bool × Resampler α H :=
  if !alloc_ok then (false, r) else (true, { r with partitions := filters })

/-- Method `Resampler::init()`.  The `bool` result of `initFilters` is stored in `int rc`
(`false` is 0, `true` is 1) and tested with `rc < 0`; `zero` is the sample value written by
`cxvec_reset`. -/
def init (r : Resampler α H) (alloc_ok : Bool) (filters : Nat → H) (zero : α) :
    Bool × Resampler α H :=
  let rc : Int := if (initFilters r alloc_ok filters).1 then 1 else 0
  if rc < 0 then (false, (initFilters r alloc_ok filters).2)
  else
    (true,
      computePath
        { (initFilters r alloc_ok filters).2 with
          history := List.replicate (r.mFiltLen + r.mDelay) zero })

end Resampler

/-- Example routine for `single_convolve`: real-valued correlation of a three tap filter
against the window `in[-2], in[-1], in[0]`. -/
def exConv (f : Int → Int) (h : List Int) : Int :=
  h.getD 0 0 * f (-2) + h.getD 1 0 * f (-1) + h.getD 2 0 * f 0

/-- Example configuration: `P = 2`, `Q = 3`, three taps, no delay, with a non-zero
history. -/
def exResampler : Resampler Int (List Int) :=
  { mP := 2
    mQ := 3
    mFiltLen := 3
    mDelay := 0
    inputIndex := []
    outputPath := []
    partitions := fun n => if n = 0 then [1, 2, 3] else [5, 7, 11]
    history := [100, 200, 300] }

/-- Example input block of six samples with four samples of headroom. -/
def exBlockA : cxvec Int := { head := [0, 0, 0, 0], data := [1, 2, 3, 4, 5, 6] }

/-- Example input block of six samples with three samples of headroom. -/
def exBlockB : cxvec Int := { head := [0, 0, 0], data := [7, 8, 9, 10, 11, 12] }

/-- The two example blocks as one block of twelve samples. -/
def exBlockAB : cxvec Int :=
  { head := [0, 0, 0, 0, 0], data := [1, 2, 3, 4, 5, 6, 7, 8, 9, 10, 11, 12] }

/-- Example configuration with `P = Q = 1`. -/
def exUnitResampler : Resampler Int (List Int) :=
  { mP := 1
    mQ := 1
    mFiltLen := 3
    mDelay := 0
    inputIndex := []
    outputPath := []
    partitions := fun _ => [1, 2, 3]
    history := [0, 0, 0] }

/-- Example block of `MAX_OUTPUT_LEN + 1` samples. -/
def exLongBlock : List Int := List.replicate (MAX_OUTPUT_LEN + 1) 0

/-! ## Subframe I/O (io.cc): timing offset -/

/-- Constants of the header `slot.h`, which is not part of the sources, taken as
parameters: the slot length and the length of the first cyclic prefix at the lowest
sample rate.  `LOG_SSS_ARG_evaluates` says whether the logging macro `LOG_SSS_ARG` of the
missing header `log.h` evaluates its argument. -/
structure lte_params where
  LTE_N0_SLOT_LEN : Int
  LTE_N0_CP0_LEN : Int
  LOG_SSS_ARG_evaluates : Bool
  deriving DecidableEq, Repr

/-- Function `get_decim(rbs)` of `io.cc`. -/
def get_decim (rbs : Int) : Int :=
  if rbs = 6 then 16
  else if rbs = 15 then 8
  else if rbs = 25 then 4
  else if rbs = 50 then 2
  else if rbs = 75 then 2
  else if rbs = 100 then 1
  else -1

/-- Function `use_fft_1536(rbs)` of `io.cc`. -/
def use_fft_1536 (rbs : Int) : Int :=
  if rbs = 6 then 0
  else if rbs = 15 then 0
  else if rbs = 25 then 1
  else if rbs = 50 then 1
  else if rbs = 75 then 0
  else if rbs = 100 then 1
  else -1

/-- Body of the function generated by the macro `TIMING_OFFSET_FUNC(N, LIM0, LIM1)`. -/
def TIMING_OFFSET_FUNC (LIM0 LIM1 : Int) (coarse fine : Int) : Int :=
  if coarse = 0 then
    if fine < LIM0 then -1 else 0
  else
    if fine > LIM1 then 1 else 0

/-- Function generated by `TIMING_OFFSET_FUNC(100,32,6)`. -/
def timing_offset_rb100 : Int → Int → Int := TIMING_OFFSET_FUNC 32 6

/-- Function generated by `TIMING_OFFSET_FUNC(75,30,9)`. -/
def timing_offset_rb75 : Int → Int → Int := TIMING_OFFSET_FUNC 30 9

/-- Function generated by `TIMING_OFFSET_FUNC(50,29,9)`. -/
def timing_offset_rb50 : Int → Int → Int := TIMING_OFFSET_FUNC 29 9

/-- Function generated by `TIMING_OFFSET_FUNC(25,26,13)`. -/
def timing_offset_rb25 : Int → Int → Int := TIMING_OFFSET_FUNC 26 13

/-- Function generated by `TIMING_OFFSET_FUNC(15,22,14)`. -/
def timing_offset_rb15 : Int → Int → Int := TIMING_OFFSET_FUNC 22 14

/-- Function generated by `TIMING_OFFSET_FUNC(6,22,16)`. -/
def timing_offset_rb6 : Int → Int → Int := TIMING_OFFSET_FUNC 22 16

/-- The file-scope variables of `io.cc`.  `fine_timing_offset` is the function pointer of
that name (`none` is `NULL`). -/
structure io_state where
  subframe0_ts : Int
  prev_subframe : Int
  pss_adj : Int
  subframe_len : Int
  frame_len : Int
  fine_timing_offset : Option (Int → Int → Int)

/-- The variables of `io.cc` as initialised at program start. -/
def io_state.start : io_state :=
  { subframe0_ts := 0, prev_subframe := -1, pss_adj := 0, subframe_len := 0, frame_len := 0,
    fine_timing_offset := none }

/-- Function `lte_radio_iface_init(freq, chans, gain, rbs, ext, args)`.  `uhd` is the outcome
of `uhd_init`: `none` when no device was opened, otherwise the timestamp it stored in
`subframe0_ts`; `sf_len` and `fr_len` are the values of `lte_subframe_len(rbs)` and
`lte_frame_len(rbs)` (header `slot.h`). -/
def lte_radio_iface_init (g : io_state) (uhd : Option Int) (sf_len fr_len : Int)
    (rbs : Int) : Int × io_state :=
  match uhd with
  | none => (-1, g)
  | some ts =>
    let base_q := get_decim rbs
    let pss_adj :=
      if use_fft_1536 rbs ≠ 0 then Int.tdiv (Int.tdiv (32 * 3) 4) base_q
      else Int.tdiv 32 base_q
    let g1 := { g with pss_adj := pss_adj, subframe_len := sf_len, frame_len := fr_len,
                       subframe0_ts := ts + sf_len }
    if rbs = 6 then (0, { g1 with fine_timing_offset := some timing_offset_rb6 })
    else if rbs = 15 then (0, { g1 with fine_timing_offset := some timing_offset_rb15 })
    else if rbs = 25 then (0, { g1 with fine_timing_offset := some timing_offset_rb25 })
    else if rbs = 50 then (0, { g1 with fine_timing_offset := some timing_offset_rb50 })
    else if rbs = 75 then (0, { g1 with fine_timing_offset := some timing_offset_rb75 })
    else if rbs = 100 then (0, { g1 with fine_timing_offset := some timing_offset_rb100 })
    else (-1, g1)

/-- Function `comp_timing_offset(coarse, fine, state)`; `none` is the call through a null
`fine_timing_offset`.  Integer division is the truncating division of C. -/
def comp_timing_offset (K : lte_params) (g : io_state) (coarse fine state : Int) :
    Option Int :=
  let pss_offset := K.LTE_N0_SLOT_LEN - K.LTE_N0_CP0_LEN - 1
  if fine = 9999 then some (-1)
  else if fine ≠ 0 ∧ (coarse = 0 ∨ coarse = 1) then
    match g.fine_timing_offset with
    | none => none
    | some f => some (f coarse (fine + 32))
  else if coarse ≥ -5 ∧ coarse ≤ 5 then
    if state = 0 then some (Int.tdiv coarse 2) else some (coarse * g.pss_adj)
  else if coarse ≠ 0 then some ((coarse - pss_offset) * g.pss_adj)
  else some 0

/-- The table of the timing resolver as the specification gives it: `(LIM0, LIM1)` for each
supported number of resource blocks. -/
def timing_table_spec (rbs : Int) : Option (Int × Int) :=
  if rbs = 100 then some (32, 6)
  else if rbs = 75 then some (30, 9)
  else if rbs = 50 then some (29, 9)
  else if rbs = 25 then some (26, 13)
  else if rbs = 15 then some (22, 14)
  else if rbs = 6 then some (22, 16)
  else none

/-- The timing resolver as the specification describes it, piece by piece. -/
def comp_timing_offset_spec (LIM0 LIM1 pss_adj pss_offset : Int) (coarse fine state : Int) :
    Int :=
  if fine = 9999 then -1
  else if fine ≠ 0 ∧ (coarse = 0 ∨ coarse = 1) then
    if coarse = 0 then (if fine + 32 < LIM0 then -1 else 0)
    else (if fine + 32 > LIM1 then 1 else 0)
  else if -5 ≤ coarse ∧ coarse ≤ 5 then
    if state = 0 then Int.tdiv coarse 2 else coarse * pss_adj
  else (coarse - pss_offset) * pss_adj

/-! ## Synchronisation state machine (sync.cc) -/

/-- Modelled from the spec: the states of the synchronisation state machine (the
enumeration `LTE_STATE_*` of the missing header `openphy/lte.h`), in the order of the table
`sync_state_str` of `sync.cc`. -/
inductive lte_state where
  | LTE_STATE_PSS_SYNC : lte_state
  | LTE_STATE_PSS_SYNC2 : lte_state
  | LTE_STATE_SSS_SYNC : lte_state
  | LTE_STATE_PBCH_SYNC : lte_state
  | LTE_STATE_PBCH : lte_state
  | LTE_STATE_PDSCH_SYNC : lte_state
  | LTE_STATE_PDSCH : lte_state
  deriving DecidableEq, Repr

/-- Modelled from the spec: `struct lte_time` of the missing header `openphy/lte.h`, the
frame and subframe counters, with the fields `sync.cc` uses. -/
structure lte_time where
  slot : Int
  subframe : Int
  frame : Int
  deriving DecidableEq, Repr

/-- Modelled from the spec: `struct lte_sync` of the missing header `openphy/lte.h`: coarse
and fine timing offsets, correlation magnitude, frequency offset, half-frame subframe
number and the cell identity triple, with the fields `sync.cc` uses.  The `float` members
`mag` and `f_offset` are rational numbers. -/
structure lte_sync where
  coarse : Int
  fine : Int
  mag : Rat
  f_offset : Rat
  dn : Int
  n_id_1 : Int
  n_id_2 : Int
  n_id_cell : Int
  deriving DecidableEq, Repr

/-- Modelled from the spec: `struct lte_mib` of the missing header, the decoded master
information, with the fields `sync.cc` uses. -/
structure lte_mib where
  fn : Int
  rbs : Int
  phich_ng : Int
  ant : Int
  deriving DecidableEq, Repr

/-- Modelled from the spec: `struct lte_rx` of the missing header `openphy/lte.h`, with the
fields `sync.cc` uses. -/
structure lte_rx where
  state : lte_state
  last_state : lte_state
  rbs : Int
  time : lte_time
  sync : lte_sync
  deriving DecidableEq, Repr

/-- Member of `enum frame_enable` (`rrc.h`). -/
def FRAME_ENABLE_OFF : Int := 0
/-- Member of `enum frame_enable` (`rrc.h`). -/
def FRAME_ENABLE_ALL : Int := 1
/-- Member of `enum frame_enable` (`rrc.h`). -/
def FRAME_ENABLE_EVEN : Int := 2
/-- Member of `enum frame_enable` (`rrc.h`). -/
def FRAME_ENABLE_ODD : Int := 3
/-- Member of `enum frame_enable` (`rrc.h`). -/
def FRAME_ENABLE_NUM : Int := 4

/-- The `struct subframe_state` of `rrc.h`. -/
structure subframe_state where
  num : Int
  enable : Int
  deriving DecidableEq, Repr

/-- The `struct lte_buffer` of `queue.h`.  `id` stands for the address of the object;
`adjust` records the sample offset of the last `preprocess_pdsch` that filled the sample
buffers `bufs`, which are not modelled. -/
structure lte_buffer where
  id : Nat
  tx_ants : Int
  rx_ants : Int
  rbs : Int
  n_id_cell : Int
  ng : Int
  time : lte_time
  crc_pass : Bool
  adjust : Option Int
  deriving DecidableEq, Repr

/-- Calls that leave the state machine: front-end frequency corrections and the
regeneration of the cell-identity-derived sequences. -/
inductive sync_event where
  | offset_reset : sync_event
  | offset_freq (f_offset : Rat) : sync_event
  | set_global_cell_id (n_id_cell rbs : Int) : sync_event
  deriving DecidableEq, Repr

/-- What the detection and decoding routines of the library, which are not part of the
sources, deliver in one subframe step: for every routine its return value and the content
of the structure it fills. -/
structure detections where
  pss_search : lte_sync
  pss_detect : Int
  pss_sync : lte_sync
  sss_detect : Int
  sss_out : lte_sync
  decode_pbch : Int
  mib : lte_mib
  fine_sync : lte_sync
  pss_detect3 : Int
  deriving DecidableEq, Repr

/-- The state the functions of `sync.cc` work on: the receiver `rx` (with `ltime` being
`&rx->time`), the global `gn_id_cell`, the function-local static counters of
`drive_common`, `drive_pbch` and `drive_pdsch`, the enable table, the two buffer queues, and
the calls made to the front end so far (newest first). -/
structure sync_ctx where
  rx : lte_rx
  gn_id_cell : Int
  common_pss_miss_cnt : Int
  common_sss_miss_cnt : Int
  pbch_pss_miss_cnt : Int
  pbch_mib : lte_mib
  pdsch_pss_miss_cnt : Int
  pdsch_sss_miss_cnt : Int
  pdsch_mib : lte_mib
  subframe_table : List subframe_state
  pdsch_q : List lte_buffer
  pdsch_return_q : List lte_buffer
  events : List sync_event
  deriving DecidableEq, Repr

/-- Macro `DETECT_THRSH` of `sync.cc` (not used by any function of the file). -/
def DETECT_THRSH : Rat := 50

/-- Member of the anonymous error enumeration of `sync.cc`. -/
def SYNC_ERR_NONE : Int := 0
/-- Member of the anonymous error enumeration of `sync.cc`. -/
def SYNC_ERR_PSS_TIME : Int := 1
/-- Member of the anonymous error enumeration of `sync.cc`. -/
def SYNC_ERR_PSS_FREQ : Int := 2
/-- Member of the anonymous error enumeration of `sync.cc`. -/
def SYNC_ERR_SSS : Int := 3

/-- The expected position of the correlation peak, `LTE_N0_SLOT_LEN - LTE_N0_CP0_LEN - 1`
(local `target` of the functions of `sync.cc`). -/
def pss_target (K : lte_params) : Int := K.LTE_N0_SLOT_LEN - K.LTE_N0_CP0_LEN - 1

/-- Function `lte_subframe_pss(time)`. -/
def lte_subframe_pss (time : lte_time) : Int :=
  if time.subframe = 0 ∨ time.subframe = 5 then 1 else 0

/-- Function `lte_subframe_sss(time)`. -/
def lte_subframe_sss (time : lte_time) : Int := lte_subframe_pss time

/-- Function `lte_subframe_pbch(time)`. -/
def lte_subframe_pbch (time : lte_time) : Int :=
  if time.subframe = 0 then 1 else 0

/-- Function `lte_subframe_pdcch(time)` on the table `subframe_table`. -/
def lte_subframe_pdcch (table : List subframe_state) (time : lte_time) : Int :=
  if time.subframe < 0 ∨ time.subframe > 9 then 0
  else
    match table.get? time.subframe.toNat with
    | none => 0
    | some e =>
      if e.enable = FRAME_ENABLE_OFF then 0
      else if e.enable = FRAME_ENABLE_ALL then 1
      else if e.enable = FRAME_ENABLE_EVEN then (if Int.tmod time.frame 2 = 0 then 1 else 0)
      else if e.enable = FRAME_ENABLE_ODD then Int.tmod time.frame 2
      else 0

/-- Function `pss_sync(rx, sync, subframe, adjust)`: result, receiver afterwards and the
content of `*sync`.  The search result is what `lte_pss_search` delivered. -/
def pss_sync (K : lte_params) (rx : lte_rx) (d : detections) : Bool × lte_rx × lte_sync :=
  let target := K.LTE_N0_SLOT_LEN - K.LTE_N0_CP0_LEN - 1
  let sync := d.pss_search
  if sync.mag > 900 then
    let sync1 :=
      if sync.coarse < target then
        { sync with coarse := sync.coarse + K.LTE_N0_SLOT_LEN * 10 }
      else sync
    (true,
     { rx with sync := { rx.sync with coarse := sync1.coarse, n_id_2 := sync1.n_id_2 },
               time := { rx.time with slot := 0, subframe := 0 } },
     sync1)
  else (false, rx, sync)

/-- Function `pss_sync2(rx, sync, subframe)`: number of misses, receiver afterwards and the
content of `*sync`. -/
def pss_sync2 (K : lte_params) (rx : lte_rx) (d : detections) : Int × lte_rx × lte_sync :=
  let target := K.LTE_N0_SLOT_LEN - K.LTE_N0_CP0_LEN - 1
  let min := target - 4
  let max := target + 4
  let miss0 : Int := if d.pss_detect ≠ rx.sync.n_id_2 then 1 else 0
  let sync := d.pss_sync
  if sync.coarse > min ∧ sync.coarse < max then
    (miss0, { rx with sync := { rx.sync with coarse := sync.coarse - target } }, sync)
  else (miss0 + 1, rx, sync)

/-- Function `sss_sync(rx, sync, subframe, cnt)`: result, receiver afterwards and the
content of `*sync`. -/
def sss_sync (K : lte_params) (rx : lte_rx) (d : detections) : Int × lte_rx × lte_sync :=
  let target := K.LTE_N0_SLOT_LEN - K.LTE_N0_CP0_LEN - 1
  let min := target - 4
  let max := target + 4
  let in_window : Bool := decide (d.pss_sync.coarse > min ∧ d.pss_sync.coarse < max)
  let rx1 :=
    if in_window then { rx with sync := { rx.sync with coarse := d.pss_sync.coarse - target } }
    else rx
  let miss0 : Int := if in_window then 0 else 1
  let miss1 : Int := if d.pss_detect ≠ rx1.sync.n_id_2 then miss0 + 1 else miss0
  let dn := d.sss_detect
  let miss2 : Int := if dn < 0 then miss1 + 1 else miss1
  let ready : Bool := decide (¬ dn < 0 ∧ dn ≠ 0)
  if ready then (dn, rx1, d.sss_out) else (-miss2, rx1, d.sss_out)

/-- Function `pbch_sync(rx, sync, subframe, cnt)`: result, receiver afterwards and the
content of `*sync`. -/
def pbch_sync (K : lte_params) (rx : lte_rx) (d : detections) : Bool × lte_rx × lte_sync :=
  let target := K.LTE_N0_SLOT_LEN - K.LTE_N0_CP0_LEN - 1
  let min := target - 4
  let max := target + 4
  let sync := d.pss_sync
  let found : Bool :=
    decide (d.pss_detect = rx.sync.n_id_2 ∧ (sync.coarse > min ∧ sync.coarse < max))
  if !found then (false, rx, sync)
  else (true, { rx with sync := { rx.sync with coarse := sync.coarse - target } }, sync)

/-- Function `pdsch_sync(rx, ltime, subframe, cnt)`: result and receiver afterwards. -/
def pdsch_sync (K : lte_params) (rx : lte_rx) (d : detections) : Int × lte_rx :=
  let target := K.LTE_N0_SLOT_LEN - K.LTE_N0_CP0_LEN - 1
  let min := target - 4
  let max := target + 4
  let sync := d.fine_sync
  if sync.coarse ≤ min ∨ sync.coarse ≥ max then (-SYNC_ERR_PSS_TIME, rx)
  else
    let rx1 := { rx with sync := { rx.sync with coarse := sync.coarse - target,
                                                fine := sync.fine - 32 } }
    if d.pss_detect3 < 0 then (-SYNC_ERR_PSS_FREQ, rx1) else (1, rx1)

/-- Function `set_global_cell_id(n_id_cell, rbs)`. -/
def set_global_cell_id (c : sync_ctx) (n_id_cell rbs : Int) : sync_ctx :=
  { c with gn_id_cell := n_id_cell,
           events := sync_event.set_global_cell_id n_id_cell rbs :: c.events }

/-- Function `handle_pbch(rx, ltime, subframe, mib)`: result, the time counters afterwards
and the content of `*mib`. -/
def handle_pbch (ltime : lte_time) (d : detections) : Int × lte_time × lte_mib :=
  let rc := d.decode_pbch
  let ltime1 := if rc < 0 then ltime else if rc = 0 then ltime
    else { ltime with frame := d.mib.fn }
  if rc < 0 then (rc, ltime1, d.mib)
  else if rc > 0 then (1, ltime1, d.mib)
  else (0, ltime1, d.mib)

/-- Function `drive_common(rx, subframe, ltime, adjust)`, called with `ltime = &rx->time`.
It always returns 0. -/
def drive_common (K : lte_params) (c : sync_ctx) (d : detections) : sync_ctx :=
  match c.rx.state with
  | lte_state.LTE_STATE_PSS_SYNC =>
    if (pss_sync K c.rx d).1 then
      { c with rx := { (pss_sync K c.rx d).2.1 with state := lte_state.LTE_STATE_PSS_SYNC2 } }
    else
      { c with rx := { (pss_sync K c.rx d).2.1 with
                       sync := { (pss_sync K c.rx d).2.1.sync with fine := 9999 } } }
  | lte_state.LTE_STATE_PSS_SYNC2 =>
    if c.rx.time.subframe = 0 then
      if (pss_sync2 K c.rx d).1 > 1 then
        { c with rx := { (pss_sync2 K c.rx d).2.1 with state := lte_state.LTE_STATE_PSS_SYNC } }
      else
        { c with rx := { (pss_sync2 K c.rx d).2.1 with state := lte_state.LTE_STATE_SSS_SYNC } }
    else c
  | lte_state.LTE_STATE_SSS_SYNC =>
    if c.rx.time.subframe = 0 then
      let rc := (sss_sync K c.rx d).1
      let rx1 := (sss_sync K c.rx d).2.1
      let sync := (sss_sync K c.rx d).2.2
      if rc ≤ 0 then
        let cnt : Int := c.common_pss_miss_cnt + -rc
        if cnt ≥ 4 then
          { c with rx := { rx1 with state := lte_state.LTE_STATE_PSS_SYNC },
                   common_pss_miss_cnt := 0,
                   events := sync_event.offset_reset :: c.events }
        else { c with rx := rx1, common_pss_miss_cnt := cnt }
      else
        let rx2 := { rx1 with time := { rx1.time with subframe := sync.dn },
                              sync := { rx1.sync with n_id_1 := sync.n_id_1,
                                                      n_id_cell := sync.n_id_cell },
                              state := lte_state.LTE_STATE_PBCH_SYNC }
        let c1 := { c with rx := rx2,
                           events := sync_event.offset_freq sync.f_offset :: c.events }
        if c1.gn_id_cell ≠ sync.n_id_cell then set_global_cell_id c1 sync.n_id_cell rx2.rbs
        else c1
    else c
  | lte_state.LTE_STATE_PBCH_SYNC =>
    if c.rx.time.subframe = 0 then
      let found := (pbch_sync K c.rx d).1
      let rx1 := (pbch_sync K c.rx d).2.1
      let cnt : Int := if !found then c.common_pss_miss_cnt + 1 else c.common_pss_miss_cnt
      if cnt > 10 then
        { c with rx := { rx1 with state := lte_state.LTE_STATE_PSS_SYNC },
                 common_pss_miss_cnt := 0,
                 events := sync_event.offset_reset :: c.events }
      else
        { c with rx := { rx1 with state := lte_state.LTE_STATE_PBCH },
                 common_pss_miss_cnt := cnt }
    else { c with rx := { c.rx with state := lte_state.LTE_STATE_PBCH } }
  | _ => c

/-- The counter update at the head of `drive_pbch` and `drive_pdsch`:
`subframe = (subframe + 1) % 10`, and `frame = (frame + 1) % 1024` when the subframe is 0
(remainder of C). -/
def advance_time (t : lte_time) : lte_time :=
  let sf := Int.tmod (t.subframe + 1) 10
  if sf = 0 then { t with subframe := sf, frame := Int.tmod (t.frame + 1) 1024 }
  else { t with subframe := sf }

/-- Function `drive_pbch(rx, subframe, adjust)`: result `mib_found` and the state
afterwards. -/
def drive_pbch (K : lte_params) (c : sync_ctx) (d : detections) : Int × sync_ctx :=
  let c0 := { c with rx := { c.rx with time := advance_time c.rx.time } }
  let c1 := drive_common K c0 d
  match c1.rx.state with
  | lte_state.LTE_STATE_PBCH =>
    if lte_subframe_pbch c1.rx.time ≠ 0 then
      let h := handle_pbch c1.rx.time d
      let c2 := { c1 with rx := { c1.rx with time := h.2.1 }, pbch_mib := h.2.2 }
      if h.1 ≤ 0 then
        let cnt : Int := c2.pbch_pss_miss_cnt + 1
        if cnt > 10 then
          (0, { c2 with rx := { c2.rx with state := lte_state.LTE_STATE_PSS_SYNC },
                        pbch_pss_miss_cnt := 0,
                        events := sync_event.offset_reset :: c2.events })
        else (0, { c2 with pbch_pss_miss_cnt := cnt })
      else
        (c2.pbch_mib.rbs,
          { c2 with rx := { c2.rx with state := lte_state.LTE_STATE_PBCH_SYNC } })
    else (0, { c1 with rx := { c1.rx with state := lte_state.LTE_STATE_PBCH_SYNC } })
  | _ => (0, c1)

/-- The hand-off at the label `case LTE_STATE_PDSCH` of `drive_pdsch`. -/
def pdsch_handoff (c : sync_ctx) (adjust : Int) : sync_ctx :=
  if lte_subframe_pdcch c.subframe_table c.rx.time ≠ 0 then
    match c.pdsch_return_q with
    | [] => c
    | lbuf :: rest =>
      let c1 := { c with pdsch_return_q := rest }
      let c2 :=
        if lbuf.crc_pass then { c1 with pdsch_pss_miss_cnt := 0, pdsch_sss_miss_cnt := 0 }
        else c1
      let lbuf1 :=
        { lbuf with crc_pass := false,
                    rbs := c2.rx.rbs, n_id_cell := c2.gn_id_cell,
                    ng := c2.pdsch_mib.phich_ng, tx_ants := c2.pdsch_mib.ant,
                    time := { lbuf.time with subframe := c2.rx.time.subframe,
                                             frame := c2.rx.time.frame },
                    adjust := some adjust }
      { c2 with pdsch_q := c2.pdsch_q ++ [lbuf1] }
  else c

/-- Function `drive_pdsch(rx, subframe, adjust)`; it always returns 0. -/
def drive_pdsch (K : lte_params) (c : sync_ctx) (d : detections) (adjust : Int) : sync_ctx :=
  let c0 := { c with rx := { c.rx with time := advance_time c.rx.time } }
  let c1 := drive_common K c0 d
  match c1.rx.state with
  | lte_state.LTE_STATE_PBCH =>
    if lte_subframe_pbch c1.rx.time ≠ 0 then
      let h := handle_pbch c1.rx.time d
      let c2 := { c1 with rx := { c1.rx with time := h.2.1 }, pdsch_mib := h.2.2 }
      if h.1 ≤ 0 then
        let cnt : Int := c2.pdsch_pss_miss_cnt + 1
        if cnt > 10 then
          { c2 with rx := { c2.rx with state := lte_state.LTE_STATE_PSS_SYNC },
                    pdsch_pss_miss_cnt := 0,
                    events := sync_event.offset_reset :: c2.events }
        else { c2 with pdsch_pss_miss_cnt := cnt }
      else
        { c2 with rx := { c2.rx with state := lte_state.LTE_STATE_PDSCH_SYNC },
                  pdsch_pss_miss_cnt := 0 }
    else c1
  | lte_state.LTE_STATE_PDSCH_SYNC =>
    if c1.rx.time.subframe = 5 then
      let rc := (pdsch_sync K c1.rx d).1
      let c2 := { c1 with rx := (pdsch_sync K c1.rx d).2 }
      let c3 :=
        if rc = -SYNC_ERR_SSS then
          { c2 with pdsch_sss_miss_cnt :=
              c2.pdsch_sss_miss_cnt + (if K.LOG_SSS_ARG_evaluates then 2 else 1) }
        else if rc < 0 then { c2 with pdsch_pss_miss_cnt := c2.pdsch_pss_miss_cnt + 1 }
        else c2
      if c3.pdsch_pss_miss_cnt > 100 ∨ c3.pdsch_sss_miss_cnt > 5 then
        { c3 with rx := { c3.rx with state := lte_state.LTE_STATE_PSS_SYNC },
                  pdsch_pss_miss_cnt := 0, pdsch_sss_miss_cnt := 0,
                  events := sync_event.offset_reset :: c3.events }
      else pdsch_handoff c3 adjust
    else pdsch_handoff c1 adjust
  | lte_state.LTE_STATE_PDSCH => pdsch_handoff c1 adjust
  | _ => c1

/-- The state with which `sync_loop` starts the receiver `rx0` returned by `lte_init`:
state `PSS_SYNC`, all static counters 0, no cell identity set. -/
def sync_start (rx0 : lte_rx) (rbs : Int) (table : List subframe_state)
    (pool : List lte_buffer) : sync_ctx :=
  { rx := { rx0 with state := lte_state.LTE_STATE_PSS_SYNC,
                     last_state := lte_state.LTE_STATE_PSS_SYNC, rbs := rbs },
    gn_id_cell := -1,
    common_pss_miss_cnt := 0, common_sss_miss_cnt := 0,
    pbch_pss_miss_cnt := 0, pbch_mib := { fn := 0, rbs := 0, phich_ng := 0, ant := 0 },
    pdsch_pss_miss_cnt := 0, pdsch_sss_miss_cnt := 0,
    pdsch_mib := { fn := 0, rbs := 0, phich_ng := 0, ant := 0 },
    subframe_table := table, pdsch_q := [], pdsch_return_q := pool, events := [] }

/-- The state after a sequence of `drive_pbch` steps, one set of detections per step. -/
def run_pbch (K : lte_params) (c : sync_ctx) (ds : List detections) : sync_ctx :=
  ds.foldl (fun c d => (drive_pbch K c d).2) c

/-- In the detections `d` of an evaluation in state `SSS_SYNC` only the secondary
synchronisation signal is missed: `lte_sss_detect` finds no sequence, while the correlation
peak lies within 4 samples of the expected position and `lte_pss_detect` confirms the
sector id `n_id_2`. -/
def sss_only_miss (K : lte_params) (n_id_2 : Int) (d : detections) : Bool :=
  decide (d.sss_detect < 0 ∧
    (d.pss_sync.coarse > pss_target K - 4 ∧ d.pss_sync.coarse < pss_target K + 4) ∧
    d.pss_detect = n_id_2)

/-- Example constants: slot length 960 and first cyclic prefix 10 (the values of the
128 point numerology), so that the expected peak position is 949. -/
def K0 : lte_params :=
  { LTE_N0_SLOT_LEN := 960, LTE_N0_CP0_LEN := 10, LOG_SSS_ARG_evaluates := false }

/-- Example content of a `struct lte_sync`: all members 0. -/
def sy0 : lte_sync :=
  { coarse := 0, fine := 0, mag := 0, f_offset := 0, dn := 0, n_id_1 := 0, n_id_2 := 0,
    n_id_cell := 0 }

/-- Example receiver, in state `PSS_SYNC` at subframe 3 of frame 7. -/
def rx0 : lte_rx :=
  { state := lte_state.LTE_STATE_PSS_SYNC, last_state := lte_state.LTE_STATE_PSS_SYNC,
    rbs := 6, time := { slot := 0, subframe := 3, frame := 7 }, sync := sy0 }

/-- Example detections of a subframe in which everything is found: correlation magnitude
1000, peak exactly at the expected position 949, sector id 1 confirmed, secondary
synchronisation signal found in subframe 5, master information decoded. -/
def dgood : detections :=
  { pss_search := { sy0 with mag := 1000, coarse := 949, n_id_2 := 1 },
    pss_detect := 1,
    pss_sync := { sy0 with coarse := 949, mag := 1000 },
    sss_detect := 5,
    sss_out := { sy0 with dn := 5, n_id_1 := 17, n_id_cell := 52, f_offset := 3 },
    decode_pbch := 1,
    mib := { fn := 12, rbs := 50, phich_ng := 1, ant := 2 },
    fine_sync := sy0,
    pss_detect3 := 0 }

/-- Example detections of a subframe in which nothing is found: no secondary
synchronisation sequence, the correlation peak far from the expected position, another
sector id, no master information. -/
def dbad : detections :=
  { pss_search := sy0,
    pss_detect := 2,
    pss_sync := sy0,
    sss_detect := -1,
    sss_out := sy0,
    decode_pbch := 0,
    mib := { fn := 0, rbs := 0, phich_ng := 0, ant := 0 },
    fine_sync := sy0,
    pss_detect3 := -1 }

/-- Example detections of a subframe in which only the secondary synchronisation signal is
missed. -/
def dsss : detections := { dgood with sss_detect := -1 }

/-- Example state: the receiver after 20 steps from the start with everything found, in
state `SSS_SYNC` at subframe 9, one step before its first evaluation of the secondary
synchronisation signal. -/
def cSSS : sync_ctx :=
  run_pbch K0 (sync_start rx0 6 [] []) (List.replicate 20 dgood)

/-- The state after a sequence of `drive_pdsch` steps, one set of detections and one sample
offset `adjust` per step. -/
def run_pdsch (K : lte_params) (c : sync_ctx) (ds : List (detections × Int)) : sync_ctx :=
  ds.foldl (fun c d => drive_pdsch K c d.1 d.2) c

/-- Number of calls of `set_global_cell_id` in a log of calls. -/
def regen_count (evs : List sync_event) : Nat :=
  (evs.filter (fun e =>
    match e with
    | sync_event.set_global_cell_id _ _ => true
    | _ => false)).length

/-- Example detections: the correlation peak 4 samples after the expected position 949 and
another sector id; everything else as in `dgood`. -/
def dedge : detections :=
  { dgood with pss_sync := { sy0 with coarse := 953, mag := 1000 }, pss_detect := 2 }

/-- Example detections: the correlation peak 3 samples after the expected position 949 and
another sector id; everything else as in `dgood`. -/
def dnear : detections :=
  { dgood with pss_sync := { sy0 with coarse := 952, mag := 1000 }, pss_detect := 2 }

/-- Example detections of a subframe in which the primary re-verification passes and the
master information is not decoded. -/
def dpass : detections := { dgood with decode_pbch := 0 }

/-- Example run in acquisition mode: 11 subframes up to `SSS_SYNC`; a frame whose
evaluation in `SSS_SYNC` misses all three checks; a frame whose evaluation finds the
secondary synchronisation signal in subframe 5 (`PBCH_SYNC`); then nine evaluations of
`PBCH_SYNC` on subframe 0, of which the fifth passes and the others fail, with no master
information decoded in any of them. -/
def exPbchRun : List detections :=
  List.replicate 11 dgood ++ List.replicate 10 dbad ++ (List.replicate 9 dbad ++ [dgood]) ++
  (List.replicate 4 dbad ++ [dbad]) ++ (List.replicate 9 dbad ++ [dbad]) ++
  (List.replicate 9 dbad ++ [dbad]) ++ (List.replicate 9 dbad ++ [dbad]) ++
  (List.replicate 9 dbad ++ [dpass]) ++ (List.replicate 9 dbad ++ [dbad]) ++
  (List.replicate 9 dbad ++ [dbad]) ++ (List.replicate 9 dbad ++ [dbad]) ++
  (List.replicate 9 dbad ++ [dbad])

/-- Example state: the state in which `drive_common` is called in the last step of
`exPbchRun`, in `PBCH_SYNC` at subframe 0 with the miss count at 10. -/
def cPBS : sync_ctx :=
  { run_pbch K0 (sync_start rx0 6 [] []) (exPbchRun.take 115) with
    rx := { (run_pbch K0 (sync_start rx0 6 [] []) (exPbchRun.take 115)).rx with
            time := advance_time
              (run_pbch K0 (sync_start rx0 6 [] []) (exPbchRun.take 115)).rx.time } }

/-- Example state: the receiver after the first 35 steps of `exPbchRun`, in `PBCH_SYNC` at
subframe 9, one step before its first re-verification and first decoding attempt. -/
def cPB9 : sync_ctx := run_pbch K0 (sync_start rx0 6 [] []) (exPbchRun.take 35)

/-! ## Subframe enable table (rrc.cc) -/

/-- The table `subframe_table` after the constructor `init_state()` of `rrc.cc`. -/
def init_state : List subframe_state :=
  (List.range 10).map (fun (i : Nat) => { num := (i : Int), enable := FRAME_ENABLE_ALL })

/-- Function `rrc_set_pdcch(hdr)` of `rrc.cc`: result and the table afterwards.  The members
`num` and `enable` of `struct rrc_subframe_hdr` are `uint8_t`, natural numbers here. -/
def rrc_set_pdcch (table : List subframe_state) (num enable : Nat) :
    Int × List subframe_state :=
  if (num : Int) ≥ 10 ∨ (enable : Int) ≥ FRAME_ENABLE_NUM then (-1, table)
  else
    match table.get? num with
    | none => (0, table)
    | some e => (0, table.set num { e with enable := (enable : Int) })

/-! ## Decode worker (rx_proc.cc) and the buffer pool (lte_decode.cc) -/

/-- Macro `NUM_RECV_SUBFRAMES` of `lte_decode.cc`. -/
def NUM_RECV_SUBFRAMES : Nat := 64

/-- Macro `AVG_FREQ2` of `rx_proc.cc`. -/
def AVG_FREQ2 : Nat := 200

/-- The object `new lte_buffer(chans)` (constructor of `queue.h`); `id` stands for its
address, the member `time`, which the constructor leaves unset, is 0. -/
def lte_buffer.new (id chans : Nat) : lte_buffer :=
  { id := id, tx_ants := 0, rx_ants := (chans : Int), rbs := 0, n_id_cell := 0, ng := 0,
    time := { slot := 0, subframe := 0, frame := 0 }, crc_pass := false, adjust := none }

/-- The return queue as `main` primes it: `NUM_RECV_SUBFRAMES` new buffers. -/
def prime_queue (chans : Nat) : List lte_buffer :=
  (List.range NUM_RECV_SUBFRAMES).map (fun (i : Nat) => lte_buffer.new i chans)

/-- The static variables `favg_cnt2` and `favg2` of `rx_proc.cc` and the calls of
`lte_offset_freq` the decode worker has made so far (newest first).  The counter is only
incremented and set to 0 and is a natural number here; `float` is rational. -/
structure rx_proc_state where
  favg_cnt2 : Nat
  favg2 : Nat → Rat
  offset_freq : List Rat

/-- The static variables of `rx_proc.cc` at program start. -/
def rx_proc_state.start : rx_proc_state :=
  { favg_cnt2 := 0, favg2 := fun _ => 0, offset_freq := [] }

/-- What the routines of the library deliver to one iteration of the decode worker:
`lte_ofdm_offset` for each receive antenna, the result of `lte_decode_pcfich` with the
`cfi` it found, and the result of `lte_decode_pdsch` for each of the `num_dci` control
messages found by `lte_decode_pdcch`. -/
structure decode_result where
  offsets : List Rat
  pcfich_rc : Int
  cfi : Int
  pdsch_rc : List Int

/-- The accumulator lines of `pdsch_loop` (`rx_proc.cc`):
`favg2[favg_cnt2++] = offset;` followed by the averaging when `favg_cnt2 >= AVG_FREQ2`. -/
def favg_step (s : rx_proc_state) (offset : Rat) : rx_proc_state :=
  let favg2 := Function.update s.favg2 s.favg_cnt2 offset
  let cnt := s.favg_cnt2 + 1
  if cnt ≥ AVG_FREQ2 then
    let avg := (List.range AVG_FREQ2).foldl (fun (a : Rat) (i : Nat) => a + favg2 i) 0
    { favg_cnt2 := 0, favg2 := favg2, offset_freq := (avg / (AVG_FREQ2 : Rat)) :: s.offset_freq }
  else { s with favg_cnt2 := cnt, favg2 := favg2 }

/-- The frequency-offset estimate of one iteration of `pdsch_loop`: the sum of the
`lte_ofdm_offset` values divided by `rx_ants`. -/
def pdsch_loop_offset (lbuf : lte_buffer) (o : decode_result) : Rat :=
  (o.offsets.foldl (fun (a b : Rat) => a + b) 0) / (lbuf.rx_ants : Rat)

/-- One iteration of the loop of `pdsch_loop` (`rx_proc.cc`) on the work queue `pdsch_q` and
the return queue `pdsch_return_q`.  With an empty work queue the iteration sleeps and
changes nothing. -/
def pdsch_loop_iter (pdsch_q pdsch_return_q : List lte_buffer) (s : rx_proc_state)
    (o : decode_result) : List lte_buffer × List lte_buffer × rx_proc_state :=
  match pdsch_q with
  | [] => (pdsch_q, pdsch_return_q, s)
  | lbuf :: rest =>
    let s1 := favg_step s (pdsch_loop_offset lbuf o)
    let crc : Bool :=
      if o.pcfich_rc > 0 ∧ o.cfi > 0 ∧ o.cfi < 4 then
        o.pdsch_rc.foldl (fun (b : Bool) (rc : Int) => if rc > 0 then true else b) lbuf.crc_pass
      else lbuf.crc_pass
    (rest, pdsch_return_q ++ [{ lbuf with crc_pass := crc }], s1)

/-- A step of one of the two kinds of thread that use the buffer queues: a `drive_pdsch`
step of the synchronisation thread or an iteration of a decode worker. -/
inductive thread_op where
  | sync (d : detections) (adjust : Int) : thread_op
  | worker (o : decode_result) : thread_op

/-- The effect of one thread step on the state of `sync.cc` and of `rx_proc.cc`. -/
def thread_step (K : lte_params) (s : sync_ctx × rx_proc_state) (op : thread_op) :
    sync_ctx × rx_proc_state :=
  match op with
  | thread_op.sync d adjust => (drive_pdsch K s.1 d adjust, s.2)
  | thread_op.worker o =>
    let r := pdsch_loop_iter s.1.pdsch_q s.1.pdsch_return_q s.2 o
    ({ s.1 with pdsch_q := r.1, pdsch_return_q := r.2.1 }, r.2.2)

/-- The state after a sequence of thread steps. -/
def thread_run (K : lte_params) (s : sync_ctx × rx_proc_state) (ops : List thread_op) :
    sync_ctx × rx_proc_state :=
  ops.foldl (thread_step K) s

/-- Example state in tracking mode: the receiver 35 `drive_pdsch` steps after the start
with the enable table of `init_state` and the primed return queue, fed with the first 35
subframes of `exPbchRun`: in `PBCH` at subframe 9, one step before the master information
is decoded. -/
def cTrack : sync_ctx :=
  run_pdsch K0 (sync_start rx0 50 init_state (prime_queue 1))
    ((exPbchRun.take 35).map (fun (d : detections) => (d, (0 : Int))))

/-- Example state in tracking mode: five steps after `cTrack`, the master information
decoded in the first of them; in `PDSCH_SYNC` at subframe 4. -/
def cTrack4 : sync_ctx :=
  run_pdsch K0 cTrack [(dgood, 0), (dbad, 0), (dbad, 0), (dbad, 0), (dbad, 0)]

/-- The state of the accumulator after the decode worker has processed subframes with the
frequency-offset estimates `es`, in this order. -/
def run_favg (s : rx_proc_state) (es : List Rat) : rx_proc_state :=
  es.foldl favg_step s

/-- The buffers (by `id`) in the return queue and in the work queue. -/
def pool_ids (c : sync_ctx) : List Nat :=
  (c.pdsch_return_q ++ c.pdsch_q).map (fun (b : lte_buffer) => b.id)

/-! ## Subframe sample buffers (io_subframe.cc) -/

/-- Macro `OFFSET_LIMIT` of `io_subframe.cc`. -/
def OFFSET_LIMIT : Int := 64

/-- Read of the complex sample (a pair of `short`) with index `k` of an array of samples.
A read outside the array, which C leaves undefined, gives the sample 0 here. -/
def read_at (l : List (Int × Int)) (k : Int) : Int × Int :=
  if k < 0 then (0, 0) else l.getD k.toNat (0, 0)

/-- The array `dst` after `memcpy(dst + 2 * off, src, n * 2 * sizeof(short))`: the `n`
samples from index `off` are replaced by `src 0 .. src (n - 1)`.  Writes outside the array,
which C leaves undefined, are dropped here. -/
def copy_samples (dst : List (Int × Int)) (off : Int) (src : Int → Int × Int) (n : Int) :
    List (Int × Int) :=
  (List.range dst.length).map (fun (i : Nat) =>
    if off ≤ (i : Int) ∧ (i : Int) < off + n then src ((i : Int) - off)
    else dst.getD i (0, 0))

/-- Function `interp_sample(buf, index)`: the sample `index` becomes the mean of its two
neighbours, by component, with the truncating division of C. -/
def interp_sample (buf : List (Int × Int)) (index : Int) : List (Int × Int) :=
  let a := (read_at buf (index - 1)).1
  let b := (read_at buf (index - 1)).2
  let c := (read_at buf (index + 1)).1
  let d := (read_at buf (index + 1)).2
  copy_samples buf index (fun _ => (Int.tdiv (a + c) 2, Int.tdiv (b + d) 2)) 1

/-- The members of `class io_subframe` that `update` and `delay` use: the subframe length
`len`, the filter length `taps`, the history length `hlen`, the number of channels, and per
channel the raw subframe `raw[chan]` and the look-back `history[chan]`. -/
structure io_subframe where
  len : Nat
  chans : Nat
  taps : Nat
  hlen : Nat
  raw : List (List (Int × Int))
  history : List (List (Int × Int))

namespace io_subframe

/-- Method `io_subframe::update()`, the part that saves the look-back history: for every
channel the last `hlen` raw samples are copied to `history`.  The conversion and the
resampler updates of the method work on other members and are left out. -/
def update (s : io_subframe) : io_subframe :=
  { s with history := (List.range s.chans).map (fun (i : Nat) =>
      copy_samples (s.history.getD i []) 0
        (fun (j : Int) => read_at (s.raw.getD i []) ((s.len : Int) - (s.hlen : Int) + j))
        (s.hlen : Int)) }

/-- Method `io_subframe::delay(chan, buf, len, offset)`: result and the content of `buf`
afterwards.  C computes `body = this->len - delay` in `size_t`; it is the difference of
integers here, which is the same whenever `taps / 2` does not exceed the subframe length. -/
def delay (s : io_subframe) (chan : Nat) (buf : List (Int × Int)) (len : Nat) (offset : Int) :
    Bool × List (Int × Int) :=
  let delay : Int := ((s.taps / 2 : Nat) : Int)
  if len > s.len then (false, buf)
  else
    let gap : Int := -offset - OFFSET_LIMIT
    let head : Int :=
      if offset < -OFFSET_LIMIT then delay - gap
      else if offset > 0 then delay - offset
      else delay
    let start : Int := if offset < -OFFSET_LIMIT then gap else 0
    let buf1 := copy_samples buf start
      (fun (j : Int) => read_at (s.history.getD chan []) (OFFSET_LIMIT + offset + j)) head
    let body : Int := (s.len : Int) - delay
    let buf2 := copy_samples buf1 delay (fun (j : Int) => read_at (s.raw.getD chan []) j) body
    if offset = 1 then (true, interp_sample buf2 (delay - offset)) else (true, buf2)

end io_subframe

/-- Example subframe buffers: one channel, subframe length 8, 4 filter taps (delay 2),
history of 66 samples numbered 100, 101, .. and raw samples 1 .. 8. -/
def exSubframe : io_subframe :=
  { len := 8, chans := 1, taps := 4, hlen := 66,
    raw := [[(1, -1), (2, -2), (3, -3), (4, -4), (5, -5), (6, -6), (7, -7), (8, -8)]],
    history := [(List.range 66).map (fun (i : Nat) => (100 + (i : Int), 0))] }

/-! ## Subframe reads (io.cc) -/

/-- Function `lte_read_subframe(bufs, sf, coarse, fine, state)`.  `pull_ok` says whether the
device delivered the requested window (the reload loop ends and `uhd_pull` succeeds);
otherwise the program exits.  Result: `none` when the call does not return, otherwise the
returned offset, the timestamp `ts` requested from `uhd_pull`, and the variables of `io.cc`
afterwards. -/
def lte_read_subframe (K : lte_params) (g : io_state) (sf coarse fine state : Int)
    (pull_ok : Bool) : Option (Int × Int × io_state) :=
  let g1 :=
    if sf ≤ g.prev_subframe then { g with subframe0_ts := g.subframe0_ts + g.frame_len }
    else g
  match comp_timing_offset K g1 coarse fine state with
  | none => none
  | some offset =>
    let g2 := { g1 with subframe0_ts := g1.subframe0_ts + offset }
    let ts := g2.subframe0_ts + sf * g2.subframe_len
    if !pull_ok then none
    else some (offset, ts, { g2 with prev_subframe := sf })

/-- Example variables of `io.cc`: initialised for 25 resource blocks with a subframe of 5760
samples and a frame of 57600 samples, the device clock at 1000. -/
def exIoState : io_state := (lte_radio_iface_init io_state.start (some 1000) 5760 57600 25).2

/-! ## Per-bandwidth switches (lte_decode.cc, pdsch.c, io_subframe.cc) -/

/-- Function `valid_rbs(rbs)` of `lte_decode.cc`. -/
def valid_rbs (rbs : Int) : Bool :=
  if rbs = 6 ∨ rbs = 15 ∨ rbs = 25 ∨ rbs = 50 ∨ rbs = 75 ∨ rbs = 100 then true else false

/-- The second half of `reserved_rb` (`pdsch.c`): the statement `switch (rbs)`, which picks
the resource blocks `start .. end` around the carrier, and the range test on `rb` after it;
-1 is the `default` branch. -/
def reserved_rb_switch (rbs rb : Int) : Int :=
  if rbs = 6 then (if rb ≥ 0 ∧ rb ≤ 5 then 1 else 0)
  else if rbs = 15 then (if rb ≥ 4 ∧ rb ≤ 9 then 1 else 0)
  else if rbs = 25 then
    (if rb = 9 then 2 else if rb = 15 then 3 else if rb ≥ 10 ∧ rb ≤ 14 then 1 else 0)
  else if rbs = 50 then (if rb ≥ 22 ∧ rb ≤ 27 then 1 else 0)
  else if rbs = 100 then (if rb ≥ 47 ∧ rb ≤ 52 then 1 else 0)
  else -1

/-- Function `reserved_rb(rbs, rb, slot, l, subframe)` of `pdsch.c`: the tests on the
position, which return 0 outside the symbols of the synchronisation signals and of the
broadcast channel, followed by the switch on the bandwidth. -/
def reserved_rb (rbs rb slot l subframe : Int) : Int :=
  if subframe = 0 then
    if (slot = 0 ∧ l < 5) ∨ (slot ≠ 0 ∧ l > 3) then 0 else reserved_rb_switch rbs rb
  else if subframe ≠ 5 then 0
  else if slot = 0 ∧ l < 5 then 0
  else if slot ≠ 0 then 0
  else reserved_rb_switch rbs rb

namespace io_subframe

/-- Static function `get_decim(rbs)` of `io_subframe.cc`. -/
def get_decim (rbs : Int) : Int :=
  if rbs = 6 then 16
  else if rbs = 15 then 8
  else if rbs = 25 then 4
  else if rbs = 50 then 2
  else if rbs = 75 then 2
  else if rbs = 100 then 1
  else -1

/-- Static function `use_fft_1536(rbs)` of `io_subframe.cc`. -/
def use_fft_1536 (rbs : Int) : Int :=
  if rbs = 25 ∨ rbs = 50 ∨ rbs = 100 then 1 else 0

/-- The local `pss_q` of `io_subframe::init(rbs, taps)`, the ratio of the sync-view
resampler (computed after the test `base_q < 0`). -/
def init_pss_q (rbs : Int) : Int :=
  if use_fft_1536 rbs ≠ 0 then Int.tdiv (Int.tdiv (32 * 3) 4) (get_decim rbs)
  else Int.tdiv 32 (get_decim rbs)

/-- The local `pbch_q` of `io_subframe::init(rbs, taps)`, the ratio of the broadcast-view
resampler. -/
def init_pbch_q (rbs : Int) : Int := Int.tdiv (init_pss_q rbs) 2

/-- The arguments of the first `memcpy` of `io_subframe::delay` (the head copy): the index
of the first sample written in `buf`, the index of the first sample read in `history[chan]`
(`_history + 2 * offset` is `history[chan] + 2 * (OFFSET_LIMIT + offset)`), and the number
`head` of samples, which C converts to `size_t` for the byte count. -/
def delay_head (s : io_subframe) (offset : Int) : Int × Int × Int :=
  let delay : Int := ((s.taps / 2 : Nat) : Int)
  let gap : Int := -offset - OFFSET_LIMIT
  if offset < -OFFSET_LIMIT then (gap, OFFSET_LIMIT + offset, delay - gap)
  else if offset > 0 then (0, OFFSET_LIMIT + offset, delay - offset)
  else (0, OFFSET_LIMIT + offset, delay)

end io_subframe

/-! ## Steps of the synchronisation thread (sync.cc) -/

/-- One step of the synchronisation thread: a call of `drive_pbch` (made by `pbch_loop`) or
a call of `drive_pdsch` (made by `pdsch_loop`). -/
inductive drive_op where
  | pbch (d : detections) : drive_op
  | pdsch (d : detections) (adjust : Int) : drive_op

/-- The state after one step of the synchronisation thread. -/
def drive_step (K : lte_params) (c : sync_ctx) : drive_op → sync_ctx
  | drive_op.pbch d => (drive_pbch K c d).2
  | drive_op.pdsch d adjust => drive_pdsch K c d adjust

/-- The state after a sequence of steps of the synchronisation thread. -/
def drive_run (K : lte_params) (c : sync_ctx) (ops : List drive_op) : sync_ctx :=
  ops.foldl (drive_step K) c

/-! ## Subframe views (io_subframe.cc): conversion, resampling, update -/

/-- The members of `class io_subframe` that belong to one channel `i`: the raw samples
`raw[i]`, the float vector `base[i]`, the sync-view vector `pss[i]`, the look-back
`history[i]` and the two resamplers.  The class keeps them in parallel vectors of `chans`
elements each; here they are one record per channel.  `α` is the type of a complex float
sample.  The vectors `pbch[i]`, which no method of the class reads or writes after `init`,
are left out. -/
structure io_channel (α H : Type) where
  raw : List (Int × Int)
  base : cxvec α
  pss : List α
  history : List (Int × Int)
  pss_resampler : Resampler α H
  pbch_resampler : Resampler α H

/-- The `class io_subframe` with all the members its methods use: the lengths, the flags
`convert_on` and `pss_on`, and the channels (`chans` is the length of `chan`). -/
structure io_subframe_full (α H : Type) where
  len : Nat
  taps : Nat
  hlen : Nat
  convert_on : Bool
  pss_on : Bool
  chan : List (io_channel α H)

/-- A call of one of the two view methods made during a subframe cycle. -/
inductive view_op (α : Type) where
  | pss : view_op α
  | pbch (chan : Nat) (vec : List α) : view_op α

namespace io_channel

variable {α H : Type}

/-- Body of the loop of `io_subframe::convert(start, len)` for one channel:
`convert_short_float(base + 2 * start, raw + 2 * start, 2 * len, scale)`.  The library
routine is not part of the sources; `cvt` is what it makes of one complex sample (scaling
by 1 / 127). -/
def convert (cvt : Int × Int → α) (c : io_channel α H) (start len : Nat) : io_channel α H :=
  { c with base := { c.base with data := c.base.data.mapIdx (fun (j : Nat) (x : α) =>
      if start ≤ j ∧ j < start + len then cvt (read_at c.raw (j : Int)) else x) } }

/-- Body of the loop of `preprocess_pss` for one channel:
`pss_resampler[i]->rotate(base[i], pss[i])`. -/
def rotate_pss [Inhabited α] (single_convolve : (Int → α) → H → α) (c : io_channel α H) :
    io_channel α H :=
  { c with base := (Resampler.rotate_all single_convolve c.pss_resampler c.base c.pss).2.1,
           pss := (Resampler.rotate_all single_convolve c.pss_resampler c.base c.pss).2.2.1,
           pss_resampler :=
             (Resampler.rotate_all single_convolve c.pss_resampler c.base c.pss).2.2.2 }

/-- The call `pbch_resampler[chan]->rotate(base[chan], vec)` of `preprocess_pbch`, as far as
it changes the channel. -/
def rotate_pbch [Inhabited α] (single_convolve : (Int → α) → H → α) (vec : List α)
    (c : io_channel α H) : io_channel α H :=
  { c with base := (Resampler.rotate_all single_convolve c.pbch_resampler c.base vec).2.1,
           pbch_resampler :=
             (Resampler.rotate_all single_convolve c.pbch_resampler c.base vec).2.2.2 }

/-- Body of the first loop of `update` for one channel: `pss_resampler[i]->update(base[i])`. -/
def update_pss [Inhabited α] (c : io_channel α H) : io_channel α H :=
  { c with pss_resampler := (Resampler.update c.pss_resampler c.base).2 }

/-- Body of the second loop of `update` for one channel: the last `hlen` raw samples are
copied to `history[i]`, then `pbch_resampler[i]->update(base[i])`. -/
def update_rest [Inhabited α] (len hlen : Nat) (c : io_channel α H) : io_channel α H :=
  { c with history := copy_samples c.history 0
             (fun (j : Int) => read_at c.raw ((len : Int) - (hlen : Int) + j)) (hlen : Int),
           pbch_resampler := (Resampler.update c.pbch_resampler c.base).2 }

/-- The lengths that `init` establishes for one channel and every method keeps: the float
vector has `len` samples and room for `taps` samples before them, the look-back array has
`hlen` samples, both resampler histories have `taps` samples, the pair `base[i]`, `pss[i]`
passes the length check of the sync-view resampler, and `len` is a multiple of the ratio of
the broadcast-view resampler. -/
def lengths_ok (len taps hlen : Nat) (c : io_channel α H) : Bool :=
  decide (c.base.data.length = len ∧ taps ≤ c.base.head.length ∧ c.history.length = hlen ∧
    c.pss_resampler.history.length = taps ∧ c.pbch_resampler.history.length = taps ∧
    Resampler.check_vec_len len (some c.pss.length) c.pss_resampler.mP c.pss_resampler.mQ
      = true ∧
    len % c.pbch_resampler.mQ = 0)

/-- Relation between a channel `c0` at the start of a subframe cycle and the same channel `c`
later in the cycle, when the flags are `convert_on` and `pss_on`: the raw buffer is the
same and has `len` samples, the lengths are those of `lengths_ok`, with `convert_on` the
float vector is the converted raw buffer, and with `pss_on` the history of the sync-view
resampler is the converted tail of the raw buffer. -/
def cycle_inv (cvt : Int × Int → α) (len taps hlen : Nat) (convert_on pss_on : Bool)
    (c0 c : io_channel α H) : Prop :=
  c.raw = c0.raw ∧ c0.raw.length = len ∧ c.lengths_ok len taps hlen = true ∧
  (convert_on = true → c.base.data = c0.raw.map cvt) ∧
  (pss_on = true → c.pss_resampler.history = (c0.raw.drop (len - taps)).map cvt)

end io_channel

namespace io_subframe_full

variable {α H : Type}

/-- Method `io_subframe::convert(start, len)`. -/
def convert (cvt : Int × Int → α) (f : io_subframe_full α H) (start len : Nat) :
    io_subframe_full α H :=
  { f with chan := f.chan.map (fun c => c.convert cvt start len) }

/-- Overload `io_subframe::convert()`. -/
def convert_all (cvt : Int × Int → α) (f : io_subframe_full α H) :
    Bool × io_subframe_full α H :=
  if f.convert_on then (false, f)
  else (true, { convert cvt f 0 f.len with convert_on := true })

/-- Method `io_subframe::reset()`. -/
def reset (f : io_subframe_full α H) : io_subframe_full α H :=
  { f with convert_on := false, pss_on := false }

/-- Method `io_subframe::preprocess_pss()`. -/
def preprocess_pss [Inhabited α] (single_convolve : (Int → α) → H → α) (cvt : Int × Int → α)
    (f : io_subframe_full α H) : Bool × io_subframe_full α H :=
  if f.pss_on then (false, f)
  else
    let f1 := if !f.convert_on then (convert_all cvt f).2 else f
    (true, { f1 with chan := f1.chan.map (fun c => c.rotate_pss single_convolve),
                     pss_on := true })

/-- Method `io_subframe::preprocess_pbch(chan, vec)`: result (always 0, that is `false`), the
vector `vec` afterwards and the object afterwards.  For `chan` outside the vectors, where C
is undefined, nothing is resampled. -/
def preprocess_pbch [Inhabited α] (single_convolve : (Int → α) → H → α) (cvt : Int × Int → α)
    (f : io_subframe_full α H) (chan : Nat) (vec : List α) :
    Bool × List α × io_subframe_full α H :=
  let f1 := if !f.convert_on then (convert_all cvt f).2 else f
  (false,
   (match f1.chan.get? chan with
    | none => vec
    | some c => (Resampler.rotate_all single_convolve c.pbch_resampler c.base vec).2.2.1),
   { f1 with chan := List.modify (fun c => c.rotate_pbch single_convolve vec) chan f1.chan })

/-- Method `io_subframe::update()`.  `this->len - taps` is computed in `size_t`; it is the
difference of natural numbers here, the same whenever `taps` does not exceed `len`. -/
def update [Inhabited α] (cvt : Int × Int → α) (f : io_subframe_full α H) :
    Bool × io_subframe_full α H :=
  let f1 := if !f.convert_on then convert cvt f (f.len - f.taps) f.taps else f
  let f2 := if !f1.pss_on then { f1 with chan := f1.chan.map (fun c => c.update_pss) } else f1
  (true, { f2 with chan := f2.chan.map (fun c => c.update_rest f2.len f2.hlen) })

/-- The constructor `io_subframe(chans)` followed by `init(rbs, taps)`: `none` when `init`
returns false.  `pdsch_len` and `pss_len` are the values of `lte_subframe_len(rbs)` and of
`LTE_BASE_SUBFRAME_LEN / 32` (header `slot.h`, not part of the sources); `filters q` are
the partition filters that `initFilters` derives for the ratio `1 / q`; new arrays hold
zeros; the raw buffers are not set by `init` (null pointers). -/
def init (chans rbs taps pdsch_len pss_len : Nat) (alloc_ok : Bool) (filters : Nat → Nat → H)
    (zero : α) : Option (io_subframe_full α H) :=
  let base_q := io_subframe.get_decim (rbs : Int)
  if base_q < 0 then none
  else
    let pss_q := (io_subframe.init_pss_q (rbs : Int)).toNat
    let pbch_q := (io_subframe.init_pbch_q (rbs : Int)).toNat
    some
      { len := pdsch_len, taps := taps, hlen := taps / 2 + 64,
        convert_on := false, pss_on := false,
        chan := (List.range chans).map (fun _ =>
          { raw := [],
            base := { head := List.replicate taps zero, data := List.replicate pdsch_len zero },
            pss := List.replicate pss_len zero,
            history := List.replicate (taps / 2 + 64) ((0 : Int), (0 : Int)),
            pss_resampler :=
              (Resampler.init
                { mP := 1, mQ := pss_q, mFiltLen := taps, mDelay := 0, inputIndex := [],
                  outputPath := [], partitions := filters pss_q, history := [] }
                alloc_ok (filters pss_q) zero).2,
            pbch_resampler :=
              (Resampler.init
                { mP := 1, mQ := pbch_q, mFiltLen := taps, mDelay := 0, inputIndex := [],
                  outputPath := [], partitions := filters pbch_q, history := [] }
                alloc_ok (filters pbch_q) zero).2 }) }

/-- The raw buffers after `lte_read_subframe(subframe->raw, ..)` has pointed them to the
samples `raws` of the next subframe, one list per channel. -/
def set_raw (f : io_subframe_full α H) (raws : List (List (Int × Int))) :
    io_subframe_full α H :=
  { f with chan := List.zipWith (fun c r => { c with raw := r }) f.chan raws }

/-- The object after one call of a view method. -/
def view_step [Inhabited α] (single_convolve : (Int → α) → H → α) (cvt : Int × Int → α)
    (f : io_subframe_full α H) : view_op α → io_subframe_full α H
  | view_op.pss => (preprocess_pss single_convolve cvt f).2
  | view_op.pbch chan vec => (preprocess_pbch single_convolve cvt f chan vec).2.2

/-- The object after the view calls `ops` of one subframe cycle and the `update()` that ends
the cycle. -/
def cycle [Inhabited α] (single_convolve : (Int → α) → H → α) (cvt : Int × Int → α)
    (f : io_subframe_full α H) (ops : List (view_op α)) : io_subframe_full α H :=
  (update cvt (ops.foldl (view_step single_convolve cvt) f)).2

/-- The lengths that `init` establishes and every method keeps: the filter length and the
look-back length `hlen = taps / 2 + 64` do not exceed the subframe length and every channel
has the lengths of `io_channel.lengths_ok`. -/
def lengths_ok (f : io_subframe_full α H) : Bool :=
  decide (f.taps ≤ f.len ∧ f.hlen ≤ f.len ∧ f.hlen = f.taps / 2 + 64) &&
    f.chan.all (fun c => c.lengths_ok f.len f.taps f.hlen)

/-- The members modelled by `io_subframe`, for `delay` and the look-back part of `update`. -/
def core (f : io_subframe_full α H) : io_subframe :=
  { len := f.len, chans := f.chan.length, taps := f.taps, hlen := f.hlen,
    raw := f.chan.map (fun c => c.raw), history := f.chan.map (fun c => c.history) }

end io_subframe_full

/-- Example object: one channel, subframe of 72 samples, 4 filter taps, look-back of 66
samples, resamplers with the ratios 1 / 2 and 1 / 1, raw samples `(1, -1) .. (72, -72)`,
before any view call of the cycle.  Float samples are pairs of rational numbers. -/
def exViews : io_subframe_full (Rat × Rat) (List Int) :=
  { len := 72, taps := 4, hlen := 66, convert_on := false, pss_on := false,
    chan :=
      [{ raw := (List.range 72).map (fun (i : Nat) => ((i : Int) + 1, -((i : Int) + 1))),
         base := { head := List.replicate 4 (0, 0), data := List.replicate 72 (0, 0) },
         pss := List.replicate 36 (0, 0),
         history := List.replicate 66 (0, 0),
         pss_resampler :=
           { mP := 1, mQ := 2, mFiltLen := 4, mDelay := 0,
             inputIndex := (List.range 36).map (fun (i : Nat) => 2 * i),
             outputPath := List.replicate 36 0, partitions := fun _ => [1, 0, 0, 0],
             history := List.replicate 4 (9, 9) },
         pbch_resampler :=
           { mP := 1, mQ := 1, mFiltLen := 4, mDelay := 0,
             inputIndex := List.range 72,
             outputPath := List.replicate 72 0, partitions := fun _ => [1, 0, 0, 0],
             history := List.replicate 4 (9, 9) } }] }

/-- Example conversion of one complex sample: both components divided by 127. -/
def exCvt (x : Int × Int) : Rat × Rat := ((x.1 : Rat) / 127, (x.2 : Rat) / 127)

/-- Example routine for `single_convolve` on complex rational samples: the sample at the
input pointer. -/
def exConvQ (g : Int → Rat × Rat) (_ : List Int) : Rat × Rat := g 0

/-! ## Ring buffer: properties -/

namespace ts_buffer

theorem memcpy_length (dst src : List Nat) (off n : Nat) (h1 : off + n ≤ dst.length)
    (h2 : n ≤ src.length) : (memcpy dst off src n).length = dst.length := by
  simp only [memcpy, List.length_append, List.length_take, List.length_drop]
  omega

theorem memcpy_out_full (buf src : List Nat) (n : Nat) (hb : buf.length = n) :
    memcpy buf 0 src n = src.take n := by
  have h : buf.drop n = [] := List.drop_eq_nil_of_le (by omega)
  simp [memcpy, h]

theorem drop_take_memcpy (mem smp : List Nat) (w n : Nat) (hw : w + n ≤ mem.length)
    (hs : smp.length = n) : ((memcpy mem w smp n).drop w).take n = smp := by
  have h1 : (mem.take w).length = w := by simp; omega
  have h2 : smp.take n = smp := List.take_of_length_le (by omega)
  unfold memcpy
  rw [h2, List.append_assoc, List.drop_left' h1, List.take_left' hs]

/-- The store after a write that is split at the end of the store. -/
theorem memcpy_split_eq (mem smp : List Nat) (w n : Nat) (hw : w ≤ mem.length)
    (hn : n < mem.length) (hwn : mem.length ≤ w + n) (hs : smp.length = n) :
    memcpy (memcpy mem w smp (mem.length - w)) 0 (smp.drop (mem.length - w))
        (n - (mem.length - w))
      = smp.drop (mem.length - w) ++ (mem.take w).drop (n - (mem.length - w))
          ++ smp.take (mem.length - w) := by
  have e1 : mem.drop (w + (mem.length - w)) = [] := List.drop_eq_nil_of_le (by omega)
  have e2 : (smp.drop (mem.length - w)).take (n - (mem.length - w))
      = smp.drop (mem.length - w) := List.take_of_length_le (by simp; omega)
  have e3 : (mem.take w).length = w := by simp; omega
  unfold memcpy
  rw [e1, e2]
  simp only [List.take_zero, List.nil_append, List.append_nil, Nat.zero_add]
  rw [List.drop_append_of_le_length (by omega), List.append_assoc]

theorem toSizeT_natCast (t : Nat) (h : t < 2 ^ 64) : toSizeT (t : Int) = t := by
  unfold toSizeT
  have h2 : ((t : Int) % 2 ^ 64) = (t : Int) := Int.emod_eq_of_lt (by omega) (by exact_mod_cast h)
  rw [h2]; simp

/-- Slot of timestamp `t` in a store of `C` samples, as computed by a first write. -/
theorem wr_start_fresh (C t : Nat) :
    (if t ≥ C then t % C else t) = t % C := by
  split_ifs with h
  · rfl
  · exact (Nat.mod_eq_of_lt (by omega)).symm

/-- The first write on a newly constructed buffer, in closed form. -/
theorem write_fresh (C n t : Nat) (smp mem : List Nat) (hC : C ≤ SSIZE_MAX)
    (hn0 : 0 < n) (hnC : n < C) (ht : t + n < 2 ^ 63) :
    (fresh C mem).write smp n (t : Int) =
      ((n : Int),
       { data := if t % C + n < C then memcpy mem (t % C) smp n
                 else memcpy (memcpy mem (t % C) smp (C - t % C)) 0 (smp.drop (C - t % C))
                        (n - (C - t % C)),
         buf_len := C, time_start := t, time_end := (t : Int) + n,
         data_start := ((t % C : Nat) : Int), data_end := (((t % C + n) % C : Nat) : Int),
         tag := Ptr.null, tag_len := 0, tag_start := 0, tag_split := 0,
         tag_alloc := false, heap := [] }) := by
  have hfresh : fresh C mem = { construct C with data := mem } := by
    have hC2 : ¬ (C > SSIZE_MAX) := by omega
    simp [fresh, init, construct, hC2]
  have hsz : toSizeT ((0 : Int) + ((t : Int) - 0)) = t := by
    simp only [zero_add, sub_zero]
    exact toSizeT_natCast t (by omega)
  rw [hfresh]
  unfold write
  simp only [construct, hsz, wr_start_fresh]
  have hc : ¬ (n ≥ C ∨ (t : Int) < 0 ∨ (t : Int) + (n : Int) ≤ 0) := by omega
  rw [if_neg hc]
  have hn : n ≠ 0 := by omega
  simp [hn]

/-- Reading back a run that was stored in two pieces `B` (at the end of the store) and `A`
(at its start) reassembles `B ++ A`. -/
theorem read_split (A M B buf : List Nat) (w : Nat) (hw : A.length + M.length = w)
    (hb : buf.length = A.length + B.length) :
    memcpy (memcpy buf 0 ((A ++ M ++ B).drop w) B.length) B.length (A ++ M ++ B) A.length
      = B ++ A := by
  have h1 : (A ++ M ++ B).drop w = B := by
    rw [List.drop_left' (by simp [hw])]
  have h2 : (A ++ M ++ B).take A.length = A := by
    rw [List.append_assoc, List.take_left' rfl]
  have h3 : (B ++ buf.drop B.length).drop (B.length + A.length) = [] :=
    List.drop_eq_nil_of_le (by simp; omega)
  rw [h1]
  unfold memcpy
  simp only [List.take_zero, List.nil_append, Nat.zero_add, List.take_length]
  rw [List.take_left' rfl, h2, h3, List.append_nil]

/-- Closed form of a `read` that passes both validity checks. -/
theorem read_ok (s : ts_buffer) (buf : List Nat) (len : Nat) (ts : Int)
    (h1 : ¬ (len ≥ s.buf_len ∨ ts + (len : Int) > s.time_end))
    (h2 : ¬ (ts + (len : Int) < s.time_start)) :
    s.read buf len ts =
      ((len : Int),
       (if toSizeT (s.data_start + (ts - s.time_start)) % s.buf_len + len < s.buf_len then
          memcpy buf 0 (s.data.drop (toSizeT (s.data_start + (ts - s.time_start)) % s.buf_len))
            len
        else
          memcpy (memcpy buf 0
              (s.data.drop (toSizeT (s.data_start + (ts - s.time_start)) % s.buf_len))
              (s.buf_len - toSizeT (s.data_start + (ts - s.time_start)) % s.buf_len))
            (s.buf_len - toSizeT (s.data_start + (ts - s.time_start)) % s.buf_len) s.data
            (len - (s.buf_len - toSizeT (s.data_start + (ts - s.time_start)) % s.buf_len))),
       { s with
          data_start :=
            (((toSizeT (s.data_start + (ts - s.time_start)) % s.buf_len + len) % s.buf_len
              : Nat) : Int),
          time_start := ts + (len : Int) }) := by
  have h3 : ¬ (ts + (len : Int) > s.time_end) := fun h => h1 (Or.inr h)
  unfold read
  rw [if_neg h1, if_neg h2]
  simp only [if_neg h3]

theorem rd_start_after_write (C w : Nat) (t : Int) (hw : w < C) (hC : C ≤ SSIZE_MAX) :
    toSizeT ((w : Int) + (t - t)) % C = w := by
  have h : (w : Int) + (t - t) = (w : Int) := by omega
  rw [h, toSizeT_natCast w (by simp [SSIZE_MAX] at hC; omega)]
  exact Nat.mod_eq_of_lt hw

/-- C1: on a newly constructed buffer of capacity `C`, writing `n` samples (`0 < n < C`) at a
timestamp `T ≥ 0` returns `n`, and reading `n` samples at `T` afterwards, with `read` or
through the pointer of `get_rd_buf`, yields exactly the samples written, whether or not the
run wraps across the end of the store. -/
theorem write_then_read_roundtrip (C n : Nat) (T : Int) (smp mem buf : List Nat)
    (hC : C ≤ SSIZE_MAX) (hmem : mem.length = C) (hn0 : 0 < n) (hnC : n < C)
    (hT : 0 ≤ T) (hT63 : T + n < 2 ^ 63) (hs : smp.length = n) (hbuf : buf.length = n) :
    ((fresh C mem).write smp n T).1 = n ∧
    (((fresh C mem).write smp n T).2.read buf n T).1 = n ∧
    (((fresh C mem).write smp n T).2.read buf n T).2.1 = smp ∧
    (((fresh C mem).write smp n T).2.get_rd_buf T n).1 ≠ Ptr.null ∧
    (((fresh C mem).write smp n T).2.get_rd_buf T n).2.2.deref
        (((fresh C mem).write smp n T).2.get_rd_buf T n).1 n = smp := by
  obtain ⟨t, rfl⟩ : ∃ t : Nat, T = (t : Int) := ⟨T.toNat, (Int.toNat_of_nonneg hT).symm⟩
  have ht : t + n < 2 ^ 63 := by exact_mod_cast hT63
  have hw : t % C < C := Nat.mod_lt _ (by omega)
  rw [write_fresh C n t smp mem hC hn0 hnC ht]
  have hrd := rd_start_after_write C (t % C) (t : Int) hw hC
  have hc1 : ¬ (n ≥ C ∨ (t : Int) + (n : Int) > (t : Int) + (n : Int)) := by omega
  have hc2 : ¬ ((t : Int) + (n : Int) < (t : Int)) := by omega
  have hc3 : ¬ (n ≥ C ∨ (t : Int) < 0 ∨ (t : Int) + (n : Int) > (t : Int) + (n : Int)) := by
    omega
  refine ⟨rfl, ?_, ?_, ?_, ?_⟩
  · rw [read_ok _ buf n t hc1 hc2]
  · rw [read_ok _ buf n t hc1 hc2]
    simp only [hrd]
    by_cases hsp : t % C + n < C
    · simp only [if_pos hsp]
      subst hmem
      rw [memcpy_out_full buf _ n hbuf]
      exact drop_take_memcpy mem smp (t % mem.length) n (by omega) hs
    · simp only [if_neg hsp]
      subst hmem
      rw [memcpy_split_eq mem smp (t % mem.length) n (by omega) hnC (by omega) hs]
      have hA : (smp.drop (mem.length - t % mem.length)).length
          = n - (mem.length - t % mem.length) := by simp [hs]
      have hB : (smp.take (mem.length - t % mem.length)).length
          = mem.length - t % mem.length := by simp [hs]; omega
      have hM : ((mem.take (t % mem.length)).drop (n - (mem.length - t % mem.length))).length
          = t % mem.length - (n - (mem.length - t % mem.length)) := by simp; omega
      have key := read_split (smp.drop (mem.length - t % mem.length))
        ((mem.take (t % mem.length)).drop (n - (mem.length - t % mem.length)))
        (smp.take (mem.length - t % mem.length)) buf (t % mem.length)
        (by rw [hA, hM]; omega) (by rw [hA, hB, hbuf]; omega)
      rw [hA, hB] at key
      rw [key, List.take_append_drop]
  · unfold get_rd_buf
    simp only [ne_eq, not_true_eq_false, if_false, if_neg hc3, if_neg hc2]
    split_ifs <;> simp
  · unfold get_rd_buf
    simp only [ne_eq, not_true_eq_false, if_false, if_neg hc3, if_neg hc2, hrd]
    by_cases hsp : t % C + n < C
    · simp only [if_pos hsp, deref]
      subst hmem
      exact drop_take_memcpy mem smp (t % mem.length) n (by omega) hs
    · simp only [if_neg hsp, deref]
      subst hmem
      rw [memcpy_split_eq mem smp (t % mem.length) n (by omega) hnC (by omega) hs]
      have hA : (smp.drop (mem.length - t % mem.length)).length
          = n - (mem.length - t % mem.length) := by simp [hs]
      have hB : (smp.take (mem.length - t % mem.length)).length
          = mem.length - t % mem.length := by simp [hs]; omega
      have hM : ((mem.take (t % mem.length)).drop (n - (mem.length - t % mem.length))).length
          = t % mem.length - (n - (mem.length - t % mem.length)) := by simp; omega
      have key := read_split (smp.drop (mem.length - t % mem.length))
        ((mem.take (t % mem.length)).drop (n - (mem.length - t % mem.length)))
        (smp.take (mem.length - t % mem.length)) (List.replicate n 0) (t % mem.length)
        (by rw [hA, hM]; omega) (by rw [hA, hB, List.length_replicate]; omega)
      rw [hA, hB] at key
      rw [key, List.take_append_drop]
      simp [hs]

/-- C1 at a run that wraps: capacity 16, three samples at timestamp 14 occupy the slots
14, 15 and 0. -/
theorem write_then_read_roundtrip_witness :
    ((fresh 16 (List.replicate 16 0)).write [7, 8, 9] 3 14).1 = ((3 : Nat) : Int) ∧
    (((fresh 16 (List.replicate 16 0)).write [7, 8, 9] 3 14).2.read [0, 0, 0] 3 14).1
      = ((3 : Nat) : Int) ∧
    (((fresh 16 (List.replicate 16 0)).write [7, 8, 9] 3 14).2.read [0, 0, 0] 3 14).2.1
      = [7, 8, 9] ∧
    (((fresh 16 (List.replicate 16 0)).write [7, 8, 9] 3 14).2.get_rd_buf 14 3).1 ≠ Ptr.null ∧
    (((fresh 16 (List.replicate 16 0)).write [7, 8, 9] 3 14).2.get_rd_buf 14 3).2.2.deref
        (((fresh 16 (List.replicate 16 0)).write [7, 8, 9] 3 14).2.get_rd_buf 14 3).1 3
      = [7, 8, 9] :=
  write_then_read_roundtrip 16 3 14 [7, 8, 9] (List.replicate 16 0) [0, 0, 0]
    (by decide) (by decide) (by decide) (by decide) (by decide) (by decide) (by decide)
    (by decide)

/-- C3 (as stated) fails: while a tag is outstanding, a `get_rd_buf` that ends after
`time_end` and a `get_wr_buf` that does not end after `time_end` are answered with
`ERR_MEM`, not with `ERR_TIMESTAMP`. -/
theorem window_check_counterexample :
    exTagged.tag = Ptr.store 5 ∧ exTagged.time_end = 10 ∧
    (exTagged.time_end < (9 : Int) + ((3 : Nat) : Int)) ∧
    (exTagged.get_rd_buf 9 3).1 = Ptr.null ∧
    (exTagged.get_rd_buf 9 3).2.1 = some ERR_MEM ∧
    (exTagged.get_rd_buf 9 3).2.1 ≠ some ERR_TIMESTAMP ∧
    ((3 : Int) + ((2 : Nat) : Int) ≤ exTagged.time_end) ∧
    (exTagged.get_wr_buf 3 2).1 = Ptr.null ∧
    (exTagged.get_wr_buf 3 2).2.1 = some ERR_MEM ∧
    (exTagged.get_wr_buf 3 2).2.1 ≠ some ERR_TIMESTAMP := by
  decide

/-- C3 (amended): a write or `get_wr_buf` whose end `ts + len` is not beyond `time_end`, and a
read or `get_rd_buf` whose end is beyond `time_end`, fail and leave every field of the buffer
(markers, tag, stored samples) and the caller's buffer unchanged.  `write` and `read` return
`-ERR_TIMESTAMP`; the zero-copy calls return `NULL` and report `ERR_TIMESTAMP` when no tag
is outstanding, and `ERR_MEM` when one is. -/
theorem outside_window_refused (s : ts_buffer) (buf : List Nat) (len : Nat) (ts : Int) :
    (ts + (len : Int) ≤ s.time_end →
      s.write buf len ts = (-ERR_TIMESTAMP, s) ∧
      s.get_wr_buf ts len =
        (Ptr.null, some (if s.tag = Ptr.null then ERR_TIMESTAMP else ERR_MEM), s)) ∧
    (ts + (len : Int) > s.time_end →
      s.read buf len ts = (-ERR_TIMESTAMP, buf, s) ∧
      s.get_rd_buf ts len =
        (Ptr.null, some (if s.tag = Ptr.null then ERR_TIMESTAMP else ERR_MEM), s)) := by
  constructor
  · intro h
    constructor
    · unfold write
      rw [if_pos (Or.inr (Or.inr h))]
    · unfold get_wr_buf
      by_cases htag : s.tag = Ptr.null
      · rw [if_neg (by simp [htag]), if_pos (Or.inr (Or.inr h)), if_pos htag]
      · rw [if_pos htag, if_neg htag]
  · intro h
    constructor
    · unfold read
      rw [if_pos (Or.inr h)]
    · unfold get_rd_buf
      by_cases htag : s.tag = Ptr.null
      · rw [if_neg (by simp [htag]), if_pos (Or.inr (Or.inr h)), if_pos htag]
      · rw [if_pos htag, if_neg htag]

/-- C4, the code at a failing input: with ten unread samples in the slots 15, 0 .. 8, the
contiguous write of fifteen samples at timestamp 25 stores into the slots 9 .. 15 and 0 .. 7,
replacing nine unread samples (slot 15 held the sample of timestamp 15, slot 0 that of
timestamp 16), and returns 15 instead of `-ERR_OVERFLOW`; `get_wr_buf` for the same span
returns a non-null pointer. -/
theorem overflow_missed_at_double_wrap :
    exFull.time_start = 15 ∧ exFull.time_end = 25 ∧ exFull.data_start = 15 ∧
    exFull.data.getD 15 0 = 1 ∧ exFull.data.getD 0 0 = 2 ∧
    (exFull.write exBurst 15 25).1 = 15 ∧
    (exFull.write exBurst 15 25).1 ≠ -ERR_OVERFLOW ∧
    (exFull.write exBurst 15 25).2.data.getD 15 0 = 107 ∧
    (exFull.write exBurst 15 25).2.data.getD 0 0 = 108 ∧
    (exFull.write exBurst 15 25).2.time_start = 15 ∧
    (exFull.get_wr_buf 25 15).1 = Ptr.scratch 0 := by
  decide

/-- Markers after a `write` that passes the validity check. -/
theorem write_markers (s : ts_buffer) (buf : List Nat) (len : Nat) (ts : Int)
    (hc : ¬ (len ≥ s.buf_len ∨ ts < 0 ∨ ts + (len : Int) ≤ s.time_end)) :
    (s.write buf len ts).2.buf_len = s.buf_len ∧
    (s.write buf len ts).2.time_end = ts + (len : Int) ∧
    (s.write buf len ts).2.data_end = (((s.slot ts + len) % s.buf_len : Nat) : Int) ∧
    (s.write buf len ts).2.time_start = (if s.data_start = 0 then ts else s.time_start) ∧
    (s.write buf len ts).2.data_start
      = (if s.data_start = 0 then ((s.slot ts : Nat) : Int) else s.data_start) ∧
    (s.write buf len ts).2.tag = s.tag := by
  unfold write slot
  rw [if_neg hc]
  simp only [wr_start_fresh]
  split_ifs <;> simp

/-- Markers after a `get_wr_buf` that passes the tag and validity checks. -/
theorem get_wr_buf_markers (s : ts_buffer) (len : Nat) (ts : Int) (htag : s.tag = Ptr.null)
    (hc : ¬ (len ≥ s.buf_len ∨ ts < 0 ∨ ts + (len : Int) ≤ s.time_end)) :
    (s.get_wr_buf ts len).2.2.buf_len = s.buf_len ∧
    (s.get_wr_buf ts len).2.2.time_end = ts + (len : Int) ∧
    (s.get_wr_buf ts len).2.2.data_end = (((s.slot ts + len) % s.buf_len : Nat) : Int) ∧
    (s.get_wr_buf ts len).2.2.time_start = (if s.data_start = 0 then ts else s.time_start) ∧
    (s.get_wr_buf ts len).2.2.data_start
      = (if s.data_start = 0 then ((s.slot ts : Nat) : Int) else s.data_start) := by
  unfold get_wr_buf slot
  rw [if_neg (by simp [htag]), if_neg hc]
  simp only [wr_start_fresh]
  split_ifs <;> simp

/-- Markers after a `read` that passes both checks. -/
theorem read_markers (s : ts_buffer) (buf : List Nat) (len : Nat) (ts : Int)
    (h1 : ¬ (len ≥ s.buf_len ∨ ts + (len : Int) > s.time_end))
    (h2 : ¬ (ts + (len : Int) < s.time_start)) :
    (s.read buf len ts).2.2.buf_len = s.buf_len ∧
    (s.read buf len ts).2.2.time_end = s.time_end ∧
    (s.read buf len ts).2.2.data_end = s.data_end ∧
    (s.read buf len ts).2.2.time_start = ts + (len : Int) ∧
    (s.read buf len ts).2.2.data_start = (((s.slot ts + len) % s.buf_len : Nat) : Int) ∧
    (s.read buf len ts).2.2.tag = s.tag := by
  rw [read_ok s buf len ts h1 h2]
  simp [slot]

/-- Markers after a `get_rd_buf` that passes all checks. -/
theorem get_rd_buf_markers (s : ts_buffer) (len : Nat) (ts : Int) (htag : s.tag = Ptr.null)
    (h1 : ¬ (len ≥ s.buf_len ∨ ts < 0 ∨ ts + (len : Int) > s.time_end))
    (h2 : ¬ (ts + (len : Int) < s.time_start)) :
    (s.get_rd_buf ts len).2.2.buf_len = s.buf_len ∧
    (s.get_rd_buf ts len).2.2.time_end = s.time_end ∧
    (s.get_rd_buf ts len).2.2.data_end = s.data_end ∧
    (s.get_rd_buf ts len).2.2.time_start = ts + (len : Int) ∧
    (s.get_rd_buf ts len).2.2.data_start = (((s.slot ts + len) % s.buf_len : Nat) : Int) ∧
    (s.get_rd_buf ts len).1 ≠ Ptr.null ∧
    (s.get_rd_buf ts len).2.2.tag = (s.get_rd_buf ts len).1 ∧
    (s.get_rd_buf ts len).2.1 = none := by
  unfold get_rd_buf slot
  rw [if_neg (by simp [htag]), if_neg h1, if_neg h2]
  dsimp only
  split_ifs <;> simp

theorem toSizeT_modEq (N : Nat) (x : Int) (h : N ∣ 2 ^ 64 ∨ (0 ≤ x ∧ x < 2 ^ 64)) :
    ((toSizeT x : Nat) : Int) ≡ x [ZMOD (N : Int)] := by
  have hcast : ((toSizeT x : Nat) : Int) = x % 2 ^ 64 := by
    unfold toSizeT
    exact Int.toNat_of_nonneg (Int.emod_nonneg _ (by norm_num))
  rw [hcast]
  rcases h with h | ⟨h0, h1⟩
  · have hd : (N : Int) ∣ 2 ^ 64 := by exact_mod_cast (Int.natCast_dvd_natCast.mpr h)
    exact Int.ModEq.of_dvd hd (Int.mod_modEq x (2 ^ 64))
  · rw [Int.emod_eq_of_lt h0 h1]

theorem natCast_mod_modEq (a N : Nat) : (((a % N : Nat)) : Int) ≡ (a : Int) [ZMOD (N : Int)] := by
  rw [Int.natCast_mod]
  exact Int.mod_modEq _ _

theorem slot_modEq (s : ts_buffer) (ts : Int)
    (h : s.buf_len ∣ 2 ^ 64 ∨ index_in_range s ts = true) :
    ((s.slot ts : Nat) : Int) ≡ s.data_start + (ts - s.time_start) [ZMOD (s.buf_len : Int)] := by
  unfold slot
  refine (natCast_mod_modEq _ _).trans (toSizeT_modEq _ _ ?_)
  rcases h with h | h
  · exact Or.inl h
  · exact Or.inr (by simpa [index_in_range] using h)

theorem slot_end_modEq (s : ts_buffer) (ts : Int) (len : Nat)
    (h : s.buf_len ∣ 2 ^ 64 ∨ index_in_range s ts = true) :
    ((((s.slot ts + len) % s.buf_len : Nat)) : Int)
      ≡ s.data_start + (ts - s.time_start) + (len : Int) [ZMOD (s.buf_len : Int)] := by
  refine (natCast_mod_modEq _ _).trans ?_
  push_cast
  exact (slot_modEq s ts h).add_right _

theorem fresh_markers (N : Nat) (mem : List Nat) :
    (fresh N mem).buf_len = N ∧ (fresh N mem).time_start = 0 ∧ (fresh N mem).time_end = 0 ∧
    (fresh N mem).data_start = 0 ∧ (fresh N mem).data_end = 0 ∧
    (fresh N mem).tag = Ptr.null := by
  unfold fresh init construct
  split_ifs <;> simp

/-- Markers written by `write` / `get_wr_buf` are congruent, whatever they were before. -/
theorem written_markers_congruent (s : ts_buffer) (ts : Int) (len : Nat)
    (h : s.buf_len ∣ 2 ^ 64 ∨ index_in_range s ts = true) :
    ts + (len : Int) - (if s.data_start = 0 then ts else s.time_start)
      ≡ (((s.slot ts + len) % s.buf_len : Nat) : Int)
          - (if s.data_start = 0 then ((s.slot ts : Nat) : Int) else s.data_start)
        [ZMOD (s.buf_len : Int)] := by
  have hE := slot_end_modEq s ts len h
  have hS := slot_modEq s ts h
  split_ifs with h0
  · have h3 := (hE.sub hS).symm
    have e1 : s.data_start + (ts - s.time_start) + (len : Int)
        - (s.data_start + (ts - s.time_start)) = ts + (len : Int) - ts := by ring
    rw [e1] at h3
    exact h3
  · have h3 := (hE.sub_right s.data_start).symm
    have e1 : s.data_start + (ts - s.time_start) + (len : Int) - s.data_start
        = ts + (len : Int) - s.time_start := by ring
    rw [e1] at h3
    exact h3

/-- Markers left by `read` / `get_rd_buf` stay congruent. -/
theorem consumed_markers_congruent (s : ts_buffer) (ts : Int) (len : Nat)
    (hinv : markers_congruent s)
    (h : s.buf_len ∣ 2 ^ 64 ∨ index_in_range s ts = true) :
    s.time_end - (ts + (len : Int))
      ≡ s.data_end - (((s.slot ts + len) % s.buf_len : Nat) : Int)
        [ZMOD (s.buf_len : Int)] := by
  have hE := slot_end_modEq s ts len h
  have h3 := ((Int.ModEq.refl s.data_end).sub hE).symm
  have e1 : s.data_end - (s.data_start + (ts - s.time_start) + (len : Int))
      = (s.data_end - s.data_start) - (ts - s.time_start + (len : Int)) := by ring
  rw [e1] at h3
  have h4 := hinv.sub_right (ts - s.time_start + (len : Int))
  have e2 : s.time_end - s.time_start - (ts - s.time_start + (len : Int))
      = s.time_end - (ts + (len : Int)) := by ring
  rw [e2] at h4
  exact h4.trans h3

theorem step_congruent (s : ts_buffer) (op : Op) (hinv : markers_congruent s)
    (h : s.buf_len ∣ 2 ^ 64 ∨ in_range s op = true) :
    markers_congruent (step s op) ∧ (step s op).buf_len = s.buf_len := by
  cases op with
  | write buf len ts =>
    simp only [step, in_range] at h ⊢
    by_cases hc : len ≥ s.buf_len ∨ ts < 0 ∨ ts + (len : Int) ≤ s.time_end
    · have e : s.write buf len ts = (-ERR_TIMESTAMP, s) := by unfold write; rw [if_pos hc]
      rw [e]; exact ⟨hinv, rfl⟩
    · obtain ⟨hb, hte, hde, hts, hds, _⟩ := write_markers s buf len ts hc
      refine ⟨?_, hb⟩
      unfold markers_congruent
      rw [hb, hte, hde, hts, hds]
      exact written_markers_congruent s ts len h
  | read buf len ts =>
    simp only [step, in_range] at h ⊢
    by_cases h1 : len ≥ s.buf_len ∨ ts + (len : Int) > s.time_end
    · have e : s.read buf len ts = (-ERR_TIMESTAMP, buf, s) := by unfold read; rw [if_pos h1]
      rw [e]; exact ⟨hinv, rfl⟩
    · by_cases h2 : ts + (len : Int) < s.time_start
      · have e : s.read buf len ts = (ERR_TIMESTAMP, buf, s) := by
          unfold read; rw [if_neg h1, if_pos h2]
        rw [e]; exact ⟨hinv, rfl⟩
      · obtain ⟨hb, hte, hde, hts, hds, _⟩ := read_markers s buf len ts h1 h2
        refine ⟨?_, hb⟩
        unfold markers_congruent
        rw [hb, hte, hde, hts, hds]
        exact consumed_markers_congruent s ts len hinv h
  | get_rd_buf ts len =>
    simp only [step, in_range] at h ⊢
    by_cases htag : s.tag = Ptr.null
    · by_cases h1 : len ≥ s.buf_len ∨ ts < 0 ∨ ts + (len : Int) > s.time_end
      · have e : s.get_rd_buf ts len = (Ptr.null, some ERR_TIMESTAMP, s) := by
          unfold get_rd_buf; rw [if_neg (by simp [htag]), if_pos h1]
        rw [e]; exact ⟨hinv, rfl⟩
      · by_cases h2 : ts + (len : Int) < s.time_start
        · have e : s.get_rd_buf ts len = (Ptr.null, some ERR_TIMESTAMP, s) := by
            unfold get_rd_buf; rw [if_neg (by simp [htag]), if_neg h1, if_pos h2]
          rw [e]; exact ⟨hinv, rfl⟩
        · obtain ⟨hb, hte, hde, hts, hds, _⟩ := get_rd_buf_markers s len ts htag h1 h2
          refine ⟨?_, hb⟩
          unfold markers_congruent
          rw [hb, hte, hde, hts, hds]
          exact consumed_markers_congruent s ts len hinv h
    · have e : s.get_rd_buf ts len = (Ptr.null, some ERR_MEM, s) := by
        unfold get_rd_buf; rw [if_pos htag]
      rw [e]; exact ⟨hinv, rfl⟩
  | commit_rd p =>
    simp only [step]
    unfold commit_rd
    split_ifs <;> exact ⟨hinv, rfl⟩
  | get_wr_buf ts len =>
    simp only [step, in_range] at h ⊢
    by_cases htag : s.tag = Ptr.null
    · by_cases hc : len ≥ s.buf_len ∨ ts < 0 ∨ ts + (len : Int) ≤ s.time_end
      · have e : s.get_wr_buf ts len = (Ptr.null, some ERR_TIMESTAMP, s) := by
          unfold get_wr_buf; rw [if_neg (by simp [htag]), if_pos hc]
        rw [e]; exact ⟨hinv, rfl⟩
      · obtain ⟨hb, hte, hde, hts, hds⟩ := get_wr_buf_markers s len ts htag hc
        refine ⟨?_, hb⟩
        unfold markers_congruent
        rw [hb, hte, hde, hts, hds]
        exact written_markers_congruent s ts len h
    · have e : s.get_wr_buf ts len = (Ptr.null, some ERR_MEM, s) := by
        unfold get_wr_buf; rw [if_pos htag]
      rw [e]; exact ⟨hinv, rfl⟩
  | commit_wr p =>
    simp only [step]
    unfold commit_wr
    split_ifs <;> exact ⟨hinv, rfl⟩
  | reset =>
    exact ⟨Int.ModEq.refl _, rfl⟩

theorem run_congruent (ops : List Op) :
    ∀ s : ts_buffer, markers_congruent s →
      (s.buf_len ∣ 2 ^ 64 ∨ trace_in_range s ops = true) →
      markers_congruent (run s ops) ∧ (run s ops).buf_len = s.buf_len := by
  induction ops with
  | nil => intro s hinv _; exact ⟨hinv, rfl⟩
  | cons op ops ih =>
    intro s hinv h
    have hstep : s.buf_len ∣ 2 ^ 64 ∨ in_range s op = true := by
      rcases h with h | h
      · exact Or.inl h
      · simp only [trace_in_range, Bool.and_eq_true] at h
        exact Or.inr h.1
    obtain ⟨h1, h2⟩ := step_congruent s op hinv hstep
    have hrest : (step s op).buf_len ∣ 2 ^ 64 ∨ trace_in_range (step s op) ops = true := by
      rcases h with h | h
      · exact Or.inl (h2 ▸ h)
      · simp only [trace_in_range, Bool.and_eq_true] at h
        exact Or.inr h.2
    obtain ⟨h3, h4⟩ := ih (step s op) h1 hrest
    exact ⟨h3, h4.trans h2⟩

/-- C6, the code at a failing input: in the reachable state with window `[16, 19)` and
`data_start = 0`, the successful write of twelve samples at timestamp 10 sets `time_start`
back from 16 to 10. -/
theorem write_moves_time_start_back :
    exAligned = run (fresh 16 (List.replicate 16 0)) [Op.write [1, 2, 3] 3 16] ∧
    exAligned.time_start = 16 ∧ exAligned.time_end = 19 ∧ exAligned.data_start = 0 ∧
    (exAligned.write [1, 2, 3, 4, 5, 6, 7, 8, 9, 10, 11, 12] 12 10).1 = 12 ∧
    (exAligned.write [1, 2, 3, 4, 5, 6, 7, 8, 9, 10, 11, 12] 12 10).2.time_start = 10 ∧
    (exAligned.write [1, 2, 3, 4, 5, 6, 7, 8, 9, 10, 11, 12] 12 10).2.time_start
      < exAligned.time_start := by
  decide

/-- C7, the code at a failing input: the second write on a buffer that still holds the eight
unread samples of the first write (timestamps 0 .. 7) is successful and moves `time_start`
and `data_start` from 0 to 8, because `data_start == 0` is taken for "no write yet". -/
theorem later_write_moves_start :
    exFromZero.time_start = 0 ∧ exFromZero.data_start = 0 ∧ exFromZero.time_end = 8 ∧
    exFromZero.time_start < exFromZero.time_end ∧
    (exFromZero.write [9, 10, 11, 12] 4 8).1 = 4 ∧
    (exFromZero.write [9, 10, 11, 12] 4 8).2.time_start = 8 ∧
    (exFromZero.write [9, 10, 11, 12] 4 8).2.data_start = 8 := by
  decide

/-- C8 (as stated) fails.  On a newly constructed buffer the zero-length write at timestamp
5 returns `-ERR_TIMESTAMP` and sets `time_start` and `data_start` to 5.  On the buffer with
window `[5, 10)` in the slots 5 .. 9, the zero-length write at timestamp 24 returns
`-ERR_OVERFLOW`. -/
theorem zero_length_write_counterexample :
    (fresh 16 (List.replicate 16 0)).time_end < 5 ∧
    ((fresh 16 (List.replicate 16 0)).write_ts 5).1 = -ERR_TIMESTAMP ∧
    ((fresh 16 (List.replicate 16 0)).write_ts 5).2.time_start = 5 ∧
    ((fresh 16 (List.replicate 16 0)).write_ts 5).2.data_start = 5 ∧
    exWindow.time_end < 24 ∧
    (exWindow.write_ts 24).1 = -ERR_OVERFLOW := by
  decide

/-- C8 (amended): on a buffer of non-zero capacity whose `data_start` is not 0 and whose
window is not inverted (`time_start ≤ time_end`), the zero-length write at a timestamp
`ts > time_end`, `ts ≥ 0`, sets `time_end` to `ts` and `data_end` to the slot of `ts` and
changes nothing else (`time_start`, `data_start`, the stored samples, the tag); it returns 0,
unless the start index ran past the end of the store and the new `data_end` exceeds
`data_start`, in which case it returns `-ERR_OVERFLOW`. -/
theorem zero_length_write_advances_end (s : ts_buffer) (ts : Int)
    (hN : 0 < s.buf_len) (hds : s.data_start ≠ 0) (hwin : s.time_start ≤ s.time_end)
    (h0 : 0 ≤ ts) (hts : s.time_end < ts) :
    (s.write_ts ts).2 = { s with time_end := ts, data_end := ((s.slot ts : Nat) : Int) } ∧
    (s.write_ts ts).1 =
      (if toSizeT (s.data_start + (ts - s.time_start)) ≥ s.buf_len ∧
          ((s.slot ts : Nat) : Int) > s.data_start
        then -ERR_OVERFLOW else 0) := by
  have hc : ¬ (0 ≥ s.buf_len ∨ ts < 0 ∨ ts + ((0 : Nat) : Int) ≤ s.time_end) := by
    simp only [Nat.cast_zero, add_zero]; omega
  have hslot : s.slot ts < s.buf_len := Nat.mod_lt _ hN
  have hmod : (s.slot ts + 0) % s.buf_len = s.slot ts := by
    rw [Nat.add_zero]; exact Nat.mod_eq_of_lt hslot
  have hlt : ¬ (ts ≤ s.time_start) := by omega
  unfold write_ts write
  rw [if_neg hc]
  simp only [wr_start_fresh]
  change _ ∧ _
  simp only [if_neg hds, Nat.cast_zero, add_zero, ne_eq, not_true_eq_false, if_false,
    false_and, decide_False, Bool.or_false, decide_eq_false_iff_not.mpr hds, Bool.not_false,
    Bool.true_and, Bool.and_eq_true, decide_eq_true_eq]
  unfold slot at hmod hslot ⊢
  rw [Nat.add_zero] at hmod
  simp only [Nat.add_zero, hmod]
  split_ifs with h1 <;> simp

/-- C8 (amended) at the window `[5, 10)`: the heartbeat at timestamp 12 returns 0. -/
theorem zero_length_write_advances_end_witness :
    (exWindow.write_ts 12).2
      = { exWindow with time_end := 12, data_end := ((exWindow.slot 12 : Nat) : Int) } ∧
    (exWindow.write_ts 12).1 =
      (if toSizeT (exWindow.data_start + (12 - exWindow.time_start)) ≥ exWindow.buf_len ∧
          ((exWindow.slot 12 : Nat) : Int) > exWindow.data_start
        then -ERR_OVERFLOW else 0) :=
  zero_length_write_advances_end exWindow 12 (by decide) (by decide) (by decide) (by decide)
    (by decide)

/-- C3 (amended) at the window `[5, 10)`: a write ending at 5 and a read ending at 12. -/
theorem outside_window_refused_witness :
    (exWindow.write [0, 0] 2 3 = (-ERR_TIMESTAMP, exWindow) ∧
      exWindow.get_wr_buf 3 2 =
        (Ptr.null, some (if exWindow.tag = Ptr.null then ERR_TIMESTAMP else ERR_MEM),
          exWindow)) ∧
    (exWindow.read [0, 0, 0] 3 9 = (-ERR_TIMESTAMP, [0, 0, 0], exWindow) ∧
      exWindow.get_rd_buf 9 3 =
        (Ptr.null, some (if exWindow.tag = Ptr.null then ERR_TIMESTAMP else ERR_MEM),
          exWindow)) :=
  ⟨(outside_window_refused exWindow [0, 0] 2 3).1 (by decide),
   (outside_window_refused exWindow [0, 0, 0] 3 9).2 (by decide)⟩

theorem tag_of_guarded (c1 c2 : Prop) [Decidable c1] [Decidable c2] (s1 s2 : ts_buffer)
    (buf : Ptr) (e : Option Int) (h : s2.tag = buf) :
    (if c1 then ((Ptr.null, e, s1) : Ptr × Option Int × ts_buffer)
      else if c2 then (Ptr.null, e, s1) else (buf, e, s2)).1 ≠ Ptr.null →
    (if c1 then ((Ptr.null, e, s1) : Ptr × Option Int × ts_buffer)
      else if c2 then (Ptr.null, e, s1) else (buf, e, s2)).2.2.tag
      = (if c1 then ((Ptr.null, e, s1) : Ptr × Option Int × ts_buffer)
          else if c2 then (Ptr.null, e, s1) else (buf, e, s2)).1 := by
  split_ifs <;> simp [h]

/-- C9: while a tag is outstanding (`tag` is non-null), every `get_rd_buf` and `get_wr_buf`
returns `NULL` with `ERR_MEM` and leaves the buffer unchanged; `commit_rd` and `commit_wr`
return true exactly for the outstanding pointer, then clear the tag, and otherwise return
false and leave the buffer unchanged; after a commit no zero-copy request is refused with
`ERR_MEM`.  A tag becomes outstanding with every non-null pointer returned by `get_rd_buf`
or `get_wr_buf`. -/
theorem single_tag_outstanding (s : ts_buffer) (h : s.tag ≠ Ptr.null) :
    (∀ ts len, s.get_rd_buf ts len = (Ptr.null, some ERR_MEM, s)) ∧
    (∀ ts len, s.get_wr_buf ts len = (Ptr.null, some ERR_MEM, s)) ∧
    (∀ p, (s.commit_rd p).1 = true ↔ p = s.tag) ∧
    (∀ p, (s.commit_wr p).1 = true ↔ p = s.tag) ∧
    (∀ p, p ≠ s.tag → s.commit_rd p = (false, s) ∧ s.commit_wr p = (false, s)) ∧
    (s.commit_rd s.tag).2.tag = Ptr.null ∧
    (s.commit_wr s.tag).2.tag = Ptr.null ∧
    (∀ ts len, ((s.commit_rd s.tag).2.get_rd_buf ts len).2.1 ≠ some ERR_MEM ∧
               ((s.commit_rd s.tag).2.get_wr_buf ts len).2.1 ≠ some ERR_MEM ∧
               ((s.commit_wr s.tag).2.get_rd_buf ts len).2.1 ≠ some ERR_MEM ∧
               ((s.commit_wr s.tag).2.get_wr_buf ts len).2.1 ≠ some ERR_MEM) ∧
    (∀ (u : ts_buffer) ts len, (u.get_rd_buf ts len).1 ≠ Ptr.null →
      (u.get_rd_buf ts len).2.2.tag = (u.get_rd_buf ts len).1) ∧
    (∀ (u : ts_buffer) ts len, (u.get_wr_buf ts len).1 ≠ Ptr.null →
      (u.get_wr_buf ts len).2.2.tag = (u.get_wr_buf ts len).1) := by
  have hrd : s.commit_rd s.tag
      = (true, { s with heap := if s.tag_alloc then release s.heap s.tag else s.heap,
                        tag := Ptr.null }) := by
    unfold commit_rd
    rw [if_neg (by simp [h])]
  have hwr : (s.commit_wr s.tag).1 = true ∧ (s.commit_wr s.tag).2.tag = Ptr.null := by
    unfold commit_wr
    rw [if_neg (by simp [h])]
    split_ifs <;> simp
  have hfree_rd : ∀ (u : ts_buffer) ts len, u.tag = Ptr.null →
      (u.get_rd_buf ts len).2.1 ≠ some ERR_MEM := by
    intro u ts len hu
    unfold get_rd_buf
    rw [if_neg (by simp [hu])]
    dsimp only
    split_ifs <;> simp [ERR_TIMESTAMP, ERR_MEM]
  have hfree_wr : ∀ (u : ts_buffer) ts len, u.tag = Ptr.null →
      (u.get_wr_buf ts len).2.1 ≠ some ERR_MEM := by
    intro u ts len hu
    unfold get_wr_buf
    rw [if_neg (by simp [hu])]
    dsimp only
    split_ifs <;> simp [ERR_TIMESTAMP, ERR_MEM]
  refine ⟨?_, ?_, ?_, ?_, ?_, ?_, hwr.2, ?_, ?_, ?_⟩
  · intro ts len; unfold get_rd_buf; rw [if_pos h]
  · intro ts len; unfold get_wr_buf; rw [if_pos h]
  · intro p
    constructor
    · intro hp
      by_contra hne
      have : s.commit_rd p = (false, s) := by unfold commit_rd; rw [if_pos (Or.inr hne)]
      rw [this] at hp
      exact Bool.false_ne_true hp
    · intro hp; rw [hp, hrd]
  · intro p
    constructor
    · intro hp
      by_contra hne
      have : s.commit_wr p = (false, s) := by unfold commit_wr; rw [if_pos (Or.inr hne)]
      rw [this] at hp
      exact Bool.false_ne_true hp
    · intro hp; rw [hp]; exact hwr.1
  · intro p hne
    constructor
    · unfold commit_rd; rw [if_pos (Or.inr hne)]
    · unfold commit_wr; rw [if_pos (Or.inr hne)]
  · rw [hrd]
  · intro ts len
    have h1 : (s.commit_rd s.tag).2.tag = Ptr.null := by rw [hrd]
    exact ⟨hfree_rd _ ts len h1, hfree_wr _ ts len h1, hfree_rd _ ts len hwr.2,
      hfree_wr _ ts len hwr.2⟩
  · intro u ts len
    unfold get_rd_buf
    dsimp only
    split_ifs <;> simp
  · intro u ts len
    by_cases htag : u.tag = Ptr.null
    · by_cases hc : len ≥ u.buf_len ∨ ts < 0 ∨ ts + (len : Int) ≤ u.time_end
      · have e : u.get_wr_buf ts len = (Ptr.null, some ERR_TIMESTAMP, u) := by
          unfold get_wr_buf; rw [if_neg (by simp [htag]), if_pos hc]
        rw [e]; intro hne; exact absurd rfl hne
      · unfold get_wr_buf
        rw [if_neg (by simp [htag]), if_neg hc]
        exact tag_of_guarded _ _ _ _ _ _ rfl
    · have e : u.get_wr_buf ts len = (Ptr.null, some ERR_MEM, u) := by
        unfold get_wr_buf; rw [if_pos htag]
      rw [e]; intro hne; exact absurd rfl hne

/-- C9 at the buffer `exTagged`, where the pointer returned by `get_rd_buf(5, 2)` is
outstanding. -/
theorem single_tag_outstanding_witness :
    (∀ ts len, exTagged.get_rd_buf ts len = (Ptr.null, some ERR_MEM, exTagged)) ∧
    (∀ ts len, exTagged.get_wr_buf ts len = (Ptr.null, some ERR_MEM, exTagged)) ∧
    (∀ p, (exTagged.commit_rd p).1 = true ↔ p = exTagged.tag) ∧
    (∀ p, (exTagged.commit_wr p).1 = true ↔ p = exTagged.tag) ∧
    (∀ p, p ≠ exTagged.tag →
      exTagged.commit_rd p = (false, exTagged) ∧ exTagged.commit_wr p = (false, exTagged)) ∧
    (exTagged.commit_rd exTagged.tag).2.tag = Ptr.null ∧
    (exTagged.commit_wr exTagged.tag).2.tag = Ptr.null ∧
    (∀ ts len,
      ((exTagged.commit_rd exTagged.tag).2.get_rd_buf ts len).2.1 ≠ some ERR_MEM ∧
      ((exTagged.commit_rd exTagged.tag).2.get_wr_buf ts len).2.1 ≠ some ERR_MEM ∧
      ((exTagged.commit_wr exTagged.tag).2.get_rd_buf ts len).2.1 ≠ some ERR_MEM ∧
      ((exTagged.commit_wr exTagged.tag).2.get_wr_buf ts len).2.1 ≠ some ERR_MEM) ∧
    (∀ (u : ts_buffer) ts len, (u.get_rd_buf ts len).1 ≠ Ptr.null →
      (u.get_rd_buf ts len).2.2.tag = (u.get_rd_buf ts len).1) ∧
    (∀ (u : ts_buffer) ts len, (u.get_wr_buf ts len).1 ≠ Ptr.null →
      (u.get_wr_buf ts len).2.2.tag = (u.get_wr_buf ts len).1) :=
  single_tag_outstanding exTagged (by decide)

end ts_buffer

/-! ## Polyphase resampler: properties -/

namespace Resampler

variable {α H β : Type}

theorem getD_toNat_add (l : List α) (d : α) (a : Nat) (j : Int) (hj : 0 ≤ j) :
    l.getD (((a : Int) + j).toNat) d = (l.drop a).getD j.toNat d := by
  obtain ⟨m, rfl⟩ : ∃ m : Nat, j = (m : Int) := ⟨j.toNat, (Int.toNat_of_nonneg hj).symm⟩
  have e : ((a : Int) + (m : Int)).toNat = a + m := by
    rw [← Nat.cast_add]; exact Int.toNat_natCast _
  rw [e, Int.toNat_natCast]
  simp [List.getD_eq_getElem?_getD, List.getElem?_drop]

/-- After the history has been inserted, the samples at and after `-hlen` are those of
`history ++ data`. -/
theorem at_insert_history [Inhabited α] (v : cxvec α) (h : List α) (k : Int)
    (hh : h.length ≤ v.head.length) (hk : -(h.length : Int) ≤ k) :
    (v.insert_history h).at k = (h ++ v.data).getD (((h.length : Int) + k).toNat) default := by
  obtain ⟨m, hm⟩ : ∃ m : Nat, (h.length : Int) + k = (m : Int) :=
    ⟨((h.length : Int) + k).toNat, (Int.toNat_of_nonneg (by omega)).symm⟩
  have hlen : (v.head.take (v.head.length - h.length) ++ h).length = v.head.length := by
    simp; omega
  have hT : (v.head.take (v.head.length - h.length)).length = v.head.length - h.length := by
    simp
  unfold cxvec.at cxvec.insert_history
  simp only [hlen]
  have e : (v.head.length : Int) + k = ((v.head.length - h.length + m : Nat) : Int) := by
    push_cast [Nat.cast_sub hh]; omega
  rw [if_pos (by omega), e, hm, Int.toNat_natCast, Int.toNat_natCast, List.append_assoc]
  simp only [List.getD_eq_getElem?_getD]
  rw [List.getElem?_append_right (by omega)]
  congr 2
  omega

theorem map_range_getD (l : List α) (d : α) (a n : Nat) (h : l.length = a + n) :
    (List.range n).map (fun m => l.getD (a + m) d) = l.drop a := by
  apply List.ext_getElem
  · simp; omega
  · intro i h1 h2
    simp only [List.length_map, List.length_range] at h1
    simp [List.getD_eq_getElem?_getD, List.getElem?_eq_getElem (show a + i < l.length by omega)]

/-- The history saved by `rotate`: the last `hlen` samples of `history ++ data`. -/
theorem saved_history [Inhabited α] (v : cxvec α) (h : List α)
    (hh : h.length ≤ v.head.length) :
    (List.range h.length).map (fun (j : Nat) =>
        (v.insert_history h).at ((cxvec_len v : Int) - (h.length : Int) + (j : Int)))
      = (h ++ v.data).drop v.data.length := by
  rw [← map_range_getD (h ++ v.data) default v.data.length h.length (by simp; omega)]
  apply List.map_congr_left
  intro j _
  rw [at_insert_history v h _ hh (by unfold cxvec_len; omega)]
  congr 1
  unfold cxvec_len
  omega

theorem inputIndex_computePath (r : Resampler α H) (i : Nat) (hi : i < MAX_OUTPUT_LEN) :
    r.computePath.inputIndex.getD i 0 = (r.mQ * i) / r.mP := by
  simp [computePath, List.getD_eq_getElem?_getD, List.getElem?_eq_getElem, hi]

theorem outputPath_computePath (r : Resampler α H) (i : Nat) (hi : i < MAX_OUTPUT_LEN) :
    r.computePath.outputPath.getD i 0 = (r.mQ * i) % r.mP := by
  simp [computePath, List.getD_eq_getElem?_getD, List.getElem?_eq_getElem, hi]

theorem check_vec_len_blocks (L p q : Nat) (hp : 0 < p) (hL : L % q = 0)
    (hmax : L / q * p ≤ MAX_OUTPUT_LEN) :
    check_vec_len L (some (L / q * p)) p q = true := by
  unfold check_vec_len
  have h1 : (L / q * p) % p = 0 := Nat.mul_mod_left _ _
  have h2 : L / q * p / p = L / q := Nat.mul_div_cancel _ hp
  simp [hL, h1, h2]
  omega

/-- Closed form of a `rotate` whose length check passes. -/
theorem rotate_ok [Inhabited α] (conv : (Int → α) → H → β) (r : Resampler α H)
    (inp : cxvec α) (out : List β) (len : Nat)
    (hc : check_vec_len (cxvec_len inp) (some out.length) r.mP r.mQ = true)
    (hh : r.history.length ≤ inp.head.length) :
    rotate conv r inp out len =
      ((out.length : Int), inp.insert_history r.history,
       (List.range len).map (fun (i : Nat) =>
          conv (fun k => (inp.insert_history r.history).at
              (((r.inputIndex.getD i 0 : Nat) : Int) - (r.mDelay : Int) + k))
            (r.partitions (r.outputPath.getD i 0)))
         ++ out.drop len,
       { r with history := (r.history ++ inp.data).drop inp.data.length }) := by
  unfold rotate
  simp only [hc, Bool.not_true, Bool.false_eq_true, if_false]
  rw [saved_history inp r.history hh]

theorem path_shift (P Q L i : Nat) (hP : 0 < P) (hL : L % Q = 0) :
    (Q * (L / Q * P + i)) / P = (Q * i) / P + L ∧
    (Q * (L / Q * P + i)) % P = (Q * i) % P := by
  have hd : Q * (L / Q) = L := Nat.mul_div_cancel' (Nat.dvd_of_mod_eq_zero hL)
  have e : Q * (L / Q * P + i) = Q * i + L * P := by
    rw [Nat.mul_add, ← Nat.mul_assoc, hd, Nat.add_comm]
  rw [e]
  exact ⟨Nat.add_mul_div_right _ _ hP, Nat.add_mul_mod_self_right _ _ _⟩

theorem inputIndex_lt (P Q L i : Nat) (hL : L % Q = 0) (hi : i < L / Q * P) :
    (Q * i) / P < L := by
  have hd : Q * (L / Q) = L := Nat.mul_div_cancel' (Nat.dvd_of_mod_eq_zero hL)
  apply Nat.div_lt_of_lt_mul
  have hQ : 0 < Q := by
    rcases Nat.eq_zero_or_pos Q with h | h
    · subst h; simp at hi
    · exact h
  calc Q * i < Q * (L / Q * P) := Nat.mul_lt_mul_of_pos_left hi hQ
    _ = P * L := by rw [← Nat.mul_assoc, hd, Nat.mul_comm]

/-- Samples seen by one output of the first block: the same in the block alone and in the
block followed by further samples. -/
theorem window_first [Inhabited α] (h0 a b : List α) (vA vW : cxvec α) (n F D : Nat) (k : Int)
    (hA : vA.data = a) (hW : vW.data = a ++ b) (hh : h0.length = F + D)
    (hhA : h0.length ≤ vA.head.length) (hhW : h0.length ≤ vW.head.length)
    (hn : n < a.length) (hk1 : -(F : Int) ≤ k) (hk2 : k ≤ (D : Int)) :
    (vA.insert_history h0).at ((n : Int) - (D : Int) + k)
      = (vW.insert_history h0).at ((n : Int) - (D : Int) + k) := by
  rw [at_insert_history vA h0 _ hhA (by omega), at_insert_history vW h0 _ hhW (by omega),
    hA, hW]
  have e : (h0 ++ (a ++ b))[((h0.length : Int) + ((n : Int) - (D : Int) + k)).toNat]?
      = (h0 ++ a)[((h0.length : Int) + ((n : Int) - (D : Int) + k)).toNat]? := by
    rw [← List.append_assoc]
    exact List.getElem?_append_left (by simp; omega)
  simp only [List.getD_eq_getElem?_getD, e]

/-- Samples seen by one output of the second block: the same in the block preceded by the
saved history and in the whole run, `L` samples further on. -/
theorem window_second [Inhabited α] (h0 a b : List α) (vB vW : cxvec α) (n F D : Nat)
    (k : Int) (hB : vB.data = b) (hW : vW.data = a ++ b) (hh : h0.length = F + D)
    (hhB : h0.length ≤ vB.head.length) (hhW : h0.length ≤ vW.head.length)
    (hk1 : -(F : Int) ≤ k) :
    (vB.insert_history ((h0 ++ a).drop a.length)).at ((n : Int) - (D : Int) + k)
      = (vW.insert_history h0).at (((n + a.length : Nat) : Int) - (D : Int) + k) := by
  have hl : ((h0 ++ a).drop a.length).length = h0.length := by simp
  have hX : (h0 ++ a).drop a.length ++ b = (h0 ++ (a ++ b)).drop a.length := by
    rw [← List.append_assoc h0 a b]
    exact (List.drop_append_of_le_length (by simp)).symm
  have eL := at_insert_history vB ((h0 ++ a).drop a.length) ((n : Int) - (D : Int) + k)
    (by rw [hl]; exact hhB) (by rw [hl, hh]; push_cast; omega)
  have eR := at_insert_history vW h0 (((n + a.length : Nat) : Int) - (D : Int) + k) hhW
    (by rw [hh]; push_cast; omega)
  have e : (h0.length : Int) + (((n + a.length : Nat) : Int) - (D : Int) + k)
      = (a.length : Int) + ((h0.length : Int) + ((n : Int) - (D : Int) + k)) := by
    push_cast; ring
  rw [eL, eR, hB, hW, hl, hX, e]
  exact (getD_toNat_add _ _ _ _ (by rw [hh]; push_cast; omega)).symm

theorem computePath_mP (r : Resampler α H) : r.computePath.mP = r.mP := by
  unfold computePath; rfl

theorem computePath_mQ (r : Resampler α H) : r.computePath.mQ = r.mQ := by
  simp only [computePath]

theorem computePath_mDelay (r : Resampler α H) : r.computePath.mDelay = r.mDelay := by
  simp only [computePath]

theorem computePath_history (r : Resampler α H) : r.computePath.history = r.history := by
  simp only [computePath]

theorem computePath_partitions (r : Resampler α H) :
    r.computePath.partitions = r.partitions := by
  simp only [computePath]

theorem history_two_blocks (h0 a b : List α) :
    ((h0 ++ a).drop a.length ++ b).drop b.length = (h0 ++ (a ++ b)).drop (a ++ b).length := by
  have hX : (h0 ++ a).drop a.length ++ b = (h0 ++ (a ++ b)).drop a.length := by
    rw [← List.append_assoc h0 a b]
    exact (List.drop_append_of_le_length (by simp)).symm
  rw [hX, List.drop_drop, List.length_append]

/-- C10: with one instance, `rotate` on a block `A` and then on a block `B` of the same
length `L` (a multiple of `Q`) produces, concatenated, the output samples of one `rotate`
call over the block `A` followed by `B` from the same starting history (the output of the
whole block being within `MAX_OUTPUT_LEN`), and leaves the same resampler state, the history
included.  `single_convolve` is any routine that reads its input only at the offsets
`-filterLength .. delay` around its input pointer. -/
theorem rotate_two_blocks_eq_whole [Inhabited α] (single_convolve : (Int → α) → H → β)
    (r : Resampler α H) (A B W : cxvec α) (outA outB outW : List β) (L : Nat)
    (hconv : ∀ (f g : Int → α) (h : H),
      (∀ k : Int, -(r.mFiltLen : Int) ≤ k → k ≤ (r.mDelay : Int) → f k = g k) →
        single_convolve f h = single_convolve g h)
    (hP : 0 < r.mP) (hQ : 0 < r.mQ)
    (hhist : r.history.length = r.mFiltLen + r.mDelay)
    (hL : L % r.mQ = 0) (hLh : r.mFiltLen + r.mDelay ≤ L)
    (hA : A.data.length = L) (hB : B.data.length = L) (hW : W.data = A.data ++ B.data)
    (hheadA : r.mFiltLen + r.mDelay ≤ A.head.length)
    (hheadB : r.mFiltLen + r.mDelay ≤ B.head.length)
    (hheadW : r.mFiltLen + r.mDelay ≤ W.head.length)
    (hoA : outA.length = L / r.mQ * r.mP) (hoB : outB.length = L / r.mQ * r.mP)
    (hoW : outW.length = 2 * (L / r.mQ * r.mP))
    (hmax : 2 * (L / r.mQ * r.mP) ≤ MAX_OUTPUT_LEN) :
    (rotate_all single_convolve r.computePath A outA).1 = (outA.length : Int) ∧
    (rotate_all single_convolve
        (rotate_all single_convolve r.computePath A outA).2.2.2 B outB).1
      = (outB.length : Int) ∧
    (rotate_all single_convolve r.computePath W outW).1 = (outW.length : Int) ∧
    (rotate_all single_convolve r.computePath W outW).2.2.1
      = (rotate_all single_convolve r.computePath A outA).2.2.1
        ++ (rotate_all single_convolve
              (rotate_all single_convolve r.computePath A outA).2.2.2 B outB).2.2.1 ∧
    (rotate_all single_convolve r.computePath W outW).2.2.2
      = (rotate_all single_convolve
          (rotate_all single_convolve r.computePath A outA).2.2.2 B outB).2.2.2 := by
  have hWlen : W.data.length = L + L := by rw [hW, List.length_append, hA, hB]
  have hdiv : (L + L) / r.mQ * r.mP = 2 * (L / r.mQ * r.mP) := by
    have hd : r.mQ ∣ L := Nat.dvd_of_mod_eq_zero hL
    obtain ⟨c, rfl⟩ := hd
    rw [← Nat.mul_add, Nat.mul_div_cancel_left _ hQ, Nat.mul_div_cancel_left _ hQ]
    ring
  have hLL : (L + L) % r.mQ = 0 := by
    have hd : r.mQ ∣ L := Nat.dvd_of_mod_eq_zero hL
    exact Nat.mod_eq_zero_of_dvd (Nat.dvd_add hd hd)
  have hcA : check_vec_len (cxvec_len A) (some outA.length) r.computePath.mP
      r.computePath.mQ = true := by
    unfold cxvec_len
    rw [hA, hoA, computePath_mP, computePath_mQ]
    exact check_vec_len_blocks L r.mP r.mQ hP hL (by omega)
  have hcW : check_vec_len (cxvec_len W) (some outW.length) r.computePath.mP
      r.computePath.mQ = true := by
    unfold cxvec_len
    rw [hWlen, hoW, ← hdiv, computePath_mP, computePath_mQ]
    exact check_vec_len_blocks (L + L) r.mP r.mQ hP hLL (by omega)
  have e1 := rotate_ok single_convolve r.computePath A outA outA.length hcA
    (by rw [computePath_history]; omega)
  have e3 := rotate_ok single_convolve r.computePath W outW outW.length hcW
    (by rw [computePath_history]; omega)
  have hr1 : (rotate_all single_convolve r.computePath A outA).2.2.2
      = { r.computePath with
          history := (r.computePath.history ++ A.data).drop A.data.length } := by
    unfold rotate_all; rw [e1]
  have hcB : check_vec_len (cxvec_len B) (some outB.length)
      ({ r.computePath with
          history := (r.computePath.history ++ A.data).drop A.data.length }
        : Resampler α H).mP
      ({ r.computePath with
          history := (r.computePath.history ++ A.data).drop A.data.length }
        : Resampler α H).mQ = true := by
    unfold cxvec_len
    simp only [computePath_mP, computePath_mQ]
    rw [hB, hoB]
    exact check_vec_len_blocks L r.mP r.mQ hP hL (by omega)
  have e2 := rotate_ok single_convolve
    ({ r.computePath with
          history := (r.computePath.history ++ A.data).drop A.data.length }
        : Resampler α H) B outB outB.length hcB
    (by simp only [computePath_history, List.length_drop, List.length_append]; omega)
  rw [hr1]
  unfold rotate_all
  rw [e1, e2, e3]
  dsimp only
  refine ⟨rfl, rfl, rfl, ?_, ?_⟩
  · simp only [computePath_history, computePath_mDelay, computePath_partitions]
    rw [List.drop_length, List.drop_length, List.drop_length, List.append_nil,
      List.append_nil, List.append_nil, hoW, hoA, hoB, two_mul, List.range_add,
      List.map_append, List.map_map]
    subst hA
    congr 1
    · apply List.map_congr_left
      intro i hi
      rw [List.mem_range] at hi
      rw [inputIndex_computePath r i (by omega)]
      apply hconv
      intro k hk1 hk2
      exact (window_first r.history A.data B.data A W _ r.mFiltLen r.mDelay k rfl hW hhist
        (by omega) (by omega) (inputIndex_lt r.mP r.mQ _ i hL hi) hk1 hk2).symm
    · apply List.map_congr_left
      intro i hi
      rw [List.mem_range] at hi
      simp only [Function.comp_apply]
      rw [inputIndex_computePath r i (by omega), outputPath_computePath r i (by omega),
        inputIndex_computePath r _ (by omega), outputPath_computePath r _ (by omega),
        (path_shift r.mP r.mQ _ i hP hL).1, (path_shift r.mP r.mQ _ i hP hL).2]
      apply hconv
      intro k hk1 _
      exact (window_second r.history A.data B.data B W _ r.mFiltLen r.mDelay k rfl hW hhist
        (by omega) (by omega) hk1).symm
  · rw [hW, history_two_blocks]

theorem exConv_local (f g : Int → Int) (h : List Int)
    (hfg : ∀ k : Int, -((3 : Nat) : Int) ≤ k → k ≤ ((0 : Nat) : Int) → f k = g k) :
    exConv f h = exConv g h := by
  unfold exConv
  rw [hfg (-2) (by decide) (by decide), hfg (-1) (by decide) (by decide),
    hfg 0 (by decide) (by decide)]

/-- C10 for `P / Q = 2 / 3`, three taps and two blocks of six samples. -/
theorem rotate_two_blocks_eq_whole_witness :
    (rotate_all exConv exResampler.computePath exBlockA [0, 0, 0, 0]).1
      = (([0, 0, 0, 0] : List Int).length : Int) ∧
    (rotate_all exConv
        (rotate_all exConv exResampler.computePath exBlockA [0, 0, 0, 0]).2.2.2
        exBlockB [0, 0, 0, 0]).1
      = (([0, 0, 0, 0] : List Int).length : Int) ∧
    (rotate_all exConv exResampler.computePath exBlockAB [0, 0, 0, 0, 0, 0, 0, 0]).1
      = (([0, 0, 0, 0, 0, 0, 0, 0] : List Int).length : Int) ∧
    (rotate_all exConv exResampler.computePath exBlockAB [0, 0, 0, 0, 0, 0, 0, 0]).2.2.1
      = (rotate_all exConv exResampler.computePath exBlockA [0, 0, 0, 0]).2.2.1
        ++ (rotate_all exConv
              (rotate_all exConv exResampler.computePath exBlockA [0, 0, 0, 0]).2.2.2
              exBlockB [0, 0, 0, 0]).2.2.1 ∧
    (rotate_all exConv exResampler.computePath exBlockAB [0, 0, 0, 0, 0, 0, 0, 0]).2.2.2
      = (rotate_all exConv
          (rotate_all exConv exResampler.computePath exBlockA [0, 0, 0, 0]).2.2.2
          exBlockB [0, 0, 0, 0]).2.2.2 :=
  rotate_two_blocks_eq_whole exConv exResampler exBlockA exBlockB exBlockAB [0, 0, 0, 0]
    [0, 0, 0, 0] [0, 0, 0, 0, 0, 0, 0, 0] 6 exConv_local (by decide) (by decide) (by decide)
    (by decide) (by decide) (by decide) (by decide) (by decide) (by decide) (by decide)
    (by decide) (by decide) (by decide) (by decide) (by decide)

theorem at_nonneg [Inhabited α] (v : cxvec α) (k : Int) (hk : 0 ≤ k) :
    v.at k = v.data.getD k.toNat default := by
  have h := at_insert_history v [] k (Nat.zero_le _) (by simpa using hk)
  have e : v.insert_history [] = v := by simp [cxvec.insert_history]
  rw [e] at h
  rw [h]
  simp

/-- The history saved by `update` from a block at least as long as the history. -/
theorem update_history [Inhabited α] (v : cxvec α) (hlen : Nat) (h : hlen ≤ v.data.length) :
    (List.range hlen).map (fun (j : Nat) =>
        v.at ((cxvec_len v : Int) - (hlen : Int) + (j : Int)))
      = v.data.drop (v.data.length - hlen) := by
  rw [← map_range_getD v.data default (v.data.length - hlen) hlen (by omega)]
  apply List.map_congr_left
  intro j _
  unfold cxvec_len
  rw [at_nonneg v _ (by omega)]
  congr 1
  omega

theorem rotate_fail [Inhabited α] (conv : (Int → α) → H → β) (r : Resampler α H)
    (inp : cxvec α) (out : List β) (len : Nat)
    (hc : check_vec_len (cxvec_len inp) (some out.length) r.mP r.mQ = false) :
    rotate conv r inp out len = (-1, inp, out, r) := by
  unfold rotate
  simp [hc]

theorem check_vec_len_some (ilen olen p q : Nat) :
    check_vec_len ilen (some olen) p q = true ↔
      ilen % q = 0 ∧ olen % p = 0 ∧ ilen / q = olen / p ∧ olen ≤ MAX_OUTPUT_LEN := by
  unfold check_vec_len
  by_cases h1 : ilen % q = 0 <;> by_cases h2 : olen % p = 0 <;>
    by_cases h3 : ilen / q = olen / p <;> by_cases h4 : olen ≤ MAX_OUTPUT_LEN <;>
    simp [h1, h2, h3, h4]

theorem check_vec_len_none (ilen p q : Nat) :
    check_vec_len ilen none p q = true ↔ ilen % q = 0 := by
  unfold check_vec_len
  by_cases h1 : ilen % q = 0 <;> simp [h1]

/-- C11: for an input block whose length is a multiple of `Q` and at least the history
length `filterLength + delay`, `update` returns 0 and leaves as history the last
`filterLength + delay` samples of the block, whatever the history was before, and a
successful `rotate` on the same block leaves the same history (and the same resampler);
for any block, `update` returns -1 exactly when the block length is not a multiple of `Q`,
and then leaves the resampler unchanged. -/
theorem update_history_as_rotate [Inhabited α] (single_convolve : (Int → α) → H → β)
    (r : Resampler α H) (inp : cxvec α) (out : List β)
    (hhist : r.history.length = r.mFiltLen + r.mDelay)
    (hQ : inp.data.length % r.mQ = 0)
    (hlen : r.mFiltLen + r.mDelay ≤ inp.data.length)
    (hhead : r.mFiltLen + r.mDelay ≤ inp.head.length)
    (hrot : (rotate_all single_convolve r inp out).1 ≠ -1) :
    (update r inp).1 = 0 ∧
    (update r inp).2.history = inp.data.drop (inp.data.length - (r.mFiltLen + r.mDelay)) ∧
    (rotate_all single_convolve r inp out).2.2.2.history = (update r inp).2.history ∧
    (rotate_all single_convolve r inp out).2.2.2 = (update r inp).2 ∧
    (∀ v : cxvec α, (update r v).1 = -1 ↔ v.data.length % r.mQ ≠ 0) ∧
    (∀ v : cxvec α, v.data.length % r.mQ ≠ 0 → update r v = (-1, r)) ∧
    (∀ v : cxvec α, v.data.length % r.mQ = 0 → (update r v).1 = 0) := by
  have hcn : check_vec_len (cxvec_len inp) none r.mP r.mQ = true :=
    (check_vec_len_none _ _ _).mpr hQ
  have hupd : update r inp
      = (0, { r with history := inp.data.drop (inp.data.length - (r.mFiltLen + r.mDelay)) }) := by
    unfold update
    simp only [hcn, Bool.not_true, Bool.false_eq_true, if_false]
    rw [update_history inp r.history.length (by omega), hhist]
  have hcs : check_vec_len (cxvec_len inp) (some out.length) r.mP r.mQ = true := by
    by_contra hne
    have hf : check_vec_len (cxvec_len inp) (some out.length) r.mP r.mQ = false := by
      simpa using hne
    apply hrot
    unfold rotate_all
    rw [rotate_fail single_convolve r inp out out.length hf]
  have hrot_eq := rotate_ok single_convolve r inp out out.length hcs (by omega)
  have hdrop : (r.history ++ inp.data).drop inp.data.length
      = inp.data.drop (inp.data.length - (r.mFiltLen + r.mDelay)) := by
    rw [List.drop_append_eq_append_drop, hhist,
      List.drop_eq_nil_of_le (by omega : r.history.length ≤ inp.data.length), List.nil_append]
  have hfail : ∀ v : cxvec α, v.data.length % r.mQ ≠ 0 → update r v = (-1, r) := by
    intro v hv
    have hc : check_vec_len (cxvec_len v) none r.mP r.mQ = false := by
      have := (check_vec_len_none (cxvec_len v) r.mP r.mQ).not.mpr hv
      simpa using this
    unfold update
    simp [hc]
  have hsucc : ∀ v : cxvec α, v.data.length % r.mQ = 0 → (update r v).1 = 0 := by
    intro v hv
    have hc : check_vec_len (cxvec_len v) none r.mP r.mQ = true :=
      (check_vec_len_none _ _ _).mpr hv
    unfold update
    simp [hc]
  refine ⟨?_, ?_, ?_, ?_, ?_, hfail, hsucc⟩
  · rw [hupd]
  · rw [hupd]
  · unfold rotate_all; rw [hrot_eq, hupd, hdrop]
  · unfold rotate_all; rw [hrot_eq, hupd, hdrop]
  · intro v
    constructor
    · intro h1 hv
      rw [hsucc v hv] at h1
      exact absurd h1 (by decide)
    · intro hv
      rw [hfail v hv]

theorem check_exBlockA :
    check_vec_len (cxvec_len exBlockA) (some ([0, 0, 0, 0] : List Int).length)
      exResampler.mP exResampler.mQ = true := by
  decide

theorem rotate_exBlockA_ok :
    (rotate_all exConv exResampler exBlockA [0, 0, 0, 0]).1 ≠ -1 := by
  unfold rotate_all
  rw [rotate_ok exConv exResampler exBlockA [0, 0, 0, 0] _ check_exBlockA (by decide)]
  decide

/-- C11 for `P / Q = 2 / 3`, three taps and a block of six samples. -/
theorem update_history_as_rotate_witness :
    (update exResampler exBlockA).1 = 0 ∧
    (update exResampler exBlockA).2.history
      = exBlockA.data.drop (exBlockA.data.length - (exResampler.mFiltLen + exResampler.mDelay)) ∧
    (rotate_all exConv exResampler exBlockA [0, 0, 0, 0]).2.2.2.history
      = (update exResampler exBlockA).2.history ∧
    (rotate_all exConv exResampler exBlockA [0, 0, 0, 0]).2.2.2
      = (update exResampler exBlockA).2 ∧
    (∀ v : cxvec Int, (update exResampler v).1 = -1 ↔ v.data.length % exResampler.mQ ≠ 0) ∧
    (∀ v : cxvec Int, v.data.length % exResampler.mQ ≠ 0 →
      update exResampler v = (-1, exResampler)) ∧
    (∀ v : cxvec Int, v.data.length % exResampler.mQ = 0 → (update exResampler v).1 = 0) :=
  update_history_as_rotate exConv exResampler exBlockA [0, 0, 0, 0] (by decide) (by decide)
    (by decide) (by decide) rotate_exBlockA_ok

theorem exLongBlock_length : exLongBlock.length = MAX_OUTPUT_LEN + 1 := by
  unfold exLongBlock
  exact List.length_replicate _ _

/-- C12 (as stated) fails: with `P = Q = 1`, an input and an output vector of
`MAX_OUTPUT_LEN + 1 = 32769` samples satisfy all three length conditions, and `rotate`
returns -1. -/
theorem rotate_length_check_counterexample :
    exLongBlock.length = 32769 ∧
    exLongBlock.length % exUnitResampler.mQ = 0 ∧
    exLongBlock.length % exUnitResampler.mP = 0 ∧
    exLongBlock.length / exUnitResampler.mQ = exLongBlock.length / exUnitResampler.mP ∧
    (rotate_all exConv exUnitResampler { head := [0, 0, 0], data := exLongBlock }
        exLongBlock).1 = -1 := by
  have hc : check_vec_len (cxvec_len ({ head := [0, 0, 0], data := exLongBlock } : cxvec Int))
      (some exLongBlock.length) exUnitResampler.mP exUnitResampler.mQ = false := by
    unfold cxvec_len
    rw [exLongBlock_length]
    decide
  refine ⟨?_, ?_, ?_, ?_, ?_⟩
  · rw [exLongBlock_length]; decide
  · rw [exLongBlock_length]; decide
  · rw [exLongBlock_length]; decide
  · rw [exLongBlock_length]; decide
  · unfold rotate_all
    rw [rotate_fail exConv exUnitResampler _ exLongBlock _ hc]

/-- C12 (amended): `rotate(in, out)` returns -1 if and only if `len(in) mod Q ≠ 0`, or
`len(out) mod P ≠ 0`, or `len(in) / Q ≠ len(out) / P`, or `len(out) > MAX_OUTPUT_LEN`; when it
returns -1 the input vector, the output samples and the resampler (its history) are
unchanged, and otherwise it returns `len(out)`.  (`P, Q ≥ 1`: the source divides by them.) -/
theorem rotate_fails_iff [Inhabited α] (single_convolve : (Int → α) → H → β)
    (r : Resampler α H) (inp : cxvec α) (out : List β) :
    ((rotate_all single_convolve r inp out).1 = -1 ↔
      (inp.data.length % r.mQ ≠ 0 ∨ out.length % r.mP ≠ 0 ∨
        inp.data.length / r.mQ ≠ out.length / r.mP ∨ out.length > MAX_OUTPUT_LEN)) ∧
    ((rotate_all single_convolve r inp out).1 = -1 →
      rotate_all single_convolve r inp out = (-1, inp, out, r)) ∧
    ((rotate_all single_convolve r inp out).1 ≠ -1 →
      (rotate_all single_convolve r inp out).1 = (out.length : Int)) := by
  have hiff := check_vec_len_some (cxvec_len inp) out.length r.mP r.mQ
  unfold cxvec_len at hiff
  by_cases hc : check_vec_len (cxvec_len inp) (some out.length) r.mP r.mQ = true
  · have hret : (rotate_all single_convolve r inp out).1 = (out.length : Int) := by
      unfold rotate_all rotate
      simp [hc]
    have hne : (rotate_all single_convolve r inp out).1 ≠ -1 := by
      rw [hret]; omega
    have hall := hiff.mp hc
    refine ⟨⟨fun h => absurd h hne, fun h => ?_⟩, fun h => absurd h hne, fun _ => hret⟩
    omega
  · have hf : check_vec_len (cxvec_len inp) (some out.length) r.mP r.mQ = false := by
      simpa using hc
    have hret : rotate_all single_convolve r inp out = (-1, inp, out, r) := by
      unfold rotate_all
      exact rotate_fail single_convolve r inp out out.length hf
    have hnot : ¬ (inp.data.length % r.mQ = 0 ∧ out.length % r.mP = 0 ∧
        inp.data.length / r.mQ = out.length / r.mP ∧ out.length ≤ MAX_OUTPUT_LEN) :=
      fun h => hc (hiff.mpr h)
    refine ⟨⟨fun _ => ?_, fun _ => by rw [hret]⟩, fun _ => hret, fun h => ?_⟩
    · by_contra hcon
      apply hnot
      refine ⟨?_, ?_, ?_, ?_⟩ <;> omega
    · rw [hret] at h
      exact absurd rfl h

theorem check_of_rotate_ok [Inhabited α] (conv : (Int → α) → H → β) (r : Resampler α H)
    (inp : cxvec α) (out : List β) (len : Nat) (h : (rotate conv r inp out len).1 ≠ -1) :
    check_vec_len (cxvec_len inp) (some out.length) r.mP r.mQ = true := by
  by_contra hne
  have hf : check_vec_len (cxvec_len inp) (some out.length) r.mP r.mQ = false := by
    simpa using hne
  apply h
  rw [rotate_fail conv r inp out len hf]

theorem rotate_result [Inhabited α] (conv : (Int → α) → H → β) (r : Resampler α H)
    (inp : cxvec α) (out : List β) (len : Nat)
    (hc : check_vec_len (cxvec_len inp) (some out.length) r.mP r.mQ = true) :
    (rotate conv r inp out len).1 = (out.length : Int) := by
  unfold rotate
  simp [hc]

/-- C13: the value `r` returned by a `rotate` call that succeeds satisfies
`r * Q = len(in) * P`, for all `P` and `Q` (in particular for all `P ≥ 1`, `Q ≥ 1`, coprime
or not); the value returned by `rotate(in, out, len)` does not depend on `len`, so the same
holds for `rotate(in, out)`. -/
theorem rotate_result_times_Q [Inhabited α] (single_convolve : (Int → α) → H → β)
    (r : Resampler α H) (inp : cxvec α) (out : List β) (len : Nat)
    (hsucc : (rotate single_convolve r inp out len).1 ≠ -1) :
    (rotate single_convolve r inp out len).1 * (r.mQ : Int)
      = (inp.data.length : Int) * (r.mP : Int) ∧
    (rotate_all single_convolve r inp out).1 = (rotate single_convolve r inp out len).1 := by
  have hc := check_of_rotate_ok single_convolve r inp out len hsucc
  have hall : (rotate_all single_convolve r inp out).1
      = (rotate single_convolve r inp out len).1 := by
    unfold rotate_all
    rw [rotate_result single_convolve r inp out len hc,
      rotate_result single_convolve r inp out out.length hc]
  refine ⟨?_, hall⟩
  rw [rotate_result single_convolve r inp out len hc]
  obtain ⟨h1, h2, h3, _⟩ := (check_vec_len_some _ _ _ _).mp hc
  unfold cxvec_len at h1 h3
  have e1 : out.length / r.mP * r.mP = out.length :=
    Nat.div_mul_cancel (Nat.dvd_of_mod_eq_zero h2)
  have e2 : inp.data.length / r.mQ * r.mQ = inp.data.length :=
    Nat.div_mul_cancel (Nat.dvd_of_mod_eq_zero h1)
  have e3 : out.length * r.mQ = inp.data.length * r.mP := by
    calc out.length * r.mQ = out.length / r.mP * r.mP * r.mQ := by rw [e1]
      _ = inp.data.length / r.mQ * r.mQ * r.mP := by rw [← h3]; ring
      _ = inp.data.length * r.mP := by rw [e2]
  exact_mod_cast e3

/-- C13 for `P / Q = 2 / 3` and a block of six samples: the call succeeds and returns 4,
and `4 * 3 = 6 * 2`. -/
theorem rotate_result_times_Q_witness :
    (rotate exConv exResampler exBlockA [0, 0, 0, 0] 4).1 ≠ -1 ∧
    (rotate exConv exResampler exBlockA [0, 0, 0, 0] 4).1 * (exResampler.mQ : Int)
      = (exBlockA.data.length : Int) * (exResampler.mP : Int) ∧
    (rotate_all exConv exResampler exBlockA [0, 0, 0, 0]).1
      = (rotate exConv exResampler exBlockA [0, 0, 0, 0] 4).1 :=
  ⟨rotate_exBlockA_ok, rotate_result_times_Q exConv exResampler exBlockA [0, 0, 0, 0] 4
    rotate_exBlockA_ok⟩

theorem check_exBlockA_computePath :
    check_vec_len (cxvec_len exBlockA) (some ([0, 0, 0, 0] : List Int).length)
      exResampler.computePath.mP exResampler.computePath.mQ = true := by
  rw [computePath_mP, computePath_mQ]
  decide

/-- C14, the code at a failing input: with `P / Q = 2 / 3`, an input block of six samples
and an output vector of four, `rotate(in, out, 2)` computes the output samples 0 and 1,
leaves the samples 2 and 3 of the output vector as they were, and returns 4, the length of
the output vector, not 2, the number of samples produced. -/
theorem rotate_explicit_length_result :
    (rotate exConv exResampler.computePath exBlockA [0, 0, 0, 0] 2).1 = 4 ∧
    (rotate exConv exResampler.computePath exBlockA [0, 0, 0, 0] 2).1 ≠ 2 ∧
    (rotate exConv exResampler.computePath exBlockA [0, 0, 0, 0] 2).2.2.1
      = [803, 1529, 0, 0] := by
  have h := rotate_ok exConv exResampler.computePath exBlockA [0, 0, 0, 0] 2
    check_exBlockA_computePath (by rw [computePath_history]; decide)
  have hr : List.range 2 = [0, 1] := by decide
  rw [h]
  refine ⟨by decide, by decide, ?_⟩
  simp only [hr, List.map_cons, List.map_nil, computePath_history, computePath_mDelay,
    computePath_partitions]
  rw [inputIndex_computePath exResampler 0 (by decide),
    inputIndex_computePath exResampler 1 (by decide),
    outputPath_computePath exResampler 0 (by decide),
    outputPath_computePath exResampler 1 (by decide)]
  decide

/-- C15, the code at a failing input: when the allocation of the partition table fails,
`initFilters` returns false, and `init` still returns true. -/
theorem init_ignores_filterbank_failure :
    (initFilters exResampler false exResampler.partitions).1 = false ∧
    (init exResampler false exResampler.partitions 0).1 = true := by
  constructor
  · simp [initFilters]
  · simp [init, initFilters]

end Resampler

/-! ## Subframe I/O: properties -/

theorem tof_some (K : lte_params) (g : io_state) (f : Int → Int → Int) (coarse fine state : Int)
    (hf : g.fine_timing_offset = some f) :
    comp_timing_offset K g coarse fine state =
      some (if fine = 9999 then -1
        else if fine ≠ 0 ∧ (coarse = 0 ∨ coarse = 1) then f coarse (fine + 32)
        else if coarse ≥ -5 ∧ coarse ≤ 5 then
          (if state = 0 then Int.tdiv coarse 2 else coarse * g.pss_adj)
        else if coarse ≠ 0 then (coarse - (K.LTE_N0_SLOT_LEN - K.LTE_N0_CP0_LEN - 1)) * g.pss_adj
        else 0) := by
  unfold comp_timing_offset
  simp only [hf]
  split_ifs <;> rfl

theorem spec_eq_of_func (LIM0 LIM1 pss_adj pss_offset coarse fine state : Int) :
    comp_timing_offset_spec LIM0 LIM1 pss_adj pss_offset coarse fine state =
      (if fine = 9999 then -1
        else if fine ≠ 0 ∧ (coarse = 0 ∨ coarse = 1) then
          TIMING_OFFSET_FUNC LIM0 LIM1 coarse (fine + 32)
        else if coarse ≥ -5 ∧ coarse ≤ 5 then
          (if state = 0 then Int.tdiv coarse 2 else coarse * pss_adj)
        else if coarse ≠ 0 then (coarse - pss_offset) * pss_adj
        else 0) := by
  unfold comp_timing_offset_spec TIMING_OFFSET_FUNC
  split_ifs <;> first | rfl | omega

theorem init_selects (g : io_state) (ts sf_len fr_len rbs LIM0 LIM1 : Int)
    (h : timing_table_spec rbs = some (LIM0, LIM1)) :
    (lte_radio_iface_init g (some ts) sf_len fr_len rbs).1 = 0 ∧
    (lte_radio_iface_init g (some ts) sf_len fr_len rbs).2.fine_timing_offset
      = some (TIMING_OFFSET_FUNC LIM0 LIM1) := by
  unfold timing_table_spec at h
  unfold lte_radio_iface_init
  split_ifs at h with h1 h2 h3 h4 h5 h6 <;>
    simp only [Option.some.injEq, Prod.mk.injEq] at h <;>
    obtain ⟨rfl, rfl⟩ := h <;> subst_vars <;> simp <;> rfl

/-- C16: after `lte_radio_iface_init` for a supported bandwidth, `comp_timing_offset` equals
the piecewise reference of the specification with the table entry `(LIM0, LIM1)` of that
bandwidth, for all inputs; in the nudge case the result is -1, 0 or +1. -/
theorem comp_timing_offset_eq_spec (K : lte_params) (g : io_state)
    (ts sf_len fr_len rbs LIM0 LIM1 : Int)
    (h : timing_table_spec rbs = some (LIM0, LIM1)) (coarse fine state : Int) :
    comp_timing_offset K (lte_radio_iface_init g (some ts) sf_len fr_len rbs).2
        coarse fine state
      = some (comp_timing_offset_spec LIM0 LIM1
          (lte_radio_iface_init g (some ts) sf_len fr_len rbs).2.pss_adj
          (K.LTE_N0_SLOT_LEN - K.LTE_N0_CP0_LEN - 1) coarse fine state) ∧
    (fine ≠ 9999 → fine ≠ 0 → (coarse = 0 ∨ coarse = 1) →
      comp_timing_offset K (lte_radio_iface_init g (some ts) sf_len fr_len rbs).2
          coarse fine state = some (-1) ∨
      comp_timing_offset K (lte_radio_iface_init g (some ts) sf_len fr_len rbs).2
          coarse fine state = some 0 ∨
      comp_timing_offset K (lte_radio_iface_init g (some ts) sf_len fr_len rbs).2
          coarse fine state = some 1) := by
  obtain ⟨_, hsel⟩ := init_selects g ts sf_len fr_len rbs LIM0 LIM1 h
  have e := tof_some K _ _ coarse fine state hsel
  constructor
  · rw [e, spec_eq_of_func]
  · intro h1 h2 h3
    rw [e]
    simp only [if_neg h1, if_pos (And.intro h2 h3), TIMING_OFFSET_FUNC]
    split_ifs <;> simp

/-- C16 for 25 resource blocks, table entry `(26, 13)`. -/
theorem comp_timing_offset_eq_spec_witness :
    comp_timing_offset K0 (lte_radio_iface_init io_state.start (some 0) 1920 19200 25).2
        1 (-18) 1
      = some (comp_timing_offset_spec 26 13
          (lte_radio_iface_init io_state.start (some 0) 1920 19200 25).2.pss_adj
          (K0.LTE_N0_SLOT_LEN - K0.LTE_N0_CP0_LEN - 1) 1 (-18) 1) ∧
    ((-18 : Int) ≠ 9999 → (-18 : Int) ≠ 0 → ((1 : Int) = 0 ∨ (1 : Int) = 1) →
      comp_timing_offset K0 (lte_radio_iface_init io_state.start (some 0) 1920 19200 25).2
          1 (-18) 1 = some (-1) ∨
      comp_timing_offset K0 (lte_radio_iface_init io_state.start (some 0) 1920 19200 25).2
          1 (-18) 1 = some 0 ∨
      comp_timing_offset K0 (lte_radio_iface_init io_state.start (some 0) 1920 19200 25).2
          1 (-18) 1 = some 1) :=
  comp_timing_offset_eq_spec K0 io_state.start 0 1920 19200 25 26 13 (by decide) 1 (-18) 1

/-- C17 (as stated) fails: for 100 resource blocks (`LIM1 = 6`), with coarse offset 1 a fine
phase exactly at `LIM1` yields no correction; the correction +1 starts at `LIM1 + 1`.  The
same through `comp_timing_offset`, which adds 32 to its argument first: the argument
`LIM1 - 32` yields no correction, and the arguments `LIM1` and `LIM1 - 1` both yield +1. -/
theorem nudge_boundary_counterexample :
    timing_offset_rb100 1 6 = 0 ∧ timing_offset_rb100 1 6 ≠ 1 ∧ timing_offset_rb100 1 7 = 1 ∧
    comp_timing_offset K0 (lte_radio_iface_init io_state.start (some 0) 23040 230400 100).2
        1 (6 - 32) 1 = some 0 ∧
    comp_timing_offset K0 (lte_radio_iface_init io_state.start (some 0) 23040 230400 100).2
        1 6 1 = some 1 ∧
    comp_timing_offset K0 (lte_radio_iface_init io_state.start (some 0) 23040 230400 100).2
        1 (6 - 1) 1 = some 1 := by
  decide

/-- C17 (amended): for every supported bandwidth, with coarse offset 1 a fine phase exactly
at `LIM1` (and one less) yields no correction and a fine phase one above `LIM1` yields +1;
with coarse offset 0 a fine phase exactly at `LIM0` yields no correction and one less
yields -1. -/
theorem nudge_boundary_values :
    (timing_offset_rb100 1 6 = 0 ∧ timing_offset_rb100 1 5 = 0 ∧ timing_offset_rb100 1 7 = 1 ∧
      timing_offset_rb100 0 32 = 0 ∧ timing_offset_rb100 0 31 = -1) ∧
    (timing_offset_rb75 1 9 = 0 ∧ timing_offset_rb75 1 8 = 0 ∧ timing_offset_rb75 1 10 = 1 ∧
      timing_offset_rb75 0 30 = 0 ∧ timing_offset_rb75 0 29 = -1) ∧
    (timing_offset_rb50 1 9 = 0 ∧ timing_offset_rb50 1 8 = 0 ∧ timing_offset_rb50 1 10 = 1 ∧
      timing_offset_rb50 0 29 = 0 ∧ timing_offset_rb50 0 28 = -1) ∧
    (timing_offset_rb25 1 13 = 0 ∧ timing_offset_rb25 1 12 = 0 ∧ timing_offset_rb25 1 14 = 1 ∧
      timing_offset_rb25 0 26 = 0 ∧ timing_offset_rb25 0 25 = -1) ∧
    (timing_offset_rb15 1 14 = 0 ∧ timing_offset_rb15 1 13 = 0 ∧ timing_offset_rb15 1 15 = 1 ∧
      timing_offset_rb15 0 22 = 0 ∧ timing_offset_rb15 0 21 = -1) ∧
    (timing_offset_rb6 1 16 = 0 ∧ timing_offset_rb6 1 15 = 0 ∧ timing_offset_rb6 1 17 = 1 ∧
      timing_offset_rb6 0 22 = 0 ∧ timing_offset_rb6 0 21 = -1) := by
  decide

/-! ## Synchronisation state machine: properties -/

theorem pss_sync_hit (K : lte_params) (rx : lte_rx) (d : detections)
    (h : d.pss_search.mag > 900) :
    (pss_sync K rx d).1 = true ∧
    (pss_sync K rx d).2.1 =
      { rx with
        sync := { rx.sync with
          coarse := if d.pss_search.coarse < pss_target K then
              d.pss_search.coarse + K.LTE_N0_SLOT_LEN * 10
            else d.pss_search.coarse,
          n_id_2 := d.pss_search.n_id_2 },
        time := { rx.time with slot := 0, subframe := 0 } } := by
  unfold pss_sync pss_target
  simp only [h, if_true]
  split_ifs <;> simp

theorem pss_sync_miss (K : lte_params) (rx : lte_rx) (d : detections)
    (h : ¬ d.pss_search.mag > 900) :
    pss_sync K rx d = (false, rx, d.pss_search) := by
  unfold pss_sync
  simp only [h, if_false]

/-- Closed form of `drive_common` in state `PSS_SYNC`. -/
theorem drive_common_pss (K : lte_params) (c : sync_ctx) (d : detections)
    (h : c.rx.state = lte_state.LTE_STATE_PSS_SYNC) :
    drive_common K c d =
      if d.pss_search.mag > 900 then
        { c with rx :=
          { c.rx with
            state := lte_state.LTE_STATE_PSS_SYNC2,
            sync := { c.rx.sync with
              coarse := if d.pss_search.coarse < pss_target K then
                  d.pss_search.coarse + K.LTE_N0_SLOT_LEN * 10
                else d.pss_search.coarse,
              n_id_2 := d.pss_search.n_id_2 },
            time := { c.rx.time with slot := 0, subframe := 0 } } }
      else { c with rx := { c.rx with sync := { c.rx.sync with fine := 9999 } } } := by
  unfold drive_common
  simp only [h]
  by_cases hm : d.pss_search.mag > 900
  · obtain ⟨h1, h2⟩ := pss_sync_hit K c.rx d hm
    simp only [h1, h2, hm, if_true]
  · rw [pss_sync_miss K c.rx d hm]
    simp only [hm, if_false, Bool.false_eq_true]
    rw [h]

/-- A `drive_pbch` step whose `drive_common` part does not end in state `PBCH` is that
part alone. -/
theorem drive_pbch_of_not_pbch (K : lte_params) (c : sync_ctx) (d : detections)
    (h : (drive_common K { c with rx := { c.rx with time := advance_time c.rx.time } } d).rx.state
      ≠ lte_state.LTE_STATE_PBCH) :
    drive_pbch K c d
      = (0, drive_common K { c with rx := { c.rx with time := advance_time c.rx.time } } d) := by
  unfold drive_pbch
  simp only []

/-- A `drive_pdsch` step whose `drive_common` part ends in one of the three acquisition states
is that part alone. -/
theorem drive_pdsch_of_acquiring (K : lte_params) (c : sync_ctx) (d : detections) (adjust : Int)
    (h : (drive_common K { c with rx := { c.rx with time := advance_time c.rx.time } } d).rx.state
        = lte_state.LTE_STATE_PSS_SYNC ∨
      (drive_common K { c with rx := { c.rx with time := advance_time c.rx.time } } d).rx.state
        = lte_state.LTE_STATE_PSS_SYNC2 ∨
      (drive_common K { c with rx := { c.rx with time := advance_time c.rx.time } } d).rx.state
        = lte_state.LTE_STATE_SSS_SYNC) :
    drive_pdsch K c d adjust
      = drive_common K { c with rx := { c.rx with time := advance_time c.rx.time } } d := by
  unfold drive_pdsch
  rcases h with h | h | h <;> simp only [h]

/-- C20: in state `PSS_SYNC` a step (`drive_common`, and with it a whole `drive_pbch` or
`drive_pdsch` step) moves to `PSS_SYNC2` exactly when the peak magnitude of the coarse
search exceeds the detection threshold, which is 900; it then records the coarse timing
(one frame of ten slots later when it lies before the expected position) and the candidate
sector id `n_id_2`; otherwise the state stays `PSS_SYNC` and the fine offset becomes 9999. -/
theorem pss_sync_step (K : lte_params) (c : sync_ctx) (d : detections) (adjust : Int)
    (h : c.rx.state = lte_state.LTE_STATE_PSS_SYNC) :
    ((drive_common K c d).rx.state = lte_state.LTE_STATE_PSS_SYNC2 ↔ d.pss_search.mag > 900) ∧
    (d.pss_search.mag > 900 →
      (drive_common K c d).rx.sync.coarse
        = (if d.pss_search.coarse < pss_target K then
            d.pss_search.coarse + K.LTE_N0_SLOT_LEN * 10
          else d.pss_search.coarse) ∧
      (drive_common K c d).rx.sync.n_id_2 = d.pss_search.n_id_2) ∧
    (¬ d.pss_search.mag > 900 →
      (drive_common K c d).rx.state = lte_state.LTE_STATE_PSS_SYNC ∧
      (drive_common K c d).rx.sync.fine = 9999) ∧
    ((drive_pbch K c d).2.rx.state = lte_state.LTE_STATE_PSS_SYNC2 ↔ d.pss_search.mag > 900) ∧
    ((drive_pdsch K c d adjust).rx.state = lte_state.LTE_STATE_PSS_SYNC2
      ↔ d.pss_search.mag > 900) ∧
    (drive_pbch K c d).2
      = drive_common K { c with rx := { c.rx with time := advance_time c.rx.time } } d ∧
    drive_pdsch K c d adjust
      = drive_common K { c with rx := { c.rx with time := advance_time c.rx.time } } d := by
  have key : ∀ c1 : sync_ctx, c1.rx.state = lte_state.LTE_STATE_PSS_SYNC →
      ((drive_common K c1 d).rx.state = lte_state.LTE_STATE_PSS_SYNC2
        ↔ d.pss_search.mag > 900) ∧
      ((drive_common K c1 d).rx.state = lte_state.LTE_STATE_PSS_SYNC2 ∨
        (drive_common K c1 d).rx.state = lte_state.LTE_STATE_PSS_SYNC) := by
    intro c1 h1
    rw [drive_common_pss K c1 d h1]
    by_cases hm : d.pss_search.mag > 900
    · simp [hm]
    · simp [hm, h1]
  have hadv : ({ c with rx := { c.rx with time := advance_time c.rx.time } } : sync_ctx).rx.state
      = lte_state.LTE_STATE_PSS_SYNC := h
  obtain ⟨k1, k2⟩ := key _ hadv
  have hpbch := drive_pbch_of_not_pbch K c d (by
    rcases k2 with k | k <;> rw [k] <;> decide)
  have hpdsch := drive_pdsch_of_acquiring K c d adjust (by
    rcases k2 with k | k
    · exact Or.inr (Or.inl k)
    · exact Or.inl k)
  refine ⟨(key c h).1, ?_, ?_, ?_, ?_, ?_, hpdsch⟩
  · intro hm
    rw [drive_common_pss K c d h]
    simp [hm]
  · intro hm
    rw [drive_common_pss K c d h]
    simp [hm, h]
  · rw [hpbch]; exact k1
  · rw [hpdsch]; exact k1
  · rw [hpbch]

/-- C20 at the example receiver: magnitude 1000 exceeds 900. -/
theorem pss_sync_step_witness :
    ((drive_common K0 (sync_start rx0 6 [] []) dgood).rx.state = lte_state.LTE_STATE_PSS_SYNC2
      ↔ dgood.pss_search.mag > 900) ∧
    (dgood.pss_search.mag > 900 →
      (drive_common K0 (sync_start rx0 6 [] []) dgood).rx.sync.coarse
        = (if dgood.pss_search.coarse < pss_target K0 then
            dgood.pss_search.coarse + K0.LTE_N0_SLOT_LEN * 10
          else dgood.pss_search.coarse) ∧
      (drive_common K0 (sync_start rx0 6 [] []) dgood).rx.sync.n_id_2
        = dgood.pss_search.n_id_2) ∧
    (¬ dgood.pss_search.mag > 900 →
      (drive_common K0 (sync_start rx0 6 [] []) dgood).rx.state
        = lte_state.LTE_STATE_PSS_SYNC ∧
      (drive_common K0 (sync_start rx0 6 [] []) dgood).rx.sync.fine = 9999) ∧
    ((drive_pbch K0 (sync_start rx0 6 [] []) dgood).2.rx.state
      = lte_state.LTE_STATE_PSS_SYNC2 ↔ dgood.pss_search.mag > 900) ∧
    ((drive_pdsch K0 (sync_start rx0 6 [] []) dgood 0).rx.state
      = lte_state.LTE_STATE_PSS_SYNC2 ↔ dgood.pss_search.mag > 900) ∧
    (drive_pbch K0 (sync_start rx0 6 [] []) dgood).2
      = drive_common K0
          { (sync_start rx0 6 [] []) with
            rx := { (sync_start rx0 6 [] []).rx with
              time := advance_time (sync_start rx0 6 [] []).rx.time } } dgood ∧
    drive_pdsch K0 (sync_start rx0 6 [] []) dgood 0
      = drive_common K0
          { (sync_start rx0 6 [] []) with
            rx := { (sync_start rx0 6 [] []).rx with
              time := advance_time (sync_start rx0 6 [] []).rx.time } } dgood :=
  pss_sync_step K0 (sync_start rx0 6 [] []) dgood 0 (by decide)

theorem advance_time_mid (t : lte_time) (h0 : 0 ≤ t.subframe) (h1 : t.subframe < 9) :
    (advance_time t).subframe = t.subframe + 1 ∧ (advance_time t).subframe ≠ 0 := by
  have e : Int.tmod (t.subframe + 1) 10 = t.subframe + 1 :=
    Int.tmod_eq_of_lt (by omega) (by omega)
  unfold advance_time
  simp only [e]
  have hne : ¬ (t.subframe + 1 = 0) := by omega
  simp only [if_neg hne]
  exact ⟨trivial, hne⟩

theorem advance_time_wrap (t : lte_time) (h : t.subframe = 9) :
    (advance_time t).subframe = 0 := by
  unfold advance_time
  rw [h]
  have e : Int.tmod ((9 : Int) + 1) 10 = 0 := by decide
  simp only [e, if_true]

/-- Detection step: from `PSS_SYNC` with a magnitude above 900, `drive_pbch` ends in
`PSS_SYNC2` with the subframe counter at 0. -/
theorem drive_pbch_detect (K : lte_params) (c : sync_ctx) (d : detections)
    (h : c.rx.state = lte_state.LTE_STATE_PSS_SYNC) (hm : d.pss_search.mag > 900) :
    (drive_pbch K c d).2.rx.state = lte_state.LTE_STATE_PSS_SYNC2 ∧
    (drive_pbch K c d).2.rx.time.subframe = 0 := by
  have hadv : ({ c with rx := { c.rx with time := advance_time c.rx.time } } : sync_ctx).rx.state
      = lte_state.LTE_STATE_PSS_SYNC := h
  have e := drive_common_pss K _ d hadv
  simp only [hm, if_true] at e
  have hstep := drive_pbch_of_not_pbch K c d (by rw [e]; exact fun hh => by cases hh)
  rw [hstep, e]
  exact ⟨rfl, rfl⟩

/-- Idle step: in `PSS_SYNC2` at a subframe `k < 9`, `drive_pbch` only advances the subframe
counter. -/
theorem drive_pbch_wait (K : lte_params) (c : sync_ctx) (d : detections)
    (h : c.rx.state = lte_state.LTE_STATE_PSS_SYNC2)
    (h0 : 0 ≤ c.rx.time.subframe) (h1 : c.rx.time.subframe < 9) :
    (drive_pbch K c d).2.rx.state = lte_state.LTE_STATE_PSS_SYNC2 ∧
    (drive_pbch K c d).2.rx.time.subframe = c.rx.time.subframe + 1 := by
  obtain ⟨a1, a2⟩ := advance_time_mid c.rx.time h0 h1
  have e : drive_common K { c with rx := { c.rx with time := advance_time c.rx.time } } d
      = { c with rx := { c.rx with time := advance_time c.rx.time } } := by
    unfold drive_common
    simp only [h, if_neg a2]
  have hstep := drive_pbch_of_not_pbch K c d (by rw [e]; simp only [h]; decide)
  rw [hstep, e]
  exact ⟨h, a1⟩

/-- With the correlation peak exactly at the expected position `pss_sync2` counts at most one
miss. -/
theorem pss_sync2_on_target (K : lte_params) (rx : lte_rx) (d : detections)
    (ht : d.pss_sync.coarse = pss_target K) : ¬ ((pss_sync2 K rx d).1 > 1) := by
  unfold pss_sync2
  unfold pss_target at ht
  have hw : d.pss_sync.coarse > K.LTE_N0_SLOT_LEN - K.LTE_N0_CP0_LEN - 1 - 4 ∧
      d.pss_sync.coarse < K.LTE_N0_SLOT_LEN - K.LTE_N0_CP0_LEN - 1 + 4 := by omega
  simp only [hw, and_self, if_true]
  split_ifs <;> decide

/-- Evaluation step: in `PSS_SYNC2` at subframe 9, `drive_pbch` reaches subframe 0 and, with
the correlation peak exactly at the expected position, moves to `SSS_SYNC`. -/
theorem drive_pbch_confirm (K : lte_params) (c : sync_ctx) (d : detections)
    (h : c.rx.state = lte_state.LTE_STATE_PSS_SYNC2) (h9 : c.rx.time.subframe = 9)
    (ht : d.pss_sync.coarse = pss_target K) :
    (drive_pbch K c d).2.rx.state = lte_state.LTE_STATE_SSS_SYNC := by
  have a := advance_time_wrap c.rx.time h9
  have e : (drive_common K { c with rx := { c.rx with time := advance_time c.rx.time } } d).rx.state
      = lte_state.LTE_STATE_SSS_SYNC := by
    unfold drive_common
    simp only [h, a, if_true]
    rw [if_neg (pss_sync2_on_target K _ d ht)]
  have hstep := drive_pbch_of_not_pbch K c d (by rw [e]; exact fun hh => by cases hh)
  rw [hstep, e]

theorem run_pbch_append (K : lte_params) (c : sync_ctx) (ds es : List detections) :
    run_pbch K c (ds ++ es) = run_pbch K (run_pbch K c ds) es := by
  unfold run_pbch
  rw [List.foldl_append]

theorem run_pbch_wait (K : lte_params) (n : Nat) :
    ∀ (c : sync_ctx) (ds : List detections), ds.length = n →
      c.rx.state = lte_state.LTE_STATE_PSS_SYNC2 → 0 ≤ c.rx.time.subframe →
      c.rx.time.subframe + (n : Int) ≤ 9 →
      (run_pbch K c ds).rx.state = lte_state.LTE_STATE_PSS_SYNC2 ∧
      (run_pbch K c ds).rx.time.subframe = c.rx.time.subframe + (n : Int) := by
  induction n with
  | zero =>
    intro c ds hl hs _ _
    have : ds = [] := List.length_eq_zero.mp hl
    subst this
    exact ⟨hs, by simp [run_pbch]⟩
  | succ n ih =>
    intro c ds hl hs h0 h9
    match ds, hl with
    | d :: rest, hl =>
      have hl2 : rest.length = n := by simpa using hl
      push_cast at h9
      obtain ⟨w1, w2⟩ := drive_pbch_wait K c d hs h0 (by omega)
      obtain ⟨r1, r2⟩ := ih (drive_pbch K c d).2 rest hl2 w1 (by omega) (by omega)
      have e : run_pbch K c (d :: rest) = run_pbch K (drive_pbch K c d).2 rest := rfl
      rw [e]
      refine ⟨r1, ?_⟩
      rw [r2, w2]
      push_cast
      ring

/-- C18 (as stated) fails: starting in `PSS_SYNC`, with a magnitude above the threshold, the
correlation peak exactly at the expected position and matching inputs in every subframe, the
state is not `SSS_SYNC` after any number of steps up to 10 (after 10 steps it is
`PSS_SYNC2`); it is `SSS_SYNC` after 11 steps. -/
theorem sss_within_ten_steps_counterexample :
    (sync_start rx0 6 [] []).rx.state = lte_state.LTE_STATE_PSS_SYNC ∧
    dgood.pss_search.mag > 900 ∧
    dgood.pss_search.coarse = pss_target K0 ∧ dgood.pss_sync.coarse = pss_target K0 ∧
    dgood.pss_detect = dgood.pss_search.n_id_2 ∧
    (∀ n ∈ List.range 11,
      (run_pbch K0 (sync_start rx0 6 [] []) (List.replicate n dgood)).rx.state
        ≠ lte_state.LTE_STATE_SSS_SYNC) ∧
    (run_pbch K0 (sync_start rx0 6 [] []) (List.replicate 10 dgood)).rx.state
      = lte_state.LTE_STATE_PSS_SYNC2 ∧
    (run_pbch K0 (sync_start rx0 6 [] []) (List.replicate 11 dgood)).rx.state
      = lte_state.LTE_STATE_SSS_SYNC := by
  decide

/-- C18 (amended): starting in `PSS_SYNC`, a step whose search magnitude exceeds the
threshold moves to `PSS_SYNC2`; the machine then stays in `PSS_SYNC2` during the following
nine steps, whatever is detected, and the eleventh step, in which the correlation peak lies
exactly at the expected cyclic-prefix boundary, moves to `SSS_SYNC`. -/
theorem pss_to_sss_in_eleven_steps (K : lte_params) (c : sync_ctx) (d1 d11 : detections)
    (ds : List detections)
    (hs : c.rx.state = lte_state.LTE_STATE_PSS_SYNC) (hm : d1.pss_search.mag > 900)
    (hl : ds.length = 9) (ht : d11.pss_sync.coarse = pss_target K) :
    (run_pbch K c [d1]).rx.state = lte_state.LTE_STATE_PSS_SYNC2 ∧
    (∀ n : Nat, n ≤ 9 →
      (run_pbch K c (d1 :: ds.take n)).rx.state = lte_state.LTE_STATE_PSS_SYNC2) ∧
    (run_pbch K c (d1 :: (ds ++ [d11]))).rx.state = lte_state.LTE_STATE_SSS_SYNC := by
  obtain ⟨s1, s2⟩ := drive_pbch_detect K c d1 hs hm
  have hcons : ∀ es : List detections,
      run_pbch K c (d1 :: es) = run_pbch K (drive_pbch K c d1).2 es := fun _ => rfl
  refine ⟨s1, ?_, ?_⟩
  · intro n hn
    rw [hcons]
    have hlen : (ds.take n).length = n := by
      rw [List.length_take]; omega
    exact (run_pbch_wait K n _ (ds.take n) hlen s1 (by omega) (by omega)).1
  · rw [hcons, run_pbch_append]
    obtain ⟨w1, w2⟩ := run_pbch_wait K 9 _ ds hl s1 (by omega) (by omega)
    have e : run_pbch K (run_pbch K (drive_pbch K c d1).2 ds) [d11]
        = (drive_pbch K (run_pbch K (drive_pbch K c d1).2 ds) d11).2 := rfl
    rw [e]
    exact drive_pbch_confirm K _ d11 w1 (by rw [w2, s2]; decide) ht

/-- C18 (amended) at the example receiver, with nothing detected in the nine idle
subframes. -/
theorem pss_to_sss_in_eleven_steps_witness :
    (run_pbch K0 (sync_start rx0 6 [] []) [dgood]).rx.state = lte_state.LTE_STATE_PSS_SYNC2 ∧
    (∀ n : Nat, n ≤ 9 →
      (run_pbch K0 (sync_start rx0 6 [] []) (dgood :: (List.replicate 9 dbad).take n)).rx.state
        = lte_state.LTE_STATE_PSS_SYNC2) ∧
    (run_pbch K0 (sync_start rx0 6 [] [])
        (dgood :: (List.replicate 9 dbad ++ [dgood]))).rx.state
      = lte_state.LTE_STATE_SSS_SYNC :=
  pss_to_sss_in_eleven_steps K0 (sync_start rx0 6 [] []) dgood dgood (List.replicate 9 dbad)
    (by decide) (by decide) (by decide) (by decide)

/-- With only the secondary synchronisation signal missed, `sss_sync` returns -1 (one miss)
and leaves state, counters of time and sector id of the receiver as they were. -/
theorem sss_sync_only_miss (K : lte_params) (rx : lte_rx) (d : detections)
    (h : sss_only_miss K rx.sync.n_id_2 d = true) :
    (sss_sync K rx d).1 = -1 ∧ (sss_sync K rx d).2.1.time = rx.time ∧
    (sss_sync K rx d).2.1.sync.n_id_2 = rx.sync.n_id_2 := by
  unfold sss_only_miss at h
  simp only [decide_eq_true_eq] at h
  obtain ⟨h1, h2, h3⟩ := h
  unfold pss_target at h2
  unfold sss_sync
  simp [h1, h2, h3]

/-- One evaluation in `SSS_SYNC` (a `drive_common` call at subframe 0) in which only the
secondary synchronisation signal is missed: the miss count grows by one; below 4 the state
stays, at 4 the receiver is demoted, the frequency correction reset and the count cleared. -/
theorem drive_common_sss_miss (K : lte_params) (c : sync_ctx) (d : detections)
    (hs : c.rx.state = lte_state.LTE_STATE_SSS_SYNC) (h0 : c.rx.time.subframe = 0)
    (hm : sss_only_miss K c.rx.sync.n_id_2 d = true) :
    (c.common_pss_miss_cnt + 1 < 4 →
      (drive_common K c d).rx.state = lte_state.LTE_STATE_SSS_SYNC ∧
      (drive_common K c d).rx.time = c.rx.time ∧
      (drive_common K c d).rx.sync.n_id_2 = c.rx.sync.n_id_2 ∧
      (drive_common K c d).common_pss_miss_cnt = c.common_pss_miss_cnt + 1 ∧
      (drive_common K c d).events = c.events) ∧
    (c.common_pss_miss_cnt + 1 ≥ 4 →
      (drive_common K c d).rx.state = lte_state.LTE_STATE_PSS_SYNC ∧
      (drive_common K c d).common_pss_miss_cnt = 0 ∧
      (drive_common K c d).events = sync_event.offset_reset :: c.events) := by
  obtain ⟨r1, r2, r3⟩ := sss_sync_only_miss K c.rx d hm
  have hst : (sss_sync K c.rx d).2.1.state = c.rx.state := by
    unfold sss_sync
    simp only []
    split_ifs <;> rfl
  unfold drive_common
  simp only [hs, h0, if_true, r1]
  constructor
  · intro hk
    have hk2 : ¬ (c.common_pss_miss_cnt + - -1 ≥ 4) := by omega
    simp only [show ((-1 : Int) ≤ 0) from by decide, if_true, if_neg hk2]
    refine ⟨by rw [hst, hs], r2, r3, by omega, trivial⟩
  · intro hk
    have hk2 : c.common_pss_miss_cnt + - -1 ≥ 4 := by omega
    simp only [show ((-1 : Int) ≤ 0) from by decide, if_true, if_pos hk2]
    exact ⟨trivial, trivial, trivial⟩

/-- Idle step in `SSS_SYNC`: at a subframe `k < 9`, `drive_pbch` only advances the counters of
time. -/
theorem drive_pbch_idle_sss (K : lte_params) (c : sync_ctx) (d : detections)
    (h : c.rx.state = lte_state.LTE_STATE_SSS_SYNC)
    (h0 : 0 ≤ c.rx.time.subframe) (h1 : c.rx.time.subframe < 9) :
    (drive_pbch K c d).2 = { c with rx := { c.rx with time := advance_time c.rx.time } } := by
  obtain ⟨_, a2⟩ := advance_time_mid c.rx.time h0 h1
  have e : drive_common K { c with rx := { c.rx with time := advance_time c.rx.time } } d
      = { c with rx := { c.rx with time := advance_time c.rx.time } } := by
    unfold drive_common
    simp only [h, if_neg a2]
  have hstep := drive_pbch_of_not_pbch K c d (by rw [e]; simp only [h]; exact fun hh => by cases hh)
  rw [hstep, e]

/-- Idle steps in `SSS_SYNC`: `n` steps that do not pass subframe 9 leave state, sector id,
miss count and the log of frequency events as they were. -/
theorem run_pbch_idle_sss (K : lte_params) (n : Nat) :
    ∀ (c : sync_ctx) (ds : List detections), ds.length = n →
      c.rx.state = lte_state.LTE_STATE_SSS_SYNC → 0 ≤ c.rx.time.subframe →
      c.rx.time.subframe + (n : Int) ≤ 9 →
      (run_pbch K c ds).rx.state = lte_state.LTE_STATE_SSS_SYNC ∧
      (run_pbch K c ds).rx.time.subframe = c.rx.time.subframe + (n : Int) ∧
      (run_pbch K c ds).rx.sync.n_id_2 = c.rx.sync.n_id_2 ∧
      (run_pbch K c ds).common_pss_miss_cnt = c.common_pss_miss_cnt ∧
      (run_pbch K c ds).events = c.events := by
  induction n with
  | zero =>
    intro c ds hl hs _ _
    have : ds = [] := List.length_eq_zero.mp hl
    subst this
    exact ⟨hs, by simp [run_pbch], rfl, rfl, rfl⟩
  | succ n ih =>
    intro c ds hl hs h0 h9
    match ds, hl with
    | d :: rest, hl =>
      have hl2 : rest.length = n := by simpa using hl
      push_cast at h9
      have w := drive_pbch_idle_sss K c d hs h0 (by omega)
      obtain ⟨a1, _⟩ := advance_time_mid c.rx.time h0 (by omega)
      have e : run_pbch K c (d :: rest) = run_pbch K (drive_pbch K c d).2 rest := rfl
      rw [e, w]
      obtain ⟨r1, r2, r3, r4, r5⟩ :=
        ih { c with rx := { c.rx with time := advance_time c.rx.time } } rest hl2 hs
          (by show 0 ≤ (advance_time c.rx.time).subframe; omega)
          (by show (advance_time c.rx.time).subframe + (n : Int) ≤ 9; omega)
      refine ⟨r1, ?_, r3, r4, r5⟩
      rw [r2]
      show (advance_time c.rx.time).subframe + (n : Int) = c.rx.time.subframe + ((n + 1 : Nat) : Int)
      push_cast
      omega

/-- Evaluation step in `SSS_SYNC`: a `drive_pbch` step from subframe 9 in which only the
secondary synchronisation signal is missed. -/
theorem drive_pbch_sss_miss (K : lte_params) (c : sync_ctx) (d : detections)
    (hs : c.rx.state = lte_state.LTE_STATE_SSS_SYNC) (h9 : c.rx.time.subframe = 9)
    (hm : sss_only_miss K c.rx.sync.n_id_2 d = true) :
    (c.common_pss_miss_cnt + 1 < 4 →
      (drive_pbch K c d).2.rx.state = lte_state.LTE_STATE_SSS_SYNC ∧
      (drive_pbch K c d).2.rx.time.subframe = 0 ∧
      (drive_pbch K c d).2.rx.sync.n_id_2 = c.rx.sync.n_id_2 ∧
      (drive_pbch K c d).2.common_pss_miss_cnt = c.common_pss_miss_cnt + 1 ∧
      (drive_pbch K c d).2.events = c.events) ∧
    (c.common_pss_miss_cnt + 1 ≥ 4 →
      (drive_pbch K c d).2.rx.state = lte_state.LTE_STATE_PSS_SYNC ∧
      (drive_pbch K c d).2.common_pss_miss_cnt = 0 ∧
      (drive_pbch K c d).2.events = sync_event.offset_reset :: c.events) := by
  have a := advance_time_wrap c.rx.time h9
  obtain ⟨lo, hi⟩ := drive_common_sss_miss K
    { c with rx := { c.rx with time := advance_time c.rx.time } } d hs a hm
  constructor
  · intro hk
    obtain ⟨r1, r2, r3, r4, r5⟩ := lo hk
    rw [drive_pbch_of_not_pbch K c d (by rw [r1]; exact fun hh => by cases hh)]
    exact ⟨r1, by show (drive_common K _ d).rx.time.subframe = 0; rw [r2]; exact a, r3, r4, r5⟩
  · intro hk
    obtain ⟨r1, r2, r3⟩ := hi hk
    rw [drive_pbch_of_not_pbch K c d (by rw [r1]; exact fun hh => by cases hh)]
    exact ⟨r1, r2, r3⟩

/-- One round in `SSS_SYNC` below the limit: an evaluation step in which only the secondary
synchronisation signal is missed, followed by up to 9 idle steps. -/
theorem run_pbch_sss_round (K : lte_params) (c : sync_ctx) (e : detections)
    (w : List detections)
    (hs : c.rx.state = lte_state.LTE_STATE_SSS_SYNC) (h9 : c.rx.time.subframe = 9)
    (hm : sss_only_miss K c.rx.sync.n_id_2 e = true)
    (hk : c.common_pss_miss_cnt + 1 < 4) (hl : w.length = 9) (m : Nat) (hm9 : m ≤ 9) :
    (run_pbch K c (e :: w.take m)).rx.state = lte_state.LTE_STATE_SSS_SYNC ∧
    (run_pbch K c (e :: w.take m)).rx.time.subframe = (m : Int) ∧
    (run_pbch K c (e :: w.take m)).rx.sync.n_id_2 = c.rx.sync.n_id_2 ∧
    (run_pbch K c (e :: w.take m)).common_pss_miss_cnt = c.common_pss_miss_cnt + 1 ∧
    (run_pbch K c (e :: w.take m)).events = c.events := by
  obtain ⟨r1, r2, r3, r4, r5⟩ := (drive_pbch_sss_miss K c e hs h9 hm).1 hk
  have hlen : (w.take m).length = m := by
    rw [List.length_take]; omega
  have hcons : run_pbch K c (e :: w.take m) = run_pbch K (drive_pbch K c e).2 (w.take m) := rfl
  obtain ⟨q1, q2, q3, q4, q5⟩ :=
    run_pbch_idle_sss K m (drive_pbch K c e).2 (w.take m) hlen r1 (by omega) (by omega)
  rw [hcons]
  exact ⟨q1, by rw [q2, r2]; omega, by rw [q3, r3], by rw [q4, r4], by rw [q5, r5]⟩

/-- C19 (as stated) fails: the receiver reaches `SSS_SYNC` with miss count 0; in its first
failing evaluation the secondary synchronisation detection fails together with both primary
checks, which counts three misses and leaves the state; the second failing evaluation
already demotes to `PSS_SYNC`, resets the frequency correction and clears the count. -/
theorem sss_demotion_on_second_failure_counterexample :
    (run_pbch K0 (sync_start rx0 6 [] []) (List.replicate 11 dgood)).rx.state
      = lte_state.LTE_STATE_SSS_SYNC ∧
    (run_pbch K0 (sync_start rx0 6 [] []) (List.replicate 11 dgood)).common_pss_miss_cnt = 0 ∧
    dbad.sss_detect < 0 ∧
    (run_pbch K0 (sync_start rx0 6 [] [])
        (List.replicate 11 dgood ++ List.replicate 10 dbad)).rx.state
      = lte_state.LTE_STATE_SSS_SYNC ∧
    (run_pbch K0 (sync_start rx0 6 [] [])
        (List.replicate 11 dgood ++ List.replicate 10 dbad)).common_pss_miss_cnt = 3 ∧
    (run_pbch K0 (sync_start rx0 6 [] [])
        (List.replicate 11 dgood ++ List.replicate 19 dbad)).rx.state
      = lte_state.LTE_STATE_SSS_SYNC ∧
    (run_pbch K0 (sync_start rx0 6 [] [])
        (List.replicate 11 dgood ++ List.replicate 20 dbad)).rx.state
      = lte_state.LTE_STATE_PSS_SYNC ∧
    (run_pbch K0 (sync_start rx0 6 [] [])
        (List.replicate 11 dgood ++ List.replicate 20 dbad)).common_pss_miss_cnt = 0 ∧
    (run_pbch K0 (sync_start rx0 6 [] [])
        (List.replicate 11 dgood ++ List.replicate 20 dbad)).events
      = [sync_event.offset_reset] := by
  decide

/-- C19 (amended): from `SSS_SYNC` at subframe 9 with miss count 0, four consecutive
evaluations `e1 .. e4` in each of which only the secondary synchronisation detection fails
(the primary timing and sector checks pass), separated by the nine idle subframes `w1`,
`w2`, `w3` of a frame, demote exactly on the fourth: after each of the first three
evaluations and during the idle steps that follow the state is `SSS_SYNC` with miss count
1, 2, 3, and the fourth evaluation sets the state to `PSS_SYNC`, resets the frequency
correction and clears the miss count. -/
theorem four_sss_misses_demote (K : lte_params) (c : sync_ctx) (e1 e2 e3 e4 : detections)
    (w1 w2 w3 : List detections)
    (hs : c.rx.state = lte_state.LTE_STATE_SSS_SYNC) (h9 : c.rx.time.subframe = 9)
    (hc : c.common_pss_miss_cnt = 0)
    (hw1 : w1.length = 9) (hw2 : w2.length = 9) (hw3 : w3.length = 9)
    (he1 : sss_only_miss K c.rx.sync.n_id_2 e1 = true)
    (he2 : sss_only_miss K c.rx.sync.n_id_2 e2 = true)
    (he3 : sss_only_miss K c.rx.sync.n_id_2 e3 = true)
    (he4 : sss_only_miss K c.rx.sync.n_id_2 e4 = true) :
    (∀ m : Nat, m ≤ 9 →
      (run_pbch K c (e1 :: w1.take m)).rx.state = lte_state.LTE_STATE_SSS_SYNC ∧
      (run_pbch K c (e1 :: w1.take m)).common_pss_miss_cnt = 1) ∧
    (∀ m : Nat, m ≤ 9 →
      (run_pbch K c ((e1 :: w1) ++ (e2 :: w2.take m))).rx.state
        = lte_state.LTE_STATE_SSS_SYNC ∧
      (run_pbch K c ((e1 :: w1) ++ (e2 :: w2.take m))).common_pss_miss_cnt = 2) ∧
    (∀ m : Nat, m ≤ 9 →
      (run_pbch K c ((e1 :: w1) ++ ((e2 :: w2) ++ (e3 :: w3.take m)))).rx.state
        = lte_state.LTE_STATE_SSS_SYNC ∧
      (run_pbch K c ((e1 :: w1) ++ ((e2 :: w2) ++ (e3 :: w3.take m)))).common_pss_miss_cnt
        = 3) ∧
    (run_pbch K c ((e1 :: w1) ++ ((e2 :: w2) ++ ((e3 :: w3) ++ [e4])))).rx.state
      = lte_state.LTE_STATE_PSS_SYNC ∧
    (run_pbch K c ((e1 :: w1) ++ ((e2 :: w2) ++ ((e3 :: w3) ++ [e4])))).common_pss_miss_cnt
      = 0 ∧
    (run_pbch K c ((e1 :: w1) ++ ((e2 :: w2) ++ ((e3 :: w3) ++ [e4])))).events
      = sync_event.offset_reset :: c.events := by
  have t1 : w1.take 9 = w1 := List.take_of_length_le (by omega)
  have t2 : w2.take 9 = w2 := List.take_of_length_le (by omega)
  have t3 : w3.take 9 = w3 := List.take_of_length_le (by omega)
  have R1 := run_pbch_sss_round K c e1 w1 hs h9 he1 (by omega) hw1
  obtain ⟨a1, a2, a3, a4, a5⟩ := R1 9 (le_refl 9)
  rw [t1] at a1 a2 a3 a4 a5
  have R2 := run_pbch_sss_round K (run_pbch K c (e1 :: w1)) e2 w2 a1 (by rw [a2]; rfl)
    (by rw [a3]; exact he2) (by omega) hw2
  obtain ⟨b1, b2, b3, b4, b5⟩ := R2 9 (le_refl 9)
  rw [t2] at b1 b2 b3 b4 b5
  have R3 := run_pbch_sss_round K (run_pbch K (run_pbch K c (e1 :: w1)) (e2 :: w2)) e3 w3 b1
    (by rw [b2]; rfl) (by rw [b3, a3]; exact he3) (by omega) hw3
  obtain ⟨c1, c2, c3, c4, c5⟩ := R3 9 (le_refl 9)
  rw [t3] at c1 c2 c3 c4 c5
  obtain ⟨d1, d2, d3⟩ := (drive_pbch_sss_miss K
    (run_pbch K (run_pbch K (run_pbch K c (e1 :: w1)) (e2 :: w2)) (e3 :: w3)) e4 c1
    (by rw [c2]; rfl) (by rw [c3, b3, a3]; exact he4)).2 (by omega)
  refine ⟨?_, ?_, ?_, ?_, ?_, ?_⟩
  · intro m hm
    obtain ⟨x1, _, _, x4, _⟩ := R1 m hm
    exact ⟨x1, by rw [x4, hc]; rfl⟩
  · intro m hm
    rw [run_pbch_append]
    obtain ⟨x1, _, _, x4, _⟩ := R2 m hm
    exact ⟨x1, by rw [x4, a4, hc]; rfl⟩
  · intro m hm
    rw [run_pbch_append, run_pbch_append]
    obtain ⟨x1, _, _, x4, _⟩ := R3 m hm
    exact ⟨x1, by rw [x4, b4, a4, hc]; rfl⟩
  · rw [run_pbch_append, run_pbch_append, run_pbch_append]
    exact d1
  · rw [run_pbch_append, run_pbch_append, run_pbch_append]
    exact d2
  · rw [run_pbch_append, run_pbch_append, run_pbch_append]
    show (drive_pbch K _ e4).2.events = _
    rw [d3, c5, b5, a5]

/-- C19 (amended) at the example receiver, 20 steps after the start, with nothing found in
the idle subframes. -/
theorem four_sss_misses_demote_witness :
    (∀ m : Nat, m ≤ 9 →
      (run_pbch K0 cSSS (dsss :: (List.replicate 9 dbad).take m)).rx.state
        = lte_state.LTE_STATE_SSS_SYNC ∧
      (run_pbch K0 cSSS (dsss :: (List.replicate 9 dbad).take m)).common_pss_miss_cnt = 1) ∧
    (∀ m : Nat, m ≤ 9 →
      (run_pbch K0 cSSS ((dsss :: List.replicate 9 dbad) ++
          (dsss :: (List.replicate 9 dbad).take m))).rx.state
        = lte_state.LTE_STATE_SSS_SYNC ∧
      (run_pbch K0 cSSS ((dsss :: List.replicate 9 dbad) ++
          (dsss :: (List.replicate 9 dbad).take m))).common_pss_miss_cnt = 2) ∧
    (∀ m : Nat, m ≤ 9 →
      (run_pbch K0 cSSS ((dsss :: List.replicate 9 dbad) ++
          ((dsss :: List.replicate 9 dbad) ++
            (dsss :: (List.replicate 9 dbad).take m)))).rx.state
        = lte_state.LTE_STATE_SSS_SYNC ∧
      (run_pbch K0 cSSS ((dsss :: List.replicate 9 dbad) ++
          ((dsss :: List.replicate 9 dbad) ++
            (dsss :: (List.replicate 9 dbad).take m)))).common_pss_miss_cnt = 3) ∧
    (run_pbch K0 cSSS ((dsss :: List.replicate 9 dbad) ++
        ((dsss :: List.replicate 9 dbad) ++
          ((dsss :: List.replicate 9 dbad) ++ [dsss])))).rx.state
      = lte_state.LTE_STATE_PSS_SYNC ∧
    (run_pbch K0 cSSS ((dsss :: List.replicate 9 dbad) ++
        ((dsss :: List.replicate 9 dbad) ++
          ((dsss :: List.replicate 9 dbad) ++ [dsss])))).common_pss_miss_cnt = 0 ∧
    (run_pbch K0 cSSS ((dsss :: List.replicate 9 dbad) ++
        ((dsss :: List.replicate 9 dbad) ++
          ((dsss :: List.replicate 9 dbad) ++ [dsss])))).events
      = sync_event.offset_reset :: cSSS.events :=
  four_sss_misses_demote K0 cSSS dsss dsss dsss dsss
    (List.replicate 9 dbad) (List.replicate 9 dbad) (List.replicate 9 dbad)
    (by decide) (by decide) (by decide) (by decide) (by decide) (by decide)
    (by decide) (by decide) (by decide) (by decide)

theorem window_iff_abs (x t : Int) : (x > t - 4 ∧ x < t + 4) ↔ |x - t| ≤ 3 := by
  rw [abs_le]
  constructor
  · rintro ⟨h1, h2⟩
    constructor <;> omega
  · rintro ⟨h1, h2⟩
    constructor <;> omega

/-- C21 (as stated) fails: in `PSS_SYNC2` at the evaluation on subframe 0, a correlation
peak 4 samples from the expected position (953 for the target 949) is counted as a miss;
together with a failed sector check that makes two misses and the state goes back to
`PSS_SYNC`, where the claim has one miss and `SSS_SYNC`.  A peak 3 samples away is accepted. -/
theorem window_edge_counterexample :
    pss_target K0 = 949 ∧ |dedge.pss_sync.coarse - pss_target K0| ≤ 4 ∧
    (run_pbch K0 (sync_start rx0 6 [] []) (List.replicate 10 dgood)).rx.state
      = lte_state.LTE_STATE_PSS_SYNC2 ∧
    (pss_sync2 K0 (run_pbch K0 (sync_start rx0 6 [] []) (List.replicate 10 dgood)).rx dedge).1
      = 2 ∧
    (run_pbch K0 (sync_start rx0 6 [] []) (List.replicate 10 dgood ++ [dedge])).rx.state
      = lte_state.LTE_STATE_PSS_SYNC ∧
    (run_pbch K0 (sync_start rx0 6 [] []) (List.replicate 10 dgood ++ [dnear])).rx.state
      = lte_state.LTE_STATE_SSS_SYNC := by
  decide

theorem pss_sync2_miss (K : lte_params) (rx : lte_rx) (d : detections) :
    (pss_sync2 K rx d).1 =
        (if d.pss_detect ≠ rx.sync.n_id_2 then 1 else 0) +
        (if |d.pss_sync.coarse - pss_target K| ≤ 3 then 0 else 1) ∧
    (pss_sync2 K rx d).2.1.sync.coarse =
        (if |d.pss_sync.coarse - pss_target K| ≤ 3 then d.pss_sync.coarse - pss_target K
         else rx.sync.coarse) := by
  unfold pss_sync2 pss_target
  simp only [window_iff_abs]
  by_cases hw : |d.pss_sync.coarse - (K.LTE_N0_SLOT_LEN - K.LTE_N0_CP0_LEN - 1)| ≤ 3
  · simp only [hw, if_true]
    exact ⟨by omega, trivial⟩
  · simp only [hw, if_false]
    exact ⟨trivial, trivial⟩

theorem sss_sync_miss (K : lte_params) (rx : lte_rx) (d : detections) :
    (sss_sync K rx d).2.1.sync.coarse =
        (if |d.pss_sync.coarse - pss_target K| ≤ 3 then d.pss_sync.coarse - pss_target K
         else rx.sync.coarse) ∧
    (¬ (d.sss_detect > 0) →
      (sss_sync K rx d).1 =
        -((if |d.pss_sync.coarse - pss_target K| ≤ 3 then 0 else 1) +
          (if d.pss_detect ≠ rx.sync.n_id_2 then 1 else 0) +
          (if d.sss_detect < 0 then 1 else 0))) ∧
    (d.sss_detect > 0 → (sss_sync K rx d).1 = d.sss_detect) := by
  unfold sss_sync pss_target
  simp only [window_iff_abs]
  rcases lt_trichotomy d.sss_detect 0 with h | h | h
  · have h1 : ¬ (d.sss_detect > 0) := by omega
    have h2 : d.sss_detect ≠ 0 := by omega
    have h3 : ¬ (0 ≤ d.sss_detect) := by omega
    by_cases hw : |d.pss_sync.coarse - (K.LTE_N0_SLOT_LEN - K.LTE_N0_CP0_LEN - 1)| ≤ 3 <;>
    by_cases hdet : d.pss_detect = rx.sync.n_id_2 <;>
    simp [hw, hdet, h, h1, h2, h3]
  · by_cases hw : |d.pss_sync.coarse - (K.LTE_N0_SLOT_LEN - K.LTE_N0_CP0_LEN - 1)| ≤ 3 <;>
    by_cases hdet : d.pss_detect = rx.sync.n_id_2 <;>
    simp [hw, hdet, h]
  · have h1 : ¬ (d.sss_detect < 0) := by omega
    have h2 : d.sss_detect ≠ 0 := by omega
    have h3 : 0 ≤ d.sss_detect := by omega
    by_cases hw : |d.pss_sync.coarse - (K.LTE_N0_SLOT_LEN - K.LTE_N0_CP0_LEN - 1)| ≤ 3 <;>
    by_cases hdet : d.pss_detect = rx.sync.n_id_2 <;>
    simp [hw, hdet, h, h1, h2, h3]

theorem pbch_sync_found (K : lte_params) (rx : lte_rx) (d : detections) :
    ((pbch_sync K rx d).1 = true ↔
      (d.pss_detect = rx.sync.n_id_2 ∧ |d.pss_sync.coarse - pss_target K| ≤ 3)) := by
  unfold pbch_sync pss_target
  simp only [window_iff_abs]
  by_cases hf : d.pss_detect = rx.sync.n_id_2 ∧
      |d.pss_sync.coarse - (K.LTE_N0_SLOT_LEN - K.LTE_N0_CP0_LEN - 1)| ≤ 3
  · simp [hf]
  · simp [hf]

theorem pdsch_sync_result (K : lte_params) (rx : lte_rx) (d : detections) :
    ((pdsch_sync K rx d).1 = -SYNC_ERR_PSS_TIME ↔
      ¬ |d.fine_sync.coarse - pss_target K| ≤ 3) ∧
    ((pdsch_sync K rx d).1 = -SYNC_ERR_PSS_TIME ∨
      (pdsch_sync K rx d).1 = -SYNC_ERR_PSS_FREQ ∨ (pdsch_sync K rx d).1 = 1) ∧
    (pdsch_sync K rx d).1 ≠ -SYNC_ERR_SSS := by
  have hw := window_iff_abs d.fine_sync.coarse (K.LTE_N0_SLOT_LEN - K.LTE_N0_CP0_LEN - 1)
  unfold pdsch_sync pss_target SYNC_ERR_PSS_TIME SYNC_ERR_PSS_FREQ SYNC_ERR_SSS
  rw [← hw]
  by_cases h1 : d.fine_sync.coarse ≤ K.LTE_N0_SLOT_LEN - K.LTE_N0_CP0_LEN - 1 - 4 ∨
      d.fine_sync.coarse ≥ K.LTE_N0_SLOT_LEN - K.LTE_N0_CP0_LEN - 1 + 4
  · simp only [h1, if_true]
    refine ⟨⟨fun _ => by omega, fun _ => trivial⟩, Or.inl trivial, by decide⟩
  · simp only [h1, if_false]
    by_cases h2 : d.pss_detect3 < 0
    · simp only [h2, if_true]
      refine ⟨⟨fun h => absurd h (by decide), fun h => absurd (by omega) h⟩,
        Or.inr (Or.inl trivial), by decide⟩
    · simp only [h2, if_false]
      refine ⟨⟨fun h => absurd h (by decide), fun h => absurd (by omega) h⟩,
        Or.inr (Or.inr trivial), by decide⟩

/-- Evaluation step in `PSS_SYNC2`: a `drive_pbch` step from subframe 9 ends in `SSS_SYNC`
when `pss_sync2` counts at most one miss and in `PSS_SYNC` otherwise. -/
theorem drive_pbch_pss2_eval (K : lte_params) (c : sync_ctx) (d : detections)
    (h : c.rx.state = lte_state.LTE_STATE_PSS_SYNC2) (h9 : c.rx.time.subframe = 9) :
    (drive_pbch K c d).2.rx.state =
      (if (pss_sync2 K { c.rx with time := advance_time c.rx.time } d).1 > 1
        then lte_state.LTE_STATE_PSS_SYNC else lte_state.LTE_STATE_SSS_SYNC) := by
  have a := advance_time_wrap c.rx.time h9
  have e : (drive_common K { c with rx := { c.rx with time := advance_time c.rx.time } } d).rx.state
      = (if (pss_sync2 K { c.rx with time := advance_time c.rx.time } d).1 > 1
        then lte_state.LTE_STATE_PSS_SYNC else lte_state.LTE_STATE_SSS_SYNC) := by
    unfold drive_common
    simp only [h, a, if_true]
    split_ifs <;> rfl
  have hstep := drive_pbch_of_not_pbch K c d (by rw [e]; split_ifs <;> exact fun hh => by cases hh)
  rw [hstep, e]

theorem regen_count_reset (l : List sync_event) :
    regen_count (sync_event.offset_reset :: l) = regen_count l := by
  simp [regen_count]

theorem regen_count_freq (f : Rat) (l : List sync_event) :
    regen_count (sync_event.offset_freq f :: l) = regen_count l := by
  simp [regen_count]

theorem regen_count_set (n r : Int) (l : List sync_event) :
    regen_count (sync_event.set_global_cell_id n r :: l) = regen_count l + 1 := by
  simp [regen_count]

theorem sss_sync_out (K : lte_params) (rx : lte_rx) (d : detections) :
    (sss_sync K rx d).2.2 = d.sss_out ∧ (sss_sync K rx d).2.1.rbs = rx.rbs := by
  unfold sss_sync
  simp only []
  split_ifs <;> exact ⟨rfl, rfl⟩

theorem sss_sync_pos_iff (K : lte_params) (rx : lte_rx) (d : detections) :
    (sss_sync K rx d).1 ≤ 0 ↔ ¬ (d.sss_detect > 0) := by
  obtain ⟨_, h1, h2⟩ := sss_sync_miss K rx d
  constructor
  · intro hle hp
    rw [h2 hp] at hle
    omega
  · intro hn
    rw [h1 hn]
    split_ifs <;> omega

/-- The calls of `set_global_cell_id` made by one `drive_common` call, and the global cell
identity after it. -/
theorem drive_common_regen (K : lte_params) (c : sync_ctx) (d : detections) :
    regen_count (drive_common K c d).events =
      regen_count c.events +
        (if c.rx.state = lte_state.LTE_STATE_SSS_SYNC ∧ c.rx.time.subframe = 0 ∧
            d.sss_detect > 0 ∧ c.gn_id_cell ≠ d.sss_out.n_id_cell then 1 else 0) ∧
    (drive_common K c d).gn_id_cell =
      (if c.rx.state = lte_state.LTE_STATE_SSS_SYNC ∧ c.rx.time.subframe = 0 ∧
          d.sss_detect > 0 then d.sss_out.n_id_cell else c.gn_id_cell) := by
  have hout := (sss_sync_out K c.rx d).1
  have hpos := sss_sync_pos_iff K c.rx d
  unfold drive_common
  split
  · rename_i hst
    have hne : ¬ (c.rx.state = lte_state.LTE_STATE_SSS_SYNC) := by rw [hst]; decide
    simp only [hne, false_and, if_false, add_zero]
    split_ifs <;> simp
  · rename_i hst
    have hne : ¬ (c.rx.state = lte_state.LTE_STATE_SSS_SYNC) := by rw [hst]; decide
    simp only [hne, false_and, if_false, add_zero]
    split_ifs <;> simp
  · rename_i hst
    by_cases h0 : c.rx.time.subframe = 0
    · by_cases hp : d.sss_detect > 0
      · have hrc : ¬ ((sss_sync K c.rx d).1 ≤ 0) := fun hle => (hpos.mp hle) hp
        by_cases hg : c.gn_id_cell = d.sss_out.n_id_cell <;>
          simp [hst, h0, hp, hrc, hout, hg, set_global_cell_id, regen_count_set,
            regen_count_freq]
      · have hrc : (sss_sync K c.rx d).1 ≤ 0 := hpos.mpr hp
        simp only [hst, h0, hrc, if_true, hp, false_and, and_false, if_false, add_zero]
        split_ifs <;> simp [regen_count_reset]
    · simp [hst, h0]
  · rename_i hst
    have hne : ¬ (c.rx.state = lte_state.LTE_STATE_SSS_SYNC) := by rw [hst]; decide
    simp only [hne, false_and, if_false, add_zero]
    split_ifs <;> simp [regen_count_reset]
  · rename_i h1 h2 h3 h4
    have hne : ¬ (c.rx.state = lte_state.LTE_STATE_SSS_SYNC) := h3
    simp [hne]

theorem pdsch_handoff_keeps (c : sync_ctx) (adjust : Int) :
    (pdsch_handoff c adjust).events = c.events ∧
    (pdsch_handoff c adjust).gn_id_cell = c.gn_id_cell ∧
    (pdsch_handoff c adjust).rx = c.rx := by
  unfold pdsch_handoff
  split_ifs
  · split
    · exact ⟨rfl, rfl, rfl⟩
    · simp only []
      split_ifs <;> exact ⟨rfl, rfl, rfl⟩
  · exact ⟨rfl, rfl, rfl⟩

/-- The part of `drive_pbch` after `drive_common` makes no call of `set_global_cell_id`. -/
theorem drive_pbch_regen (K : lte_params) (c : sync_ctx) (d : detections) :
    regen_count (drive_pbch K c d).2.events =
      regen_count
        (drive_common K { c with rx := { c.rx with time := advance_time c.rx.time } } d).events ∧
    (drive_pbch K c d).2.gn_id_cell =
      (drive_common K { c with rx := { c.rx with time := advance_time c.rx.time } } d).gn_id_cell := by
  unfold drive_pbch
  simp only []
  split
  · split_ifs <;> simp [regen_count_reset]
  · exact ⟨rfl, rfl⟩

/-- The part of `drive_pdsch` after `drive_common` makes no call of `set_global_cell_id`. -/
theorem drive_pdsch_regen (K : lte_params) (c : sync_ctx) (d : detections) (adjust : Int) :
    regen_count (drive_pdsch K c d adjust).events =
      regen_count
        (drive_common K { c with rx := { c.rx with time := advance_time c.rx.time } } d).events ∧
    (drive_pdsch K c d adjust).gn_id_cell =
      (drive_common K { c with rx := { c.rx with time := advance_time c.rx.time } } d).gn_id_cell := by
  unfold drive_pdsch
  simp only []
  split
  · split_ifs <;> simp [regen_count_reset]
  · split_ifs <;> simp [regen_count_reset, pdsch_handoff_keeps]
  · simp [pdsch_handoff_keeps]
  · exact ⟨rfl, rfl⟩

theorem drive_common_sss_success (K : lte_params) (c : sync_ctx) (d : detections)
    (hs : c.rx.state = lte_state.LTE_STATE_SSS_SYNC) (h0 : c.rx.time.subframe = 0)
    (hp : d.sss_detect > 0) :
    (drive_common K c d).rx.state = lte_state.LTE_STATE_PBCH_SYNC ∧
    (drive_common K c d).rx.time.subframe = d.sss_out.dn ∧
    (drive_common K c d).events.head? =
      (if c.gn_id_cell ≠ d.sss_out.n_id_cell
        then some (sync_event.set_global_cell_id d.sss_out.n_id_cell c.rx.rbs)
        else some (sync_event.offset_freq d.sss_out.f_offset)) := by
  obtain ⟨hout, hrbs⟩ := sss_sync_out K c.rx d
  have hrc : ¬ ((sss_sync K c.rx d).1 ≤ 0) := fun hle => ((sss_sync_pos_iff K c.rx d).mp hle) hp
  unfold drive_common
  simp only [hs, h0, if_true, hrc, if_false, hout]
  split_ifs
  · refine ⟨rfl, rfl, ?_⟩
    unfold set_global_cell_id
    simp only [List.head?_cons, hrbs]
  · exact ⟨rfl, rfl, rfl⟩

/-- A `drive_pdsch` step whose `drive_common` part ends in `PBCH_SYNC` is that part alone. -/
theorem drive_pdsch_of_pbch_sync (K : lte_params) (c : sync_ctx) (d : detections)
    (adjust : Int)
    (h : (drive_common K { c with rx := { c.rx with time := advance_time c.rx.time } } d).rx.state
        = lte_state.LTE_STATE_PBCH_SYNC) :
    drive_pdsch K c d adjust
      = drive_common K { c with rx := { c.rx with time := advance_time c.rx.time } } d := by
  unfold drive_pdsch
  simp only [h]

/-- C22: in every `drive_pbch` and every `drive_pdsch` step the number of calls of
`set_global_cell_id` is 1 when the step is a successful `SSS_SYNC` step (state `SSS_SYNC`,
subframe counter at 0 after the advance, `lte_sss_detect` positive, which moves to
`PBCH_SYNC`) whose detected cell id differs from the global cell id, and 0 in every other
step; after a successful `SSS_SYNC` step the global cell id is the detected id, and in every
other step it is unchanged. -/
theorem cell_id_regenerated_once (K : lte_params) (c : sync_ctx) (d : detections)
    (adjust : Int) :
    regen_count (drive_pbch K c d).2.events =
      regen_count c.events +
        (if c.rx.state = lte_state.LTE_STATE_SSS_SYNC ∧ (advance_time c.rx.time).subframe = 0 ∧
            d.sss_detect > 0 ∧ c.gn_id_cell ≠ d.sss_out.n_id_cell then 1 else 0) ∧
    (drive_pbch K c d).2.gn_id_cell =
      (if c.rx.state = lte_state.LTE_STATE_SSS_SYNC ∧ (advance_time c.rx.time).subframe = 0 ∧
          d.sss_detect > 0 then d.sss_out.n_id_cell else c.gn_id_cell) ∧
    regen_count (drive_pdsch K c d adjust).events =
      regen_count c.events +
        (if c.rx.state = lte_state.LTE_STATE_SSS_SYNC ∧ (advance_time c.rx.time).subframe = 0 ∧
            d.sss_detect > 0 ∧ c.gn_id_cell ≠ d.sss_out.n_id_cell then 1 else 0) ∧
    (drive_pdsch K c d adjust).gn_id_cell =
      (if c.rx.state = lte_state.LTE_STATE_SSS_SYNC ∧ (advance_time c.rx.time).subframe = 0 ∧
          d.sss_detect > 0 then d.sss_out.n_id_cell else c.gn_id_cell) ∧
    ((c.rx.state = lte_state.LTE_STATE_SSS_SYNC ∧ (advance_time c.rx.time).subframe = 0 ∧
        d.sss_detect > 0) →
      (drive_pbch K c d).2.rx.state = lte_state.LTE_STATE_PBCH_SYNC ∧
      (drive_pdsch K c d adjust).rx.state = lte_state.LTE_STATE_PBCH_SYNC ∧
      (drive_pbch K c d).2.events.head? =
        (if c.gn_id_cell ≠ d.sss_out.n_id_cell
          then some (sync_event.set_global_cell_id d.sss_out.n_id_cell c.rx.rbs)
          else some (sync_event.offset_freq d.sss_out.f_offset))) ∧
    ((sss_sync K { c.rx with time := advance_time c.rx.time } d).1 > 0 ↔ d.sss_detect > 0) := by
  obtain ⟨p1, p2⟩ := drive_pbch_regen K c d
  obtain ⟨q1, q2⟩ := drive_pdsch_regen K c d adjust
  obtain ⟨r1, r2⟩ :=
    drive_common_regen K { c with rx := { c.rx with time := advance_time c.rx.time } } d
  refine ⟨by rw [p1, r1], by rw [p2, r2], by rw [q1, r1], by rw [q2, r2], ?_, ?_⟩
  · rintro ⟨hs, h0, hp⟩
    obtain ⟨s1, _, s3⟩ := drive_common_sss_success K
      { c with rx := { c.rx with time := advance_time c.rx.time } } d hs h0 hp
    have e1 := drive_pbch_of_not_pbch K c d (by rw [s1]; decide)
    have e2 := drive_pdsch_of_pbch_sync K c d adjust s1
    exact ⟨by rw [e1]; exact s1, by rw [e2]; exact s1, by rw [e1]; exact s3⟩
  · have h := sss_sync_pos_iff K { c.rx with time := advance_time c.rx.time } d
    constructor
    · intro hgt
      by_contra hn
      exact absurd (h.mpr hn) (by omega)
    · intro hp
      by_contra hn
      exact hp |> (h.mp (by omega))

set_option maxRecDepth 100000 in
/-- C23 (as stated) fails: the run `exPbchRun` enters `PBCH_SYNC` with the miss count at 3
(left by `SSS_SYNC`, which uses the same counter); the fifth of its re-verifications on
subframe 0 passes, and the ninth demotes to `PSS_SYNC` with a frequency reset, after eight
failed re-verifications of which at most four were consecutive. -/
theorem pbch_sync_demotion_counterexample :
    exPbchRun.length = 116 ∧
    (run_pbch K0 (sync_start rx0 6 [] []) (exPbchRun.take 31)).rx.state
      = lte_state.LTE_STATE_PBCH_SYNC ∧
    (run_pbch K0 (sync_start rx0 6 [] []) (exPbchRun.take 31)).common_pss_miss_cnt = 3 ∧
    (run_pbch K0 (sync_start rx0 6 [] []) (exPbchRun.take 66)).common_pss_miss_cnt = 7 ∧
    (run_pbch K0 (sync_start rx0 6 [] []) (exPbchRun.take 76)).common_pss_miss_cnt = 7 ∧
    (run_pbch K0 (sync_start rx0 6 [] []) (exPbchRun.take 106)).common_pss_miss_cnt = 10 ∧
    (run_pbch K0 (sync_start rx0 6 [] []) (exPbchRun.take 115)).rx.state
      = lte_state.LTE_STATE_PBCH_SYNC ∧
    (run_pbch K0 (sync_start rx0 6 [] []) (exPbchRun.take 115)).pbch_pss_miss_cnt = 8 ∧
    (run_pbch K0 (sync_start rx0 6 [] []) exPbchRun).rx.state
      = lte_state.LTE_STATE_PSS_SYNC ∧
    (run_pbch K0 (sync_start rx0 6 [] []) exPbchRun).common_pss_miss_cnt = 0 ∧
    (run_pbch K0 (sync_start rx0 6 [] []) exPbchRun).events.head?
      = some sync_event.offset_reset := by
  decide

/-- A `drive_common` call in state `PBCH_SYNC`. -/
theorem drive_common_pbch_sync (K : lte_params) (c : sync_ctx) (d : detections)
    (hs : c.rx.state = lte_state.LTE_STATE_PBCH_SYNC) :
    (c.rx.time.subframe ≠ 0 →
      drive_common K c d = { c with rx := { c.rx with state := lte_state.LTE_STATE_PBCH } }) ∧
    (c.rx.time.subframe = 0 →
      (c.common_pss_miss_cnt + (if (pbch_sync K c.rx d).1 then 0 else 1) > 10 →
        (drive_common K c d).rx.state = lte_state.LTE_STATE_PSS_SYNC ∧
        (drive_common K c d).common_pss_miss_cnt = 0 ∧
        (drive_common K c d).events = sync_event.offset_reset :: c.events) ∧
      (c.common_pss_miss_cnt + (if (pbch_sync K c.rx d).1 then 0 else 1) ≤ 10 →
        (drive_common K c d).rx.state = lte_state.LTE_STATE_PBCH ∧
        (drive_common K c d).common_pss_miss_cnt =
          c.common_pss_miss_cnt + (if (pbch_sync K c.rx d).1 then 0 else 1) ∧
        (drive_common K c d).events = c.events)) := by
  constructor
  · intro h0
    unfold drive_common
    simp only [hs, if_neg h0]
  · intro h0
    unfold drive_common
    simp only [hs, h0, if_true]
    by_cases hf : (pbch_sync K c.rx d).1 = true
    · simp only [hf, Bool.not_true, Bool.false_eq_true, if_false, if_true, add_zero]
      constructor
      · intro hk
        rw [if_pos hk]
        exact ⟨rfl, rfl, rfl⟩
      · intro hk
        rw [if_neg (by omega)]
        exact ⟨rfl, rfl, rfl⟩
    · have hf2 : (pbch_sync K c.rx d).1 = false := by
        cases h : (pbch_sync K c.rx d).1
        · rfl
        · exact absurd h hf
      simp only [hf2, Bool.not_false, if_true, Bool.false_eq_true, if_false]
      constructor
      · intro hk
        rw [if_pos hk]
        exact ⟨rfl, rfl, rfl⟩
      · intro hk
        rw [if_neg (by omega)]
        exact ⟨rfl, rfl, rfl⟩

/-- C23 (amended): in `PBCH_SYNC`, on a subframe other than 0 the step moves on to `PBCH`
without a re-verification; on subframe 0 a failed re-verification adds one to the miss
count and a passing one leaves the count as it is (it is not cleared); when the count then
exceeds 10 the state becomes `PSS_SYNC`, the frequency correction is reset and the count
cleared, and with a count of 10 or less the step moves on to `PBCH`. -/
theorem pbch_sync_miss_count (K : lte_params) (c : sync_ctx) (d : detections)
    (hs : c.rx.state = lte_state.LTE_STATE_PBCH_SYNC) :
    (c.rx.time.subframe ≠ 0 →
      drive_common K c d = { c with rx := { c.rx with state := lte_state.LTE_STATE_PBCH } }) ∧
    (c.rx.time.subframe = 0 →
      (c.common_pss_miss_cnt + (if (pbch_sync K c.rx d).1 then 0 else 1) > 10 →
        (drive_common K c d).rx.state = lte_state.LTE_STATE_PSS_SYNC ∧
        (drive_common K c d).common_pss_miss_cnt = 0 ∧
        (drive_common K c d).events = sync_event.offset_reset :: c.events) ∧
      (c.common_pss_miss_cnt + (if (pbch_sync K c.rx d).1 then 0 else 1) ≤ 10 →
        (drive_common K c d).rx.state = lte_state.LTE_STATE_PBCH ∧
        (drive_common K c d).common_pss_miss_cnt =
          c.common_pss_miss_cnt + (if (pbch_sync K c.rx d).1 then 0 else 1) ∧
        (drive_common K c d).events = c.events)) :=
  drive_common_pbch_sync K c d hs

set_option maxRecDepth 100000 in
/-- C23 (amended) at the last step of the example run: the miss count is 10, the
re-verification fails, and the state becomes `PSS_SYNC`. -/
theorem pbch_sync_miss_count_witness :
    cPBS.rx.state = lte_state.LTE_STATE_PBCH_SYNC ∧ cPBS.rx.time.subframe = 0 ∧
    cPBS.common_pss_miss_cnt = 10 ∧
    (drive_common K0 cPBS dbad).rx.state = lte_state.LTE_STATE_PSS_SYNC ∧
    (drive_common K0 cPBS dbad).common_pss_miss_cnt = 0 ∧
    (drive_common K0 cPBS dbad).events = sync_event.offset_reset :: cPBS.events :=
  ⟨by decide, by decide, by decide,
    ((pbch_sync_miss_count K0 cPBS dbad (by decide)).2 (by decide)).1 (by decide)⟩

/-- What `drive_common` never changes: the counters and the master information of
`drive_pbch` and `drive_pdsch`, the enable table and the two buffer queues. -/
theorem drive_common_keeps (K : lte_params) (c : sync_ctx) (d : detections) :
    (drive_common K c d).pbch_pss_miss_cnt = c.pbch_pss_miss_cnt ∧
    (drive_common K c d).pdsch_pss_miss_cnt = c.pdsch_pss_miss_cnt ∧
    (drive_common K c d).pdsch_sss_miss_cnt = c.pdsch_sss_miss_cnt ∧
    (drive_common K c d).pbch_mib = c.pbch_mib ∧
    (drive_common K c d).pdsch_mib = c.pdsch_mib ∧
    (drive_common K c d).subframe_table = c.subframe_table ∧
    (drive_common K c d).pdsch_q = c.pdsch_q ∧
    (drive_common K c d).pdsch_return_q = c.pdsch_return_q := by
  unfold drive_common
  split
  · split_ifs <;> simp
  · split_ifs <;> simp
  · simp only []
    split_ifs <;> simp [set_global_cell_id]
  · simp only []
    split_ifs <;> simp
  · simp

/-- The step of `drive_pbch` and `drive_pdsch` in state `PBCH` on subframe 0: the outcome of
`handle_pbch`. -/
theorem handle_pbch_result (t : lte_time) (d : detections) :
    (d.decode_pbch > 0 →
      (handle_pbch t d).1 = 1 ∧ (handle_pbch t d).2.1 = { t with frame := d.mib.fn }) ∧
    (d.decode_pbch ≤ 0 → (handle_pbch t d).1 ≤ 0 ∧ (handle_pbch t d).2.1 = t) ∧
    (handle_pbch t d).2.2 = d.mib := by
  unfold handle_pbch
  refine ⟨?_, ?_, ?_⟩
  · intro hp
    have h1 : ¬ (d.decode_pbch < 0) := by omega
    have h2 : ¬ (d.decode_pbch = 0) := by omega
    simp only [h1, h2, hp, if_true, if_false, and_self]
  · intro hn
    by_cases h1 : d.decode_pbch < 0
    · simp only [h1, if_true]
      exact ⟨by omega, trivial⟩
    · have h2 : d.decode_pbch = 0 := by omega
      rw [h2]
      simp
  · simp only []
    split_ifs <;> rfl

/-- The `drive_pbch` step whose `drive_common` part ends in `PBCH` on subframe 0. -/
theorem drive_pbch_decode (K : lte_params) (c : sync_ctx) (d : detections)
    (hst : (drive_common K { c with rx := { c.rx with time := advance_time c.rx.time } } d).rx.state
      = lte_state.LTE_STATE_PBCH)
    (h0 : (drive_common K { c with rx := { c.rx with time := advance_time c.rx.time } }
      d).rx.time.subframe = 0) :
    (d.decode_pbch > 0 →
      (drive_pbch K c d).1 = d.mib.rbs ∧
      (drive_pbch K c d).2.rx.state = lte_state.LTE_STATE_PBCH_SYNC ∧
      (drive_pbch K c d).2.rx.time.frame = d.mib.fn ∧
      (drive_pbch K c d).2.pbch_pss_miss_cnt = c.pbch_pss_miss_cnt) ∧
    (d.decode_pbch ≤ 0 →
      (drive_pbch K c d).1 = 0 ∧
      (drive_pbch K c d).2.rx.time =
        (drive_common K { c with rx := { c.rx with time := advance_time c.rx.time } }
          d).rx.time ∧
      (drive_pbch K c d).2.common_pss_miss_cnt =
        (drive_common K { c with rx := { c.rx with time := advance_time c.rx.time } }
          d).common_pss_miss_cnt ∧
      (c.pbch_pss_miss_cnt + 1 ≤ 10 →
        (drive_pbch K c d).2.rx.state = lte_state.LTE_STATE_PBCH ∧
        (drive_pbch K c d).2.pbch_pss_miss_cnt = c.pbch_pss_miss_cnt + 1 ∧
        (drive_pbch K c d).2.events =
          (drive_common K { c with rx := { c.rx with time := advance_time c.rx.time } }
            d).events) ∧
      (c.pbch_pss_miss_cnt + 1 > 10 →
        (drive_pbch K c d).2.rx.state = lte_state.LTE_STATE_PSS_SYNC ∧
        (drive_pbch K c d).2.pbch_pss_miss_cnt = 0 ∧
        (drive_pbch K c d).2.events = sync_event.offset_reset ::
          (drive_common K { c with rx := { c.rx with time := advance_time c.rx.time } }
            d).events)) := by
  obtain ⟨k1, _⟩ := drive_common_keeps K
    { c with rx := { c.rx with time := advance_time c.rx.time } } d
  have k1' : (drive_common K { c with rx := { c.rx with time := advance_time c.rx.time } }
      d).pbch_pss_miss_cnt = c.pbch_pss_miss_cnt := k1
  obtain ⟨hs, hf, hm⟩ := handle_pbch_result
    (drive_common K { c with rx := { c.rx with time := advance_time c.rx.time } } d).rx.time d
  have hsub : lte_subframe_pbch
      (drive_common K { c with rx := { c.rx with time := advance_time c.rx.time } }
        d).rx.time ≠ 0 := by
    unfold lte_subframe_pbch
    rw [if_pos h0]
    decide
  constructor
  · intro hp
    obtain ⟨s1, s2⟩ := hs hp
    have hle : ¬ ((handle_pbch (drive_common K
        { c with rx := { c.rx with time := advance_time c.rx.time } } d).rx.time d).1 ≤ 0) := by
      rw [s1]; decide
    unfold drive_pbch
    simp only [hst, hsub, ne_eq, not_false_eq_true, if_true, hle, if_false, hm, s2, k1']
    exact ⟨trivial, trivial, trivial, trivial⟩
  · intro hn
    obtain ⟨f1, f2⟩ := hf hn
    unfold drive_pbch
    simp only [hst, hsub, ne_eq, not_false_eq_true, if_true, f1, hm, f2, k1']
    by_cases hk : c.pbch_pss_miss_cnt + 1 > 10
    · rw [if_pos hk]
      exact ⟨rfl, rfl, rfl, fun h => absurd hk (by omega), fun _ => ⟨rfl, rfl, rfl⟩⟩
    · rw [if_neg hk]
      exact ⟨rfl, rfl, rfl, fun _ => ⟨rfl, rfl, rfl⟩, fun h => absurd h hk⟩

/-- The `drive_pdsch` step whose `drive_common` part ends in `PBCH` on subframe 0. -/
theorem drive_pdsch_decode (K : lte_params) (c : sync_ctx) (d : detections) (adjust : Int)
    (hst : (drive_common K { c with rx := { c.rx with time := advance_time c.rx.time } } d).rx.state
      = lte_state.LTE_STATE_PBCH)
    (h0 : (drive_common K { c with rx := { c.rx with time := advance_time c.rx.time } }
      d).rx.time.subframe = 0) :
    (d.decode_pbch > 0 →
      (drive_pdsch K c d adjust).rx.state = lte_state.LTE_STATE_PDSCH_SYNC ∧
      (drive_pdsch K c d adjust).rx.time.frame = d.mib.fn ∧
      (drive_pdsch K c d adjust).pdsch_pss_miss_cnt = 0) ∧
    (d.decode_pbch ≤ 0 →
      (drive_pdsch K c d adjust).rx.time =
        (drive_common K { c with rx := { c.rx with time := advance_time c.rx.time } }
          d).rx.time ∧
      (c.pdsch_pss_miss_cnt + 1 ≤ 10 →
        (drive_pdsch K c d adjust).rx.state = lte_state.LTE_STATE_PBCH ∧
        (drive_pdsch K c d adjust).pdsch_pss_miss_cnt = c.pdsch_pss_miss_cnt + 1 ∧
        (drive_pdsch K c d adjust).events =
          (drive_common K { c with rx := { c.rx with time := advance_time c.rx.time } }
            d).events) ∧
      (c.pdsch_pss_miss_cnt + 1 > 10 →
        (drive_pdsch K c d adjust).rx.state = lte_state.LTE_STATE_PSS_SYNC ∧
        (drive_pdsch K c d adjust).pdsch_pss_miss_cnt = 0 ∧
        (drive_pdsch K c d adjust).events = sync_event.offset_reset ::
          (drive_common K { c with rx := { c.rx with time := advance_time c.rx.time } }
            d).events)) := by
  obtain ⟨_, k2, _⟩ := drive_common_keeps K
    { c with rx := { c.rx with time := advance_time c.rx.time } } d
  have k2' : (drive_common K { c with rx := { c.rx with time := advance_time c.rx.time } }
      d).pdsch_pss_miss_cnt = c.pdsch_pss_miss_cnt := k2
  obtain ⟨hs, hf, hm⟩ := handle_pbch_result
    (drive_common K { c with rx := { c.rx with time := advance_time c.rx.time } } d).rx.time d
  have hsub : lte_subframe_pbch
      (drive_common K { c with rx := { c.rx with time := advance_time c.rx.time } }
        d).rx.time ≠ 0 := by
    unfold lte_subframe_pbch
    rw [if_pos h0]
    decide
  constructor
  · intro hp
    obtain ⟨s1, s2⟩ := hs hp
    have hle : ¬ ((handle_pbch (drive_common K
        { c with rx := { c.rx with time := advance_time c.rx.time } } d).rx.time d).1 ≤ 0) := by
      rw [s1]; decide
    unfold drive_pdsch
    simp only [hst, hsub, ne_eq, not_false_eq_true, if_true, hle, if_false, hm, s2, k2']
    exact ⟨trivial, trivial, trivial⟩
  · intro hn
    obtain ⟨f1, f2⟩ := hf hn
    unfold drive_pdsch
    simp only [hst, hsub, ne_eq, not_false_eq_true, if_true, f1, hm, f2, k2']
    by_cases hk : c.pdsch_pss_miss_cnt + 1 > 10
    · rw [if_pos hk]
      exact ⟨rfl, fun h => absurd hk (by omega), fun _ => ⟨rfl, rfl, rfl⟩⟩
    · rw [if_neg hk]
      exact ⟨rfl, fun _ => ⟨rfl, rfl, rfl⟩, fun h => absurd h hk⟩

theorem pbch_sync_time (K : lte_params) (rx : lte_rx) (d : detections) :
    (pbch_sync K rx d).2.1.time = rx.time := by
  unfold pbch_sync
  simp only []
  split_ifs <;> rfl

theorem drive_common_time_pbch_sync (K : lte_params) (c : sync_ctx) (d : detections)
    (hs : c.rx.state = lte_state.LTE_STATE_PBCH_SYNC) :
    (drive_common K c d).rx.time = c.rx.time := by
  have ht := pbch_sync_time K c.rx d
  unfold drive_common
  simp only [hs]
  split_ifs <;> first | rfl | exact ht

/-- A `drive_pbch` step whose `drive_common` part ends in `PBCH` on a subframe other than 0
only sets the state to `PBCH_SYNC` after it. -/
theorem drive_pbch_of_pbch_off (K : lte_params) (c : sync_ctx) (d : detections)
    (hst : (drive_common K { c with rx := { c.rx with time := advance_time c.rx.time } } d).rx.state
      = lte_state.LTE_STATE_PBCH)
    (hsf : (drive_common K { c with rx := { c.rx with time := advance_time c.rx.time } }
      d).rx.time.subframe ≠ 0) :
    drive_pbch K c d =
      (0, { drive_common K { c with rx := { c.rx with time := advance_time c.rx.time } } d with
            rx := { (drive_common K { c with rx := { c.rx with time := advance_time c.rx.time } }
                      d).rx with state := lte_state.LTE_STATE_PBCH_SYNC } }) := by
  unfold drive_pbch
  simp only [hst, lte_subframe_pbch, if_neg hsf, ne_eq, not_true_eq_false, if_false]

/-- Idle step of `drive_pbch` in `PBCH` or `PBCH_SYNC`: at a subframe `k < 9` the step ends
in `PBCH_SYNC` and otherwise only advances the counters of time. -/
theorem drive_pbch_idle_pbch (K : lte_params) (c : sync_ctx) (d : detections)
    (hs : c.rx.state = lte_state.LTE_STATE_PBCH ∨ c.rx.state = lte_state.LTE_STATE_PBCH_SYNC)
    (h0 : 0 ≤ c.rx.time.subframe) (h1 : c.rx.time.subframe < 9) :
    drive_pbch K c d =
      (0, { c with rx := { c.rx with time := advance_time c.rx.time,
                                     state := lte_state.LTE_STATE_PBCH_SYNC } }) := by
  obtain ⟨_, a2⟩ := advance_time_mid c.rx.time h0 h1
  rcases hs with hs | hs
  · have e : drive_common K { c with rx := { c.rx with time := advance_time c.rx.time } } d
        = { c with rx := { c.rx with time := advance_time c.rx.time } } := by
      unfold drive_common
      simp only [hs]
    rw [drive_pbch_of_pbch_off K c d (by rw [e]; exact hs) (by rw [e]; exact a2), e]
  · have e : drive_common K { c with rx := { c.rx with time := advance_time c.rx.time } } d
        = { c with rx := { c.rx with time := advance_time c.rx.time,
                                     state := lte_state.LTE_STATE_PBCH } } := by
      unfold drive_common
      simp only [hs, if_neg a2]
    rw [drive_pbch_of_pbch_off K c d (by rw [e]) (by rw [e]; exact a2), e]

/-- Idle steps of `drive_pbch` in `PBCH` or `PBCH_SYNC`: `n` steps that do not pass
subframe 9 leave the two miss counts and the log of calls as they were. -/
theorem run_pbch_idle_pbch (K : lte_params) (n : Nat) :
    ∀ (c : sync_ctx) (ds : List detections), ds.length = n →
      (c.rx.state = lte_state.LTE_STATE_PBCH ∨ c.rx.state = lte_state.LTE_STATE_PBCH_SYNC) →
      0 ≤ c.rx.time.subframe → c.rx.time.subframe + (n : Int) ≤ 9 →
      ((run_pbch K c ds).rx.state = lte_state.LTE_STATE_PBCH ∨
        (run_pbch K c ds).rx.state = lte_state.LTE_STATE_PBCH_SYNC) ∧
      (run_pbch K c ds).rx.time.subframe = c.rx.time.subframe + (n : Int) ∧
      (run_pbch K c ds).common_pss_miss_cnt = c.common_pss_miss_cnt ∧
      (run_pbch K c ds).pbch_pss_miss_cnt = c.pbch_pss_miss_cnt ∧
      (run_pbch K c ds).events = c.events := by
  induction n with
  | zero =>
    intro c ds hl hs _ _
    have : ds = [] := List.length_eq_zero.mp hl
    subst this
    exact ⟨hs, by simp [run_pbch], rfl, rfl, rfl⟩
  | succ n ih =>
    intro c ds hl hs h0 h9
    match ds, hl with
    | d :: rest, hl =>
      have hl2 : rest.length = n := by simpa using hl
      push_cast at h9
      have w := drive_pbch_idle_pbch K c d hs h0 (by omega)
      obtain ⟨a1, _⟩ := advance_time_mid c.rx.time h0 (by omega)
      have e : run_pbch K c (d :: rest) = run_pbch K (drive_pbch K c d).2 rest := rfl
      rw [e, w]
      obtain ⟨r1, r2, r3, r4, r5⟩ :=
        ih { c with rx := { c.rx with time := advance_time c.rx.time,
                                      state := lte_state.LTE_STATE_PBCH_SYNC } } rest hl2
          (Or.inr rfl)
          (by show 0 ≤ (advance_time c.rx.time).subframe; omega)
          (by show (advance_time c.rx.time).subframe + (n : Int) ≤ 9; omega)
      refine ⟨r1, ?_, r3, r4, r5⟩
      rw [r2]
      show (advance_time c.rx.time).subframe + (n : Int) = c.rx.time.subframe + ((n + 1 : Nat) : Int)
      push_cast
      omega

/-- The `drive_common` part of a `drive_pbch` or `drive_pdsch` step from subframe 9 in
`PBCH` or `PBCH_SYNC`, with a miss count that one more miss does not take above 10, ends in
`PBCH` on subframe 0. -/
theorem drive_common_pbch_again (K : lte_params) (c : sync_ctx) (d : detections)
    (hs : c.rx.state = lte_state.LTE_STATE_PBCH ∨ c.rx.state = lte_state.LTE_STATE_PBCH_SYNC)
    (h9 : c.rx.time.subframe = 9) (hc : c.common_pss_miss_cnt + 1 ≤ 10) :
    (drive_common K { c with rx := { c.rx with time := advance_time c.rx.time } } d).rx.state
      = lte_state.LTE_STATE_PBCH ∧
    (drive_common K { c with rx := { c.rx with time := advance_time c.rx.time } }
      d).rx.time.subframe = 0 := by
  have a := advance_time_wrap c.rx.time h9
  rcases hs with hs | hs
  · have e : drive_common K { c with rx := { c.rx with time := advance_time c.rx.time } } d
        = { c with rx := { c.rx with time := advance_time c.rx.time } } := by
      unfold drive_common
      simp only [hs]
    rw [e]
    exact ⟨hs, a⟩
  · have ht := drive_common_time_pbch_sync K
      { c with rx := { c.rx with time := advance_time c.rx.time } } d hs
    obtain ⟨_, h2⟩ := drive_common_pbch_sync K
      { c with rx := { c.rx with time := advance_time c.rx.time } } d hs
    obtain ⟨_, hle⟩ := h2 a
    have hcnt : c.common_pss_miss_cnt +
        (if (pbch_sync K { c.rx with time := advance_time c.rx.time } d).1 then 0 else 1)
        ≤ 10 := by
      split_ifs <;> omega
    exact ⟨(hle hcnt).1, by rw [ht]; exact a⟩

theorem drive_common_pbch_id (K : lte_params) (c : sync_ctx) (d : detections)
    (hs : c.rx.state = lte_state.LTE_STATE_PBCH) : drive_common K c d = c := by
  unfold drive_common
  simp only [hs]

/-- A `drive_pdsch` step whose `drive_common` part ends in `PBCH` on a subframe other than 0
is that part alone. -/
theorem drive_pdsch_of_pbch_off (K : lte_params) (c : sync_ctx) (d : detections)
    (adjust : Int)
    (hst : (drive_common K { c with rx := { c.rx with time := advance_time c.rx.time } } d).rx.state
      = lte_state.LTE_STATE_PBCH)
    (hsf : (drive_common K { c with rx := { c.rx with time := advance_time c.rx.time } }
      d).rx.time.subframe ≠ 0) :
    drive_pdsch K c d adjust =
      drive_common K { c with rx := { c.rx with time := advance_time c.rx.time } } d := by
  unfold drive_pdsch
  simp only [hst, lte_subframe_pbch, if_neg hsf, ne_eq, not_true_eq_false, if_false]

/-- Idle step of `drive_pdsch` in `PBCH`: at a subframe `k < 9` the step only advances the
counters of time. -/
theorem drive_pdsch_idle_pbch (K : lte_params) (c : sync_ctx) (d : detections) (adjust : Int)
    (hs : c.rx.state = lte_state.LTE_STATE_PBCH)
    (h0 : 0 ≤ c.rx.time.subframe) (h1 : c.rx.time.subframe < 9) :
    drive_pdsch K c d adjust = { c with rx := { c.rx with time := advance_time c.rx.time } } := by
  obtain ⟨_, a2⟩ := advance_time_mid c.rx.time h0 h1
  have e := drive_common_pbch_id K
    { c with rx := { c.rx with time := advance_time c.rx.time } } d hs
  rw [drive_pdsch_of_pbch_off K c d adjust (by rw [e]; exact hs) (by rw [e]; exact a2), e]

/-- Idle steps of `drive_pdsch` in `PBCH`: `n` steps that do not pass subframe 9 leave the
state, the miss count and the log of calls as they were. -/
theorem run_pdsch_idle_pbch (K : lte_params) (n : Nat) :
    ∀ (c : sync_ctx) (ds : List (detections × Int)), ds.length = n →
      c.rx.state = lte_state.LTE_STATE_PBCH →
      0 ≤ c.rx.time.subframe → c.rx.time.subframe + (n : Int) ≤ 9 →
      (run_pdsch K c ds).rx.state = lte_state.LTE_STATE_PBCH ∧
      (run_pdsch K c ds).rx.time.subframe = c.rx.time.subframe + (n : Int) ∧
      (run_pdsch K c ds).pdsch_pss_miss_cnt = c.pdsch_pss_miss_cnt ∧
      (run_pdsch K c ds).events = c.events := by
  induction n with
  | zero =>
    intro c ds hl hs _ _
    have : ds = [] := List.length_eq_zero.mp hl
    subst this
    exact ⟨hs, by simp [run_pdsch], rfl, rfl⟩
  | succ n ih =>
    intro c ds hl hs h0 h9
    match ds, hl with
    | d :: rest, hl =>
      have hl2 : rest.length = n := by simpa using hl
      push_cast at h9
      have w := drive_pdsch_idle_pbch K c d.1 d.2 hs h0 (by omega)
      obtain ⟨a1, _⟩ := advance_time_mid c.rx.time h0 (by omega)
      have e : run_pdsch K c (d :: rest) = run_pdsch K (drive_pdsch K c d.1 d.2) rest := rfl
      rw [e, w]
      obtain ⟨r1, r2, r3, r4⟩ :=
        ih { c with rx := { c.rx with time := advance_time c.rx.time } } rest hl2 hs
          (by show 0 ≤ (advance_time c.rx.time).subframe; omega)
          (by show (advance_time c.rx.time).subframe + (n : Int) ≤ 9; omega)
      refine ⟨r1, ?_, r3, r4⟩
      rw [r2]
      show (advance_time c.rx.time).subframe + (n : Int) = c.rx.time.subframe + ((n + 1 : Nat) : Int)
      push_cast
      omega

/-- A `drive_common` call that ends in `PBCH` makes no call to the front end. -/
theorem drive_common_to_pbch_events (K : lte_params) (c : sync_ctx) (d : detections)
    (hst : (drive_common K c d).rx.state = lte_state.LTE_STATE_PBCH) :
    (drive_common K c d).events = c.events := by
  unfold drive_common at hst ⊢
  split at hst
  · rename_i hs
    simp only [hs]
    split_ifs at hst ⊢
    rfl
  · rename_i hs
    simp only [hs]
    split_ifs at hst ⊢
    rfl
  · rename_i hs
    simp only [hs]
    simp only [] at hst
    split_ifs at hst ⊢ <;> first
      | rfl
      | exact absurd hst (by decide)
      | (simp only [set_global_cell_id] at hst; exact absurd hst (by decide))
  · rename_i hs
    simp only [hs]
    simp only [] at hst
    split_ifs at hst ⊢ <;> rfl
  · rfl

/-- C24: a step whose `drive_common` part ends in `PBCH` on subframe 0 runs the decoder of
the master information.  On success `drive_pbch` returns the decoded bandwidth `mib.rbs`
and `drive_pdsch` moves to `PDSCH_SYNC` with its miss count cleared.  On failure
`drive_pbch` returns 0; while the failure count stays at 10 or below the state stays `PBCH`
with no call to the front end, and the decoder is run again ten steps later on the next
subframe 0 (in `drive_pbch` provided the re-verification of `PBCH_SYNC` cannot demote);
when the failure count exceeds 10 the state becomes `PSS_SYNC`, the count is cleared and
the frequency correction is reset. -/
theorem pbch_decode_step (K : lte_params) (c : sync_ctx) (d : detections) (adjust : Int)
    (hst : (drive_common K { c with rx := { c.rx with time := advance_time c.rx.time } } d).rx.state
      = lte_state.LTE_STATE_PBCH)
    (h0 : (drive_common K { c with rx := { c.rx with time := advance_time c.rx.time } }
      d).rx.time.subframe = 0) :
    (d.decode_pbch > 0 →
      (drive_pbch K c d).1 = d.mib.rbs ∧
      (drive_pbch K c d).2.rx.state = lte_state.LTE_STATE_PBCH_SYNC ∧
      (drive_pdsch K c d adjust).rx.state = lte_state.LTE_STATE_PDSCH_SYNC ∧
      (drive_pdsch K c d adjust).pdsch_pss_miss_cnt = 0) ∧
    (d.decode_pbch ≤ 0 →
      (drive_pbch K c d).1 = 0 ∧
      (c.pbch_pss_miss_cnt + 1 ≤ 10 →
        (drive_pbch K c d).2.rx.state = lte_state.LTE_STATE_PBCH ∧
        (drive_pbch K c d).2.pbch_pss_miss_cnt = c.pbch_pss_miss_cnt + 1 ∧
        (drive_pbch K c d).2.events = c.events) ∧
      (c.pbch_pss_miss_cnt + 1 > 10 →
        (drive_pbch K c d).2.rx.state = lte_state.LTE_STATE_PSS_SYNC ∧
        (drive_pbch K c d).2.pbch_pss_miss_cnt = 0 ∧
        (drive_pbch K c d).2.events = sync_event.offset_reset :: c.events) ∧
      (c.pdsch_pss_miss_cnt + 1 ≤ 10 →
        (drive_pdsch K c d adjust).rx.state = lte_state.LTE_STATE_PBCH ∧
        (drive_pdsch K c d adjust).pdsch_pss_miss_cnt = c.pdsch_pss_miss_cnt + 1 ∧
        (drive_pdsch K c d adjust).events = c.events) ∧
      (c.pdsch_pss_miss_cnt + 1 > 10 →
        (drive_pdsch K c d adjust).rx.state = lte_state.LTE_STATE_PSS_SYNC ∧
        (drive_pdsch K c d adjust).pdsch_pss_miss_cnt = 0 ∧
        (drive_pdsch K c d adjust).events = sync_event.offset_reset :: c.events) ∧
      (c.pbch_pss_miss_cnt + 1 ≤ 10 → (drive_pbch K c d).2.common_pss_miss_cnt + 1 ≤ 10 →
        ∀ (ds : List detections) (d2 : detections), ds.length = 9 →
          (drive_common K
            { run_pbch K (drive_pbch K c d).2 ds with
              rx := { (run_pbch K (drive_pbch K c d).2 ds).rx with
                      time := advance_time (run_pbch K (drive_pbch K c d).2 ds).rx.time } }
            d2).rx.state = lte_state.LTE_STATE_PBCH ∧
          (drive_common K
            { run_pbch K (drive_pbch K c d).2 ds with
              rx := { (run_pbch K (drive_pbch K c d).2 ds).rx with
                      time := advance_time (run_pbch K (drive_pbch K c d).2 ds).rx.time } }
            d2).rx.time.subframe = 0 ∧
          (run_pbch K (drive_pbch K c d).2 ds).pbch_pss_miss_cnt = c.pbch_pss_miss_cnt + 1) ∧
      (c.pdsch_pss_miss_cnt + 1 ≤ 10 →
        ∀ (ds : List (detections × Int)) (d2 : detections), ds.length = 9 →
          (drive_common K
            { run_pdsch K (drive_pdsch K c d adjust) ds with
              rx := { (run_pdsch K (drive_pdsch K c d adjust) ds).rx with
                      time := advance_time (run_pdsch K (drive_pdsch K c d adjust) ds).rx.time } }
            d2).rx.state = lte_state.LTE_STATE_PBCH ∧
          (drive_common K
            { run_pdsch K (drive_pdsch K c d adjust) ds with
              rx := { (run_pdsch K (drive_pdsch K c d adjust) ds).rx with
                      time := advance_time (run_pdsch K (drive_pdsch K c d adjust) ds).rx.time } }
            d2).rx.time.subframe = 0 ∧
          (run_pdsch K (drive_pdsch K c d adjust) ds).pdsch_pss_miss_cnt
            = c.pdsch_pss_miss_cnt + 1)) := by
  have hev : (drive_common K { c with rx := { c.rx with time := advance_time c.rx.time } }
      d).events = c.events := drive_common_to_pbch_events K _ d hst
  obtain ⟨ps, pf⟩ := drive_pbch_decode K c d hst h0
  obtain ⟨qs, qf⟩ := drive_pdsch_decode K c d adjust hst h0
  constructor
  · intro hp
    obtain ⟨p1, p2, _, _⟩ := ps hp
    obtain ⟨q1, _, q3⟩ := qs hp
    exact ⟨p1, p2, q1, q3⟩
  · intro hn
    obtain ⟨p1, p2, p3, p4, p5⟩ := pf hn
    obtain ⟨q1, q4, q5⟩ := qf hn
    refine ⟨p1, ?_, ?_, ?_, ?_, ?_, ?_⟩
    · intro hk
      obtain ⟨x1, x2, x3⟩ := p4 hk
      exact ⟨x1, x2, by rw [x3, hev]⟩
    · intro hk
      obtain ⟨x1, x2, x3⟩ := p5 hk
      exact ⟨x1, x2, by rw [x3, hev]⟩
    · intro hk
      obtain ⟨x1, x2, x3⟩ := q4 hk
      exact ⟨x1, x2, by rw [x3, hev]⟩
    · intro hk
      obtain ⟨x1, x2, x3⟩ := q5 hk
      exact ⟨x1, x2, by rw [x3, hev]⟩
    · intro hk hc ds d2 hl
      obtain ⟨x1, x2, _⟩ := p4 hk
      have hsf : (drive_pbch K c d).2.rx.time.subframe = 0 := by rw [p2]; exact h0
      obtain ⟨r1, r2, r3, r4, _⟩ := run_pbch_idle_pbch K 9 (drive_pbch K c d).2 ds hl
        (Or.inl x1) (by omega) (by omega)
      obtain ⟨y1, y2⟩ := drive_common_pbch_again K (run_pbch K (drive_pbch K c d).2 ds) d2 r1
        (by rw [r2, hsf]; rfl) (by rw [r3]; exact hc)
      exact ⟨y1, y2, by rw [r4, x2]⟩
    · intro hk ds d2 hl
      obtain ⟨x1, x2, _⟩ := q4 hk
      have hsf : (drive_pdsch K c d adjust).rx.time.subframe = 0 := by rw [q1]; exact h0
      obtain ⟨r1, r2, r3, _⟩ := run_pdsch_idle_pbch K 9 (drive_pdsch K c d adjust) ds hl
        x1 (by omega) (by omega)
      have e := drive_common_pbch_id K
        { run_pdsch K (drive_pdsch K c d adjust) ds with
          rx := { (run_pdsch K (drive_pdsch K c d adjust) ds).rx with
                  time := advance_time (run_pdsch K (drive_pdsch K c d adjust) ds).rx.time } }
        d2 r1
      rw [e]
      exact ⟨r1, advance_time_wrap _ (by rw [r2, hsf]; rfl), by rw [r3, x2]⟩

set_option maxRecDepth 100000 in
/-- C24 at the example receiver, for a subframe in which the master information is decoded
(bandwidth 50). -/
theorem pbch_decode_step_witness :
    cPB9.rx.state = lte_state.LTE_STATE_PBCH_SYNC ∧ cPB9.rx.time.subframe = 9 ∧
    (drive_pbch K0 cPB9 dgood).1 = 50 ∧
    (drive_pbch K0 cPB9 dgood).2.rx.state = lte_state.LTE_STATE_PBCH_SYNC ∧
    (drive_pdsch K0 cPB9 dgood 0).rx.state = lte_state.LTE_STATE_PDSCH_SYNC ∧
    (drive_pdsch K0 cPB9 dgood 0).pdsch_pss_miss_cnt = 0 :=
  ⟨by decide, by decide,
    (pbch_decode_step K0 cPB9 dgood 0 (by decide) (by decide)).1 (by decide)⟩

theorem pdsch_sync_state (K : lte_params) (rx : lte_rx) (d : detections) :
    (pdsch_sync K rx d).2.state = rx.state ∧ (pdsch_sync K rx d).2.time = rx.time := by
  unfold pdsch_sync
  simp only []
  split_ifs <;> exact ⟨rfl, rfl⟩

theorem drive_common_pdsch_id (K : lte_params) (c : sync_ctx) (d : detections)
    (hs : c.rx.state = lte_state.LTE_STATE_PDSCH_SYNC ∨ c.rx.state = lte_state.LTE_STATE_PDSCH) :
    drive_common K c d = c := by
  unfold drive_common
  rcases hs with hs | hs <;> simp only [hs]

/-- A `drive_pdsch` step in `PDSCH_SYNC` whose subframe is not 5 is the hand-off alone. -/
theorem drive_pdsch_sync_off (K : lte_params) (c : sync_ctx) (d : detections) (adjust : Int)
    (hs : c.rx.state = lte_state.LTE_STATE_PDSCH_SYNC)
    (h5 : (advance_time c.rx.time).subframe ≠ 5) :
    drive_pdsch K c d adjust =
      pdsch_handoff { c with rx := { c.rx with time := advance_time c.rx.time } } adjust := by
  have e := drive_common_pdsch_id K
    { c with rx := { c.rx with time := advance_time c.rx.time } } d (Or.inl hs)
  unfold drive_pdsch
  simp only [e]
  simp only [hs, if_neg h5]

/-- C25: a `drive_pdsch` step in `PDSCH_SYNC`.  When the subframe counter after the advance
is not 5 there is no re-check and the step is the hand-off alone.  On subframe 5
`pdsch_sync` runs; a negative result other than `-SYNC_ERR_SSS` adds one to the timing-miss
count, the result `-SYNC_ERR_SSS` (which `pdsch_sync` never returns) would add to the
separate identity-mismatch count; the state is demoted to `PSS_SYNC`, with both counts
cleared, the frequency correction reset and both queues untouched, exactly when the
timing-miss count then exceeds 100 or the identity-mismatch count exceeds 5; otherwise the
state stays `PDSCH_SYNC` and the hand-off follows. -/
theorem pdsch_sync_step (K : lte_params) (c : sync_ctx) (d : detections) (adjust : Int)
    (hs : c.rx.state = lte_state.LTE_STATE_PDSCH_SYNC) :
    ((advance_time c.rx.time).subframe ≠ 5 →
      drive_pdsch K c d adjust =
        pdsch_handoff { c with rx := { c.rx with time := advance_time c.rx.time } } adjust) ∧
    ((advance_time c.rx.time).subframe = 5 →
      (pdsch_sync K { c.rx with time := advance_time c.rx.time } d).1 ≠ -SYNC_ERR_SSS ∧
      (((drive_pdsch K c d adjust).rx.state = lte_state.LTE_STATE_PSS_SYNC) ↔
        (c.pdsch_pss_miss_cnt +
          (if (pdsch_sync K { c.rx with time := advance_time c.rx.time } d).1 < 0 then 1 else 0)
            > 100 ∨ c.pdsch_sss_miss_cnt > 5)) ∧
      ((c.pdsch_pss_miss_cnt +
          (if (pdsch_sync K { c.rx with time := advance_time c.rx.time } d).1 < 0 then 1 else 0)
            > 100 ∨ c.pdsch_sss_miss_cnt > 5) →
        (drive_pdsch K c d adjust).pdsch_pss_miss_cnt = 0 ∧
        (drive_pdsch K c d adjust).pdsch_sss_miss_cnt = 0 ∧
        (drive_pdsch K c d adjust).events = sync_event.offset_reset :: c.events ∧
        (drive_pdsch K c d adjust).pdsch_q = c.pdsch_q ∧
        (drive_pdsch K c d adjust).pdsch_return_q = c.pdsch_return_q) ∧
      (¬ (c.pdsch_pss_miss_cnt +
          (if (pdsch_sync K { c.rx with time := advance_time c.rx.time } d).1 < 0 then 1 else 0)
            > 100 ∨ c.pdsch_sss_miss_cnt > 5) →
        (drive_pdsch K c d adjust).rx.state = lte_state.LTE_STATE_PDSCH_SYNC ∧
        drive_pdsch K c d adjust =
          pdsch_handoff
            { c with rx := (pdsch_sync K { c.rx with time := advance_time c.rx.time } d).2,
                     pdsch_pss_miss_cnt := c.pdsch_pss_miss_cnt +
                       (if (pdsch_sync K { c.rx with time := advance_time c.rx.time } d).1 < 0
                         then 1 else 0) } adjust)) := by
  refine ⟨drive_pdsch_sync_off K c d adjust hs, ?_⟩
  intro h5
  have e := drive_common_pdsch_id K
    { c with rx := { c.rx with time := advance_time c.rx.time } } d (Or.inl hs)
  obtain ⟨_, _, hne⟩ := pdsch_sync_result K { c.rx with time := advance_time c.rx.time } d
  obtain ⟨hps, _⟩ := pdsch_sync_state K { c.rx with time := advance_time c.rx.time } d
  have hps2 : (pdsch_sync K { c.rx with time := advance_time c.rx.time } d).2.state
      = lte_state.LTE_STATE_PDSCH_SYNC := by rw [hps]; exact hs
  have hstep : drive_pdsch K c d adjust =
      (if c.pdsch_pss_miss_cnt +
          (if (pdsch_sync K { c.rx with time := advance_time c.rx.time } d).1 < 0 then 1 else 0)
            > 100 ∨ c.pdsch_sss_miss_cnt > 5 then
        { c with rx := { (pdsch_sync K { c.rx with time := advance_time c.rx.time } d).2 with
                         state := lte_state.LTE_STATE_PSS_SYNC },
                 pdsch_pss_miss_cnt := 0, pdsch_sss_miss_cnt := 0,
                 events := sync_event.offset_reset :: c.events }
      else
        pdsch_handoff
          { c with rx := (pdsch_sync K { c.rx with time := advance_time c.rx.time } d).2,
                   pdsch_pss_miss_cnt := c.pdsch_pss_miss_cnt +
                     (if (pdsch_sync K { c.rx with time := advance_time c.rx.time } d).1 < 0
                       then 1 else 0) } adjust) := by
    unfold drive_pdsch
    simp only [e]
    generalize pdsch_sync K { c.rx with time := advance_time c.rx.time } d = r at hne ⊢
    simp only [hs, h5, if_true, if_neg hne]
    by_cases hlt : r.1 < 0
    · simp only [hlt, if_true]
    · simp only [hlt, if_false, add_zero]
  refine ⟨hne, ?_, ?_, ?_⟩
  · rw [hstep]
    constructor
    · intro hst
      by_contra hcon
      rw [if_neg hcon, (pdsch_handoff_keeps _ adjust).2.2] at hst
      rw [hps2] at hst
      exact absurd hst (by decide)
    · intro hcon
      rw [if_pos hcon]
  · intro hcon
    rw [hstep, if_pos hcon]
    exact ⟨rfl, rfl, rfl, rfl, rfl⟩
  · intro hcon
    rw [hstep, if_neg hcon]
    refine ⟨?_, rfl⟩
    rw [(pdsch_handoff_keeps _ adjust).2.2]
    exact hps2

set_option maxRecDepth 100000 in
/-- C25 at the example receiver in tracking mode: a step to subframe 5 with the correlation
peak out of the window counts one timing miss and leaves the state `PDSCH_SYNC`. -/
theorem pdsch_sync_step_witness :
    cTrack4.rx.state = lte_state.LTE_STATE_PDSCH_SYNC ∧
    (advance_time cTrack4.rx.time).subframe = 5 ∧
    cTrack4.pdsch_pss_miss_cnt = 0 ∧
    (drive_pdsch K0 cTrack4 dbad 0).rx.state = lte_state.LTE_STATE_PDSCH_SYNC ∧
    (drive_pdsch K0 cTrack4 dbad 0).pdsch_pss_miss_cnt = 1 :=
  ⟨by decide, by decide, by decide,
    (((pdsch_sync_step K0 cTrack4 dbad 0 (by decide)).2 (by decide)).2.2.2 (by decide)).1,
    by decide⟩

/-- The counter update keeps the counters in range, and is the addition of one modulo 10
resp. 1024 there. -/
theorem advance_time_range (t : lte_time) (hs0 : 0 ≤ t.subframe) (hs1 : t.subframe < 10)
    (hf0 : 0 ≤ t.frame) (hf1 : t.frame < 1024) :
    (advance_time t).subframe = (t.subframe + 1) % 10 ∧
    (advance_time t).frame = (if (t.subframe + 1) % 10 = 0 then (t.frame + 1) % 1024
      else t.frame) ∧
    (advance_time t).slot = t.slot ∧
    0 ≤ (advance_time t).subframe ∧ (advance_time t).subframe < 10 ∧
    0 ≤ (advance_time t).frame ∧ (advance_time t).frame < 1024 := by
  have e1 : Int.tmod (t.subframe + 1) 10 = (t.subframe + 1) % 10 :=
    Int.tmod_eq_emod (by omega) (by decide)
  have e2 : Int.tmod (t.frame + 1) 1024 = (t.frame + 1) % 1024 :=
    Int.tmod_eq_emod (by omega) (by decide)
  unfold advance_time
  simp only [e1, e2]
  split_ifs with h
  · refine ⟨rfl, rfl, rfl, ?_, ?_, ?_, ?_⟩ <;> simp only [] <;> omega
  · refine ⟨rfl, rfl, rfl, ?_, ?_, ?_, ?_⟩ <;> simp only [] <;> omega

/-- Ten counter updates return the subframe counter to its value and add one to the frame
counter modulo 1024. -/
theorem advance_time_ten (t : lte_time) (hs0 : 0 ≤ t.subframe) (hs1 : t.subframe < 10)
    (hf0 : 0 ≤ t.frame) (hf1 : t.frame < 1024) :
    advance_time^[10] t = { t with frame := (t.frame + 1) % 1024 } := by
  have e2 : Int.tmod (t.frame + 1) 1024 = (t.frame + 1) % 1024 :=
    Int.tmod_eq_emod (by omega) (by decide)
  obtain ⟨slot, sf, fr⟩ := t
  simp only at hs0 hs1 hf0 hf1 e2
  have m1 : Int.tmod 1 10 = 1 := by decide
  have m2 : Int.tmod 2 10 = 2 := by decide
  have m3 : Int.tmod 3 10 = 3 := by decide
  have m4 : Int.tmod 4 10 = 4 := by decide
  have m5 : Int.tmod 5 10 = 5 := by decide
  have m6 : Int.tmod 6 10 = 6 := by decide
  have m7 : Int.tmod 7 10 = 7 := by decide
  have m8 : Int.tmod 8 10 = 8 := by decide
  have m9 : Int.tmod 9 10 = 9 := by decide
  have m10 : Int.tmod 10 10 = 0 := by decide
  interval_cases sf <;>
    simp [Function.iterate_succ, advance_time, e2, m1, m2, m3, m4, m5, m6, m7, m8, m9, m10]

theorem sync_checks_keep_time (K : lte_params) (rx : lte_rx) (d : detections) :
    (pss_sync2 K rx d).2.1.time = rx.time ∧ (sss_sync K rx d).2.1.time = rx.time := by
  constructor
  · unfold pss_sync2
    simp only []
    split_ifs <;> rfl
  · unfold sss_sync
    simp only []
    split_ifs <;> rfl

/-- The counters of time after a `drive_common` call: unchanged, or set by one of the two
detector overrides (`pss_sync` found the signal, or `sss_sync` found the half frame). -/
theorem drive_common_time (K : lte_params) (c : sync_ctx) (d : detections) :
    (drive_common K c d).rx.time = c.rx.time ∨
    ((drive_common K c d).rx.time = { c.rx.time with slot := 0, subframe := 0 } ∧
      c.rx.state = lte_state.LTE_STATE_PSS_SYNC ∧ d.pss_search.mag > 900) ∨
    ((drive_common K c d).rx.time = { c.rx.time with subframe := d.sss_out.dn } ∧
      c.rx.state = lte_state.LTE_STATE_SSS_SYNC ∧ c.rx.time.subframe = 0 ∧
      d.sss_detect > 0) := by
  obtain ⟨t2, t3⟩ := sync_checks_keep_time K c.rx d
  have tp := pbch_sync_time K c.rx d
  have hout := (sss_sync_out K c.rx d).1
  have hpos := sss_sync_pos_iff K c.rx d
  unfold drive_common
  split
  · rename_i hs
    by_cases hm : d.pss_search.mag > 900
    · right; left
      obtain ⟨p1, p2⟩ := pss_sync_hit K c.rx d hm
      simp only [p1, if_true, p2]
      exact ⟨trivial, hs, hm⟩
    · left
      have p := pss_sync_miss K c.rx d hm
      simp only [p, Bool.false_eq_true, if_false]
  · left
    split_ifs <;> first | rfl | exact t2
  · rename_i hs
    by_cases h0 : c.rx.time.subframe = 0
    · by_cases hp : d.sss_detect > 0
      · right; right
        have hrc : ¬ ((sss_sync K c.rx d).1 ≤ 0) := fun hle => (hpos.mp hle) hp
        simp only [h0, if_true, hrc, if_false, hout]
        refine ⟨?_, hs, trivial, hp⟩
        split_ifs <;> simp [set_global_cell_id, t3, h0]
      · left
        have hrc : (sss_sync K c.rx d).1 ≤ 0 := hpos.mpr hp
        simp only [h0, if_true, hrc]
        split_ifs <;> exact t3
    · left
      simp only [h0, if_false]
  · left
    simp only []
    split_ifs <;> first | rfl | exact tp
  · left
    rfl

theorem handle_pbch_le_iff (t : lte_time) (d : detections) :
    (handle_pbch t d).1 ≤ 0 ↔ d.decode_pbch ≤ 0 := by
  obtain ⟨hs, hf, _⟩ := handle_pbch_result t d
  constructor
  · intro h
    by_contra hn
    rw [(hs (by omega)).1] at h
    exact absurd h (by decide)
  · intro h
    exact (hf h).1

/-- The counters of time after the part of `drive_pbch` that follows `drive_common`:
unchanged, or the frame number set from the decoded master information. -/
theorem drive_pbch_time (K : lte_params) (c : sync_ctx) (d : detections) :
    (drive_pbch K c d).2.rx.time =
      (drive_common K { c with rx := { c.rx with time := advance_time c.rx.time } } d).rx.time ∨
    ((drive_pbch K c d).2.rx.time =
      { (drive_common K { c with rx := { c.rx with time := advance_time c.rx.time } } d).rx.time
        with frame := d.mib.fn } ∧ d.decode_pbch > 0) := by
  by_cases hst : (drive_common K { c with rx := { c.rx with time := advance_time c.rx.time } }
      d).rx.state = lte_state.LTE_STATE_PBCH
  · by_cases h0 : (drive_common K { c with rx := { c.rx with time := advance_time c.rx.time } }
        d).rx.time.subframe = 0
    · obtain ⟨hs, hf, _⟩ := handle_pbch_result
        (drive_common K { c with rx := { c.rx with time := advance_time c.rx.time } } d).rx.time d
      have hsub : lte_subframe_pbch
          (drive_common K { c with rx := { c.rx with time := advance_time c.rx.time } }
            d).rx.time ≠ 0 := by
        unfold lte_subframe_pbch
        rw [if_pos h0]
        decide
      by_cases hp : d.decode_pbch > 0
      · right
        obtain ⟨s1, s2⟩ := hs hp
        have hle : ¬ ((handle_pbch (drive_common K
            { c with rx := { c.rx with time := advance_time c.rx.time } } d).rx.time d).1
              ≤ 0) := by
          rw [s1]; decide
        unfold drive_pbch
        simp only [hst, hsub, ne_eq, not_false_eq_true, if_true, hle, if_false, s2]
        exact ⟨trivial, hp⟩
      · left
        exact ((drive_pbch_decode K c d hst h0).2 (by omega)).2.1
    · left
      rw [drive_pbch_of_pbch_off K c d hst h0]
  · left
    rw [drive_pbch_of_not_pbch K c d hst]

/-- The counters of time after the part of `drive_pdsch` that follows `drive_common`:
unchanged, or the frame number set from the decoded master information. -/
theorem drive_pdsch_time (K : lte_params) (c : sync_ctx) (d : detections) (adjust : Int) :
    (drive_pdsch K c d adjust).rx.time =
      (drive_common K { c with rx := { c.rx with time := advance_time c.rx.time } } d).rx.time ∨
    ((drive_pdsch K c d adjust).rx.time =
      { (drive_common K { c with rx := { c.rx with time := advance_time c.rx.time } } d).rx.time
        with frame := d.mib.fn } ∧ d.decode_pbch > 0) := by
  by_cases hp : d.decode_pbch > 0 ∧
      (drive_common K { c with rx := { c.rx with time := advance_time c.rx.time } }
        d).rx.state = lte_state.LTE_STATE_PBCH ∧
      (drive_common K { c with rx := { c.rx with time := advance_time c.rx.time } }
        d).rx.time.subframe = 0
  · right
    obtain ⟨hp, hst, h0⟩ := hp
    obtain ⟨hs, _, _⟩ := handle_pbch_result
      (drive_common K { c with rx := { c.rx with time := advance_time c.rx.time } } d).rx.time d
    have hsub : lte_subframe_pbch
        (drive_common K { c with rx := { c.rx with time := advance_time c.rx.time } }
          d).rx.time ≠ 0 := by
      unfold lte_subframe_pbch
      rw [if_pos h0]
      decide
    obtain ⟨s1, s2⟩ := hs hp
    have hle : ¬ ((handle_pbch (drive_common K
        { c with rx := { c.rx with time := advance_time c.rx.time } } d).rx.time d).1
          ≤ 0) := by
      rw [s1]; decide
    unfold drive_pdsch
    simp only [hst, hsub, ne_eq, not_false_eq_true, if_true, hle, if_false, s2]
    exact ⟨trivial, hp⟩
  · left
    obtain ⟨_, hf, _⟩ := handle_pbch_result
      (drive_common K { c with rx := { c.rx with time := advance_time c.rx.time } } d).rx.time d
    obtain ⟨_, pt⟩ := pdsch_sync_state K
      (drive_common K { c with rx := { c.rx with time := advance_time c.rx.time } } d).rx d
    have hiff := handle_pbch_le_iff
      (drive_common K { c with rx := { c.rx with time := advance_time c.rx.time } } d).rx.time d
    unfold drive_pdsch
    simp only []
    split
    · rename_i hst
      split_ifs with h1 h2 h3
      · exact (hf (hiff.mp h2)).2
      · exact (hf (hiff.mp h2)).2
      · exfalso
        apply hp
        refine ⟨by by_contra hn; exact h2 (hiff.mpr (by omega)), hst, ?_⟩
        unfold lte_subframe_pbch at h1
        by_contra hne
        rw [if_neg hne] at h1
        exact h1 rfl
      · rfl
    · split_ifs <;>
        first
        | exact pt
        | (rw [(pdsch_handoff_keeps _ adjust).2.2]; exact pt)
        | rw [(pdsch_handoff_keeps _ adjust).2.2]
    · rw [(pdsch_handoff_keeps _ adjust).2.2]
    · rfl

theorem iterate_of_steps (st : Nat → lte_time) (m : Nat)
    (h : ∀ n, n < m → st (n + 1) = advance_time (st n)) :
    ∀ n, n ≤ m → st n = advance_time^[n] (st 0) := by
  intro n
  induction n with
  | zero => intro _; rfl
  | succ n ih =>
    intro hn
    rw [h n (by omega), ih (by omega), Function.iterate_succ_apply']

/-- The subframe and frame counters after a `drive_pbch` and after a `drive_pdsch` step, by
component: the advanced value or the value of a detector override. -/
theorem drive_time_components (K : lte_params) (c : sync_ctx) (d : detections)
    (adjust : Int) :
    ((drive_pbch K c d).2.rx.time.subframe = (advance_time c.rx.time).subframe ∨
      (drive_pbch K c d).2.rx.time.subframe = 0 ∨
      (drive_pbch K c d).2.rx.time.subframe = d.sss_out.dn) ∧
    ((drive_pbch K c d).2.rx.time.frame = (advance_time c.rx.time).frame ∨
      (drive_pbch K c d).2.rx.time.frame = d.mib.fn) ∧
    ((drive_pdsch K c d adjust).rx.time.subframe = (advance_time c.rx.time).subframe ∨
      (drive_pdsch K c d adjust).rx.time.subframe = 0 ∨
      (drive_pdsch K c d adjust).rx.time.subframe = d.sss_out.dn) ∧
    ((drive_pdsch K c d adjust).rx.time.frame = (advance_time c.rx.time).frame ∨
      (drive_pdsch K c d adjust).rx.time.frame = d.mib.fn) := by
  have hc := drive_common_time K { c with rx := { c.rx with time := advance_time c.rx.time } } d
  have hsf : (drive_common K { c with rx := { c.rx with time := advance_time c.rx.time } }
        d).rx.time.subframe = (advance_time c.rx.time).subframe ∨
      (drive_common K { c with rx := { c.rx with time := advance_time c.rx.time } }
        d).rx.time.subframe = 0 ∨
      (drive_common K { c with rx := { c.rx with time := advance_time c.rx.time } }
        d).rx.time.subframe = d.sss_out.dn := by
    rcases hc with h | ⟨h, _⟩ | ⟨h, _⟩
    · left; rw [h]
    · right; left; rw [h]
    · right; right; rw [h]
  have hfr : (drive_common K { c with rx := { c.rx with time := advance_time c.rx.time } }
        d).rx.time.frame = (advance_time c.rx.time).frame := by
    rcases hc with h | ⟨h, _⟩ | ⟨h, _⟩ <;> rw [h]
  refine ⟨?_, ?_, ?_, ?_⟩
  · rcases drive_pbch_time K c d with h | ⟨h, _⟩ <;> rw [h] <;> exact hsf
  · rcases drive_pbch_time K c d with h | ⟨h, _⟩
    · left; rw [h]; exact hfr
    · right; rw [h]
  · rcases drive_pdsch_time K c d adjust with h | ⟨h, _⟩ <;> rw [h] <;> exact hsf
  · rcases drive_pdsch_time K c d adjust with h | ⟨h, _⟩
    · left; rw [h]; exact hfr
    · right; rw [h]

/-- C26: every `drive_pbch` and `drive_pdsch` step works on the advanced counters
`subframe := (subframe + 1) mod 10`, `frame := (frame + 1) mod 1024` exactly when the
subframe wraps to 0, which `drive_common` and the rest of the step can only replace by a
detector override (subframe 0 or the detected half frame, the decoded frame number).  With
counters, detected half frame and decoded frame number in range, the counters are in range
after the step; ten consecutive steps without an override return the subframe counter to
its value and add one to the frame counter modulo 1024. -/
theorem time_counters_wrap (K : lte_params) (c : sync_ctx) (d : detections) (adjust : Int)
    (hs0 : 0 ≤ c.rx.time.subframe) (hs1 : c.rx.time.subframe < 10)
    (hf0 : 0 ≤ c.rx.time.frame) (hf1 : c.rx.time.frame < 1024)
    (hd0 : 0 ≤ d.sss_out.dn) (hd1 : d.sss_out.dn < 10)
    (hm0 : 0 ≤ d.mib.fn) (hm1 : d.mib.fn < 1024) :
    (advance_time c.rx.time).subframe = (c.rx.time.subframe + 1) % 10 ∧
    (advance_time c.rx.time).frame =
      (if (c.rx.time.subframe + 1) % 10 = 0 then (c.rx.time.frame + 1) % 1024
        else c.rx.time.frame) ∧
    ((drive_pbch K c d).2.rx.time.subframe = (advance_time c.rx.time).subframe ∨
      (drive_pbch K c d).2.rx.time.subframe = 0 ∨
      (drive_pbch K c d).2.rx.time.subframe = d.sss_out.dn) ∧
    ((drive_pbch K c d).2.rx.time.frame = (advance_time c.rx.time).frame ∨
      (drive_pbch K c d).2.rx.time.frame = d.mib.fn) ∧
    ((drive_pdsch K c d adjust).rx.time.subframe = (advance_time c.rx.time).subframe ∨
      (drive_pdsch K c d adjust).rx.time.subframe = 0 ∨
      (drive_pdsch K c d adjust).rx.time.subframe = d.sss_out.dn) ∧
    ((drive_pdsch K c d adjust).rx.time.frame = (advance_time c.rx.time).frame ∨
      (drive_pdsch K c d adjust).rx.time.frame = d.mib.fn) ∧
    (0 ≤ (drive_pbch K c d).2.rx.time.subframe ∧ (drive_pbch K c d).2.rx.time.subframe < 10 ∧
      0 ≤ (drive_pbch K c d).2.rx.time.frame ∧ (drive_pbch K c d).2.rx.time.frame < 1024) ∧
    (0 ≤ (drive_pdsch K c d adjust).rx.time.subframe ∧
      (drive_pdsch K c d adjust).rx.time.subframe < 10 ∧
      0 ≤ (drive_pdsch K c d adjust).rx.time.frame ∧
      (drive_pdsch K c d adjust).rx.time.frame < 1024) ∧
    (∀ ds : List detections, ds.length = 10 →
      (∀ n : Nat, n < 10 →
        (run_pbch K c (ds.take (n + 1))).rx.time
          = advance_time (run_pbch K c (ds.take n)).rx.time) →
      (run_pbch K c ds).rx.time
        = { c.rx.time with frame := (c.rx.time.frame + 1) % 1024 }) ∧
    (∀ ds : List (detections × Int), ds.length = 10 →
      (∀ n : Nat, n < 10 →
        (run_pdsch K c (ds.take (n + 1))).rx.time
          = advance_time (run_pdsch K c (ds.take n)).rx.time) →
      (run_pdsch K c ds).rx.time
        = { c.rx.time with frame := (c.rx.time.frame + 1) % 1024 }) := by
  obtain ⟨a1, a2, _, a4, a5, a6, a7⟩ := advance_time_range c.rx.time hs0 hs1 hf0 hf1
  obtain ⟨p1, p2, q1, q2⟩ := drive_time_components K c d adjust
  refine ⟨a1, a2, p1, p2, q1, q2, ⟨?_, ?_, ?_, ?_⟩, ⟨?_, ?_, ?_, ?_⟩, ?_, ?_⟩
  · rcases p1 with h | h | h <;> rw [h] <;> omega
  · rcases p1 with h | h | h <;> rw [h] <;> omega
  · rcases p2 with h | h <;> rw [h] <;> omega
  · rcases p2 with h | h <;> rw [h] <;> omega
  · rcases q1 with h | h | h <;> rw [h] <;> omega
  · rcases q1 with h | h | h <;> rw [h] <;> omega
  · rcases q2 with h | h <;> rw [h] <;> omega
  · rcases q2 with h | h <;> rw [h] <;> omega
  · intro ds hl hstep
    have h10 := iterate_of_steps (fun n => (run_pbch K c (ds.take n)).rx.time) 10 hstep 10
      (le_refl 10)
    have ht : ds.take 10 = ds := List.take_of_length_le (by omega)
    simp only [ht, List.take_zero] at h10
    rw [h10]
    exact advance_time_ten c.rx.time hs0 hs1 hf0 hf1
  · intro ds hl hstep
    have h10 := iterate_of_steps (fun n => (run_pdsch K c (ds.take n)).rx.time) 10 hstep 10
      (le_refl 10)
    have ht : ds.take 10 = ds := List.take_of_length_le (by omega)
    simp only [ht, List.take_zero] at h10
    rw [h10]
    exact advance_time_ten c.rx.time hs0 hs1 hf0 hf1

set_option maxRecDepth 100000 in
/-- C26 at the example receiver in `SSS_SYNC` at subframe 9: the counters after a step that
finds the secondary synchronisation signal in subframe 5, and after ten steps without an
override. -/
theorem time_counters_wrap_witness :
    (0 ≤ (drive_pbch K0 cSSS dgood).2.rx.time.subframe ∧
      (drive_pbch K0 cSSS dgood).2.rx.time.subframe < 10 ∧
      0 ≤ (drive_pbch K0 cSSS dgood).2.rx.time.frame ∧
      (drive_pbch K0 cSSS dgood).2.rx.time.frame < 1024) ∧
    (run_pbch K0 cSSS (List.replicate 10 dsss)).rx.time
      = { cSSS.rx.time with frame := (cSSS.rx.time.frame + 1) % 1024 } :=
  ⟨(time_counters_wrap K0 cSSS dgood 0 (by decide) (by decide) (by decide) (by decide)
      (by decide) (by decide) (by decide) (by decide)).2.2.2.2.2.2.1,
   (time_counters_wrap K0 cSSS dgood 0 (by decide) (by decide) (by decide) (by decide)
      (by decide) (by decide) (by decide) (by decide)).2.2.2.2.2.2.2.2.1
      (List.replicate 10 dsss) (by decide) (by decide)⟩

/-! ## Decode worker and buffer pool: properties -/

theorem favg_step_below (s : rx_proc_state) (e : Rat) (h : s.favg_cnt2 + 1 < AVG_FREQ2) :
    favg_step s e =
      { s with favg_cnt2 := s.favg_cnt2 + 1, favg2 := Function.update s.favg2 s.favg_cnt2 e } := by
  unfold favg_step
  simp only []
  rw [if_neg (by omega)]

theorem favg_step_full (s : rx_proc_state) (e : Rat) (h : s.favg_cnt2 + 1 ≥ AVG_FREQ2) :
    favg_step s e =
      { favg_cnt2 := 0, favg2 := Function.update s.favg2 s.favg_cnt2 e,
        offset_freq :=
          ((List.range AVG_FREQ2).foldl
              (fun (a : Rat) (i : Nat) => a + Function.update s.favg2 s.favg_cnt2 e i) 0
            / (AVG_FREQ2 : Rat)) :: s.offset_freq } := by
  unfold favg_step
  simp only []
  rw [if_pos h]

theorem run_favg_cons (s : rx_proc_state) (e : Rat) (es : List Rat) :
    run_favg s (e :: es) = run_favg (favg_step s e) es := rfl

theorem run_favg_append (s : rx_proc_state) (es fs : List Rat) :
    run_favg s (es ++ fs) = run_favg (run_favg s es) fs := by
  unfold run_favg
  rw [List.foldl_append]

/-- Storing estimates without filling the window: the estimates are in the window at
consecutive indices, the index has advanced by their number and no correction is applied. -/
theorem run_favg_store (es : List Rat) :
    ∀ s : rx_proc_state, s.favg_cnt2 + es.length < AVG_FREQ2 →
      (run_favg s es).favg_cnt2 = s.favg_cnt2 + es.length ∧
      (run_favg s es).offset_freq = s.offset_freq ∧
      (∀ i : Nat, (run_favg s es).favg2 i =
        if s.favg_cnt2 ≤ i ∧ i < s.favg_cnt2 + es.length then es.getD (i - s.favg_cnt2) 0
        else s.favg2 i) := by
  induction es with
  | nil =>
    intro s _
    refine ⟨rfl, rfl, fun i => ?_⟩
    have : ¬ (s.favg_cnt2 ≤ i ∧ i < s.favg_cnt2 + ([] : List Rat).length) := by
      simp only [List.length_nil]; omega
    rw [if_neg this]
    rfl
  | cons e es ih =>
    intro s h
    simp only [List.length_cons] at h
    rw [run_favg_cons, favg_step_below s e (by omega)]
    obtain ⟨r1, r2, r3⟩ := ih
      { s with favg_cnt2 := s.favg_cnt2 + 1, favg2 := Function.update s.favg2 s.favg_cnt2 e }
      (by simp only []; omega)
    refine ⟨by rw [r1]; simp only [List.length_cons]; omega, r2, fun i => ?_⟩
    rw [r3 i]
    simp only [List.length_cons]
    by_cases hi : s.favg_cnt2 + 1 ≤ i ∧ i < s.favg_cnt2 + 1 + es.length
    · rw [if_pos hi, if_pos (by omega)]
      have : i - s.favg_cnt2 = (i - (s.favg_cnt2 + 1)) + 1 := by omega
      rw [this, List.getD_cons_succ]
    · rw [if_neg hi]
      by_cases hj : i = s.favg_cnt2
      · rw [if_pos (by omega), hj, Function.update_same, Nat.sub_self, List.getD_cons_zero]
      · rw [if_neg (by omega), Function.update_noteq hj]

theorem range_map_getD (l : List Rat) :
    (List.range l.length).map (fun (i : Nat) => l.getD i 0) = l := by
  apply List.ext_getElem
  · simp
  · intro i h1 h2
    simp [List.getD_eq_getElem?_getD, List.getElem?_eq_getElem h2]

theorem foldl_add_eq_sum (g : Nat → Rat) (l : List Nat) :
    l.foldl (fun (a : Rat) (i : Nat) => a + g i) 0 = (l.map g).sum := by
  rw [List.sum_eq_foldl, List.foldl_map]

/-- A full window: starting with the index at 0, the 200th estimate triggers one
correction, the arithmetic mean of the 200 estimates, and sets the index back to 0; none of
the first 199 triggers a correction. -/
theorem run_favg_window (s : rx_proc_state) (es : List Rat) (hs : s.favg_cnt2 = 0)
    (hl : es.length = AVG_FREQ2) :
    (run_favg s es).favg_cnt2 = 0 ∧
    (run_favg s es).offset_freq = (es.sum / (AVG_FREQ2 : Rat)) :: s.offset_freq ∧
    (∀ n : Nat, n < AVG_FREQ2 →
      (run_favg s (es.take n)).offset_freq = s.offset_freq ∧
      (run_favg s (es.take n)).favg_cnt2 = n) := by
  have hA : AVG_FREQ2 = 200 := rfl
  have hstore : ∀ n : Nat, n < AVG_FREQ2 →
      (run_favg s (es.take n)).favg_cnt2 = n ∧
      (run_favg s (es.take n)).offset_freq = s.offset_freq ∧
      (∀ i : Nat, (run_favg s (es.take n)).favg2 i =
        if i < n then es.getD i 0 else s.favg2 i) := by
    intro n hn
    have hlen : (es.take n).length = n := by rw [List.length_take]; omega
    obtain ⟨r1, r2, r3⟩ := run_favg_store (es.take n) s (by rw [hs, hlen]; omega)
    refine ⟨by rw [r1, hs, hlen]; omega, r2, fun i => ?_⟩
    rw [r3 i, hs, hlen]
    by_cases hi : i < n
    · rw [if_pos (by omega), if_pos hi, Nat.sub_zero]
      simp only [List.getD_eq_getElem?_getD, List.getElem?_take, if_pos hi]
    · rw [if_neg (by omega), if_neg hi]
  obtain ⟨c1, c2, c3⟩ := hstore 199 (by omega)
  have hsplit : es = es.take 199 ++ [es.getD 199 0] := by
    apply List.ext_getElem
    · simp [hl, hA]
    · intro i h1 h2
      by_cases hi : i < 199
      · rw [List.getElem_append_left (by simp [hl, hA]; omega)]
        simp
      · have hi2 : i = 199 := by omega
        subst hi2
        rw [List.getElem_append_right (by simp [hl, hA])]
        simp [List.getD_eq_getElem?_getD, List.getElem?_eq_getElem h1, hl, hA]
  have hfull : run_favg s es = favg_step (run_favg s (es.take 199)) (es.getD 199 0) := by
    conv_lhs => rw [hsplit]
    rw [run_favg_append]
    rfl
  have hstep := favg_step_full (run_favg s (es.take 199)) (es.getD 199 0) (by rw [c1]; omega)
  have hsum : (List.range AVG_FREQ2).foldl
      (fun (a : Rat) (i : Nat) =>
        a + Function.update (run_favg s (es.take 199)).favg2
          (run_favg s (es.take 199)).favg_cnt2 (es.getD 199 0) i) 0 = es.sum := by
    rw [foldl_add_eq_sum]
    have hmap : (List.range AVG_FREQ2).map
        (Function.update (run_favg s (es.take 199)).favg2
          (run_favg s (es.take 199)).favg_cnt2 (es.getD 199 0))
        = (List.range es.length).map (fun (i : Nat) => es.getD i 0) := by
      rw [hl]
      apply List.map_congr_left
      intro i hi
      rw [List.mem_range] at hi
      rw [c1]
      by_cases h9 : i = 199
      · rw [h9, Function.update_same]
      · rw [Function.update_noteq h9, c3 i, if_pos (by omega)]
    rw [hmap, range_map_getD]
  refine ⟨by rw [hfull, hstep], ?_, fun n hn => ⟨(hstore n hn).2.1, (hstore n hn).1⟩⟩
  rw [hfull, hstep]
  simp only [hsum, c2]

/-- The index and the number of corrections after any number of estimates. -/
theorem run_favg_count (es : List Rat) :
    ∀ s : rx_proc_state, s.favg_cnt2 < AVG_FREQ2 →
      (run_favg s es).favg_cnt2 = (s.favg_cnt2 + es.length) % AVG_FREQ2 ∧
      (run_favg s es).offset_freq.length =
        s.offset_freq.length + (s.favg_cnt2 + es.length) / AVG_FREQ2 := by
  have hA : AVG_FREQ2 = 200 := rfl
  induction es with
  | nil =>
    intro s h
    rw [hA] at h ⊢
    refine ⟨?_, ?_⟩
    · show s.favg_cnt2 = (s.favg_cnt2 + 0) % 200
      omega
    · show s.offset_freq.length = s.offset_freq.length + (s.favg_cnt2 + 0) / 200
      omega
  | cons e es ih =>
    intro s h
    rw [run_favg_cons]
    rw [hA] at h
    by_cases hf : s.favg_cnt2 + 1 < AVG_FREQ2
    · rw [favg_step_below s e hf]
      obtain ⟨r1, r2⟩ := ih
        { s with favg_cnt2 := s.favg_cnt2 + 1, favg2 := Function.update s.favg2 s.favg_cnt2 e }
        hf
      rw [r1, r2]
      rw [hA] at hf ⊢
      simp only [List.length_cons]
      constructor <;> omega
    · rw [favg_step_full s e (by omega)]
      obtain ⟨r1, r2⟩ := ih
        { favg_cnt2 := 0, favg2 := Function.update s.favg2 s.favg_cnt2 e,
          offset_freq :=
            ((List.range AVG_FREQ2).foldl
                (fun (a : Rat) (i : Nat) => a + Function.update s.favg2 s.favg_cnt2 e i) 0
              / (AVG_FREQ2 : Rat)) :: s.offset_freq }
        (by show (0 : Nat) < AVG_FREQ2; decide)
      rw [r1, r2]
      rw [hA] at hf ⊢
      simp only [List.length_cons]
      constructor <;> omega

/-- C27: the decode worker stores the estimate of each processed subframe at the index
`favg_cnt2` of the window `favg2`.  Starting with the index at 0 (as at program start and
after every correction), the 200th estimate of a window triggers exactly one call of
`lte_offset_freq`, with the arithmetic mean of the 200 estimates (`c` when all are `c`), and
sets the index back to 0; the first 199 trigger none.  From program start, after `n`
estimates the index is `n mod 200`, so below 200 whenever an estimate is stored, and
`n / 200` corrections have been applied. -/
theorem favg_window_average (s : rx_proc_state) (es : List Rat) (c : Rat)
    (hs : s.favg_cnt2 = 0) (hl : es.length = AVG_FREQ2) :
    (run_favg s es).favg_cnt2 = 0 ∧
    (run_favg s es).offset_freq = (es.sum / 200) :: s.offset_freq ∧
    (∀ n : Nat, n < 200 →
      (run_favg s (es.take n)).offset_freq = s.offset_freq ∧
      (run_favg s (es.take n)).favg_cnt2 = n ∧
      (favg_step (run_favg s (es.take n)) (es.getD n 0)).favg2 n = es.getD n 0) ∧
    (run_favg s (List.replicate AVG_FREQ2 c)).offset_freq = c :: s.offset_freq ∧
    (∀ fs : List Rat,
      (run_favg rx_proc_state.start fs).favg_cnt2 = fs.length % 200 ∧
      (run_favg rx_proc_state.start fs).favg_cnt2 < 200 ∧
      (run_favg rx_proc_state.start fs).offset_freq.length = fs.length / 200) ∧
    (∀ (lbuf : lte_buffer) (rest rq : List lte_buffer) (w : rx_proc_state) (o : decode_result),
      (pdsch_loop_iter (lbuf :: rest) rq w o).2.2 = favg_step w (pdsch_loop_offset lbuf o) ∧
      (pdsch_loop_iter [] rq w o).2.2 = w) := by
  have hA : AVG_FREQ2 = 200 := rfl
  have hAq : (AVG_FREQ2 : Rat) = 200 := by rw [hA]; norm_num
  obtain ⟨w1, w2, w3⟩ := run_favg_window s es hs hl
  refine ⟨w1, by rw [w2, hAq], ?_, ?_, ?_, ?_⟩
  · intro n hn
    obtain ⟨x1, x2⟩ := w3 n (by rw [hA]; exact hn)
    refine ⟨x1, x2, ?_⟩
    unfold favg_step
    simp only [x2]
    split_ifs <;> simp only [Function.update_same]
  · obtain ⟨_, y2, _⟩ := run_favg_window s (List.replicate AVG_FREQ2 c) hs
      (List.length_replicate _ _)
    have hc : (200 : Rat) * c / 200 = c := mul_div_cancel_left₀ c (by norm_num)
    rw [y2, List.sum_replicate, nsmul_eq_mul, hAq, hc]
  · intro fs
    obtain ⟨z1, z2⟩ := run_favg_count fs rx_proc_state.start (by decide)
    have e0 : rx_proc_state.start.favg_cnt2 = 0 := rfl
    have e1 : rx_proc_state.start.offset_freq.length = 0 := rfl
    rw [e0, hA] at z1
    rw [e0, e1, hA] at z2
    refine ⟨by rw [z1]; simp, by rw [z1]; omega, by rw [z2]; simp⟩
  · intro lbuf rest rq w o
    exact ⟨rfl, rfl⟩

/-- C27 for the static variables at program start and 200 estimates of the constant 3. -/
theorem favg_window_average_witness :
    (run_favg rx_proc_state.start (List.replicate AVG_FREQ2 3)).favg_cnt2 = 0 ∧
    (run_favg rx_proc_state.start (List.replicate AVG_FREQ2 3)).offset_freq
      = [(List.replicate AVG_FREQ2 (3 : Rat)).sum / 200] ∧
    (run_favg rx_proc_state.start (List.replicate AVG_FREQ2 3)).offset_freq = [3] :=
  ⟨(favg_window_average rx_proc_state.start (List.replicate AVG_FREQ2 3) 3 rfl
      (List.length_replicate _ _)).1,
   (favg_window_average rx_proc_state.start (List.replicate AVG_FREQ2 3) 3 rfl
      (List.length_replicate _ _)).2.1,
   (favg_window_average rx_proc_state.start (List.replicate AVG_FREQ2 3) 3 rfl
      (List.length_replicate _ _)).2.2.2.1⟩

/-- The hand-off of `drive_pdsch` on the two queues. -/
theorem pdsch_handoff_queues (c : sync_ctx) (adjust : Int) :
    (lte_subframe_pdcch c.subframe_table c.rx.time = 0 → pdsch_handoff c adjust = c) ∧
    (c.pdsch_return_q = [] → pdsch_handoff c adjust = c) ∧
    (lte_subframe_pdcch c.subframe_table c.rx.time ≠ 0 →
      ∀ (lbuf : lte_buffer) (rest : List lte_buffer), c.pdsch_return_q = lbuf :: rest →
        (pdsch_handoff c adjust).pdsch_return_q = rest ∧
        (pdsch_handoff c adjust).rx = c.rx ∧
        ∃ lbuf2 : lte_buffer,
          (pdsch_handoff c adjust).pdsch_q = c.pdsch_q ++ [lbuf2] ∧ lbuf2.id = lbuf.id) := by
  refine ⟨?_, ?_, ?_⟩
  · intro h
    unfold pdsch_handoff
    rw [if_neg (by rw [h]; decide)]
  · intro h
    unfold pdsch_handoff
    split_ifs
    · rw [h]
    · rfl
  · intro h lbuf rest hq
    unfold pdsch_handoff
    rw [if_pos h, hq]
    simp only []
    split_ifs <;> exact ⟨rfl, rfl, _, rfl, rfl⟩

theorem pool_ids_move (rq q : List lte_buffer) (lbuf lbuf2 : lte_buffer)
    (h : lbuf2.id = lbuf.id) :
    List.Perm ((rq ++ (q ++ [lbuf2])).map (fun (b : lte_buffer) => b.id))
      (((lbuf :: rq) ++ q).map (fun (b : lte_buffer) => b.id)) := by
  simp only [List.map_append, List.map_cons, List.map_nil, List.cons_append, h]
  rw [← List.append_assoc]
  exact List.perm_append_singleton _ _

theorem pool_ids_back (rq q : List lte_buffer) (lbuf lbuf2 : lte_buffer)
    (h : lbuf2.id = lbuf.id) :
    List.Perm (((rq ++ [lbuf2]) ++ q).map (fun (b : lte_buffer) => b.id))
      ((rq ++ (lbuf :: q)).map (fun (b : lte_buffer) => b.id)) := by
  simp only [List.map_append, List.map_cons, List.map_nil, List.append_assoc,
    List.singleton_append, h]
  exact List.Perm.refl _

/-- The hand-off keeps the buffers of the two queues together. -/
theorem pdsch_handoff_pool (c : sync_ctx) (adjust : Int) :
    List.Perm (pool_ids (pdsch_handoff c adjust)) (pool_ids c) := by
  obtain ⟨h1, h2, h3⟩ := pdsch_handoff_queues c adjust
  by_cases he : lte_subframe_pdcch c.subframe_table c.rx.time = 0
  · rw [h1 he]
  · cases hq : c.pdsch_return_q with
    | nil => rw [h2 hq]
    | cons lbuf rest =>
      obtain ⟨r1, _, lbuf2, r3, r4⟩ := h3 he lbuf rest hq
      unfold pool_ids
      rw [r1, r3, hq]
      exact pool_ids_move rest c.pdsch_q lbuf lbuf2 r4

theorem pool_ids_congr (c1 c2 : sync_ctx) (hq : c1.pdsch_q = c2.pdsch_q)
    (hr : c1.pdsch_return_q = c2.pdsch_return_q) : pool_ids c1 = pool_ids c2 := by
  unfold pool_ids
  rw [hq, hr]

/-- A `drive_pdsch` step keeps the buffers of the two queues together. -/
theorem drive_pdsch_pool (K : lte_params) (c : sync_ctx) (d : detections) (adjust : Int) :
    List.Perm (pool_ids (drive_pdsch K c d adjust)) (pool_ids c) := by
  obtain ⟨_, _, _, _, _, _, k7, k8⟩ := drive_common_keeps K
    { c with rx := { c.rx with time := advance_time c.rx.time } } d
  have k7' : (drive_common K { c with rx := { c.rx with time := advance_time c.rx.time } }
      d).pdsch_q = c.pdsch_q := k7
  have k8' : (drive_common K { c with rx := { c.rx with time := advance_time c.rx.time } }
      d).pdsch_return_q = c.pdsch_return_q := k8
  unfold drive_pdsch
  simp only []
  split
  · split_ifs <;> exact List.Perm.of_eq (pool_ids_congr _ _ k7' k8')
  · split_ifs <;>
      first
      | exact List.Perm.of_eq (pool_ids_congr _ _ k7' k8')
      | exact (pdsch_handoff_pool _ adjust).trans (List.Perm.of_eq (pool_ids_congr _ _ k7' k8'))
  · exact (pdsch_handoff_pool _ adjust).trans (List.Perm.of_eq (pool_ids_congr _ _ k7' k8'))
  · exact List.Perm.of_eq (pool_ids_congr _ _ k7' k8')

/-- One iteration of the decode worker on the two queues. -/
theorem pdsch_loop_iter_queues (q rq : List lte_buffer) (w : rx_proc_state)
    (o : decode_result) :
    (q = [] → pdsch_loop_iter q rq w o = (q, rq, w)) ∧
    (∀ (lbuf : lte_buffer) (rest : List lte_buffer), q = lbuf :: rest →
      (pdsch_loop_iter q rq w o).1 = rest ∧
      ∃ lbuf2 : lte_buffer,
        (pdsch_loop_iter q rq w o).2.1 = rq ++ [lbuf2] ∧ lbuf2.id = lbuf.id) := by
  constructor
  · intro h
    rw [h]
    rfl
  · intro lbuf rest h
    rw [h]
    exact ⟨rfl, _, rfl, rfl⟩

/-- A thread step keeps the buffers of the two queues together. -/
theorem thread_step_pool (K : lte_params) (s : sync_ctx × rx_proc_state) (op : thread_op) :
    List.Perm (pool_ids (thread_step K s op).1) (pool_ids s.1) := by
  cases op with
  | sync d adjust => exact drive_pdsch_pool K s.1 d adjust
  | worker o =>
    obtain ⟨h1, h2⟩ := pdsch_loop_iter_queues s.1.pdsch_q s.1.pdsch_return_q s.2 o
    unfold thread_step
    simp only []
    cases hq : s.1.pdsch_q with
    | nil =>
      rw [hq] at h1
      have e := h1 rfl
      unfold pool_ids
      simp only [hq, e]
      exact List.Perm.refl _
    | cons lbuf rest =>
      obtain ⟨r1, lbuf2, r2, r3⟩ := h2 lbuf rest hq
      rw [hq] at r1 r2
      unfold pool_ids
      simp only [hq, r1, r2]
      exact pool_ids_back s.1.pdsch_return_q rest lbuf lbuf2 r3

theorem thread_run_pool (K : lte_params) (ops : List thread_op) :
    ∀ s : sync_ctx × rx_proc_state,
      List.Perm (pool_ids (thread_run K s ops).1) (pool_ids s.1) := by
  induction ops with
  | nil => intro s; exact List.Perm.refl _
  | cons op ops ih =>
    intro s
    have e : thread_run K s (op :: ops) = thread_run K (thread_step K s op) ops := rfl
    rw [e]
    exact (ih _).trans (thread_step_pool K s op)

theorem pool_ids_start (rx : lte_rx) (rbs : Int) (table : List subframe_state) (chans : Nat) :
    pool_ids (sync_start rx rbs table (prime_queue chans)) = List.range NUM_RECV_SUBFRAMES := by
  unfold pool_ids sync_start prime_queue
  simp only [List.append_nil, List.map_map]
  apply List.ext_getElem
  · simp
  · intro i h1 h2
    simp [lte_buffer.new]

theorem pool_ids_length (c : sync_ctx) :
    (pool_ids c).length = c.pdsch_return_q.length + c.pdsch_q.length := by
  unfold pool_ids
  rw [List.length_map, List.length_append]

/-- C28: the hand-off of a `drive_pdsch` step on an enabled subframe changes nothing when
the return queue is empty, and otherwise takes the first buffer of the return queue and
appends that buffer to the work queue; a `drive_pdsch` step in state `PDSCH` is the hand-off
alone.  An iteration of the decode worker that finds a buffer in the work queue appends
that buffer to the return queue, whatever was decoded.  So after any sequence of
`drive_pdsch` steps and worker iterations the two queues hold the same buffers as before,
and from the primed start these are the `NUM_RECV_SUBFRAMES` = 64 buffers. -/
theorem buffer_pool_conserved (K : lte_params) (c : sync_ctx) (w : rx_proc_state)
    (d : detections) (adjust : Int) (o : decode_result) (ops : List thread_op)
    (rx : lte_rx) (rbs : Int) (table : List subframe_state) (chans : Nat) :
    (c.pdsch_return_q = [] → pdsch_handoff c adjust = c) ∧
    (lte_subframe_pdcch c.subframe_table c.rx.time ≠ 0 →
      ∀ (lbuf : lte_buffer) (rest : List lte_buffer), c.pdsch_return_q = lbuf :: rest →
        (pdsch_handoff c adjust).pdsch_return_q = rest ∧
        (pdsch_handoff c adjust).rx = c.rx ∧
        ∃ lbuf2 : lte_buffer,
          (pdsch_handoff c adjust).pdsch_q = c.pdsch_q ++ [lbuf2] ∧ lbuf2.id = lbuf.id) ∧
    (c.rx.state = lte_state.LTE_STATE_PDSCH →
      drive_pdsch K c d adjust =
        pdsch_handoff { c with rx := { c.rx with time := advance_time c.rx.time } } adjust) ∧
    (∀ (lbuf : lte_buffer) (rest : List lte_buffer), c.pdsch_q = lbuf :: rest →
      (pdsch_loop_iter c.pdsch_q c.pdsch_return_q w o).1 = rest ∧
      ∃ lbuf2 : lte_buffer,
        (pdsch_loop_iter c.pdsch_q c.pdsch_return_q w o).2.1 = c.pdsch_return_q ++ [lbuf2] ∧
        lbuf2.id = lbuf.id) ∧
    List.Perm (pool_ids (drive_pdsch K c d adjust)) (pool_ids c) ∧
    List.Perm (pool_ids (thread_run K (c, w) ops).1) (pool_ids c) ∧
    (thread_run K (c, w) ops).1.pdsch_return_q.length +
      (thread_run K (c, w) ops).1.pdsch_q.length
        = c.pdsch_return_q.length + c.pdsch_q.length ∧
    List.Perm
      (pool_ids (thread_run K
        (sync_start rx rbs table (prime_queue chans), rx_proc_state.start) ops).1)
      (List.range 64) ∧
    (thread_run K
        (sync_start rx rbs table (prime_queue chans), rx_proc_state.start)
        ops).1.pdsch_return_q.length +
      (thread_run K
        (sync_start rx rbs table (prime_queue chans), rx_proc_state.start)
        ops).1.pdsch_q.length = 64 := by
  obtain ⟨_, h2, h3⟩ := pdsch_handoff_queues c adjust
  have hrun := thread_run_pool K ops (c, w)
  have hstart := thread_run_pool K ops
    (sync_start rx rbs table (prime_queue chans), rx_proc_state.start)
  rw [pool_ids_start] at hstart
  refine ⟨h2, h3, ?_, (pdsch_loop_iter_queues c.pdsch_q c.pdsch_return_q w o).2,
    drive_pdsch_pool K c d adjust, hrun, ?_, hstart, ?_⟩
  · intro hs
    have e := drive_common_pdsch_id K
      { c with rx := { c.rx with time := advance_time c.rx.time } } d (Or.inr hs)
    unfold drive_pdsch
    simp only [e]
    simp only [hs]
  · have hl := hrun.length_eq
    rw [pool_ids_length, pool_ids_length] at hl
    exact hl
  · have hl := hstart.length_eq
    rw [pool_ids_length, List.length_range] at hl
    exact hl

/-! ## Subframe enable table: properties -/

/-- The value of `lte_subframe_pdcch` for a subframe index in 0..9 whose table entry is
`e`. -/
theorem lte_subframe_pdcch_entry (table : List subframe_state) (time : lte_time)
    (e : subframe_state) (hs0 : 0 ≤ time.subframe) (hs1 : time.subframe ≤ 9)
    (he : table.get? time.subframe.toNat = some e) :
    lte_subframe_pdcch table time =
      (if e.enable = FRAME_ENABLE_OFF then 0
       else if e.enable = FRAME_ENABLE_ALL then 1
       else if e.enable = FRAME_ENABLE_EVEN then (if Int.tmod time.frame 2 = 0 then 1 else 0)
       else if e.enable = FRAME_ENABLE_ODD then Int.tmod time.frame 2
       else 0) := by
  unfold lte_subframe_pdcch
  rw [if_neg (by omega), he]

theorem init_state_entry (i : Nat) (hi : i < 10) :
    init_state.get? i = some { num := (i : Int), enable := FRAME_ENABLE_ALL } := by
  unfold init_state
  simp [List.getElem?_map, List.getElem?_range hi]

theorem rrc_set_pdcch_entries (table : List subframe_state) (num enable : Nat)
    (hn : num < 10) (he : enable < 4) (hl : table.length = 10) :
    (rrc_set_pdcch table num enable).1 = 0 ∧
    (rrc_set_pdcch table num enable).2.length = 10 ∧
    (∀ i : Nat, ((rrc_set_pdcch table num enable).2.get? i).map (fun e => e.enable) =
      if i = num then some (enable : Int)
      else (table.get? i).map (fun e => e.enable)) ∧
    (∀ i : Nat, ((rrc_set_pdcch table num enable).2.get? i).map (fun e => e.num) =
      (table.get? i).map (fun e => e.num)) := by
  have hlt : num < table.length := by omega
  have hget : table.get? num = some (table.get ⟨num, hlt⟩) := List.get?_eq_get hlt
  have hc : ¬ ((num : Int) ≥ 10 ∨ (enable : Int) ≥ FRAME_ENABLE_NUM) := by
    unfold FRAME_ENABLE_NUM
    omega
  unfold rrc_set_pdcch
  rw [if_neg hc, hget]
  simp only []
  refine ⟨trivial, by rw [List.length_set]; exact hl, fun i => ?_, fun i => ?_⟩
  · by_cases hi : i = num
    · subst hi
      rw [if_pos rfl]
      simp [List.getElem?_set, hlt]
    · rw [if_neg hi]
      simp [List.getElem?_set, Ne.symm hi]
  · by_cases hi : i = num
    · subst hi
      simp [List.getElem?_set, hlt, List.getElem?_eq_getElem hlt]
    · simp [List.getElem?_set, Ne.symm hi]

/-- C29: `lte_subframe_pdcch` returns 0 for a subframe index outside 0..9; for an index in
0..9 with table entry `e` it returns 0 for `OFF`, 1 for `ALL`, for `EVEN` 1 on even frame
numbers and 0 on odd ones, and for `ODD` a non-zero value exactly on odd frame numbers, so
that exactly one of `EVEN` and `ODD` enables the subframe.  After `init_state` all ten
entries are `ALL`.  `rrc_set_pdcch` returns -1 and leaves the table as it is for a subframe
number of 10 or more or an enable value of 4 or more, and otherwise sets the entry of that
subframe and no other. -/
theorem subframe_enable_mask (table : List subframe_state) (time : lte_time)
    (e : subframe_state) (num enable : Nat)
    (hs0 : 0 ≤ time.subframe) (hs1 : time.subframe ≤ 9)
    (he : table.get? time.subframe.toNat = some e) :
    (∀ t2 : lte_time, (t2.subframe < 0 ∨ t2.subframe > 9) → lte_subframe_pdcch table t2 = 0) ∧
    (e.enable = FRAME_ENABLE_OFF → lte_subframe_pdcch table time = 0) ∧
    (e.enable = FRAME_ENABLE_ALL → lte_subframe_pdcch table time = 1) ∧
    (e.enable = FRAME_ENABLE_EVEN →
      (2 ∣ time.frame → lte_subframe_pdcch table time = 1) ∧
      (¬ 2 ∣ time.frame → lte_subframe_pdcch table time = 0)) ∧
    (e.enable = FRAME_ENABLE_ODD →
      (lte_subframe_pdcch table time ≠ 0 ↔ ¬ 2 ∣ time.frame)) ∧
    (∀ (tE tO : List subframe_state) (eE eO : subframe_state),
      tE.get? time.subframe.toNat = some eE → eE.enable = FRAME_ENABLE_EVEN →
      tO.get? time.subframe.toNat = some eO → eO.enable = FRAME_ENABLE_ODD →
      (lte_subframe_pdcch tE time ≠ 0 ↔ lte_subframe_pdcch tO time = 0)) ∧
    (init_state.length = 10 ∧
      (∀ i : Nat, i < 10 →
        init_state.get? i = some { num := (i : Int), enable := FRAME_ENABLE_ALL }) ∧
      lte_subframe_pdcch init_state time = 1) ∧
    (((num : Int) ≥ 10 ∨ (enable : Int) ≥ 4) → rrc_set_pdcch table num enable = (-1, table)) ∧
    (num < 10 → enable < 4 → table.length = 10 →
      (rrc_set_pdcch table num enable).1 = 0 ∧
      (rrc_set_pdcch table num enable).2.length = 10 ∧
      (∀ i : Nat, ((rrc_set_pdcch table num enable).2.get? i).map (fun e => e.enable) =
        if i = num then some (enable : Int)
        else (table.get? i).map (fun e => e.enable))) := by
  have hv := lte_subframe_pdcch_entry table time e hs0 hs1 he
  have hdvd : Int.tmod time.frame 2 = 0 ↔ 2 ∣ time.frame := Int.dvd_iff_tmod_eq_zero.symm
  refine ⟨?_, ?_, ?_, ?_, ?_, ?_, ⟨?_, init_state_entry, ?_⟩, ?_, ?_⟩
  · intro t2 h
    unfold lte_subframe_pdcch
    rw [if_pos h]
  · intro h
    rw [hv, if_pos h]
  · intro h
    rw [hv, h]
    simp [FRAME_ENABLE_OFF, FRAME_ENABLE_ALL]
  · intro h
    rw [hv, h]
    constructor
    · intro hd
      have := hdvd.mpr hd
      simp [FRAME_ENABLE_EVEN, FRAME_ENABLE_OFF, FRAME_ENABLE_ALL, this]
    · intro hd
      have : ¬ Int.tmod time.frame 2 = 0 := fun h0 => hd (hdvd.mp h0)
      simp [FRAME_ENABLE_EVEN, FRAME_ENABLE_OFF, FRAME_ENABLE_ALL, this]
  · intro h
    rw [hv, h]
    simp only [FRAME_ENABLE_ODD, FRAME_ENABLE_OFF, FRAME_ENABLE_ALL, FRAME_ENABLE_EVEN]
    rw [← hdvd]
    simp
  · intro tE tO eE eO h1 h2 h3 h4
    rw [lte_subframe_pdcch_entry tE time eE hs0 hs1 h1,
      lte_subframe_pdcch_entry tO time eO hs0 hs1 h3, h2, h4]
    simp only [FRAME_ENABLE_ODD, FRAME_ENABLE_OFF, FRAME_ENABLE_ALL, FRAME_ENABLE_EVEN]
    by_cases h0 : Int.tmod time.frame 2 = 0 <;> simp [h0]
  · unfold init_state
    simp
  · have hi : time.subframe.toNat < 10 := by omega
    rw [lte_subframe_pdcch_entry init_state time _ hs0 hs1 (init_state_entry _ hi)]
    simp [FRAME_ENABLE_OFF, FRAME_ENABLE_ALL]
  · intro h
    unfold rrc_set_pdcch
    rw [if_pos (by unfold FRAME_ENABLE_NUM; exact h)]
  · intro hn hen hl
    obtain ⟨r1, r2, r3, _⟩ := rrc_set_pdcch_entries table num enable hn hen hl
    exact ⟨r1, r2, r3⟩

/-- C29 for the table of `init_state` and subframe 3 of frame 7. -/
theorem subframe_enable_mask_witness :
    lte_subframe_pdcch init_state { slot := 0, subframe := 3, frame := 7 } = 1 ∧
    rrc_set_pdcch init_state 10 1 = (-1, init_state) ∧
    rrc_set_pdcch init_state 3 4 = (-1, init_state) ∧
    (lte_subframe_pdcch (rrc_set_pdcch init_state 3 2).2
        { slot := 0, subframe := 3, frame := 7 } ≠ 0 ↔
      lte_subframe_pdcch (rrc_set_pdcch init_state 3 3).2
        { slot := 0, subframe := 3, frame := 7 } = 0) :=
  ⟨(subframe_enable_mask init_state { slot := 0, subframe := 3, frame := 7 }
      { num := 3, enable := FRAME_ENABLE_ALL } 10 1 (by decide) (by decide)
      (by decide)).2.2.1 rfl,
   (subframe_enable_mask init_state { slot := 0, subframe := 3, frame := 7 }
      { num := 3, enable := FRAME_ENABLE_ALL } 10 1 (by decide) (by decide)
      (by decide)).2.2.2.2.2.2.2.1 (Or.inl (by decide)),
   (subframe_enable_mask init_state { slot := 0, subframe := 3, frame := 7 }
      { num := 3, enable := FRAME_ENABLE_ALL } 3 4 (by decide) (by decide)
      (by decide)).2.2.2.2.2.2.2.1 (Or.inr (by decide)),
   (subframe_enable_mask init_state { slot := 0, subframe := 3, frame := 7 }
      { num := 3, enable := FRAME_ENABLE_ALL } 3 3 (by decide) (by decide)
      (by decide)).2.2.2.2.2.1 (rrc_set_pdcch init_state 3 2).2 (rrc_set_pdcch init_state 3 3).2
      { num := 3, enable := FRAME_ENABLE_EVEN } { num := 3, enable := FRAME_ENABLE_ODD }
      (by decide) rfl (by decide) rfl⟩

/-! ## Subframe sample buffers: properties -/

theorem copy_samples_length (dst : List (Int × Int)) (off : Int) (src : Int → Int × Int)
    (n : Int) : (copy_samples dst off src n).length = dst.length := by
  unfold copy_samples
  simp

theorem copy_samples_getD (dst : List (Int × Int)) (off : Int) (src : Int → Int × Int)
    (n : Int) (k : Nat) (hk : k < dst.length) :
    (copy_samples dst off src n).getD k (0, 0) =
      if off ≤ (k : Int) ∧ (k : Int) < off + n then src ((k : Int) - off)
      else dst.getD k (0, 0) := by
  unfold copy_samples
  simp [List.getD_eq_getElem?_getD, List.getElem?_map, List.getElem?_range hk]

theorem copy_samples_getD_out (dst : List (Int × Int)) (off : Int) (src : Int → Int × Int)
    (n : Int) (k : Nat) (hk : dst.length ≤ k) :
    (copy_samples dst off src n).getD k (0, 0) = dst.getD k (0, 0) := by
  have h1 : (copy_samples dst off src n).length ≤ k := by
    rw [copy_samples_length]; exact hk
  rw [List.getD_eq_default _ _ h1, List.getD_eq_default _ _ hk]

theorem interp_sample_getD_ne (buf : List (Int × Int)) (index : Int) (k : Nat)
    (hk : (k : Int) ≠ index) :
    (interp_sample buf index).getD k (0, 0) = buf.getD k (0, 0) := by
  unfold interp_sample
  simp only []
  by_cases hl : k < buf.length
  · rw [copy_samples_getD _ _ _ _ _ hl, if_neg (by omega)]
  · rw [copy_samples_getD_out _ _ _ _ _ (by omega)]

theorem interp_sample_length (buf : List (Int × Int)) (index : Int) :
    (interp_sample buf index).length = buf.length := by
  unfold interp_sample
  simp only []
  rw [copy_samples_length]

theorem read_at_nonneg (l : List (Int × Int)) (k : Int) (hk : 0 ≤ k) :
    read_at l k = l.getD k.toNat (0, 0) := by
  unfold read_at
  rw [if_neg (by omega)]

namespace io_subframe

/-- The content of the destination after a `delay` call that passes the length check, before
the interpolation of the case `offset = 1`. -/
theorem delay_getD (s : io_subframe) (chan : Nat) (buf : List (Int × Int)) (len : Nat)
    (offset : Int) (hlen : len ≤ s.len) (ho0 : -64 ≤ offset) (k : Nat)
    (hk : k < buf.length) (hne : offset = 1 → (k : Int) ≠ ((s.taps / 2 : Nat) : Int) - 1) :
    (delay s chan buf len offset).1 = true ∧
    (delay s chan buf len offset).2.length = buf.length ∧
    (delay s chan buf len offset).2.getD k (0, 0) =
      (if ((s.taps / 2 : Nat) : Int) ≤ (k : Int) ∧ (k : Int) < (s.len : Int) then
        read_at (s.raw.getD chan []) ((k : Int) - ((s.taps / 2 : Nat) : Int))
       else if (k : Int) < (if offset > 0 then ((s.taps / 2 : Nat) : Int) - offset
            else ((s.taps / 2 : Nat) : Int)) then
        read_at (s.history.getD chan []) (64 + offset + (k : Int))
       else buf.getD k (0, 0)) := by
  have hO : OFFSET_LIMIT = 64 := rfl
  have hlt : ¬ (offset < -OFFSET_LIMIT) := by rw [hO]; omega
  have hk1 : k < (copy_samples buf 0
      (fun (j : Int) => read_at (s.history.getD chan []) (OFFSET_LIMIT + offset + j))
      (if offset > 0 then ((s.taps / 2 : Nat) : Int) - offset
        else ((s.taps / 2 : Nat) : Int))).length := by
    rw [copy_samples_length]; exact hk
  unfold delay
  simp only []
  rw [if_neg (by omega)]
  simp only [hlt, if_false]
  by_cases h1 : offset = 1
  · rw [if_pos h1]
    refine ⟨rfl, ?_, ?_⟩
    · rw [interp_sample_length, copy_samples_length, copy_samples_length]
    · rw [interp_sample_getD_ne _ _ _ (by rw [h1]; exact hne h1),
        copy_samples_getD _ _ _ _ _ hk1, copy_samples_getD _ _ _ _ _ hk, hO]
      by_cases hb : ((s.taps / 2 : Nat) : Int) ≤ (k : Int) ∧ (k : Int) < (s.len : Int)
      · rw [if_pos (by omega), if_pos hb]
      · rw [if_neg (by omega), if_neg hb]
        simp only [Int.sub_zero]
        congr 1
        apply propext
        constructor <;> intro h <;> omega
  · rw [if_neg h1]
    refine ⟨rfl, ?_, ?_⟩
    · rw [copy_samples_length, copy_samples_length]
    · rw [copy_samples_getD _ _ _ _ _ hk1, copy_samples_getD _ _ _ _ _ hk, hO]
      by_cases hb : ((s.taps / 2 : Nat) : Int) ≤ (k : Int) ∧ (k : Int) < (s.len : Int)
      · rw [if_pos (by omega), if_pos hb]
      · rw [if_neg (by omega), if_neg hb]
        simp only [Int.sub_zero]
        congr 1
        apply propext
        constructor <;> intro h <;> omega

end io_subframe

namespace io_subframe

/-- The look-back history after `update`: for a channel whose history array has `hlen`
samples it holds the last `hlen` raw samples. -/
theorem update_saves_history (s : io_subframe) (chan : Nat) (hc : chan < s.chans)
    (hh : (s.history.getD chan []).length = s.hlen) (hl : s.hlen ≤ s.len) :
    ((update s).history.getD chan []).length = s.hlen ∧
    (∀ j : Nat, j < s.hlen →
      ((update s).history.getD chan []).getD j (0, 0) =
        (s.raw.getD chan []).getD (s.len - s.hlen + j) (0, 0)) := by
  have e : (update s).history.getD chan [] =
      copy_samples (s.history.getD chan []) 0
        (fun (j : Int) => read_at (s.raw.getD chan []) ((s.len : Int) - (s.hlen : Int) + j))
        (s.hlen : Int) := by
    unfold update
    simp [List.getD_eq_getElem?_getD, List.getElem?_map, List.getElem?_range hc]
  rw [e]
  refine ⟨by rw [copy_samples_length, hh], fun j hj => ?_⟩
  rw [copy_samples_getD _ _ _ _ _ (by rw [hh]; exact hj), if_pos (by omega),
    read_at_nonneg _ _ (by omega)]
  congr 1
  omega

end io_subframe

namespace io_subframe

/-- C30: for a requested length `len` up to the subframe length and an offset between -64
and `taps / 2`, `delay` returns true and fills the destination samples from `taps / 2` up to
the subframe length with the raw samples from index 0, and the head from the look-back
history `h`: for `offset ≤ 0` the samples `k < taps / 2`, for `offset > 0` the samples
`k < taps / 2 - offset`, each with `h[64 + offset + k]`; all reads are inside the arrays,
nothing is written from the subframe length on, and the lengths of both copies are not
negative.  When `len` exceeds the subframe length
`delay` returns false and the destination is unchanged.  After `update` the history holds
the last `taps / 2 + 64` raw samples. -/
theorem delay_shifted_copy (s : io_subframe) (chan : Nat) (buf : List (Int × Int))
    (len : Nat) (offset : Int)
    (hh : (s.history.getD chan []).length = s.taps / 2 + 64)
    (hr : (s.raw.getD chan []).length = s.len)
    (ht : s.taps / 2 ≤ s.len) (hb : s.len ≤ buf.length) (hlen : len ≤ s.len)
    (ho0 : -64 ≤ offset) (ho1 : offset ≤ ((s.taps / 2 : Nat) : Int)) :
    (delay s chan buf len offset).1 = true ∧
    (delay s chan buf len offset).2.length = buf.length ∧
    (∀ k : Nat, s.taps / 2 ≤ k → k < s.len →
      (delay s chan buf len offset).2.getD k (0, 0)
        = (s.raw.getD chan []).getD (k - s.taps / 2) (0, 0) ∧
      k - s.taps / 2 < (s.raw.getD chan []).length) ∧
    (offset ≤ 0 → ∀ k : Nat, k < s.taps / 2 →
      (delay s chan buf len offset).2.getD k (0, 0)
        = (s.history.getD chan []).getD (64 + offset + (k : Int)).toNat (0, 0) ∧
      0 ≤ 64 + offset + (k : Int) ∧
      (64 + offset + (k : Int)).toNat < (s.history.getD chan []).length) ∧
    (offset > 0 → ∀ k : Nat, (k : Int) < ((s.taps / 2 : Nat) : Int) - offset →
      (delay s chan buf len offset).2.getD k (0, 0)
        = (s.history.getD chan []).getD (64 + offset + (k : Int)).toNat (0, 0) ∧
      0 ≤ 64 + offset + (k : Int) ∧
      (64 + offset + (k : Int)).toNat < (s.history.getD chan []).length) ∧
    (∀ k : Nat, s.len ≤ k →
      (delay s chan buf len offset).2.getD k (0, 0) = buf.getD k (0, 0)) ∧
    (∀ len2 : Nat, len2 > s.len → delay s chan buf len2 offset = (false, buf)) ∧
    (0 ≤ (if offset > 0 then ((s.taps / 2 : Nat) : Int) - offset
        else ((s.taps / 2 : Nat) : Int)) ∧
      0 ≤ (s.len : Int) - ((s.taps / 2 : Nat) : Int)) ∧
    (chan < s.chans → s.hlen = s.taps / 2 + 64 → s.hlen ≤ s.len →
      ((update s).history.getD chan []).length = s.taps / 2 + 64 ∧
      (∀ j : Nat, j < s.taps / 2 + 64 →
        ((update s).history.getD chan []).getD j (0, 0) =
          (s.raw.getD chan []).getD (s.len - (s.taps / 2 + 64) + j) (0, 0))) := by
  have hgen : ∀ k : Nat, k < buf.length → (offset = 1 → (k : Int) ≠ ((s.taps / 2 : Nat) : Int) - 1) →
      (delay s chan buf len offset).2.getD k (0, 0) =
      (if ((s.taps / 2 : Nat) : Int) ≤ (k : Int) ∧ (k : Int) < (s.len : Int) then
        read_at (s.raw.getD chan []) ((k : Int) - ((s.taps / 2 : Nat) : Int))
       else if (k : Int) < (if offset > 0 then ((s.taps / 2 : Nat) : Int) - offset
            else ((s.taps / 2 : Nat) : Int)) then
        read_at (s.history.getD chan []) (64 + offset + (k : Int))
       else buf.getD k (0, 0)) :=
    fun k hk hne => (delay_getD s chan buf len offset hlen ho0 k hk hne).2.2
  have hlenD : (delay s chan buf len offset).2.length = buf.length := by
    unfold delay
    simp only []
    rw [if_neg (by omega)]
    split_ifs <;>
      simp only [interp_sample_length, copy_samples_length]
  have h1 : (delay s chan buf len offset).1 = true := by
    unfold delay
    simp only []
    rw [if_neg (by omega)]
    split_ifs <;> rfl
  refine ⟨h1, hlenD, ?_, ?_, ?_, ?_, ?_, ⟨by split_ifs <;> omega, by omega⟩, ?_⟩
  · intro k hk1 hk2
    have hc : ((s.taps / 2 : Nat) : Int) ≤ (k : Int) ∧ (k : Int) < (s.len : Int) := by omega
    rw [hgen k (by omega) (fun _ => by omega), if_pos hc, read_at_nonneg _ _ (by omega)]
    refine ⟨?_, by omega⟩
    congr 1
    omega
  · intro hle k hk
    have hc : ¬ (((s.taps / 2 : Nat) : Int) ≤ (k : Int) ∧ (k : Int) < (s.len : Int)) := by
      omega
    have hp : ¬ (offset > 0) := by omega
    have hc2 : (k : Int) < ((s.taps / 2 : Nat) : Int) := by omega
    rw [hgen k (by omega) (fun h => by omega), if_neg hc, if_neg hp, if_pos hc2,
      read_at_nonneg _ _ (by omega)]
    exact ⟨rfl, by omega, by omega⟩
  · intro hgt k hk
    have hc : ¬ (((s.taps / 2 : Nat) : Int) ≤ (k : Int) ∧ (k : Int) < (s.len : Int)) := by
      omega
    rw [hgen k (by omega) (fun h => by omega), if_neg hc, if_pos hgt, if_pos hk,
      read_at_nonneg _ _ (by omega)]
    exact ⟨rfl, by omega, by omega⟩
  · intro k hk
    by_cases hkb : k < buf.length
    · have hc : ¬ (((s.taps / 2 : Nat) : Int) ≤ (k : Int) ∧ (k : Int) < (s.len : Int)) := by
        omega
      have hc2 : ¬ ((k : Int) < (if offset > 0 then ((s.taps / 2 : Nat) : Int) - offset
          else ((s.taps / 2 : Nat) : Int))) := by
        split_ifs <;> omega
      rw [hgen k hkb (fun _ => by omega), if_neg hc, if_neg hc2]
    · rw [List.getD_eq_default _ _ (by rw [hlenD]; omega),
        List.getD_eq_default _ _ (by omega)]
  · intro len2 h2
    unfold delay
    simp only []
    rw [if_pos h2]
  · intro hc hhl hl
    obtain ⟨u1, u2⟩ := update_saves_history s chan hc (by rw [hh, hhl]) hl
    rw [hhl] at u1 u2
    exact ⟨u1, u2⟩

/-- C30 for the example buffers (delay 2) and offset -1: the two head samples are the
history samples 63 and 64, the body is the raw subframe from index 0. -/
theorem delay_shifted_copy_witness :
    (delay exSubframe 0 (List.replicate 8 (0, 0)) 8 (-1)).1 = true ∧
    (delay exSubframe 0 (List.replicate 8 (0, 0)) 8 (-1)).2
      = [(163, 0), (164, 0), (1, -1), (2, -2), (3, -3), (4, -4), (5, -5), (6, -6)] ∧
    (∀ k : Nat, exSubframe.taps / 2 ≤ k → k < exSubframe.len →
      (delay exSubframe 0 (List.replicate 8 (0, 0)) 8 (-1)).2.getD k (0, 0)
        = (exSubframe.raw.getD 0 []).getD (k - exSubframe.taps / 2) (0, 0) ∧
      k - exSubframe.taps / 2 < (exSubframe.raw.getD 0 []).length) :=
  ⟨(delay_shifted_copy exSubframe 0 (List.replicate 8 (0, 0)) 8 (-1) (by decide) (by decide)
      (by decide) (by decide) (by decide) (by decide) (by decide)).1,
   by decide,
   (delay_shifted_copy exSubframe 0 (List.replicate 8 (0, 0)) 8 (-1) (by decide) (by decide)
      (by decide) (by decide) (by decide) (by decide) (by decide)).2.2.1⟩

end io_subframe

/-! ## Subframe reads: properties -/

theorem lte_read_subframe_some (K : lte_params) (g : io_state) (sf coarse fine state r : Int)
    (hr : comp_timing_offset K g coarse fine state = some r) :
    lte_read_subframe K g sf coarse fine state true =
      some (r,
        (if sf ≤ g.prev_subframe then g.subframe0_ts + g.frame_len else g.subframe0_ts)
          + r + sf * g.subframe_len,
        { g with
          subframe0_ts :=
            (if sf ≤ g.prev_subframe then g.subframe0_ts + g.frame_len else g.subframe0_ts) + r,
          prev_subframe := sf }) := by
  unfold lte_read_subframe
  by_cases h : sf ≤ g.prev_subframe
  · have e : comp_timing_offset K { g with subframe0_ts := g.subframe0_ts + g.frame_len }
        coarse fine state = some r := hr
    simp only [h, if_true, e]
    rfl
  · simp only [h, if_false, hr]
    rfl

theorem lte_read_subframe_none (K : lte_params) (g : io_state) (sf coarse fine state : Int)
    (b : Bool) (hr : comp_timing_offset K g coarse fine state = none) :
    lte_read_subframe K g sf coarse fine state b = none := by
  unfold lte_read_subframe
  by_cases h : sf ≤ g.prev_subframe
  · have e : comp_timing_offset K { g with subframe0_ts := g.subframe0_ts + g.frame_len }
        coarse fine state = none := hr
    simp only [h, if_true, e]
  · simp only [h, if_false, hr]

/-- C36: when a call of `lte_read_subframe` for subframe `sf` (0 .. 9) has returned and the
next call is made for subframe `(sf + 1) % 10` with a frame of ten subframes, the next call
returns the value `r1` of `comp_timing_offset` for its arguments and requests the timestamp
of the previous call plus `subframe_len` plus `r1`, also across the frame boundary; with
`r1 = 0` the two windows are contiguous, and with `fine = 9999` the value is -1, so the
window moves back by one sample. -/
theorem read_subframe_window_step (K : lte_params) (g0 g1 : io_state)
    (sf co0 fi0 st0 r0 ts0 co1 fi1 st1 r1 : Int)
    (hframe : g0.frame_len = 10 * g0.subframe_len)
    (hsf : 0 ≤ sf ∧ sf ≤ 9)
    (hcall : lte_read_subframe K g0 sf co0 fi0 st0 true = some (r0, ts0, g1))
    (hr : comp_timing_offset K g1 co1 fi1 st1 = some r1) :
    (∃ g2 : io_state,
      lte_read_subframe K g1 (Int.tmod (sf + 1) 10) co1 fi1 st1 true
        = some (r1, ts0 + g0.subframe_len + r1, g2) ∧
      g2.prev_subframe = Int.tmod (sf + 1) 10 ∧
      g2.subframe_len = g0.subframe_len ∧ g2.frame_len = g0.frame_len) ∧
    (r1 = 0 →
      ∃ g2 : io_state, lte_read_subframe K g1 (Int.tmod (sf + 1) 10) co1 fi1 st1 true
        = some (0, ts0 + g0.subframe_len, g2)) ∧
    (fi1 = 9999 → r1 = -1) ∧
    lte_read_subframe K g1 (Int.tmod (sf + 1) 10) co1 fi1 st1 false = none := by
  have hc : comp_timing_offset K g0 co0 fi0 st0 = some r0 ∧
      ts0 = (if sf ≤ g0.prev_subframe then g0.subframe0_ts + g0.frame_len
              else g0.subframe0_ts) + r0 + sf * g0.subframe_len ∧
      g1 = { g0 with
        subframe0_ts := (if sf ≤ g0.prev_subframe then g0.subframe0_ts + g0.frame_len
              else g0.subframe0_ts) + r0,
        prev_subframe := sf } := by
    cases h : comp_timing_offset K g0 co0 fi0 st0 with
    | none =>
      rw [lte_read_subframe_none K g0 sf co0 fi0 st0 true h] at hcall
      cases hcall
    | some r =>
      rw [lte_read_subframe_some K g0 sf co0 fi0 st0 r h] at hcall
      simp only [Option.some.injEq, Prod.mk.injEq] at hcall
      obtain ⟨e1, e2, e3⟩ := hcall
      subst e1
      exact ⟨rfl, e2.symm, e3.symm⟩
  obtain ⟨_, hts, hg⟩ := hc
  have hp : g1.prev_subframe = sf := by rw [hg]
  have hl : g1.subframe_len = g0.subframe_len := by rw [hg]
  have hf : g1.frame_len = g0.frame_len := by rw [hg]
  have hs : g1.subframe0_ts + sf * g0.subframe_len = ts0 := by rw [hg, hts]
  have key : (if Int.tmod (sf + 1) 10 ≤ g1.prev_subframe then g1.subframe0_ts + g1.frame_len
        else g1.subframe0_ts) + r1 + Int.tmod (sf + 1) 10 * g1.subframe_len
      = ts0 + g0.subframe_len + r1 := by
    rw [hp, hl, hf, hframe, ← hs]
    by_cases h9 : sf = 9
    · subst h9
      have e : Int.tmod ((9 : Int) + 1) 10 = 0 := by decide
      rw [e, if_pos (by decide)]
      ring
    · have e : Int.tmod (sf + 1) 10 = sf + 1 := Int.tmod_eq_of_lt (by omega) (by omega)
      have hn : ¬ (sf + 1 ≤ sf) := by omega
      rw [e, if_neg hn]
      ring
  have hsome := lte_read_subframe_some K g1 (Int.tmod (sf + 1) 10) co1 fi1 st1 r1 hr
  rw [key] at hsome
  refine ⟨⟨_, hsome, rfl, hl, hf⟩, ?_, ?_, ?_⟩
  · intro h0
    rw [h0] at hsome
    rw [add_zero] at hsome
    exact ⟨_, hsome⟩
  · intro h9
    unfold comp_timing_offset at hr
    simp only [h9, if_true, Option.some.injEq] at hr
    exact hr.symm
  · unfold lte_read_subframe
    by_cases h : Int.tmod (sf + 1) 10 ≤ g1.prev_subframe
    · have e : comp_timing_offset K { g1 with subframe0_ts := g1.subframe0_ts + g1.frame_len }
          co1 fi1 st1 = some r1 := hr
      simp only [h, if_true, e]
      rfl
    · simp only [h, if_false, hr]
      rfl

/-- C36 on the example variables (25 resource blocks, subframe of 5760 samples): after the
call for subframe 9 without adjustment, the call for subframe 0 with the invalid fine value
9999 requests the window one sample before the contiguous one. -/
theorem read_subframe_window_step_witness :
    (∃ g2 : io_state,
      lte_read_subframe K0
        { exIoState with subframe0_ts := exIoState.subframe0_ts, prev_subframe := 9 }
        (Int.tmod (9 + 1) 10) 0 9999 0 true
        = some (-1, (6760 + 9 * 5760) + exIoState.subframe_len + -1, g2) ∧
      g2.prev_subframe = Int.tmod (9 + 1) 10 ∧
      g2.subframe_len = exIoState.subframe_len ∧ g2.frame_len = exIoState.frame_len) :=
  (read_subframe_window_step K0 exIoState
    { exIoState with subframe0_ts := exIoState.subframe0_ts, prev_subframe := 9 }
    9 0 0 0 0 (6760 + 9 * 5760) 0 9999 0 (-1) (by decide) (by decide) rfl rfl).1

/-! ## Per-bandwidth switches: properties -/

theorem valid_rbs_iff (rbs : Int) :
    valid_rbs rbs = true ↔
      rbs = 6 ∨ rbs = 15 ∨ rbs = 25 ∨ rbs = 50 ∨ rbs = 75 ∨ rbs = 100 := by
  unfold valid_rbs
  by_cases h : rbs = 6 ∨ rbs = 15 ∨ rbs = 25 ∨ rbs = 50 ∨ rbs = 75 ∨ rbs = 100
  · simp only [h, if_true]
  · simp only [h, if_false]
    exact ⟨fun hh => (by cases hh), fun hh => hh.elim⟩

theorem init_pss_adj (g : io_state) (ts sf_len fr_len rbs : Int) :
    (lte_radio_iface_init g (some ts) sf_len fr_len rbs).2.pss_adj =
      (if use_fft_1536 rbs ≠ 0 then Int.tdiv (Int.tdiv (32 * 3) 4) (get_decim rbs)
       else Int.tdiv 32 (get_decim rbs)) := by
  unfold lte_radio_iface_init
  simp only []
  split_ifs <;> rfl

/-- C39: for each of the six supported bandwidths the factor `pss_adj` stored by
`lte_radio_iface_init` equals the ratio `pss_q` computed by `io_subframe::init`, namely
2, 4, 6, 12, 16, 24 for 6, 15, 25, 50, 75, 100 resource blocks; `pss_q` is even and
`pbch_q = pss_q / 2` is 1, 2, 3, 6, 8, 12, with `2 * pbch_q = pss_q`. -/
theorem pss_adj_eq_pss_q (g : io_state) (ts sf_len fr_len rbs : Int)
    (h : valid_rbs rbs = true) :
    (lte_radio_iface_init g (some ts) sf_len fr_len rbs).2.pss_adj
      = io_subframe.init_pss_q rbs ∧
    io_subframe.get_decim rbs = get_decim rbs ∧ 0 < io_subframe.get_decim rbs ∧
    io_subframe.init_pss_q rbs =
      (if rbs = 6 then 2 else if rbs = 15 then 4 else if rbs = 25 then 6
       else if rbs = 50 then 12 else if rbs = 75 then 16 else 24) ∧
    Int.tmod (io_subframe.init_pss_q rbs) 2 = 0 ∧
    2 * io_subframe.init_pbch_q rbs = io_subframe.init_pss_q rbs ∧
    io_subframe.init_pbch_q rbs =
      (if rbs = 6 then 1 else if rbs = 15 then 2 else if rbs = 25 then 3
       else if rbs = 50 then 6 else if rbs = 75 then 8 else 12) := by
  rw [init_pss_adj]
  rcases (valid_rbs_iff rbs).mp h with h | h | h | h | h | h <;> subst h <;>
    refine ⟨?_, ?_, ?_, ?_, ?_, ?_, ?_⟩ <;> decide

/-- C39 at 25 resource blocks: both factors are 6 and the broadcast-view ratio is 3. -/
theorem pss_adj_eq_pss_q_witness :
    (lte_radio_iface_init io_state.start (some 1000) 5760 57600 25).2.pss_adj
      = io_subframe.init_pss_q 25 ∧
    io_subframe.init_pss_q 25 = 6 ∧ io_subframe.init_pbch_q 25 = 3 :=
  ⟨(pss_adj_eq_pss_q io_state.start 1000 5760 57600 25 (by decide)).1, by decide, by decide⟩

theorem reserved_rb_switch_nonneg (rbs rb : Int)
    (h : rbs = 6 ∨ rbs = 15 ∨ rbs = 25 ∨ rbs = 50 ∨ rbs = 100) :
    0 ≤ reserved_rb_switch rbs rb := by
  unfold reserved_rb_switch
  rcases h with h | h | h | h | h <;> subst h <;> norm_num <;> split_ifs <;> decide

theorem reserved_rb_switch_default (rbs rb : Int)
    (h : ¬ (rbs = 6 ∨ rbs = 15 ∨ rbs = 25 ∨ rbs = 50 ∨ rbs = 100)) :
    reserved_rb_switch rbs rb = -1 := by
  have h6 : ¬ rbs = 6 := fun hh => h (Or.inl hh)
  have h15 : ¬ rbs = 15 := fun hh => h (Or.inr (Or.inl hh))
  have h25 : ¬ rbs = 25 := fun hh => h (Or.inr (Or.inr (Or.inl hh)))
  have h50 : ¬ rbs = 50 := fun hh => h (Or.inr (Or.inr (Or.inr (Or.inl hh))))
  have h100 : ¬ rbs = 100 := fun hh => h (Or.inr (Or.inr (Or.inr (Or.inr hh))))
  unfold reserved_rb_switch
  simp only [h6, h15, h25, h50, h100, if_false]

theorem reserved_rb_eq (rbs rb slot l subframe : Int) :
    reserved_rb rbs rb slot l subframe =
      if (subframe = 0 ∧ ¬ ((slot = 0 ∧ l < 5) ∨ (slot ≠ 0 ∧ l > 3))) ∨
          (subframe = 5 ∧ slot = 0 ∧ ¬ l < 5) then
        reserved_rb_switch rbs rb
      else 0 := by
  unfold reserved_rb
  by_cases h0 : subframe = 0 <;> by_cases h5 : subframe = 5 <;> by_cases hs : slot = 0 <;>
    by_cases hl : l < 5 <;> by_cases hg : l > 3 <;>
    simp [h0, h5, hs, hl, hg]

/-- The `default` branch of `reserved_rb` is reached exactly for a bandwidth other than 6,
15, 25, 50 and 100, in the symbols that carry the synchronisation signals and the broadcast
channel; for those five bandwidths the result is never negative. -/
theorem reserved_rb_unsupported_iff (rbs rb slot l subframe : Int) :
    (reserved_rb rbs rb slot l subframe = -1 ↔
      (¬ (rbs = 6 ∨ rbs = 15 ∨ rbs = 25 ∨ rbs = 50 ∨ rbs = 100)) ∧
      ((subframe = 0 ∧ ¬ ((slot = 0 ∧ l < 5) ∨ (slot ≠ 0 ∧ l > 3))) ∨
       (subframe = 5 ∧ slot = 0 ∧ ¬ l < 5))) ∧
    (rbs = 6 ∨ rbs = 15 ∨ rbs = 25 ∨ rbs = 50 ∨ rbs = 100 →
      0 ≤ reserved_rb rbs rb slot l subframe) := by
  rw [reserved_rb_eq]
  by_cases hp : (subframe = 0 ∧ ¬ ((slot = 0 ∧ l < 5) ∨ (slot ≠ 0 ∧ l > 3))) ∨
      (subframe = 5 ∧ slot = 0 ∧ ¬ l < 5)
  · rw [if_pos hp]
    by_cases h : rbs = 6 ∨ rbs = 15 ∨ rbs = 25 ∨ rbs = 50 ∨ rbs = 100
    · have h0 := reserved_rb_switch_nonneg rbs rb h
      exact ⟨⟨fun hh => (by omega), fun hh => absurd h hh.1⟩, fun _ => h0⟩
    · exact ⟨⟨fun _ => ⟨h, hp⟩, fun _ => reserved_rb_switch_default rbs rb h⟩,
        fun hh => absurd hh h⟩
  · rw [if_neg hp]
    exact ⟨⟨fun hh => (by omega), fun hh => absurd hh.2 hp⟩, fun _ => le_refl _⟩

/-- C40, the code at a failing input: 75 resource blocks are accepted by `valid_rbs`,
`get_decim` gives the factor 2 and `lte_radio_iface_init` selects a timing table and returns
0, but `reserved_rb` has no case for 75: for symbol 5 of slot 0 in subframe 0 (and in
subframe 5) it takes the `default` branch and returns -1 for every resource block. -/
theorem reserved_rb_unsupported_75 :
    valid_rbs 75 = true ∧ get_decim 75 = 2 ∧
    (lte_radio_iface_init io_state.start (some 1000) 15360 153600 75).1 = 0 ∧
    reserved_rb 75 0 0 5 0 = -1 ∧
    (∀ rb : Int, reserved_rb 75 rb 0 5 0 = -1 ∧ reserved_rb 75 rb 0 5 5 = -1) := by
  refine ⟨by decide, by decide, by decide, by decide, fun rb => ⟨?_, ?_⟩⟩
  · exact (reserved_rb_unsupported_iff 75 rb 0 5 0).1.mpr
      ⟨by decide, Or.inl ⟨rfl, by decide⟩⟩
  · exact (reserved_rb_unsupported_iff 75 rb 0 5 5).1.mpr
      ⟨by decide, Or.inr ⟨rfl, rfl, by decide⟩⟩

/-! ## Subframe sample buffers: the head copy and the seam -/

namespace io_subframe

theorem delay_uses_head (s : io_subframe) (chan : Nat) (buf : List (Int × Int)) (len : Nat)
    (offset : Int) (hlen : len ≤ s.len) :
    delay s chan buf len offset =
      (true,
        (if offset = 1 then fun (b : List (Int × Int)) =>
            interp_sample b (((s.taps / 2 : Nat) : Int) - offset)
         else fun (b : List (Int × Int)) => b)
        (copy_samples
          (copy_samples buf (delay_head s offset).1
            (fun (j : Int) => read_at (s.history.getD chan []) ((delay_head s offset).2.1 + j))
            (delay_head s offset).2.2)
          ((s.taps / 2 : Nat) : Int) (fun (j : Int) => read_at (s.raw.getD chan []) j)
          ((s.len : Int) - ((s.taps / 2 : Nat) : Int)))) := by
  have hc : ¬ (len > s.len) := by omega
  unfold delay delay_head
  simp only []
  rw [if_neg hc]
  by_cases h1 : offset < -OFFSET_LIMIT
  · have h2 : ¬ offset = 1 := by
      have hO : OFFSET_LIMIT = 64 := rfl
      omega
    simp only [h1, if_true, h2, if_false]
  · by_cases h3 : offset > 0
    · by_cases h2 : offset = 1
      · subst h2
        have g1 : ¬ ((1 : Int) < -OFFSET_LIMIT) := by decide
        have g2 : (1 : Int) > 0 := by decide
        simp only [g1, if_false, g2, if_true]
      · simp only [h1, if_false, h3, if_true, h2]
    · have h2 : ¬ offset = 1 := by omega
      simp only [h1, if_false, h3, h2]

/-- The head copy of `delay` has a non-negative length and takes all its samples from inside
the look-back array of `taps / 2 + 64` samples exactly for the offsets from -64 to
`taps / 2` (and for the one offset below -64 for which the copy is empty). -/
theorem delay_head_in_bounds_iff (s : io_subframe) (offset : Int) :
    (0 ≤ (delay_head s offset).2.2 ∧
      (0 < (delay_head s offset).2.2 →
        0 ≤ (delay_head s offset).2.1 ∧
        (delay_head s offset).2.1 + (delay_head s offset).2.2
          ≤ ((s.taps / 2 : Nat) : Int) + 64)) ↔
      (-64 ≤ offset ∧ offset ≤ ((s.taps / 2 : Nat) : Int)) ∨
        offset = -64 - ((s.taps / 2 : Nat) : Int) := by
  have hO : OFFSET_LIMIT = 64 := rfl
  unfold delay_head
  simp only [hO]
  by_cases h1 : offset < -64
  · simp only [h1, if_true]
    constructor
    · intro h; omega
    · intro h; omega
  · by_cases h3 : offset > 0
    · simp only [h1, if_false, h3, if_true]
      constructor
      · intro h; omega
      · intro h; omega
    · simp only [h1, if_false, h3]
      constructor
      · intro h; omega
      · intro h; omega

/-- C31, the code at failing inputs.  With the filter length 384 of `init` (look-back array of
256 samples) the offset -72, which `comp_timing_offset` produces in tracking mode at 100
resource blocks (`coarse = -3`, `pss_adj = 24`), makes `delay` copy 184 head samples starting
8 samples before the look-back array; on the example buffers (4 taps, array of 66 samples)
offset -65 reads the sample before the array and offset 3 asks for a head copy of -1
samples.  In each case `delay` returns true. -/
theorem delay_head_out_of_bounds :
    comp_timing_offset K0 (lte_radio_iface_init io_state.start (some 0) 23040 230400 100).2
      (-3) 0 1 = some (-72) ∧
    delay_head { exSubframe with taps := 384, hlen := 256 } (-72) = (8, -8, 184) ∧
    delay_head exSubframe (-65) = (1, -1, 1) ∧
    delay_head exSubframe 3 = (0, 67, -1) ∧
    (delay exSubframe 0 (List.replicate 8 (0, 0)) 8 (-65)).1 = true ∧
    (delay exSubframe 0 (List.replicate 8 (0, 0)) 8 3).1 = true := by
  decide

end io_subframe

theorem interp_sample_getD_eq (buf : List (Int × Int)) (k : Nat) (hk : k < buf.length) :
    (interp_sample buf (k : Int)).getD k (0, 0) =
      (Int.tdiv ((read_at buf ((k : Int) - 1)).1 + (read_at buf ((k : Int) + 1)).1) 2,
       Int.tdiv ((read_at buf ((k : Int) - 1)).2 + (read_at buf ((k : Int) + 1)).2) 2) := by
  unfold interp_sample
  simp only []
  rw [copy_samples_getD _ _ _ _ _ hk, if_pos (by omega)]

theorem tdiv_mean_range (a c : Int) (ha : -32768 ≤ a ∧ a ≤ 32767)
    (hc : -32768 ≤ c ∧ c ≤ 32767) :
    -32768 ≤ Int.tdiv (a + c) 2 ∧ Int.tdiv (a + c) 2 ≤ 32767 := by
  by_cases h : 0 ≤ a + c
  · rw [Int.tdiv_eq_ediv h (by decide)]
    omega
  · have e : Int.tdiv (a + c) 2 = -((-(a + c)) / 2) := by
      have e1 : a + c = -(-(a + c)) := by ring
      rw [e1, Int.neg_tdiv, Int.tdiv_eq_ediv (by omega) (by decide), neg_neg]
    rw [e]
    omega

namespace io_subframe

/-- C32: for offset 1 (filter delay `taps / 2` at least 2 and below the subframe length,
destination with room for a subframe) `delay` returns true and the destination sample
`taps / 2 - 1` has the components `(a + c) / 2` with the truncating division, `a` and `c`
being the destination samples `taps / 2 - 2` and `taps / 2`, which are the last look-back
sample and the first raw sample; components in the range of `short` give a mean in that
range; every other destination sample is as copied.  For every other offset the
destination is exactly the result of the two copies. -/
theorem delay_interpolates_seam (s : io_subframe) (chan : Nat) (buf : List (Int × Int))
    (len : Nat) (hlen : len ≤ s.len) (ht : 2 ≤ s.taps / 2) (hl : s.taps / 2 < s.len)
    (hb : s.len ≤ buf.length) :
    (delay s chan buf len 1).1 = true ∧
    (delay s chan buf len 1).2.getD (s.taps / 2 - 1) (0, 0) =
      (Int.tdiv (((delay s chan buf len 1).2.getD (s.taps / 2 - 2) (0, 0)).1 +
          ((delay s chan buf len 1).2.getD (s.taps / 2) (0, 0)).1) 2,
       Int.tdiv (((delay s chan buf len 1).2.getD (s.taps / 2 - 2) (0, 0)).2 +
          ((delay s chan buf len 1).2.getD (s.taps / 2) (0, 0)).2) 2) ∧
    (delay s chan buf len 1).2.getD (s.taps / 2 - 2) (0, 0)
      = (s.history.getD chan []).getD (s.taps / 2 + 63) (0, 0) ∧
    (delay s chan buf len 1).2.getD (s.taps / 2) (0, 0) = (s.raw.getD chan []).getD 0 (0, 0) ∧
    (∀ a c : Int, -32768 ≤ a ∧ a ≤ 32767 → -32768 ≤ c ∧ c ≤ 32767 →
      -32768 ≤ Int.tdiv (a + c) 2 ∧ Int.tdiv (a + c) 2 ≤ 32767) ∧
    (∀ k : Nat, k ≠ s.taps / 2 - 1 →
      (delay s chan buf len 1).2.getD k (0, 0) =
        (copy_samples
          (copy_samples buf (delay_head s 1).1
            (fun (j : Int) => read_at (s.history.getD chan []) ((delay_head s 1).2.1 + j))
            (delay_head s 1).2.2)
          ((s.taps / 2 : Nat) : Int) (fun (j : Int) => read_at (s.raw.getD chan []) j)
          ((s.len : Int) - ((s.taps / 2 : Nat) : Int))).getD k (0, 0)) ∧
    (∀ offset : Int, offset ≠ 1 →
      delay s chan buf len offset =
        (true,
          copy_samples
            (copy_samples buf (delay_head s offset).1
              (fun (j : Int) =>
                read_at (s.history.getD chan []) ((delay_head s offset).2.1 + j))
              (delay_head s offset).2.2)
            ((s.taps / 2 : Nat) : Int) (fun (j : Int) => read_at (s.raw.getD chan []) j)
            ((s.len : Int) - ((s.taps / 2 : Nat) : Int)))) := by
  have hD : ((s.taps / 2 : Nat) : Int) - 1 = ((s.taps / 2 - 1 : Nat) : Int) := by omega
  have e := delay_uses_head s chan buf len 1 hlen
  rw [if_pos rfl] at e
  have hB : ∃ B : List (Int × Int), B.length = buf.length ∧
      B = copy_samples
          (copy_samples buf (delay_head s 1).1
            (fun (j : Int) => read_at (s.history.getD chan []) ((delay_head s 1).2.1 + j))
            (delay_head s 1).2.2)
          ((s.taps / 2 : Nat) : Int) (fun (j : Int) => read_at (s.raw.getD chan []) j)
          ((s.len : Int) - ((s.taps / 2 : Nat) : Int)) :=
    ⟨_, by rw [copy_samples_length, copy_samples_length], rfl⟩
  obtain ⟨B, hBl, hBe⟩ := hB
  rw [← hBe] at e ⊢
  have hA : (delay s chan buf len 1).2.getD (s.taps / 2 - 2) (0, 0)
      = B.getD (s.taps / 2 - 2) (0, 0) := by
    rw [e]
    exact interp_sample_getD_ne B _ _ (by omega)
  have hC : (delay s chan buf len 1).2.getD (s.taps / 2) (0, 0)
      = B.getD (s.taps / 2) (0, 0) := by
    rw [e]
    exact interp_sample_getD_ne B _ _ (by omega)
  have hM : (delay s chan buf len 1).2.getD (s.taps / 2 - 1) (0, 0) =
      (Int.tdiv ((B.getD (s.taps / 2 - 2) (0, 0)).1 + (B.getD (s.taps / 2) (0, 0)).1) 2,
       Int.tdiv ((B.getD (s.taps / 2 - 2) (0, 0)).2 + (B.getD (s.taps / 2) (0, 0)).2) 2) := by
    rw [e]
    simp only []
    rw [hD, interp_sample_getD_eq B _ (by omega), read_at_nonneg _ _ (by omega),
      read_at_nonneg _ _ (by omega)]
    have i1 : (((s.taps / 2 - 1 : Nat) : Int) - 1).toNat = s.taps / 2 - 2 := by omega
    have i2 : (((s.taps / 2 - 1 : Nat) : Int) + 1).toNat = s.taps / 2 := by omega
    rw [i1, i2]
  have g1 := (delay_getD s chan buf len 1 hlen (by decide) (s.taps / 2 - 2) (by omega)
    (fun _ => by omega)).2.2
  have g2 := (delay_getD s chan buf len 1 hlen (by decide) (s.taps / 2) (by omega)
    (fun _ => by omega)).2.2
  refine ⟨by rw [e], by rw [hM, hA, hC], ?_, ?_, fun a c ha hc => tdiv_mean_range a c ha hc,
    ?_, ?_⟩
  · rw [g1]
    have c1 : ¬ (((s.taps / 2 : Nat) : Int) ≤ ((s.taps / 2 - 2 : Nat) : Int) ∧
        ((s.taps / 2 - 2 : Nat) : Int) < (s.len : Int)) := by omega
    have c2 : ((s.taps / 2 - 2 : Nat) : Int)
        < (if (1 : Int) > 0 then ((s.taps / 2 : Nat) : Int) - 1
            else ((s.taps / 2 : Nat) : Int)) := by
      rw [if_pos (by decide)]; omega
    rw [if_neg c1, if_pos c2, read_at_nonneg _ _ (by omega)]
    congr 1
    omega
  · rw [g2]
    have c1 : ((s.taps / 2 : Nat) : Int) ≤ ((s.taps / 2 : Nat) : Int) ∧
        ((s.taps / 2 : Nat) : Int) < (s.len : Int) := by omega
    rw [if_pos c1, read_at_nonneg _ _ (by omega)]
    congr 1
    omega
  · intro k hk
    rw [e]
    exact interp_sample_getD_ne B _ _ (by omega)
  · intro offset ho
    have e2 := delay_uses_head s chan buf len offset hlen
    rw [if_neg ho] at e2
    exact e2

/-- C32 on the example buffers (delay 2, history samples 100 .. 165, raw samples 1 .. 8):
with offset 1 the destination starts with the last look-back sample (165, 0), the seam
((165 + 1) / 2, (0 - 1) / 2) = (83, 0) and the first raw sample (1, -1). -/
theorem delay_interpolates_seam_witness :
    (delay exSubframe 0 (List.replicate 8 (0, 0)) 8 1).1 = true ∧
    (delay exSubframe 0 (List.replicate 8 (0, 0)) 8 1).2
      = [(165, 0), (83, 0), (1, -1), (2, -2), (3, -3), (4, -4), (5, -5), (6, -6)] ∧
    (delay exSubframe 0 (List.replicate 8 (0, 0)) 8 1).2.getD (exSubframe.taps / 2 - 2) (0, 0)
      = (exSubframe.history.getD 0 []).getD (exSubframe.taps / 2 + 63) (0, 0) :=
  ⟨(delay_interpolates_seam exSubframe 0 (List.replicate 8 (0, 0)) 8 (by decide) (by decide)
      (by decide) (by decide)).1,
   by decide,
   (delay_interpolates_seam exSubframe 0 (List.replicate 8 (0, 0)) 8 (by decide) (by decide)
      (by decide) (by decide)).2.2.1⟩

end io_subframe

/-! ## Polyphase resampler: the commutator path -/

namespace Resampler

variable {α H : Type}

/-- C35: after `computePath` with `P ≥ 1`, every index `i < MAX_OUTPUT_LEN` of the two tables
satisfies `Q * i = P * inputIndex[i] + outputPath[i]` with `outputPath[i] < P`; when `i + P`
is an index of the tables as well, `inputIndex[i + P] = inputIndex[i] + Q` and
`outputPath[i + P] = outputPath[i]`; and for every pair of block lengths accepted by
`check_vec_len` and every `i` below the output length, `i` is an index of the tables and
`inputIndex[i]` is below the input length.  The products `Q * i` are those of natural
numbers, which is what C computes as long as `Q * i` is in the range of `int`. -/
theorem computePath_pairs (r : Resampler α H) (hP : 0 < r.mP) :
    r.computePath.inputIndex.length = MAX_OUTPUT_LEN ∧
    r.computePath.outputPath.length = MAX_OUTPUT_LEN ∧
    (∀ i : Nat, i < MAX_OUTPUT_LEN →
      r.mQ * i = r.mP * r.computePath.inputIndex.getD i 0 + r.computePath.outputPath.getD i 0 ∧
      r.computePath.outputPath.getD i 0 < r.mP) ∧
    (∀ i : Nat, i + r.mP < MAX_OUTPUT_LEN →
      r.computePath.inputIndex.getD (i + r.mP) 0 = r.computePath.inputIndex.getD i 0 + r.mQ ∧
      r.computePath.outputPath.getD (i + r.mP) 0 = r.computePath.outputPath.getD i 0) ∧
    (∀ ilen olen : Nat, check_vec_len ilen (some olen) r.mP r.mQ = true →
      ∀ i : Nat, i < olen →
        i < MAX_OUTPUT_LEN ∧ r.computePath.inputIndex.getD i 0 < ilen) := by
  refine ⟨?_, ?_, ?_, ?_, ?_⟩
  · unfold computePath
    simp
  · unfold computePath
    simp
  · intro i hi
    rw [inputIndex_computePath r i hi, outputPath_computePath r i hi]
    exact ⟨(Nat.div_add_mod (r.mQ * i) r.mP).symm, Nat.mod_lt _ hP⟩
  · intro i hi
    have hi0 : i < MAX_OUTPUT_LEN := by omega
    rw [inputIndex_computePath r _ hi, outputPath_computePath r _ hi,
      inputIndex_computePath r i hi0, outputPath_computePath r i hi0]
    have e : r.mQ * (i + r.mP) = r.mQ * i + r.mQ * r.mP := Nat.mul_add _ _ _
    rw [e]
    exact ⟨Nat.add_mul_div_right _ _ hP, Nat.add_mul_mod_self_right _ _ _⟩
  · intro ilen olen hc i hi
    obtain ⟨h1, h2, h3, h4⟩ := (check_vec_len_some ilen olen r.mP r.mQ).mp hc
    have hi0 : i < MAX_OUTPUT_LEN := by omega
    refine ⟨hi0, ?_⟩
    rw [inputIndex_computePath r i hi0]
    apply inputIndex_lt r.mP r.mQ ilen i h1
    rw [h3]
    have := Nat.div_mul_cancel (Nat.dvd_of_mod_eq_zero h2)
    omega

/-- C35 on the example configuration `P = 2`, `Q = 3`: for the output index 5 the pair is
`(7, 1)` with `3 * 5 = 2 * 7 + 1`, and index 7 has the pair `(10, 1)`. -/
theorem computePath_pairs_witness :
    exResampler.mQ * 5 = exResampler.mP * exResampler.computePath.inputIndex.getD 5 0
      + exResampler.computePath.outputPath.getD 5 0 ∧
    exResampler.computePath.outputPath.getD 5 0 < exResampler.mP ∧
    exResampler.computePath.inputIndex.getD (5 + exResampler.mP) 0
      = exResampler.computePath.inputIndex.getD 5 0 + exResampler.mQ :=
  ⟨((computePath_pairs exResampler (by decide)).2.2.1 5 (by decide)).1,
   ((computePath_pairs exResampler (by decide)).2.2.1 5 (by decide)).2,
   ((computePath_pairs exResampler (by decide)).2.2.2.1 5 (by decide)).1⟩

end Resampler

/-! ## Ring buffer: range and order of the markers -/

namespace ts_buffer

theorem slot_lt (s : ts_buffer) (ts : Int) (hN : 0 < s.buf_len) : s.slot ts < s.buf_len := by
  unfold slot
  exact Nat.mod_lt _ hN

/-- One call keeps the data markers inside the store and the time markers in order. -/
theorem step_bounded (s : ts_buffer) (op : Op) (hN : 0 < s.buf_len)
    (hinv : 0 ≤ s.data_start ∧ s.data_start < (s.buf_len : Int) ∧
      0 ≤ s.data_end ∧ s.data_end < (s.buf_len : Int) ∧ s.time_start ≤ s.time_end) :
    0 ≤ (step s op).data_start ∧ (step s op).data_start < ((step s op).buf_len : Int) ∧
    0 ≤ (step s op).data_end ∧ (step s op).data_end < ((step s op).buf_len : Int) ∧
    (step s op).time_start ≤ (step s op).time_end ∧
    (step s op).buf_len = s.buf_len := by
  have hm : ∀ a : Nat, (((a % s.buf_len : Nat)) : Int) < (s.buf_len : Int) ∧
      0 ≤ (((a % s.buf_len : Nat)) : Int) := fun a =>
    ⟨by exact_mod_cast Nat.mod_lt a hN, by exact_mod_cast Nat.zero_le _⟩
  have hsl : ∀ ts : Int, ((s.slot ts : Nat) : Int) < (s.buf_len : Int) ∧
      0 ≤ ((s.slot ts : Nat) : Int) := fun ts =>
    ⟨by exact_mod_cast slot_lt s ts hN, by exact_mod_cast Nat.zero_le _⟩
  obtain ⟨i1, i2, i3, i4, i5⟩ := hinv
  cases op with
  | write buf len ts =>
    simp only [step]
    by_cases hc : len ≥ s.buf_len ∨ ts < 0 ∨ ts + (len : Int) ≤ s.time_end
    · have e : s.write buf len ts = (-ERR_TIMESTAMP, s) := by unfold write; rw [if_pos hc]
      rw [e]; exact ⟨i1, i2, i3, i4, i5, rfl⟩
    · obtain ⟨hb, hte, hde, hts, hds, _⟩ := write_markers s buf len ts hc
      rw [hte, hde, hts, hds, hb]
      have h1 := hm (s.slot ts + len)
      have h2 := hsl ts
      have hlt : s.time_end < ts + (len : Int) := by omega
      refine ⟨?_, ?_, h1.2, h1.1, ?_, rfl⟩
      · split_ifs
        · exact h2.2
        · exact i1
      · split_ifs
        · exact h2.1
        · exact i2
      · split_ifs <;> omega
  | read buf len ts =>
    simp only [step]
    by_cases h1 : len ≥ s.buf_len ∨ ts + (len : Int) > s.time_end
    · have e : s.read buf len ts = (-ERR_TIMESTAMP, buf, s) := by unfold read; rw [if_pos h1]
      rw [e]; exact ⟨i1, i2, i3, i4, i5, rfl⟩
    · by_cases h2 : ts + (len : Int) < s.time_start
      · have e : s.read buf len ts = (ERR_TIMESTAMP, buf, s) := by
          unfold read; rw [if_neg h1, if_pos h2]
        rw [e]; exact ⟨i1, i2, i3, i4, i5, rfl⟩
      · obtain ⟨hb, hte, hde, hts, hds, _⟩ := read_markers s buf len ts h1 h2
        rw [hte, hde, hts, hds, hb]
        have h3 := hm (s.slot ts + len)
        exact ⟨h3.2, h3.1, i3, i4, by omega, rfl⟩
  | get_rd_buf ts len =>
    simp only [step]
    by_cases htag : s.tag = Ptr.null
    · by_cases h1 : len ≥ s.buf_len ∨ ts < 0 ∨ ts + (len : Int) > s.time_end
      · have e : s.get_rd_buf ts len = (Ptr.null, some ERR_TIMESTAMP, s) := by
          unfold get_rd_buf; rw [if_neg (by simp [htag]), if_pos h1]
        rw [e]; exact ⟨i1, i2, i3, i4, i5, rfl⟩
      · by_cases h2 : ts + (len : Int) < s.time_start
        · have e : s.get_rd_buf ts len = (Ptr.null, some ERR_TIMESTAMP, s) := by
            unfold get_rd_buf; rw [if_neg (by simp [htag]), if_neg h1, if_pos h2]
          rw [e]; exact ⟨i1, i2, i3, i4, i5, rfl⟩
        · obtain ⟨hb, hte, hde, hts, hds, _⟩ := get_rd_buf_markers s len ts htag h1 h2
          rw [hte, hde, hts, hds, hb]
          have h3 := hm (s.slot ts + len)
          exact ⟨h3.2, h3.1, i3, i4, by omega, rfl⟩
    · have e : s.get_rd_buf ts len = (Ptr.null, some ERR_MEM, s) := by
        unfold get_rd_buf; rw [if_pos htag]
      rw [e]; exact ⟨i1, i2, i3, i4, i5, rfl⟩
  | commit_rd p =>
    simp only [step]
    unfold commit_rd
    split_ifs <;> exact ⟨i1, i2, i3, i4, i5, rfl⟩
  | get_wr_buf ts len =>
    simp only [step]
    by_cases htag : s.tag = Ptr.null
    · by_cases hc : len ≥ s.buf_len ∨ ts < 0 ∨ ts + (len : Int) ≤ s.time_end
      · have e : s.get_wr_buf ts len = (Ptr.null, some ERR_TIMESTAMP, s) := by
          unfold get_wr_buf; rw [if_neg (by simp [htag]), if_pos hc]
        rw [e]; exact ⟨i1, i2, i3, i4, i5, rfl⟩
      · obtain ⟨hb, hte, hde, hts, hds⟩ := get_wr_buf_markers s len ts htag hc
        rw [hte, hde, hts, hds, hb]
        have h1 := hm (s.slot ts + len)
        have h2 := hsl ts
        have hlt : s.time_end < ts + (len : Int) := by omega
        refine ⟨?_, ?_, h1.2, h1.1, ?_, rfl⟩
        · split_ifs
          · exact h2.2
          · exact i1
        · split_ifs
          · exact h2.1
          · exact i2
        · split_ifs <;> omega
    · have e : s.get_wr_buf ts len = (Ptr.null, some ERR_MEM, s) := by
        unfold get_wr_buf; rw [if_pos htag]
      rw [e]; exact ⟨i1, i2, i3, i4, i5, rfl⟩
  | commit_wr p =>
    simp only [step]
    unfold commit_wr
    split_ifs <;> exact ⟨i1, i2, i3, i4, i5, rfl⟩
  | reset =>
    show (0 : Int) ≤ 0 ∧ (0 : Int) < (s.buf_len : Int) ∧ (0 : Int) ≤ 0 ∧
      (0 : Int) < (s.buf_len : Int) ∧ (0 : Int) ≤ 0 ∧ s.buf_len = s.buf_len
    exact ⟨le_refl _, by exact_mod_cast hN, le_refl _, by exact_mod_cast hN, le_refl _, rfl⟩

theorem run_bounded (ops : List Op) :
    ∀ s : ts_buffer, 0 < s.buf_len →
      (0 ≤ s.data_start ∧ s.data_start < (s.buf_len : Int) ∧
        0 ≤ s.data_end ∧ s.data_end < (s.buf_len : Int) ∧ s.time_start ≤ s.time_end) →
      0 ≤ (run s ops).data_start ∧ (run s ops).data_start < (s.buf_len : Int) ∧
      0 ≤ (run s ops).data_end ∧ (run s ops).data_end < (s.buf_len : Int) ∧
      (run s ops).time_start ≤ (run s ops).time_end := by
  induction ops with
  | nil => intro s _ h; exact h
  | cons op ops ih =>
    intro s hN h
    obtain ⟨a1, a2, a3, a4, a5, hb⟩ := step_bounded s op hN h
    have h2 := ih (step s op) (by rw [hb]; exact hN) ⟨a1, a2, a3, a4, a5⟩
    rw [hb] at h2
    exact h2

/-- C34: for a capacity `N` that is a power of two (and a `size_t` value), every state reached
from a newly constructed buffer by `write`, `read`, `get_rd_buf`, `commit_rd`,
`get_wr_buf`, `commit_wr` and `reset` calls, successful or not, has
`time_end - time_start` congruent to `data_end - data_start` modulo `N`, both data markers in
`[0, N)` and `time_start ≤ time_end`; requests before `time_start - data_start`, whose start
index is negative before the conversion to `size_t`, are included. -/
theorem markers_invariant_pow2 (N k : Nat) (hk : N = 2 ^ k) (hsz : N < 2 ^ 64)
    (mem : List Nat) (ops : List Op) :
    (run (fresh N mem) ops).time_end - (run (fresh N mem) ops).time_start
      ≡ (run (fresh N mem) ops).data_end - (run (fresh N mem) ops).data_start
        [ZMOD (N : Int)] ∧
    0 ≤ (run (fresh N mem) ops).data_start ∧ (run (fresh N mem) ops).data_start < (N : Int) ∧
    0 ≤ (run (fresh N mem) ops).data_end ∧ (run (fresh N mem) ops).data_end < (N : Int) ∧
    (run (fresh N mem) ops).time_start ≤ (run (fresh N mem) ops).time_end := by
  have hk64 : k ≤ 64 := by
    by_contra hc
    have h1 : 2 ^ 64 ≤ 2 ^ k := Nat.pow_le_pow_right (by decide) (by omega)
    omega
  have hd : N ∣ 2 ^ 64 := by
    rw [hk]
    exact Nat.pow_dvd_pow 2 hk64
  have hpos : 0 < N := by
    rw [hk]
    exact Nat.pos_pow_of_pos _ (by decide)
  obtain ⟨hb, hts, hte, hds, hde, _⟩ := fresh_markers N mem
  have h0 : markers_congruent (fresh N mem) := by
    unfold markers_congruent
    rw [hts, hte, hds, hde]
  obtain ⟨h2, h3⟩ := run_congruent ops (fresh N mem) h0 (Or.inl (by rw [hb]; exact hd))
  unfold markers_congruent at h2
  rw [h3, hb] at h2
  have h4 := run_bounded ops (fresh N mem) (by rw [hb]; exact hpos)
    (by rw [hts, hte, hds, hde, hb]; exact ⟨le_refl _, by exact_mod_cast hpos, le_refl _,
      by exact_mod_cast hpos, le_refl _⟩)
  rw [hb] at h4
  exact ⟨h2, h4⟩

/-- C34 on a buffer of capacity 16: after a first write of five samples at timestamp 20
(slot 4) a read of ten samples at timestamp 10 computes the start index 4 + (10 - 20) = -6,
converted to `size_t`; the markers stay congruent, in range and ordered. -/
theorem markers_invariant_pow2_witness :
    index_in_range ((fresh 16 (List.replicate 16 0)).write [1, 2, 3, 4, 5] 5 20).2 10 = false ∧
    ((((fresh 16 (List.replicate 16 0)).write [1, 2, 3, 4, 5] 5 20).2.read
      (List.replicate 10 0) 10 10).1 = 10) ∧
    ((run (fresh 16 (List.replicate 16 0))
        [Op.write [1, 2, 3, 4, 5] 5 20, Op.read (List.replicate 10 0) 10 10]).time_end
      - (run (fresh 16 (List.replicate 16 0))
        [Op.write [1, 2, 3, 4, 5] 5 20, Op.read (List.replicate 10 0) 10 10]).time_start
      ≡ (run (fresh 16 (List.replicate 16 0))
        [Op.write [1, 2, 3, 4, 5] 5 20, Op.read (List.replicate 10 0) 10 10]).data_end
        - (run (fresh 16 (List.replicate 16 0))
        [Op.write [1, 2, 3, 4, 5] 5 20, Op.read (List.replicate 10 0) 10 10]).data_start
        [ZMOD ((16 : Nat) : Int)]) :=
  ⟨by decide, by decide,
   (markers_invariant_pow2 16 4 (by decide) (by decide) (List.replicate 16 0)
    [Op.write [1, 2, 3, 4, 5] 5 20, Op.read (List.replicate 10 0) 10 10]).1⟩

end ts_buffer

/-! ## Synchronisation state machine: the data-channel states -/

theorem sync_checks_keep_state (K : lte_params) (rx : lte_rx) (d : detections) :
    (pss_sync K rx d).2.1.state = rx.state ∧ (pss_sync2 K rx d).2.1.state = rx.state ∧
    (sss_sync K rx d).2.1.state = rx.state ∧ (pbch_sync K rx d).2.1.state = rx.state := by
  refine ⟨?_, ?_, ?_, ?_⟩
  · unfold pss_sync
    simp only []
    split_ifs <;> rfl
  · unfold pss_sync2
    simp only []
    split_ifs <;> rfl
  · unfold sss_sync
    simp only []
    split_ifs <;> rfl
  · unfold pbch_sync
    simp only []
    split_ifs <;> rfl

/-- The state after `drive_common` is one of the five acquisition states whenever the state
before is. -/
theorem drive_common_acquiring (K : lte_params) (c : sync_ctx) (d : detections)
    (h1 : c.rx.state ≠ lte_state.LTE_STATE_PDSCH_SYNC)
    (h2 : c.rx.state ≠ lte_state.LTE_STATE_PDSCH) :
    (drive_common K c d).rx.state ≠ lte_state.LTE_STATE_PDSCH_SYNC ∧
    (drive_common K c d).rx.state ≠ lte_state.LTE_STATE_PDSCH := by
  obtain ⟨k1, k2, k3, k4⟩ := sync_checks_keep_state K c.rx d
  unfold drive_common
  cases hst : c.rx.state with
  | LTE_STATE_PDSCH_SYNC => exact absurd hst h1
  | LTE_STATE_PDSCH => exact absurd hst h2
  | _ =>
    simp only []
    try split_ifs
    all_goals first
      | exact ⟨h1, h2⟩
      | exact ⟨fun hh => (by cases hh), fun hh => (by cases hh)⟩
      | (dsimp only; rw [k1]; exact ⟨h1, h2⟩)
      | (dsimp only; rw [k3]; exact ⟨h1, h2⟩)

theorem pdsch_handoff_counters (c : sync_ctx) (adjust : Int)
    (h : c.pdsch_sss_miss_cnt = 0) : (pdsch_handoff c adjust).pdsch_sss_miss_cnt = 0 := by
  unfold pdsch_handoff
  split_ifs with h1
  · cases hq : c.pdsch_return_q with
    | nil => exact h
    | cons lbuf rest =>
      simp only []
      split_ifs
      · rfl
      · exact h
  · exact h

/-- Closed form of a `drive_pdsch` step in `PDSCH_SYNC` whose subframe counter reaches 5. -/
theorem drive_pdsch_sync_at5 (K : lte_params) (c : sync_ctx) (d : detections) (adjust : Int)
    (hs : c.rx.state = lte_state.LTE_STATE_PDSCH_SYNC)
    (h5 : (advance_time c.rx.time).subframe = 5) :
    drive_pdsch K c d adjust =
      (if c.pdsch_pss_miss_cnt +
          (if (pdsch_sync K { c.rx with time := advance_time c.rx.time } d).1 < 0 then 1 else 0)
            > 100 ∨ c.pdsch_sss_miss_cnt > 5 then
        { c with rx := { (pdsch_sync K { c.rx with time := advance_time c.rx.time } d).2 with
                         state := lte_state.LTE_STATE_PSS_SYNC },
                 pdsch_pss_miss_cnt := 0, pdsch_sss_miss_cnt := 0,
                 events := sync_event.offset_reset :: c.events }
      else
        pdsch_handoff
          { c with rx := (pdsch_sync K { c.rx with time := advance_time c.rx.time } d).2,
                   pdsch_pss_miss_cnt := c.pdsch_pss_miss_cnt +
                     (if (pdsch_sync K { c.rx with time := advance_time c.rx.time } d).1 < 0
                       then 1 else 0) } adjust) := by
  have e := drive_common_pdsch_id K
    { c with rx := { c.rx with time := advance_time c.rx.time } } d (Or.inl hs)
  obtain ⟨_, _, hne⟩ := pdsch_sync_result K { c.rx with time := advance_time c.rx.time } d
  unfold drive_pdsch
  simp only [e]
  generalize pdsch_sync K { c.rx with time := advance_time c.rx.time } d = r at hne ⊢
  simp only [hs, h5, if_true, if_neg hne]
  by_cases hlt : r.1 < 0
  · simp only [hlt, if_true]
  · simp only [hlt, if_false, add_zero]

/-- A state `PDSCH_SYNC` after `drive_common` was `PDSCH_SYNC` before, and `drive_common` did
nothing. -/
theorem drive_common_pdsch_sync_inv (K : lte_params) (c : sync_ctx) (d : detections)
    (h : (drive_common K c d).rx.state = lte_state.LTE_STATE_PDSCH_SYNC) :
    c.rx.state = lte_state.LTE_STATE_PDSCH_SYNC ∧ drive_common K c d = c := by
  by_cases h1 : c.rx.state = lte_state.LTE_STATE_PDSCH_SYNC
  · exact ⟨h1, drive_common_pdsch_id K c d (Or.inl h1)⟩
  · by_cases h2 : c.rx.state = lte_state.LTE_STATE_PDSCH
    · rw [drive_common_pdsch_id K c d (Or.inr h2), h2] at h
      cases h
    · exact absurd h (drive_common_acquiring K c d h1 h2).1

/-- What one `drive_pdsch` step does to the state, to the identity-mismatch counter and to
the work queue, in terms of the state `c1` that `drive_common` leaves. -/
theorem drive_pdsch_effects (K : lte_params) (c : sync_ctx) (d : detections) (adjust : Int) :
    ((drive_pdsch K c d adjust).rx.state
        = (drive_common K
            { c with rx := { c.rx with time := advance_time c.rx.time } } d).rx.state ∨
      (drive_pdsch K c d adjust).rx.state = lte_state.LTE_STATE_PSS_SYNC ∨
      ((drive_common K
            { c with rx := { c.rx with time := advance_time c.rx.time } } d).rx.state
          = lte_state.LTE_STATE_PBCH ∧
        (drive_pdsch K c d adjust).rx.state = lte_state.LTE_STATE_PDSCH_SYNC)) ∧
    ((drive_common K
        { c with rx := { c.rx with time := advance_time c.rx.time } } d).pdsch_sss_miss_cnt = 0 →
      (drive_pdsch K c d adjust).pdsch_sss_miss_cnt = 0) ∧
    ((drive_pdsch K c d adjust).pdsch_q ≠
        (drive_common K
          { c with rx := { c.rx with time := advance_time c.rx.time } } d).pdsch_q →
      ((drive_common K
          { c with rx := { c.rx with time := advance_time c.rx.time } } d).rx.state
            = lte_state.LTE_STATE_PDSCH_SYNC ∨
        (drive_common K
          { c with rx := { c.rx with time := advance_time c.rx.time } } d).rx.state
            = lte_state.LTE_STATE_PDSCH) ∧
      (drive_pdsch K c d adjust).rx.state =
        (drive_common K
          { c with rx := { c.rx with time := advance_time c.rx.time } } d).rx.state) ∧
    ((drive_common K
        { c with rx := { c.rx with time := advance_time c.rx.time } } d).rx.state
          = lte_state.LTE_STATE_PDSCH_SYNC →
      (drive_pdsch K c d adjust).rx.state = lte_state.LTE_STATE_PSS_SYNC →
      (drive_common K
        { c with rx := { c.rx with time := advance_time c.rx.time } } d).rx.time.subframe = 5 ∧
      ((drive_common K
          { c with rx := { c.rx with time := advance_time c.rx.time } } d).pdsch_pss_miss_cnt
        + (if (pdsch_sync K (drive_common K
            { c with rx := { c.rx with time := advance_time c.rx.time } } d).rx d).1 < 0
            then 1 else 0) > 100 ∨
        (drive_common K
          { c with rx := { c.rx with time := advance_time c.rx.time } } d).pdsch_sss_miss_cnt
            > 5)) := by
  by_cases hS : (drive_common K
      { c with rx := { c.rx with time := advance_time c.rx.time } } d).rx.state
        = lte_state.LTE_STATE_PDSCH_SYNC
  · obtain ⟨hc, e⟩ := drive_common_pdsch_sync_inv K _ d hS
    have hc2 : c.rx.state = lte_state.LTE_STATE_PDSCH_SYNC := hc
    obtain ⟨hps, _⟩ := pdsch_sync_state K { c.rx with time := advance_time c.rx.time } d
    have hps2 : (pdsch_sync K { c.rx with time := advance_time c.rx.time } d).2.state
        = lte_state.LTE_STATE_PDSCH_SYNC := by rw [hps]; exact hc2
    rw [e]
    by_cases h5 : (advance_time c.rx.time).subframe = 5
    · rw [drive_pdsch_sync_at5 K c d adjust hc2 h5]
      by_cases hcond : c.pdsch_pss_miss_cnt +
          (if (pdsch_sync K { c.rx with time := advance_time c.rx.time } d).1 < 0 then 1 else 0)
            > 100 ∨ c.pdsch_sss_miss_cnt > 5
      · rw [if_pos hcond]
        exact ⟨Or.inr (Or.inl rfl), fun _ => rfl, fun hq => absurd rfl hq,
          fun _ _ => ⟨h5, hcond⟩⟩
      · rw [if_neg hcond]
        refine ⟨Or.inl ?_, fun h => pdsch_handoff_counters _ adjust h, fun _ => ⟨Or.inl hc2, ?_⟩,
          fun _ h => ?_⟩
        · rw [(pdsch_handoff_keeps _ adjust).2.2]
          exact hps2.trans hc2.symm
        · rw [(pdsch_handoff_keeps _ adjust).2.2]
          exact hps2.trans hc2.symm
        · rw [(pdsch_handoff_keeps _ adjust).2.2] at h
          have h9 : lte_state.LTE_STATE_PDSCH_SYNC = lte_state.LTE_STATE_PSS_SYNC :=
            hps2.symm.trans h
          cases h9
    · rw [drive_pdsch_sync_off K c d adjust hc2 h5]
      refine ⟨Or.inl ?_, fun h => pdsch_handoff_counters _ adjust h, fun _ => ⟨Or.inl hc2, ?_⟩,
        fun _ h => ?_⟩
      · rw [(pdsch_handoff_keeps _ adjust).2.2]
      · rw [(pdsch_handoff_keeps _ adjust).2.2]
      · rw [(pdsch_handoff_keeps _ adjust).2.2] at h
        have h9 : lte_state.LTE_STATE_PDSCH_SYNC = lte_state.LTE_STATE_PSS_SYNC :=
          hc2.symm.trans h
        cases h9
  revert hS
  unfold drive_pdsch
  simp only []
  generalize drive_common K { c with rx := { c.rx with time := advance_time c.rx.time } } d = c1
  intro hS
  cases hst : c1.rx.state with
  | LTE_STATE_PBCH =>
    dsimp only
    split_ifs
    all_goals refine ⟨?_, ?_, ?_, ?_⟩
    all_goals first
      | (intro h; cases h)
      | (intro hq; exact absurd rfl hq)
      | (intro h; exact h)
      | (left; exact hst)
      | (left; rfl)
      | (right; left; rfl)
      | (right; right; exact ⟨rfl, rfl⟩)
  | LTE_STATE_PDSCH_SYNC => exact absurd hst hS
  | LTE_STATE_PDSCH =>
    dsimp only
    refine ⟨?_, ?_, ?_, ?_⟩
    · left
      rw [(pdsch_handoff_keeps _ adjust).2.2]
      exact hst
    · intro h
      exact pdsch_handoff_counters c1 adjust h
    · intro _
      refine ⟨Or.inr rfl, ?_⟩
      rw [(pdsch_handoff_keeps _ adjust).2.2]
      exact hst
    · intro h
      cases h
  | _ =>
    dsimp only
    refine ⟨?_, ?_, ?_, ?_⟩
    all_goals first
      | (intro h; cases h)
      | (intro hq; exact absurd rfl hq)
      | (intro h; exact h)
      | (left; exact hst)

theorem drive_common_not_pdsch (K : lte_params) (c : sync_ctx) (d : detections)
    (h : c.rx.state ≠ lte_state.LTE_STATE_PDSCH) :
    (drive_common K c d).rx.state ≠ lte_state.LTE_STATE_PDSCH := by
  by_cases h1 : c.rx.state = lte_state.LTE_STATE_PDSCH_SYNC
  · rw [drive_common_pdsch_id K c d (Or.inl h1)]
    exact h
  · exact (drive_common_acquiring K c d h1 h).2

/-- What one `drive_pbch` step does to the state and to the members used by `drive_pdsch`,
in terms of the state that `drive_common` leaves. -/
theorem drive_pbch_effects (K : lte_params) (c : sync_ctx) (d : detections) :
    ((drive_pbch K c d).2.rx.state
        = (drive_common K
            { c with rx := { c.rx with time := advance_time c.rx.time } } d).rx.state ∨
      (drive_pbch K c d).2.rx.state = lte_state.LTE_STATE_PSS_SYNC ∨
      (drive_pbch K c d).2.rx.state = lte_state.LTE_STATE_PBCH_SYNC) ∧
    (drive_pbch K c d).2.pdsch_sss_miss_cnt = c.pdsch_sss_miss_cnt ∧
    (drive_pbch K c d).2.pdsch_q = c.pdsch_q := by
  have aux : ((drive_pbch K c d).2.rx.state
        = (drive_common K
            { c with rx := { c.rx with time := advance_time c.rx.time } } d).rx.state ∨
      (drive_pbch K c d).2.rx.state = lte_state.LTE_STATE_PSS_SYNC ∨
      (drive_pbch K c d).2.rx.state = lte_state.LTE_STATE_PBCH_SYNC) ∧
      (drive_pbch K c d).2.pdsch_sss_miss_cnt = (drive_common K
        { c with rx := { c.rx with time := advance_time c.rx.time } } d).pdsch_sss_miss_cnt ∧
      (drive_pbch K c d).2.pdsch_q = (drive_common K
        { c with rx := { c.rx with time := advance_time c.rx.time } } d).pdsch_q := by
    unfold drive_pbch
    simp only []
    generalize drive_common K { c with rx := { c.rx with time := advance_time c.rx.time } } d
      = c1
    cases hst : c1.rx.state with
    | LTE_STATE_PBCH =>
      dsimp only
      split_ifs
      all_goals refine ⟨?_, rfl, rfl⟩
      all_goals first
        | (left; rfl)
        | (right; left; rfl)
        | (right; right; rfl)
    | _ =>
      dsimp only
      exact ⟨Or.inl hst, rfl, rfl⟩
  obtain ⟨a1, a2, a3⟩ := aux
  obtain ⟨_, _, k3, _, _, _, k7, _⟩ := drive_common_keeps K
    { c with rx := { c.rx with time := advance_time c.rx.time } } d
  exact ⟨a1, a2.trans k3, a3.trans k7⟩

theorem drive_step_not_pdsch (K : lte_params) (c : sync_ctx) (op : drive_op)
    (h : c.rx.state ≠ lte_state.LTE_STATE_PDSCH) :
    (drive_step K c op).rx.state ≠ lte_state.LTE_STATE_PDSCH := by
  cases op with
  | pbch d =>
    have hc := drive_common_not_pdsch K
      { c with rx := { c.rx with time := advance_time c.rx.time } } d h
    rcases (drive_pbch_effects K c d).1 with e | e | e
    · show (drive_pbch K c d).2.rx.state ≠ _
      rw [e]; exact hc
    · show (drive_pbch K c d).2.rx.state ≠ _
      rw [e]; decide
    · show (drive_pbch K c d).2.rx.state ≠ _
      rw [e]; decide
  | pdsch d adjust =>
    have hc := drive_common_not_pdsch K
      { c with rx := { c.rx with time := advance_time c.rx.time } } d h
    rcases (drive_pdsch_effects K c d adjust).1 with e | e | ⟨_, e⟩
    · show (drive_pdsch K c d adjust).rx.state ≠ _
      rw [e]; exact hc
    · show (drive_pdsch K c d adjust).rx.state ≠ _
      rw [e]; decide
    · show (drive_pdsch K c d adjust).rx.state ≠ _
      rw [e]; decide

theorem drive_step_sss_zero (K : lte_params) (c : sync_ctx) (op : drive_op)
    (h : c.pdsch_sss_miss_cnt = 0) : (drive_step K c op).pdsch_sss_miss_cnt = 0 := by
  cases op with
  | pbch d =>
    show (drive_pbch K c d).2.pdsch_sss_miss_cnt = 0
    rw [(drive_pbch_effects K c d).2.1]
    exact h
  | pdsch d adjust =>
    show (drive_pdsch K c d adjust).pdsch_sss_miss_cnt = 0
    apply (drive_pdsch_effects K c d adjust).2.1
    rw [(drive_common_keeps K _ d).2.2.1]
    exact h

theorem drive_run_invariants (K : lte_params) (ops : List drive_op) :
    ∀ c : sync_ctx,
      (c.rx.state ≠ lte_state.LTE_STATE_PDSCH →
        (drive_run K c ops).rx.state ≠ lte_state.LTE_STATE_PDSCH) ∧
      (c.pdsch_sss_miss_cnt = 0 → (drive_run K c ops).pdsch_sss_miss_cnt = 0) := by
  induction ops with
  | nil => intro c; exact ⟨fun h => h, fun h => h⟩
  | cons op ops ih =>
    intro c
    exact ⟨fun h => (ih (drive_step K c op)).1 (drive_step_not_pdsch K c op h),
      fun h => (ih (drive_step K c op)).2 (drive_step_sss_zero K c op h)⟩

theorem run_pbch_acquiring (K : lte_params) (ds : List detections) :
    ∀ c : sync_ctx, c.rx.state ≠ lte_state.LTE_STATE_PDSCH_SYNC →
      c.rx.state ≠ lte_state.LTE_STATE_PDSCH →
      (run_pbch K c ds).rx.state ≠ lte_state.LTE_STATE_PDSCH_SYNC ∧
      (run_pbch K c ds).rx.state ≠ lte_state.LTE_STATE_PDSCH := by
  induction ds with
  | nil => intro c h1 h2; exact ⟨h1, h2⟩
  | cons d ds ih =>
    intro c h1 h2
    have hc := drive_common_acquiring K
      { c with rx := { c.rx with time := advance_time c.rx.time } } d h1 h2
    have hs : (drive_pbch K c d).2.rx.state ≠ lte_state.LTE_STATE_PDSCH_SYNC ∧
        (drive_pbch K c d).2.rx.state ≠ lte_state.LTE_STATE_PDSCH := by
      rcases (drive_pbch_effects K c d).1 with e | e | e
      · rw [e]; exact hc
      · rw [e]; exact ⟨by decide, by decide⟩
      · rw [e]; exact ⟨by decide, by decide⟩
    exact ih (drive_pbch K c d).2 hs.1 hs.2

/-- C37: `pdsch_sync` returns `-SYNC_ERR_PSS_TIME`, `-SYNC_ERR_PSS_FREQ` or 1 and never
`-SYNC_ERR_SSS`.  Hence, from a start with the identity-mismatch counter of `drive_pdsch` at
0, after any sequence of `drive_pbch` and `drive_pdsch` steps the counter is 0, and a
`drive_pdsch` step from `PDSCH_SYNC` ends in `PSS_SYNC` only on subframe 5 with the
timing-miss counter, after the update of the step, above 100. -/
theorem pdsch_sss_counter_stays_zero (K : lte_params) (c0 : sync_ctx) (ops : List drive_op)
    (h0 : c0.pdsch_sss_miss_cnt = 0) :
    (∀ (rx : lte_rx) (d : detections),
      ((pdsch_sync K rx d).1 = -SYNC_ERR_PSS_TIME ∨
        (pdsch_sync K rx d).1 = -SYNC_ERR_PSS_FREQ ∨ (pdsch_sync K rx d).1 = 1) ∧
      (pdsch_sync K rx d).1 ≠ -SYNC_ERR_SSS) ∧
    (drive_run K c0 ops).pdsch_sss_miss_cnt = 0 ∧
    (∀ (d : detections) (adjust : Int),
      (drive_run K c0 ops).rx.state = lte_state.LTE_STATE_PDSCH_SYNC →
      (drive_pdsch K (drive_run K c0 ops) d adjust).rx.state = lte_state.LTE_STATE_PSS_SYNC →
      (advance_time (drive_run K c0 ops).rx.time).subframe = 5 ∧
      (drive_run K c0 ops).pdsch_pss_miss_cnt +
        (if (pdsch_sync K
            { (drive_run K c0 ops).rx with
              time := advance_time (drive_run K c0 ops).rx.time } d).1 < 0
          then 1 else 0) > 100) := by
  have hz := (drive_run_invariants K ops c0).2 h0
  refine ⟨fun rx d => ⟨(pdsch_sync_result K rx d).2.1, (pdsch_sync_result K rx d).2.2⟩, hz, ?_⟩
  intro d adjust hs hd
  generalize drive_run K c0 ops = c at hz hs hd ⊢
  have e := drive_common_pdsch_id K
    { c with rx := { c.rx with time := advance_time c.rx.time } } d (Or.inl hs)
  have h4 := (drive_pdsch_effects K c d adjust).2.2.2
  rw [e] at h4
  obtain ⟨h5, h6⟩ := h4 hs hd
  refine ⟨h5, ?_⟩
  rcases h6 with h6 | h6
  · exact h6
  · have h7 : c.pdsch_sss_miss_cnt > 5 := h6
    omega

set_option maxRecDepth 100000 in
/-- C37 from the start state of `sync_loop`, after the 40 tracking steps that lead to
`cTrack4`: the identity-mismatch counter is 0. -/
theorem pdsch_sss_counter_stays_zero_witness :
    (drive_run K0 (sync_start rx0 50 init_state (prime_queue 1))
      (((exPbchRun.take 35).map (fun (d : detections) => drive_op.pdsch d 0)) ++
        [drive_op.pdsch dgood 0, drive_op.pdsch dbad 0, drive_op.pdsch dbad 0,
         drive_op.pdsch dbad 0, drive_op.pdsch dbad 0])).pdsch_sss_miss_cnt = 0 :=
  (pdsch_sss_counter_stays_zero K0 (sync_start rx0 50 init_state (prime_queue 1))
    (((exPbchRun.take 35).map (fun (d : detections) => drive_op.pdsch d 0)) ++
      [drive_op.pdsch dgood 0, drive_op.pdsch dbad 0, drive_op.pdsch dbad 0,
       drive_op.pdsch dbad 0, drive_op.pdsch dbad 0]) rfl).2.1

/-- C38: from a start in `PSS_SYNC`, after any sequence of `drive_pbch` and `drive_pdsch`
steps the state is not `LTE_STATE_PDSCH`; a `drive_pdsch` step that hands a buffer to the
work queue starts and ends in `PDSCH_SYNC`; and after `drive_pbch` steps alone the state is
neither `PDSCH_SYNC` nor `PDSCH`. -/
theorem state_pdsch_never_set (K : lte_params) (c0 : sync_ctx) (ops : List drive_op)
    (h0 : c0.rx.state = lte_state.LTE_STATE_PSS_SYNC) :
    (drive_run K c0 ops).rx.state ≠ lte_state.LTE_STATE_PDSCH ∧
    (∀ (d : detections) (adjust : Int),
      (drive_pdsch K (drive_run K c0 ops) d adjust).pdsch_q ≠ (drive_run K c0 ops).pdsch_q →
      (drive_run K c0 ops).rx.state = lte_state.LTE_STATE_PDSCH_SYNC ∧
      (drive_pdsch K (drive_run K c0 ops) d adjust).rx.state
        = lte_state.LTE_STATE_PDSCH_SYNC) ∧
    (∀ ds : List detections,
      (run_pbch K c0 ds).rx.state ≠ lte_state.LTE_STATE_PDSCH_SYNC ∧
      (run_pbch K c0 ds).rx.state ≠ lte_state.LTE_STATE_PDSCH) := by
  have hn : c0.rx.state ≠ lte_state.LTE_STATE_PDSCH := by rw [h0]; decide
  have hn2 : c0.rx.state ≠ lte_state.LTE_STATE_PDSCH_SYNC := by rw [h0]; decide
  have hz := (drive_run_invariants K ops c0).1 hn
  refine ⟨hz, ?_, fun ds => run_pbch_acquiring K ds c0 hn2 hn⟩
  intro d adjust hq
  generalize drive_run K c0 ops = c at hz hq ⊢
  have k7 : (drive_common K
      { c with rx := { c.rx with time := advance_time c.rx.time } } d).pdsch_q = c.pdsch_q :=
    (drive_common_keeps K _ d).2.2.2.2.2.2.1
  have h3 := (drive_pdsch_effects K c d adjust).2.2.1
  rw [k7] at h3
  obtain ⟨h4, h5⟩ := h3 hq
  have hnp := drive_common_not_pdsch K
    { c with rx := { c.rx with time := advance_time c.rx.time } } d hz
  rcases h4 with h4 | h4
  · exact ⟨(drive_common_pdsch_sync_inv K _ d h4).1, h5.trans h4⟩
  · exact absurd h4 hnp

set_option maxRecDepth 100000 in
/-- C38 on the example run in tracking mode: the step from `cTrack4` (in `PDSCH_SYNC`) hands
a buffer to the work queue and leaves the state `PDSCH_SYNC`. -/
theorem state_pdsch_never_set_witness :
    (drive_run K0 (sync_start rx0 50 init_state (prime_queue 1))
      (((exPbchRun.take 35).map (fun (d : detections) => drive_op.pdsch d 0)) ++
        [drive_op.pdsch dgood 0, drive_op.pdsch dbad 0, drive_op.pdsch dbad 0,
         drive_op.pdsch dbad 0, drive_op.pdsch dbad 0])).rx.state
      ≠ lte_state.LTE_STATE_PDSCH ∧
    (drive_run K0 (sync_start rx0 50 init_state (prime_queue 1))
      (((exPbchRun.take 35).map (fun (d : detections) => drive_op.pdsch d 0)) ++
        [drive_op.pdsch dgood 0, drive_op.pdsch dbad 0, drive_op.pdsch dbad 0,
         drive_op.pdsch dbad 0, drive_op.pdsch dbad 0])).rx.state
      = lte_state.LTE_STATE_PDSCH_SYNC :=
  ⟨(state_pdsch_never_set K0 (sync_start rx0 50 init_state (prime_queue 1))
    (((exPbchRun.take 35).map (fun (d : detections) => drive_op.pdsch d 0)) ++
      [drive_op.pdsch dgood 0, drive_op.pdsch dbad 0, drive_op.pdsch dbad 0,
       drive_op.pdsch dbad 0, drive_op.pdsch dbad 0]) rfl).1,
   by decide⟩

/-! ## Subframe views: properties -/

namespace Resampler

variable {α H β : Type}

/-- Closed form of an `update` on a block whose length is a multiple of `Q` and at least the
history length. -/
theorem update_ok [Inhabited α] (r : Resampler α H) (inp : cxvec α)
    (hQ : inp.data.length % r.mQ = 0) (hl : r.history.length ≤ inp.data.length) :
    update r inp =
      (0, { r with history := inp.data.drop (inp.data.length - r.history.length) }) := by
  have hcn : check_vec_len (cxvec_len inp) none r.mP r.mQ = true :=
    (check_vec_len_none _ _ _).mpr hQ
  unfold update
  simp only [hcn, Bool.not_true, Bool.false_eq_true, if_false]
  rw [update_history inp r.history.length hl]

/-- What `rotate(in, out)` does to the input vector and to the resampler, whether the length
check passes or not: the data of the input vector are unchanged, its headroom keeps its
length, and the history keeps its length; if the check passes the history becomes the tail
of the block. -/
theorem rotate_all_history [Inhabited α] (conv : (Int → α) → H → β) (r : Resampler α H)
    (inp : cxvec α) (out : List β)
    (hh : r.history.length ≤ inp.head.length) (hl : r.history.length ≤ inp.data.length) :
    (rotate_all conv r inp out).2.1.data = inp.data ∧
    (rotate_all conv r inp out).2.1.head.length = inp.head.length ∧
    (rotate_all conv r inp out).2.2.1.length = out.length ∧
    (rotate_all conv r inp out).2.2.2.mP = r.mP ∧
    (rotate_all conv r inp out).2.2.2.mQ = r.mQ ∧
    (rotate_all conv r inp out).2.2.2.history.length = r.history.length ∧
    (check_vec_len (cxvec_len inp) (some out.length) r.mP r.mQ = true →
      (rotate_all conv r inp out).2.2.2.history
        = inp.data.drop (inp.data.length - r.history.length)) := by
  have hdrop : (r.history ++ inp.data).drop inp.data.length
      = inp.data.drop (inp.data.length - r.history.length) := by
    rw [List.drop_append_eq_append_drop,
      List.drop_eq_nil_of_le (by omega : r.history.length ≤ inp.data.length), List.nil_append]
  by_cases hc : check_vec_len (cxvec_len inp) (some out.length) r.mP r.mQ = true
  · unfold rotate_all
    rw [rotate_ok conv r inp out out.length hc hh, hdrop]
    refine ⟨rfl, ?_, ?_, rfl, rfl, ?_, fun _ => rfl⟩
    · simp [cxvec.insert_history]
      omega
    · simp
    · simp
      omega
  · have hf : check_vec_len (cxvec_len inp) (some out.length) r.mP r.mQ = false := by
      simpa using hc
    unfold rotate_all
    rw [rotate_fail conv r inp out out.length hf]
    exact ⟨rfl, rfl, rfl, rfl, rfl, rfl, fun h => absurd h hc⟩

end Resampler

namespace io_channel

variable {α H : Type}

theorem convert_data (cvt : Int × Int → α) (c : io_channel α H) (start len : Nat) :
    (c.convert cvt start len).base.data.length = c.base.data.length ∧
    (∀ (j : Nat) (h1 : j < (c.convert cvt start len).base.data.length)
        (h2 : j < c.base.data.length),
      (c.convert cvt start len).base.data[j] =
        if start ≤ j ∧ j < start + len then cvt (read_at c.raw (j : Int))
        else c.base.data[j]) := by
  unfold convert
  refine ⟨by simp, fun j h1 h2 => ?_⟩
  simp

theorem read_at_natCast (l : List (Int × Int)) (j : Nat) (h : j < l.length) :
    read_at l (j : Int) = l[j] := by
  rw [read_at_nonneg _ _ (by omega), Int.toNat_natCast, List.getD_eq_getElem _ _ h]

/-- After `convert(0, len)` the float vector is the converted raw buffer. -/
theorem convert_whole (cvt : Int × Int → α) (c : io_channel α H) (len : Nat)
    (hb : c.base.data.length = len) (hr : c.raw.length = len) :
    (c.convert cvt 0 len).base.data = c.raw.map cvt := by
  obtain ⟨h1, h2⟩ := convert_data cvt c 0 len
  apply List.ext_getElem
  · rw [h1, hb, List.length_map, hr]
  · intro j g1 g2
    rw [h2 j g1 (by omega), if_pos (by omega), List.getElem_map,
      read_at_natCast _ _ (by omega)]

/-- After `convert(len - taps, taps)` the last `taps` samples of the float vector are the
converted last `taps` raw samples. -/
theorem convert_tail (cvt : Int × Int → α) (c : io_channel α H) (len taps : Nat)
    (hb : c.base.data.length = len) (hr : c.raw.length = len) (ht : taps ≤ len) :
    (c.convert cvt (len - taps) taps).base.data.drop (len - taps)
      = (c.raw.drop (len - taps)).map cvt := by
  obtain ⟨h1, h2⟩ := convert_data cvt c (len - taps) taps
  apply List.ext_getElem
  · simp only [List.length_drop, List.length_map]
    rw [h1, hb, hr]
  · intro j g1 g2
    simp only [List.length_drop] at g1
    rw [List.getElem_drop, h2 _ (by omega) (by omega), if_pos (by omega), List.getElem_map,
      List.getElem_drop, read_at_natCast _ _ (by omega)]

end io_channel

namespace io_channel

variable {α H : Type}

theorem channel_lengths_iff (len taps hlen : Nat) (c : io_channel α H) :
    c.lengths_ok len taps hlen = true ↔
      (c.base.data.length = len ∧ taps ≤ c.base.head.length ∧ c.history.length = hlen ∧
        c.pss_resampler.history.length = taps ∧ c.pbch_resampler.history.length = taps ∧
        Resampler.check_vec_len len (some c.pss.length) c.pss_resampler.mP c.pss_resampler.mQ
          = true ∧
        len % c.pbch_resampler.mQ = 0) := by
  unfold lengths_ok
  exact decide_eq_true_iff

/-- `convert(0, len)` on one channel establishes the relation with `convert_on`. -/
theorem cycle_inv_convert (cvt : Int × Int → α) (len taps hlen : Nat) (con pon : Bool)
    (c0 c : io_channel α H) (h : cycle_inv cvt len taps hlen con pon c0 c) :
    cycle_inv cvt len taps hlen true pon c0 (c.convert cvt 0 len) := by
  obtain ⟨h1, h2, h3, h4, h5⟩ := h
  obtain ⟨l1, l2, l3, l4, l5, l6, l7⟩ := (channel_lengths_iff _ _ _ _).mp h3
  have hd := convert_whole cvt c len l1 (by rw [h1]; exact h2)
  refine ⟨h1, h2, ?_, fun _ => by rw [hd, h1], h5⟩
  rw [channel_lengths_iff]
  exact ⟨by rw [hd, List.length_map, h1]; exact h2, l2, l3, l4, l5, l6, l7⟩

/-- The sync-view rotation of `preprocess_pss` on a converted channel establishes the
relation with `pss_on`. -/
theorem cycle_inv_rotate_pss [Inhabited α] (conv : (Int → α) → H → α) (cvt : Int × Int → α)
    (len taps hlen : Nat) (pon : Bool) (c0 c : io_channel α H) (ht : taps ≤ len)
    (h : cycle_inv cvt len taps hlen true pon c0 c) :
    cycle_inv cvt len taps hlen true true c0 (c.rotate_pss conv) := by
  obtain ⟨h1, h2, h3, h4, _⟩ := h
  obtain ⟨l1, l2, l3, l4, l5, l6, l7⟩ := (channel_lengths_iff _ _ _ _).mp h3
  obtain ⟨r1, r2, r3, r4, r5, r6, r7⟩ := Resampler.rotate_all_history conv c.pss_resampler
    c.base c.pss (by omega) (by omega)
  have hck : Resampler.check_vec_len (cxvec_len c.base) (some c.pss.length)
      c.pss_resampler.mP c.pss_resampler.mQ = true := by
    unfold cxvec_len
    rw [l1]
    exact l6
  have hd := h4 rfl
  refine ⟨h1, h2, ?_, fun _ => ?_, fun _ => ?_⟩
  · rw [channel_lengths_iff]
    refine ⟨?_, ?_, l3, ?_, l5, ?_, l7⟩
    · show (Resampler.rotate_all conv c.pss_resampler c.base c.pss).2.1.data.length = len
      rw [r1]; exact l1
    · show taps ≤ (Resampler.rotate_all conv c.pss_resampler c.base c.pss).2.1.head.length
      rw [r2]; exact l2
    · show (Resampler.rotate_all conv c.pss_resampler c.base c.pss).2.2.2.history.length = taps
      rw [r6]; exact l4
    · show Resampler.check_vec_len len
        (some (Resampler.rotate_all conv c.pss_resampler c.base c.pss).2.2.1.length)
        (Resampler.rotate_all conv c.pss_resampler c.base c.pss).2.2.2.mP
        (Resampler.rotate_all conv c.pss_resampler c.base c.pss).2.2.2.mQ = true
      rw [r3, r4, r5]; exact l6
  · show (Resampler.rotate_all conv c.pss_resampler c.base c.pss).2.1.data = _
    rw [r1]; exact hd
  · show (Resampler.rotate_all conv c.pss_resampler c.base c.pss).2.2.2.history = _
    rw [r7 hck, l4, l1, hd, List.map_drop]

/-- The broadcast-view rotation of `preprocess_pbch` keeps the relation, whether its length
check passes or not. -/
theorem cycle_inv_rotate_pbch [Inhabited α] (conv : (Int → α) → H → α) (cvt : Int × Int → α)
    (len taps hlen : Nat) (con pon : Bool) (vec : List α) (c0 c : io_channel α H)
    (ht : taps ≤ len) (h : cycle_inv cvt len taps hlen con pon c0 c) :
    cycle_inv cvt len taps hlen con pon c0 (c.rotate_pbch conv vec) := by
  obtain ⟨h1, h2, h3, h4, h5⟩ := h
  obtain ⟨l1, l2, l3, l4, l5, l6, l7⟩ := (channel_lengths_iff _ _ _ _).mp h3
  obtain ⟨r1, r2, _, _, r5, r6, _⟩ := Resampler.rotate_all_history conv c.pbch_resampler
    c.base vec (by omega) (by omega)
  refine ⟨h1, h2, ?_, fun hc => ?_, h5⟩
  · rw [channel_lengths_iff]
    refine ⟨?_, ?_, l3, l4, ?_, l6, ?_⟩
    · show (Resampler.rotate_all conv c.pbch_resampler c.base vec).2.1.data.length = len
      rw [r1]; exact l1
    · show taps ≤ (Resampler.rotate_all conv c.pbch_resampler c.base vec).2.1.head.length
      rw [r2]; exact l2
    · show (Resampler.rotate_all conv c.pbch_resampler c.base vec).2.2.2.history.length = taps
      rw [r6]; exact l5
    · show len % (Resampler.rotate_all conv c.pbch_resampler c.base vec).2.2.2.mQ = 0
      rw [r5]; exact l7
  · show (Resampler.rotate_all conv c.pbch_resampler c.base vec).2.1.data = _
    rw [r1]; exact h4 hc

end io_channel

theorem forall₂_modify {A B : Type} (R : A → B → Prop) (g : B → B)
    (hg : ∀ a b, R a b → R a (g b)) :
    ∀ (l0 : List A) (l : List B) (n : Nat), List.Forall₂ R l0 l →
      List.Forall₂ R l0 (List.modify g n l) := by
  intro l0 l n h
  induction h generalizing n with
  | nil => cases n <;> exact List.Forall₂.nil
  | cons hab _ ih =>
    cases n with
    | zero => exact List.Forall₂.cons (hg _ _ hab) (by assumption)
    | succ m => exact List.Forall₂.cons hab (ih m)

theorem forall₂_map_right {A B : Type} (R S : A → B → Prop) (g : B → B)
    (hg : ∀ a b, R a b → S a (g b)) (l0 : List A) (l : List B)
    (h : List.Forall₂ R l0 l) : List.Forall₂ S l0 (l.map g) := by
  rw [List.forall₂_map_right_iff]
  exact h.imp hg

theorem forall₂_map_eq {A B C : Type} (e : A → C) (p : B → C) (l0 : List A) (l : List B)
    (h : List.Forall₂ (fun a b => p b = e a) l0 l) : l.map p = l0.map e := by
  induction h with
  | nil => rfl
  | cons hab _ ih => simp [hab, ih]

theorem copy_samples_tail (h raw : List (Int × Int)) (len hlen : Nat)
    (hh : h.length = hlen) (hr : raw.length = len) (hl : hlen ≤ len) :
    copy_samples h 0 (fun (j : Int) => read_at raw ((len : Int) - (hlen : Int) + j))
      (hlen : Int) = raw.drop (len - hlen) := by
  apply List.ext_getElem
  · rw [copy_samples_length, List.length_drop, hh, hr]
    omega
  · intro j g1 g2
    rw [copy_samples_length] at g1
    have e := copy_samples_getD h 0
      (fun (j : Int) => read_at raw ((len : Int) - (hlen : Int) + j)) (hlen : Int) j g1
    rw [if_pos (by omega), List.getD_eq_getElem _ _ (by rw [copy_samples_length]; exact g1)] at e
    rw [e, List.getElem_drop]
    have e2 : (len : Int) - (hlen : Int) + ((j : Int) - 0) = ((len - hlen + j : Nat) : Int) := by
      omega
    simp only [e2]
    exact io_channel.read_at_natCast raw _ (by omega)

namespace io_channel

variable {α H : Type}

/-- The loops of `update` on one channel of a cycle: afterwards both resampler histories are
the converted last `taps` raw samples and the look-back array holds the last `hlen` raw
samples, whatever the flags were. -/
theorem cycle_inv_update [Inhabited α] (cvt : Int × Int → α) (len taps hlen : Nat)
    (con pon : Bool) (c0 c : io_channel α H) (ht : taps ≤ len) (hl : hlen ≤ len)
    (hpc : pon = true → con = true) (h : cycle_inv cvt len taps hlen con pon c0 c) :
    (update_rest len hlen
      ((if pon then fun (x : io_channel α H) => x else update_pss)
        ((if con then fun (x : io_channel α H) => x
          else fun (x : io_channel α H) => x.convert cvt (len - taps) taps) c))).raw = c0.raw ∧
    (update_rest len hlen
      ((if pon then fun (x : io_channel α H) => x else update_pss)
        ((if con then fun (x : io_channel α H) => x
          else fun (x : io_channel α H) => x.convert cvt (len - taps) taps)
            c))).pss_resampler.history = (c0.raw.drop (len - taps)).map cvt ∧
    (update_rest len hlen
      ((if pon then fun (x : io_channel α H) => x else update_pss)
        ((if con then fun (x : io_channel α H) => x
          else fun (x : io_channel α H) => x.convert cvt (len - taps) taps)
            c))).pbch_resampler.history = (c0.raw.drop (len - taps)).map cvt ∧
    (update_rest len hlen
      ((if pon then fun (x : io_channel α H) => x else update_pss)
        ((if con then fun (x : io_channel α H) => x
          else fun (x : io_channel α H) => x.convert cvt (len - taps) taps)
            c))).history = c0.raw.drop (len - hlen) ∧
    (update_rest len hlen
      ((if pon then fun (x : io_channel α H) => x else update_pss)
        ((if con then fun (x : io_channel α H) => x
          else fun (x : io_channel α H) => x.convert cvt (len - taps) taps)
            c))).lengths_ok len taps hlen = true := by
  obtain ⟨h1, h2, h3, h4, h5⟩ := h
  obtain ⟨l1, l2, l3, l4, l5, l6, l7⟩ := (channel_lengths_iff _ _ _ _).mp h3
  have hq : len % c.pss_resampler.mQ = 0 :=
    ((Resampler.check_vec_len_some _ _ _ _).mp l6).1
  -- the channel after the conversion step
  obtain ⟨c1, hc1, e1, e2, e3, e4, e5, e6, e7⟩ :
      ∃ c1 : io_channel α H,
        c1 = (if con then fun (x : io_channel α H) => x
          else fun (x : io_channel α H) => x.convert cvt (len - taps) taps) c ∧
        c1.raw = c.raw ∧ c1.history = c.history ∧ c1.pss = c.pss ∧
        c1.pss_resampler = c.pss_resampler ∧ c1.pbch_resampler = c.pbch_resampler ∧
        (c1.base.data.length = len ∧ c1.base.head = c.base.head) ∧
        c1.base.data.drop (len - taps) = (c0.raw.drop (len - taps)).map cvt := by
    refine ⟨_, rfl, ?_⟩
    cases con with
    | true =>
      rw [if_pos rfl]
      refine ⟨rfl, rfl, rfl, rfl, rfl, ⟨l1, rfl⟩, ?_⟩
      rw [h4 rfl, List.map_drop]
    | false =>
      rw [if_neg Bool.false_ne_true]
      refine ⟨rfl, rfl, rfl, rfl, rfl, ⟨?_, rfl⟩, ?_⟩
      · rw [(convert_data cvt c (len - taps) taps).1]; exact l1
      · rw [convert_tail cvt c len taps l1 (by rw [h1]; exact h2) ht, h1]
  rw [← hc1]
  -- the channel after the sync-view update
  obtain ⟨c2, hc2, d1, d2, d3, d4, d5, d6, d7, d8⟩ :
      ∃ c2 : io_channel α H,
        c2 = (if pon then fun (x : io_channel α H) => x else update_pss) c1 ∧
        c2.raw = c1.raw ∧ c2.history = c1.history ∧ c2.pss = c1.pss ∧
        c2.base = c1.base ∧ c2.pbch_resampler = c1.pbch_resampler ∧
        c2.pss_resampler.mP = c1.pss_resampler.mP ∧
        c2.pss_resampler.mQ = c1.pss_resampler.mQ ∧
        c2.pss_resampler.history = (c0.raw.drop (len - taps)).map cvt := by
    refine ⟨_, rfl, ?_⟩
    cases pon with
    | true =>
      rw [if_pos rfl]
      refine ⟨rfl, rfl, rfl, rfl, rfl, rfl, rfl, ?_⟩
      rw [e4]; exact h5 rfl
    | false =>
      rw [if_neg Bool.false_ne_true]
      have hu := Resampler.update_ok c1.pss_resampler c1.base
        (by rw [e6.1, e4]; exact hq) (by rw [e6.1, e4, l4]; exact ht)
      unfold update_pss
      rw [hu]
      refine ⟨rfl, rfl, rfl, rfl, rfl, rfl, rfl, ?_⟩
      show c1.base.data.drop (c1.base.data.length - c1.pss_resampler.history.length) = _
      rw [e6.1, e4, l4]; exact e7
  rw [← hc2]
  have hu := Resampler.update_ok c2.pbch_resampler c2.base
    (by rw [d4, e6.1, d5, e5]; exact l7) (by rw [d4, e6.1, d5, e5, l5]; exact ht)
  unfold update_rest
  rw [hu]
  refine ⟨?_, d8, ?_, ?_, ?_⟩
  · show c2.raw = c0.raw
    rw [d1, e1]; exact h1
  · show c2.base.data.drop (c2.base.data.length - c2.pbch_resampler.history.length) = _
    rw [d4, e6.1, d5, e5, l5]; exact e7
  · show copy_samples c2.history 0
      (fun (j : Int) => read_at c2.raw ((len : Int) - (hlen : Int) + j)) (hlen : Int)
        = c0.raw.drop (len - hlen)
    rw [d2, e2, d1, e1, h1]
    exact copy_samples_tail c.history c0.raw len hlen l3 h2 hl
  · rw [channel_lengths_iff]
    refine ⟨?_, ?_, ?_, ?_, ?_, ?_, ?_⟩
    · show c2.base.data.length = len
      rw [d4]; exact e6.1
    · show taps ≤ c2.base.head.length
      rw [d4, e6.2]; exact l2
    · show (copy_samples c2.history 0
        (fun (j : Int) => read_at c2.raw ((len : Int) - (hlen : Int) + j)) (hlen : Int)).length
          = hlen
      rw [copy_samples_length, d2, e2]; exact l3
    · show c2.pss_resampler.history.length = taps
      rw [d8, List.length_map, List.length_drop, h2]; omega
    · show (c2.base.data.drop (c2.base.data.length - c2.pbch_resampler.history.length)).length
        = taps
      rw [List.length_drop, d4, e6.1, d5, e5, l5]; omega
    · show Resampler.check_vec_len len (some c2.pss.length) c2.pss_resampler.mP
        c2.pss_resampler.mQ = true
      rw [d3, e3, d6, d7, e4]; exact l6
    · show len % c2.pbch_resampler.mQ = 0
      rw [d5, e5]; exact l7

end io_channel

namespace io_subframe_full

variable {α H : Type}

/-- The loops of `update` channel by channel. -/
theorem update_chan [Inhabited α] (cvt : Int × Int → α) (f : io_subframe_full α H) :
    (update cvt f).1 = true ∧
    (update cvt f).2.len = f.len ∧ (update cvt f).2.taps = f.taps ∧
    (update cvt f).2.hlen = f.hlen ∧ (update cvt f).2.convert_on = f.convert_on ∧
    (update cvt f).2.pss_on = f.pss_on ∧
    (update cvt f).2.chan = f.chan.map (fun c =>
      io_channel.update_rest f.len f.hlen
        ((if f.pss_on then fun (x : io_channel α H) => x else io_channel.update_pss)
          ((if f.convert_on then fun (x : io_channel α H) => x
            else fun (x : io_channel α H) => x.convert cvt (f.len - f.taps) f.taps) c))) := by
  unfold update convert
  cases hc : f.convert_on <;> cases hp : f.pss_on <;>
    simp [hc, hp, List.map_map, Function.comp_def]

/-- The conversion that both view methods force first. -/
theorem force_convert_inv (cvt : Int × Int → α) (f0 f : io_subframe_full α H)
    (hlen : f.len = f0.len)
    (hF : List.Forall₂
      (io_channel.cycle_inv cvt f0.len f0.taps f0.hlen f.convert_on f.pss_on) f0.chan f.chan) :
    (if !f.convert_on then (convert_all cvt f).2 else f).len = f.len ∧
    (if !f.convert_on then (convert_all cvt f).2 else f).taps = f.taps ∧
    (if !f.convert_on then (convert_all cvt f).2 else f).hlen = f.hlen ∧
    (if !f.convert_on then (convert_all cvt f).2 else f).pss_on = f.pss_on ∧
    (if !f.convert_on then (convert_all cvt f).2 else f).convert_on = true ∧
    List.Forall₂ (io_channel.cycle_inv cvt f0.len f0.taps f0.hlen true f.pss_on) f0.chan
      (if !f.convert_on then (convert_all cvt f).2 else f).chan := by
  cases hc : f.convert_on with
  | true =>
    rw [hc] at hF
    have e : (if (!true) = true then (convert_all cvt f).2 else f) = f := by simp
    rw [e]
    exact ⟨rfl, rfl, rfl, rfl, hc, hF⟩
  | false =>
    have e : (if (!false) = true then (convert_all cvt f).2 else f)
        = { convert cvt f 0 f.len with convert_on := true } := by
      unfold convert_all
      simp [hc]
    rw [e]
    refine ⟨rfl, rfl, rfl, rfl, rfl, ?_⟩
    show List.Forall₂ _ f0.chan (f.chan.map (fun c => c.convert cvt 0 f.len))
    rw [hlen]
    exact forall₂_map_right _ _ _
      (fun a b hab => io_channel.cycle_inv_convert cvt f0.len f0.taps f0.hlen _ _ a b hab)
      _ _ hF

/-- One view call keeps the relation between the channels at the start of the cycle and the
channels now. -/
theorem view_step_inv [Inhabited α] (conv : (Int → α) → H → α) (cvt : Int × Int → α)
    (f0 f : io_subframe_full α H) (op : view_op α) (ht : f0.taps ≤ f0.len)
    (hlen : f.len = f0.len)
    (hpc : f.pss_on = true → f.convert_on = true)
    (hF : List.Forall₂
      (io_channel.cycle_inv cvt f0.len f0.taps f0.hlen f.convert_on f.pss_on) f0.chan f.chan) :
    (view_step conv cvt f op).len = f.len ∧ (view_step conv cvt f op).taps = f.taps ∧
    (view_step conv cvt f op).hlen = f.hlen ∧
    ((view_step conv cvt f op).pss_on = true → (view_step conv cvt f op).convert_on = true) ∧
    List.Forall₂
      (io_channel.cycle_inv cvt f0.len f0.taps f0.hlen (view_step conv cvt f op).convert_on
        (view_step conv cvt f op).pss_on) f0.chan (view_step conv cvt f op).chan := by
  obtain ⟨a1, a2, a3, a4, a5, a6⟩ := force_convert_inv cvt f0 f hlen hF
  cases op with
  | pss =>
    show (preprocess_pss conv cvt f).2.len = f.len ∧ (preprocess_pss conv cvt f).2.taps = f.taps ∧
      (preprocess_pss conv cvt f).2.hlen = f.hlen ∧
      ((preprocess_pss conv cvt f).2.pss_on = true →
        (preprocess_pss conv cvt f).2.convert_on = true) ∧
      List.Forall₂
        (io_channel.cycle_inv cvt f0.len f0.taps f0.hlen (preprocess_pss conv cvt f).2.convert_on
          (preprocess_pss conv cvt f).2.pss_on) f0.chan (preprocess_pss conv cvt f).2.chan
    unfold preprocess_pss
    cases hp : f.pss_on with
    | true =>
      rw [hp] at hF hpc
      rw [if_pos rfl]
      exact ⟨rfl, rfl, rfl, fun _ => hpc rfl, by rw [hp]; exact hF⟩
    | false =>
      rw [hp] at a6
      rw [if_neg Bool.false_ne_true]
      refine ⟨a1, a2, a3, fun _ => a5, ?_⟩
      show List.Forall₂ (io_channel.cycle_inv cvt f0.len f0.taps f0.hlen
        (if !f.convert_on then (convert_all cvt f).2 else f).convert_on true) f0.chan
        ((if !f.convert_on then (convert_all cvt f).2 else f).chan.map
          (fun c => c.rotate_pss conv))
      rw [a5]
      exact forall₂_map_right _ _ _
        (fun a b hab =>
          io_channel.cycle_inv_rotate_pss conv cvt f0.len f0.taps f0.hlen false a b ht hab)
        _ _ a6
  | pbch chan vec =>
    show (preprocess_pbch conv cvt f chan vec).2.2.len = f.len ∧
      (preprocess_pbch conv cvt f chan vec).2.2.taps = f.taps ∧
      (preprocess_pbch conv cvt f chan vec).2.2.hlen = f.hlen ∧
      ((preprocess_pbch conv cvt f chan vec).2.2.pss_on = true →
        (preprocess_pbch conv cvt f chan vec).2.2.convert_on = true) ∧
      List.Forall₂
        (io_channel.cycle_inv cvt f0.len f0.taps f0.hlen
          (preprocess_pbch conv cvt f chan vec).2.2.convert_on
          (preprocess_pbch conv cvt f chan vec).2.2.pss_on) f0.chan
        (preprocess_pbch conv cvt f chan vec).2.2.chan
    unfold preprocess_pbch
    simp only []
    refine ⟨a1, a2, a3, fun _ => a5, ?_⟩
    show List.Forall₂ (io_channel.cycle_inv cvt f0.len f0.taps f0.hlen
        (if !f.convert_on then (convert_all cvt f).2 else f).convert_on
        (if !f.convert_on then (convert_all cvt f).2 else f).pss_on) f0.chan
      (List.modify (fun c => c.rotate_pbch conv vec) chan
        (if !f.convert_on then (convert_all cvt f).2 else f).chan)
    rw [a5, a4]
    exact forall₂_modify _ _
      (fun a b hab =>
        io_channel.cycle_inv_rotate_pbch conv cvt f0.len f0.taps f0.hlen true f.pss_on vec a b
          ht hab)
      _ _ chan a6

/-- Any sequence of view calls keeps the relation. -/
theorem view_run_inv [Inhabited α] (conv : (Int → α) → H → α) (cvt : Int × Int → α)
    (f0 : io_subframe_full α H) (ht : f0.taps ≤ f0.len) (ops : List (view_op α)) :
    ∀ f : io_subframe_full α H,
      f.len = f0.len → f.taps = f0.taps → f.hlen = f0.hlen →
      (f.pss_on = true → f.convert_on = true) →
      List.Forall₂
        (io_channel.cycle_inv cvt f0.len f0.taps f0.hlen f.convert_on f.pss_on)
        f0.chan f.chan →
      (ops.foldl (view_step conv cvt) f).len = f0.len ∧
      (ops.foldl (view_step conv cvt) f).taps = f0.taps ∧
      (ops.foldl (view_step conv cvt) f).hlen = f0.hlen ∧
      ((ops.foldl (view_step conv cvt) f).pss_on = true →
        (ops.foldl (view_step conv cvt) f).convert_on = true) ∧
      List.Forall₂
        (io_channel.cycle_inv cvt f0.len f0.taps f0.hlen
          (ops.foldl (view_step conv cvt) f).convert_on
          (ops.foldl (view_step conv cvt) f).pss_on)
        f0.chan (ops.foldl (view_step conv cvt) f).chan := by
  induction ops with
  | nil => intro f h1 h2 h3 h4 h5; exact ⟨h1, h2, h3, h4, h5⟩
  | cons op ops ih =>
    intro f h1 h2 h3 h4 h5
    obtain ⟨s1, s2, s3, s4, s5⟩ := view_step_inv conv cvt f0 f op ht h1 h4 h5
    exact ih (view_step conv cvt f op) (s1.trans h1) (s2.trans h2) (s3.trans h3) s4 s5

end io_subframe_full

theorem forall₂_right_all {A B : Type} (P : B → Prop) (l0 : List A) (l : List B)
    (h : List.Forall₂ (fun _ b => P b) l0 l) : ∀ b ∈ l, P b := by
  induction h with
  | nil => intro b hb; cases hb
  | cons hab _ ih =>
    intro b hb
    rcases List.mem_cons.mp hb with e | e
    · rw [e]; exact hab
    · exact ih b e

namespace io_subframe_full

variable {α H : Type}

theorem lengths_ok_iff (f : io_subframe_full α H) :
    f.lengths_ok = true ↔
      (f.taps ≤ f.len ∧ f.hlen ≤ f.len ∧ f.hlen = f.taps / 2 + 64) ∧
      ∀ c ∈ f.chan, c.lengths_ok f.len f.taps f.hlen = true := by
  unfold lengths_ok
  rw [Bool.and_eq_true, decide_eq_true_iff, List.all_eq_true]

/-- C33: a subframe cycle that starts with both flags clear (after `init` or `reset`), on
an object with the lengths `init` establishes and raw buffers of `len` samples, and makes
any sequence of `preprocess_pss` and `preprocess_pbch` calls followed by `update()`: after
`update()` the history of the sync-view resampler and of the broadcast-view resampler of
every channel is the converted last `taps` samples of that channel's raw buffer, the
look-back array holds the last `taps / 2 + 64` raw samples, the raw buffers are unchanged,
and the lengths are kept, so that the next cycle can start after `reset()`. -/
theorem update_refreshes_histories [Inhabited α] (single_convolve : (Int → α) → H → α)
    (cvt : Int × Int → α) (f : io_subframe_full α H) (ops : List (view_op α))
    (hok : f.lengths_ok = true)
    (hraw : ∀ c ∈ f.chan, c.raw.length = f.len)
    (hflags : f.convert_on = false ∧ f.pss_on = false) :
    (cycle single_convolve cvt f ops).chan.map (fun c => c.pss_resampler.history)
      = f.chan.map (fun c => (c.raw.drop (f.len - f.taps)).map cvt) ∧
    (cycle single_convolve cvt f ops).chan.map (fun c => c.pbch_resampler.history)
      = f.chan.map (fun c => (c.raw.drop (f.len - f.taps)).map cvt) ∧
    (cycle single_convolve cvt f ops).chan.map (fun c => c.history)
      = f.chan.map (fun c => c.raw.drop (f.len - (f.taps / 2 + 64))) ∧
    (cycle single_convolve cvt f ops).chan.map (fun c => c.raw)
      = f.chan.map (fun c => c.raw) ∧
    (cycle single_convolve cvt f ops).lengths_ok = true ∧
    (reset (cycle single_convolve cvt f ops)).convert_on = false ∧
    (reset (cycle single_convolve cvt f ops)).pss_on = false := by
  obtain ⟨⟨ht, hl, hh⟩, hch⟩ := (lengths_ok_iff f).mp hok
  obtain ⟨hc, hp⟩ := hflags
  have h0 : List.Forall₂
      (io_channel.cycle_inv cvt f.len f.taps f.hlen f.convert_on f.pss_on) f.chan f.chan := by
    rw [hc, hp]
    exact List.forall₂_same.mpr (fun c hcm =>
      ⟨rfl, hraw c hcm, hch c hcm, fun h => (by cases h), fun h => (by cases h)⟩)
  obtain ⟨g1, g2, g3, g4, g5⟩ := view_run_inv single_convolve cvt f ht ops f rfl rfl rfl
    (fun h => by rw [hp] at h; cases h) h0
  obtain ⟨_, u2, u3, u4, _, _, u7⟩ :=
    update_chan cvt (ops.foldl (view_step single_convolve cvt) f)
  rw [g1, g2, g3] at u7
  have key : List.Forall₂ (fun (a b : io_channel α H) =>
      b.raw = a.raw ∧
      b.pss_resampler.history = (a.raw.drop (f.len - f.taps)).map cvt ∧
      b.pbch_resampler.history = (a.raw.drop (f.len - f.taps)).map cvt ∧
      b.history = a.raw.drop (f.len - f.hlen) ∧
      b.lengths_ok f.len f.taps f.hlen = true) f.chan
      (cycle single_convolve cvt f ops).chan := by
    unfold cycle
    rw [u7]
    exact forall₂_map_right _ _ _
      (fun a b hab => io_channel.cycle_inv_update cvt f.len f.taps f.hlen _ _ a b ht hl g4 hab)
      _ _ g5
  refine ⟨?_, ?_, ?_, ?_, ?_, rfl, rfl⟩
  · exact forall₂_map_eq _ _ _ _ (key.imp (fun a b h => h.2.1))
  · exact forall₂_map_eq _ _ _ _ (key.imp (fun a b h => h.2.2.1))
  · rw [← hh]
    exact forall₂_map_eq _ _ _ _ (key.imp (fun a b h => h.2.2.2.1))
  · exact forall₂_map_eq _ _ _ _ (key.imp (fun a b h => h.1))
  · rw [lengths_ok_iff]
    have e1 : (cycle single_convolve cvt f ops).len = f.len := by
      unfold cycle; rw [u2]; exact g1
    have e2 : (cycle single_convolve cvt f ops).taps = f.taps := by
      unfold cycle; rw [u3]; exact g2
    have e3 : (cycle single_convolve cvt f ops).hlen = f.hlen := by
      unfold cycle; rw [u4]; exact g3
    rw [e1, e2, e3]
    exact ⟨⟨ht, hl, hh⟩,
      forall₂_right_all _ _ _ (key.imp (fun a b h => h.2.2.2.2))⟩

end io_subframe_full

namespace io_subframe_full

/-- C33 on the example object: a cycle with a broadcast-view call on channel 0 and a
sync-view call; afterwards both resampler histories are the converted raw samples 69 .. 72
and the look-back array holds the raw samples 7 .. 72. -/
theorem update_refreshes_histories_witness :
    (cycle exConvQ exCvt exViews
        [view_op.pbch 0 (List.replicate 72 (0, 0)), view_op.pss]).chan.map
      (fun c => c.pss_resampler.history)
      = exViews.chan.map (fun c => (c.raw.drop (exViews.len - exViews.taps)).map exCvt) ∧
    (cycle exConvQ exCvt exViews
        [view_op.pbch 0 (List.replicate 72 (0, 0)), view_op.pss]).chan.map
      (fun c => c.pbch_resampler.history)
      = exViews.chan.map (fun c => (c.raw.drop (exViews.len - exViews.taps)).map exCvt) ∧
    exViews.chan.map (fun c => c.raw.drop (exViews.len - exViews.taps))
      = [[(69, -69), (70, -70), (71, -71), (72, -72)]] :=
  ⟨(update_refreshes_histories exConvQ exCvt exViews
      [view_op.pbch 0 (List.replicate 72 (0, 0)), view_op.pss]
      (by decide) (by decide) ⟨rfl, rfl⟩).1,
   (update_refreshes_histories exConvQ exCvt exViews
      [view_op.pbch 0 (List.replicate 72 (0, 0)), view_op.pss]
      (by decide) (by decide) ⟨rfl, rfl⟩).2.1,
   by decide⟩

end io_subframe_full

namespace Resampler

variable {α H : Type}

/-- The resampler after `init()`: the ratio is kept and the history has
`mFiltLen + mDelay` samples, whether the filter bank was allocated or not. -/
theorem init_fields (r : Resampler α H) (alloc_ok : Bool) (filters : Nat → H) (zero : α) :
    (init r alloc_ok filters zero).1 = true ∧
    (init r alloc_ok filters zero).2.mP = r.mP ∧
    (init r alloc_ok filters zero).2.mQ = r.mQ ∧
    (init r alloc_ok filters zero).2.history = List.replicate (r.mFiltLen + r.mDelay) zero := by
  have hrc : ¬ ((if (initFilters r alloc_ok filters).1 = true then (1 : Int) else 0) < 0) := by
    split_ifs <;> decide
  unfold init
  simp only []
  rw [if_neg hrc]
  refine ⟨rfl, ?_, ?_, ?_⟩
  · rw [computePath_mP]
    unfold initFilters
    split_ifs <;> rfl
  · rw [computePath_mQ]
    unfold initFilters
    split_ifs <;> rfl
  · rw [computePath_history]

end Resampler

theorem init_q_values (rbs : Int) (h : valid_rbs rbs = true) :
    0 ≤ io_subframe.get_decim rbs ∧ 0 < io_subframe.init_pss_q rbs ∧
    0 < io_subframe.init_pbch_q rbs ∧
    2 * io_subframe.init_pbch_q rbs = io_subframe.init_pss_q rbs := by
  rcases (valid_rbs_iff rbs).mp h with h | h | h | h | h | h <;> subst h <;>
    refine ⟨?_, ?_, ?_, ?_⟩ <;> decide

namespace io_subframe_full

variable {α H : Type}

/-- The object that `init` makes for a supported bandwidth has the lengths of `lengths_ok`
and both flags clear, provided the constants of `slot.h` make the subframe length the
product of the sync-view ratio and the sync-view length, and the filter and look-back
lengths do not exceed the subframe length. -/
theorem init_lengths_ok (chans rbs taps pdsch_len pss_len : Nat) (alloc_ok : Bool)
    (filters : Nat → Nat → H) (zero : α)
    (hrbs : valid_rbs (rbs : Int) = true)
    (hlen : pdsch_len = (io_subframe.init_pss_q (rbs : Int)).toNat * pss_len)
    (hmax : pss_len ≤ MAX_OUTPUT_LEN) (ht : taps ≤ pdsch_len)
    (hh : taps / 2 + 64 ≤ pdsch_len) :
    ∃ f : io_subframe_full α H,
      init chans rbs taps pdsch_len pss_len alloc_ok filters zero = some f ∧
      f.lengths_ok = true ∧ f.convert_on = false ∧ f.pss_on = false ∧
      f.len = pdsch_len ∧ f.taps = taps ∧ f.chan.length = chans ∧
      (∀ c ∈ f.chan, c.raw = [] ∧
        (c.pss_resampler.mQ : Int) = io_subframe.init_pss_q (rbs : Int) ∧
        (c.pbch_resampler.mQ : Int) = io_subframe.init_pbch_q (rbs : Int)) := by
  obtain ⟨hd, hq, hb, h2⟩ := init_q_values (rbs : Int) hrbs
  have hqn : 0 < (io_subframe.init_pss_q (rbs : Int)).toNat := by omega
  have hqb : (io_subframe.init_pss_q (rbs : Int)).toNat
      = (io_subframe.init_pbch_q (rbs : Int)).toNat * 2 := by omega
  have hnd : ¬ (io_subframe.get_decim (rbs : Int) < 0) := by omega
  unfold init
  simp only []
  rw [if_neg hnd]
  refine ⟨_, rfl, ?_, rfl, rfl, rfl, rfl, by simp, ?_⟩
  · rw [lengths_ok_iff]
    refine ⟨⟨ht, hh, rfl⟩, ?_⟩
    intro c hc
    obtain ⟨_, _, rfl⟩ := List.mem_map.mp hc
    rw [io_channel.channel_lengths_iff]
    refine ⟨by simp, by simp, by simp, ?_, ?_, ?_, ?_⟩
    · show (Resampler.init _ alloc_ok _ zero).2.history.length = taps
      rw [(Resampler.init_fields _ alloc_ok _ zero).2.2.2]
      simp
    · show (Resampler.init _ alloc_ok _ zero).2.history.length = taps
      rw [(Resampler.init_fields _ alloc_ok _ zero).2.2.2]
      simp
    · show Resampler.check_vec_len pdsch_len (some (List.replicate pss_len zero).length)
        (Resampler.init _ alloc_ok _ zero).2.mP (Resampler.init _ alloc_ok _ zero).2.mQ = true
      rw [(Resampler.init_fields _ alloc_ok _ zero).2.1,
        (Resampler.init_fields _ alloc_ok _ zero).2.2.1, Resampler.check_vec_len_some,
        List.length_replicate]
      refine ⟨?_, Nat.mod_one _, ?_, hmax⟩
      · show pdsch_len % (io_subframe.init_pss_q (rbs : Int)).toNat = 0
        rw [hlen]; exact Nat.mul_mod_right _ _
      · show pdsch_len / (io_subframe.init_pss_q (rbs : Int)).toNat = pss_len / 1
        rw [hlen, Nat.mul_div_cancel_left _ hqn, Nat.div_one]
    · show pdsch_len % (Resampler.init _ alloc_ok _ zero).2.mQ = 0
      rw [(Resampler.init_fields _ alloc_ok _ zero).2.2.1]
      show pdsch_len % (io_subframe.init_pbch_q (rbs : Int)).toNat = 0
      rw [hlen, hqb, Nat.mul_assoc]
      exact Nat.mul_mod_right _ _
  · intro c hc
    obtain ⟨_, _, rfl⟩ := List.mem_map.mp hc
    refine ⟨rfl, ?_, ?_⟩
    · show (((Resampler.init _ alloc_ok _ zero).2.mQ : Nat) : Int) = _
      rw [(Resampler.init_fields _ alloc_ok _ zero).2.2.1]
      show (((io_subframe.init_pss_q (rbs : Int)).toNat : Nat) : Int) = _
      omega
    · show (((Resampler.init _ alloc_ok _ zero).2.mQ : Nat) : Int) = _
      rw [(Resampler.init_fields _ alloc_ok _ zero).2.2.1]
      show (((io_subframe.init_pbch_q (rbs : Int)).toNat : Nat) : Int) = _
      omega

end io_subframe_full

theorem zipWith_all {A B C : Type} (g : A → B → C) (P : C → Prop) :
    ∀ (l1 : List A) (l2 : List B), (∀ a ∈ l1, ∀ b ∈ l2, P (g a b)) →
      ∀ c ∈ List.zipWith g l1 l2, P c := by
  intro l1
  induction l1 with
  | nil => intro l2 _ c hc; simp at hc
  | cons a l1 ih =>
    intro l2 h c hc
    cases l2 with
    | nil => simp at hc
    | cons b l2 =>
      rw [List.zipWith_cons_cons] at hc
      rcases List.mem_cons.mp hc with e | e
      · rw [e]
        exact h a (List.mem_cons_self _ _) b (List.mem_cons_self _ _)
      · exact ih l2 (fun a' ha' b' hb' =>
          h a' (List.mem_cons_of_mem _ ha') b' (List.mem_cons_of_mem _ hb')) c e

namespace io_subframe_full

variable {α H : Type}

/-- After `reset()` and the next subframe read, which points the raw buffers to `len` new
samples each, the object is ready for the next cycle: lengths kept, both flags clear, raw
buffers of `len` samples. -/
theorem next_cycle_ready (f : io_subframe_full α H) (raws : List (List (Int × Int)))
    (hok : f.lengths_ok = true) (hr : ∀ r ∈ raws, r.length = f.len) :
    (set_raw (reset f) raws).lengths_ok = true ∧
    (set_raw (reset f) raws).convert_on = false ∧ (set_raw (reset f) raws).pss_on = false ∧
    (∀ c ∈ (set_raw (reset f) raws).chan, c.raw.length = (set_raw (reset f) raws).len) := by
  obtain ⟨h1, h2⟩ := (lengths_ok_iff f).mp hok
  refine ⟨?_, rfl, rfl, ?_⟩
  · rw [lengths_ok_iff]
    refine ⟨h1, ?_⟩
    show ∀ c ∈ List.zipWith (fun c r => { c with raw := r }) f.chan raws,
      c.lengths_ok f.len f.taps f.hlen = true
    exact zipWith_all _ _ _ _ (fun a ha b _ => h2 a ha)
  · show ∀ c ∈ List.zipWith (fun c r => { c with raw := r }) f.chan raws,
      c.raw.length = f.len
    exact zipWith_all _ _ _ _ (fun a _ b hb => hr b hb)

/-- The look-back part of `update` is the method `update` of the model `io_subframe`. -/
theorem core_update [Inhabited α] (cvt : Int × Int → α) (f : io_subframe_full α H) :
    (update cvt f).2.core = io_subframe.update f.core := by
  obtain ⟨_, u2, u3, u4, _, _, u7⟩ := update_chan cvt f
  unfold core io_subframe.update
  simp only [u2, u3, u4, u7, List.length_map, List.map_map]
  congr 1
  · apply List.ext_getElem
    · simp
    · intro i h1 h2
      simp only [List.getElem_map, Function.comp]
      rcases Bool.eq_false_or_eq_true f.convert_on with hc | hc <;>
        rcases Bool.eq_false_or_eq_true f.pss_on with hp | hp <;>
        simp only [hc, hp, if_true, Bool.false_eq_true, if_false] <;> rfl
  · apply List.ext_getElem
    · simp
    · intro i h1 h2
      simp only [List.length_map] at h1
      have hi : i < f.chan.length := h1
      simp only [List.getElem_map, Function.comp, List.getElem_range,
        List.getD_eq_getElem?_getD, List.getElem?_map, List.getElem?_eq_getElem hi,
        Option.map_some', Option.getD_some]
      rcases Bool.eq_false_or_eq_true f.convert_on with hc | hc <;>
        rcases Bool.eq_false_or_eq_true f.pss_on with hp | hp <;>
        simp only [hc, hp, if_true, Bool.false_eq_true, if_false] <;> rfl

end io_subframe_full

/-! ## The timing window of the re-verifications -/

/-- The result of `pdsch_sync` is negative exactly when the position found by the fine search
is 4 or more samples from the expected one, or the frequency-domain check fails. -/
theorem pdsch_sync_neg_iff (K : lte_params) (rx : lte_rx) (d : detections) :
    (pdsch_sync K rx d).1 < 0 ↔
      (¬ |d.fine_sync.coarse - pss_target K| ≤ 3 ∨ d.pss_detect3 < 0) := by
  have hw := window_iff_abs d.fine_sync.coarse (K.LTE_N0_SLOT_LEN - K.LTE_N0_CP0_LEN - 1)
  unfold pdsch_sync pss_target SYNC_ERR_PSS_TIME SYNC_ERR_PSS_FREQ
  by_cases h1 : d.fine_sync.coarse ≤ K.LTE_N0_SLOT_LEN - K.LTE_N0_CP0_LEN - 1 - 4 ∨
      d.fine_sync.coarse ≥ K.LTE_N0_SLOT_LEN - K.LTE_N0_CP0_LEN - 1 + 4
  · simp only [h1, if_true]
    refine ⟨fun _ => Or.inl (fun q => ?_), fun _ => by decide⟩
    have q2 := hw.mpr q
    omega
  · simp only [h1, if_false]
    have hin : |d.fine_sync.coarse - (K.LTE_N0_SLOT_LEN - K.LTE_N0_CP0_LEN - 1)| ≤ 3 :=
      hw.mp (by omega)
    by_cases h2 : d.pss_detect3 < 0
    · simp only [h2, if_true]
      exact ⟨fun _ => Or.inr trivial, fun _ => by decide⟩
    · simp only [h2, if_false]
      refine ⟨fun h => absurd h (by decide), fun h => ?_⟩
      rcases h with q | q
      · exact absurd hin q
      · exact absurd q (by simp)

/-- The evaluation of `drive_common` in `PSS_SYNC2` (subframe 0) in terms of the two checks:
back to `PSS_SYNC` exactly when the sector check and the timing check both fail. -/
theorem drive_common_pss2_window (K : lte_params) (c : sync_ctx) (d : detections)
    (h : c.rx.state = lte_state.LTE_STATE_PSS_SYNC2) (h0 : c.rx.time.subframe = 0) :
    (drive_common K c d).rx.state =
      (if d.pss_detect ≠ c.rx.sync.n_id_2 ∧ ¬ |d.pss_sync.coarse - pss_target K| ≤ 3
        then lte_state.LTE_STATE_PSS_SYNC else lte_state.LTE_STATE_SSS_SYNC) := by
  have hm := (pss_sync2_miss K c.rx d).1
  have e : (drive_common K c d).rx.state
      = (if (pss_sync2 K c.rx d).1 > 1
        then lte_state.LTE_STATE_PSS_SYNC else lte_state.LTE_STATE_SSS_SYNC) := by
    unfold drive_common
    simp only [h, h0, if_true]
    split_ifs <;> rfl
  rw [e, hm]
  by_cases h1 : d.pss_detect ≠ c.rx.sync.n_id_2 <;>
    by_cases h2 : |d.pss_sync.coarse - pss_target K| ≤ 3 <;>
    simp [h1, h2]

/-- The evaluation of `drive_common` in `SSS_SYNC` (subframe 0) when the secondary signal is
not found: the misses of the three checks are added to the count, and from 4 on the state
goes back to `PSS_SYNC` with the count cleared. -/
theorem drive_common_sss_window (K : lte_params) (c : sync_ctx) (d : detections)
    (h : c.rx.state = lte_state.LTE_STATE_SSS_SYNC) (h0 : c.rx.time.subframe = 0)
    (hd : ¬ (d.sss_detect > 0)) :
    (drive_common K c d).rx.state =
      (if c.common_pss_miss_cnt +
          ((if |d.pss_sync.coarse - pss_target K| ≤ 3 then 0 else 1) +
           (if d.pss_detect ≠ c.rx.sync.n_id_2 then 1 else 0) +
           (if d.sss_detect < 0 then 1 else 0)) ≥ 4
        then lte_state.LTE_STATE_PSS_SYNC else lte_state.LTE_STATE_SSS_SYNC) ∧
    (drive_common K c d).common_pss_miss_cnt =
      (if c.common_pss_miss_cnt +
          ((if |d.pss_sync.coarse - pss_target K| ≤ 3 then 0 else 1) +
           (if d.pss_detect ≠ c.rx.sync.n_id_2 then 1 else 0) +
           (if d.sss_detect < 0 then 1 else 0)) ≥ 4
        then 0
        else c.common_pss_miss_cnt +
          ((if |d.pss_sync.coarse - pss_target K| ≤ 3 then 0 else 1) +
           (if d.pss_detect ≠ c.rx.sync.n_id_2 then 1 else 0) +
           (if d.sss_detect < 0 then 1 else 0))) := by
  have hr := (sss_sync_miss K c.rx d).2.1 hd
  have hst : (sss_sync K c.rx d).2.1.state = c.rx.state := by
    unfold sss_sync
    simp only []
    split_ifs <;> rfl
  generalize hm : ((if |d.pss_sync.coarse - pss_target K| ≤ 3 then (0 : Int) else 1) +
      (if d.pss_detect ≠ c.rx.sync.n_id_2 then 1 else 0) +
      (if d.sss_detect < 0 then 1 else 0)) = m at hr ⊢
  have hm0 : 0 ≤ m := by
    rw [← hm]
    split_ifs <;> decide
  have hle : (sss_sync K c.rx d).1 ≤ 0 := by omega
  have e : drive_common K c d =
      (if c.common_pss_miss_cnt + -(sss_sync K c.rx d).1 ≥ 4 then
        { c with rx := { (sss_sync K c.rx d).2.1 with state := lte_state.LTE_STATE_PSS_SYNC },
                 common_pss_miss_cnt := 0,
                 events := sync_event.offset_reset :: c.events }
      else { c with rx := (sss_sync K c.rx d).2.1,
                    common_pss_miss_cnt := c.common_pss_miss_cnt + -(sss_sync K c.rx d).1 }) := by
    unfold drive_common
    simp only [h, h0, if_true, hle]
  rw [e, hr, neg_neg]
  by_cases hk : c.common_pss_miss_cnt + m ≥ 4
  · rw [if_pos hk, if_pos hk, if_pos hk]
    exact ⟨rfl, rfl⟩
  · rw [if_neg hk, if_neg hk, if_neg hk]
    exact ⟨hst.trans h, rfl⟩

/-- The evaluation of `drive_common` in `PBCH_SYNC` (subframe 0) in terms of the two checks:
one miss unless the sector id is confirmed and the position lies within 3 samples. -/
theorem drive_common_pbch_window (K : lte_params) (c : sync_ctx) (d : detections)
    (h : c.rx.state = lte_state.LTE_STATE_PBCH_SYNC) (h0 : c.rx.time.subframe = 0) :
    (drive_common K c d).rx.state =
      (if c.common_pss_miss_cnt +
          (if d.pss_detect = c.rx.sync.n_id_2 ∧ |d.pss_sync.coarse - pss_target K| ≤ 3
            then 0 else 1) > 10
        then lte_state.LTE_STATE_PSS_SYNC else lte_state.LTE_STATE_PBCH) ∧
    (drive_common K c d).common_pss_miss_cnt =
      (if c.common_pss_miss_cnt +
          (if d.pss_detect = c.rx.sync.n_id_2 ∧ |d.pss_sync.coarse - pss_target K| ≤ 3
            then 0 else 1) > 10
        then 0
        else c.common_pss_miss_cnt +
          (if d.pss_detect = c.rx.sync.n_id_2 ∧ |d.pss_sync.coarse - pss_target K| ≤ 3
            then 0 else 1)) := by
  obtain ⟨hi, lo⟩ := (drive_common_pbch_sync K c d h).2 h0
  have hf := pbch_sync_found K c.rx d
  have em : (if (pbch_sync K c.rx d).1 = true then (0 : Int) else 1) =
      (if d.pss_detect = c.rx.sync.n_id_2 ∧ |d.pss_sync.coarse - pss_target K| ≤ 3
        then 0 else 1) := by
    by_cases hp : (pbch_sync K c.rx d).1 = true
    · rw [if_pos hp, if_pos (hf.mp hp)]
    · rw [if_neg hp, if_neg (fun hh => hp (hf.mpr hh))]
  rw [em] at hi lo
  by_cases hk : c.common_pss_miss_cnt +
      (if d.pss_detect = c.rx.sync.n_id_2 ∧ |d.pss_sync.coarse - pss_target K| ≤ 3
        then 0 else 1) > 10
  · obtain ⟨r1, r2, _⟩ := hi hk
    rw [if_pos hk, if_pos hk]
    exact ⟨r1, r2⟩
  · obtain ⟨r1, r2, _⟩ := lo (by omega)
    rw [if_neg hk, if_neg hk]
    exact ⟨r1, r2⟩

/-- The re-check step of `drive_pdsch` in `PDSCH_SYNC` (subframe 5) in terms of the two
checks: the state goes back to `PSS_SYNC` exactly when the miss count, one higher unless the
position lies within 3 samples and the frequency-domain check passes, exceeds 100 (or the
identity-mismatch count exceeds 5). -/
theorem drive_pdsch_sync_window (K : lte_params) (c : sync_ctx) (d : detections)
    (adjust : Int) (h : c.rx.state = lte_state.LTE_STATE_PDSCH_SYNC)
    (h5 : (advance_time c.rx.time).subframe = 5) :
    ((drive_pdsch K c d adjust).rx.state = lte_state.LTE_STATE_PSS_SYNC ↔
      (c.pdsch_pss_miss_cnt +
          (if |d.fine_sync.coarse - pss_target K| ≤ 3 ∧ ¬ d.pss_detect3 < 0 then 0 else 1)
            > 100 ∨ c.pdsch_sss_miss_cnt > 5)) ∧
    (¬ (c.pdsch_pss_miss_cnt +
          (if |d.fine_sync.coarse - pss_target K| ≤ 3 ∧ ¬ d.pss_detect3 < 0 then 0 else 1)
            > 100 ∨ c.pdsch_sss_miss_cnt > 5) →
      (drive_pdsch K c d adjust).rx.state = lte_state.LTE_STATE_PDSCH_SYNC) := by
  have e := drive_pdsch_sync_at5 K c d adjust h h5
  have hn := pdsch_sync_neg_iff K { c.rx with time := advance_time c.rx.time } d
  have hs := (pdsch_sync_state K { c.rx with time := advance_time c.rx.time } d).1
  have em : (if (pdsch_sync K { c.rx with time := advance_time c.rx.time } d).1 < 0
        then (1 : Int) else 0) =
      (if |d.fine_sync.coarse - pss_target K| ≤ 3 ∧ ¬ d.pss_detect3 < 0 then 0 else 1) := by
    by_cases hp : (pdsch_sync K { c.rx with time := advance_time c.rx.time } d).1 < 0
    · rw [if_pos hp, if_neg]
      rintro ⟨a, b⟩
      rcases hn.mp hp with q | q
      · exact q a
      · exact b q
    · rw [if_neg hp, if_pos]
      constructor
      · by_contra q
        exact hp (hn.mpr (Or.inl q))
      · intro q
        exact hp (hn.mpr (Or.inr q))
  rw [em] at e
  by_cases hk : c.pdsch_pss_miss_cnt +
      (if |d.fine_sync.coarse - pss_target K| ≤ 3 ∧ ¬ d.pss_detect3 < 0 then 0 else 1)
        > 100 ∨ c.pdsch_sss_miss_cnt > 5
  · rw [if_pos hk] at e
    rw [e]
    exact ⟨⟨fun _ => hk, fun _ => rfl⟩, fun q => absurd hk q⟩
  · rw [if_neg hk] at e
    have hst : (drive_pdsch K c d adjust).rx.state = lte_state.LTE_STATE_PDSCH_SYNC := by
      rw [e, (pdsch_handoff_keeps _ adjust).2.2]
      exact hs.trans h
    refine ⟨⟨fun q => ?_, fun q => absurd q hk⟩, fun _ => hst⟩
    rw [hst] at q
    cases q

/-- C21 (amended): the timing checks of `pss_sync2`, `sss_sync`, `pbch_sync` and
`pdsch_sync`, for every receiver record and so in each state in which `sync.cc` calls them,
accept a correlation position exactly when it lies within 3 samples of the expected position
`target` (strictly less than 4 away); any other position is a miss.  In `PSS_SYNC2` the
misses are one for a failed sector check plus one for a failed timing check, and the
evaluation (`drive_common` on subframe 0, a `drive_pbch` or `drive_pdsch` step from
subframe 9) goes to `SSS_SYNC` with at most one miss and back to `PSS_SYNC` with two.  In
`SSS_SYNC` an evaluation that does not find the secondary signal adds the misses of its
three checks to the count; in `PBCH_SYNC` the re-verification passes only with the sector id
confirmed and the position inside the window, and adds one miss otherwise; in `PDSCH_SYNC`
the re-check on subframe 5 adds one miss unless the position is inside the window and the
frequency-domain check passes. -/
theorem timing_window_three_samples (K : lte_params) (c : sync_ctx) (d : detections)
    (adjust : Int) :
    (∀ rx : lte_rx,
      (pss_sync2 K rx d).1 =
        (if d.pss_detect ≠ rx.sync.n_id_2 then 1 else 0) +
        (if |d.pss_sync.coarse - pss_target K| ≤ 3 then 0 else 1) ∧
      (pss_sync2 K rx d).2.1.sync.coarse =
        (if |d.pss_sync.coarse - pss_target K| ≤ 3 then d.pss_sync.coarse - pss_target K
         else rx.sync.coarse) ∧
      (sss_sync K rx d).2.1.sync.coarse =
        (if |d.pss_sync.coarse - pss_target K| ≤ 3 then d.pss_sync.coarse - pss_target K
         else rx.sync.coarse) ∧
      (¬ (d.sss_detect > 0) →
        (sss_sync K rx d).1 =
          -((if |d.pss_sync.coarse - pss_target K| ≤ 3 then 0 else 1) +
            (if d.pss_detect ≠ rx.sync.n_id_2 then 1 else 0) +
            (if d.sss_detect < 0 then 1 else 0))) ∧
      ((pbch_sync K rx d).1 = true ↔
        (d.pss_detect = rx.sync.n_id_2 ∧ |d.pss_sync.coarse - pss_target K| ≤ 3)) ∧
      ((pdsch_sync K rx d).1 = -SYNC_ERR_PSS_TIME ↔
        ¬ |d.fine_sync.coarse - pss_target K| ≤ 3) ∧
      ((pdsch_sync K rx d).1 < 0 ↔
        (¬ |d.fine_sync.coarse - pss_target K| ≤ 3 ∨ d.pss_detect3 < 0))) ∧
    (c.rx.state = lte_state.LTE_STATE_PSS_SYNC2 → c.rx.time.subframe = 0 →
      (drive_common K c d).rx.state =
        (if d.pss_detect ≠ c.rx.sync.n_id_2 ∧ ¬ |d.pss_sync.coarse - pss_target K| ≤ 3
          then lte_state.LTE_STATE_PSS_SYNC else lte_state.LTE_STATE_SSS_SYNC)) ∧
    (c.rx.state = lte_state.LTE_STATE_PSS_SYNC2 → c.rx.time.subframe = 9 →
      (drive_pbch K c d).2.rx.state =
        (if d.pss_detect ≠ c.rx.sync.n_id_2 ∧ ¬ |d.pss_sync.coarse - pss_target K| ≤ 3
          then lte_state.LTE_STATE_PSS_SYNC else lte_state.LTE_STATE_SSS_SYNC) ∧
      (drive_pdsch K c d adjust).rx.state =
        (if d.pss_detect ≠ c.rx.sync.n_id_2 ∧ ¬ |d.pss_sync.coarse - pss_target K| ≤ 3
          then lte_state.LTE_STATE_PSS_SYNC else lte_state.LTE_STATE_SSS_SYNC)) ∧
    (c.rx.state = lte_state.LTE_STATE_SSS_SYNC → c.rx.time.subframe = 0 →
      ¬ (d.sss_detect > 0) →
      (drive_common K c d).rx.state =
        (if c.common_pss_miss_cnt +
            ((if |d.pss_sync.coarse - pss_target K| ≤ 3 then 0 else 1) +
             (if d.pss_detect ≠ c.rx.sync.n_id_2 then 1 else 0) +
             (if d.sss_detect < 0 then 1 else 0)) ≥ 4
          then lte_state.LTE_STATE_PSS_SYNC else lte_state.LTE_STATE_SSS_SYNC) ∧
      (drive_common K c d).common_pss_miss_cnt =
        (if c.common_pss_miss_cnt +
            ((if |d.pss_sync.coarse - pss_target K| ≤ 3 then 0 else 1) +
             (if d.pss_detect ≠ c.rx.sync.n_id_2 then 1 else 0) +
             (if d.sss_detect < 0 then 1 else 0)) ≥ 4
          then 0
          else c.common_pss_miss_cnt +
            ((if |d.pss_sync.coarse - pss_target K| ≤ 3 then 0 else 1) +
             (if d.pss_detect ≠ c.rx.sync.n_id_2 then 1 else 0) +
             (if d.sss_detect < 0 then 1 else 0)))) ∧
    (c.rx.state = lte_state.LTE_STATE_PBCH_SYNC → c.rx.time.subframe = 0 →
      (drive_common K c d).rx.state =
        (if c.common_pss_miss_cnt +
            (if d.pss_detect = c.rx.sync.n_id_2 ∧ |d.pss_sync.coarse - pss_target K| ≤ 3
              then 0 else 1) > 10
          then lte_state.LTE_STATE_PSS_SYNC else lte_state.LTE_STATE_PBCH) ∧
      (drive_common K c d).common_pss_miss_cnt =
        (if c.common_pss_miss_cnt +
            (if d.pss_detect = c.rx.sync.n_id_2 ∧ |d.pss_sync.coarse - pss_target K| ≤ 3
              then 0 else 1) > 10
          then 0
          else c.common_pss_miss_cnt +
            (if d.pss_detect = c.rx.sync.n_id_2 ∧ |d.pss_sync.coarse - pss_target K| ≤ 3
              then 0 else 1))) ∧
    (c.rx.state = lte_state.LTE_STATE_PDSCH_SYNC → (advance_time c.rx.time).subframe = 5 →
      ((drive_pdsch K c d adjust).rx.state = lte_state.LTE_STATE_PSS_SYNC ↔
        (c.pdsch_pss_miss_cnt +
            (if |d.fine_sync.coarse - pss_target K| ≤ 3 ∧ ¬ d.pss_detect3 < 0 then 0 else 1)
              > 100 ∨ c.pdsch_sss_miss_cnt > 5)) ∧
      (¬ (c.pdsch_pss_miss_cnt +
            (if |d.fine_sync.coarse - pss_target K| ≤ 3 ∧ ¬ d.pss_detect3 < 0 then 0 else 1)
              > 100 ∨ c.pdsch_sss_miss_cnt > 5) →
        (drive_pdsch K c d adjust).rx.state = lte_state.LTE_STATE_PDSCH_SYNC)) := by
  refine ⟨fun rx => ⟨(pss_sync2_miss K rx d).1, (pss_sync2_miss K rx d).2,
      (sss_sync_miss K rx d).1, (sss_sync_miss K rx d).2.1, pbch_sync_found K rx d,
      (pdsch_sync_result K rx d).1, pdsch_sync_neg_iff K rx d⟩,
    fun h h0 => drive_common_pss2_window K c d h h0, ?_,
    fun h h0 hd => drive_common_sss_window K c d h h0 hd,
    fun h h0 => drive_common_pbch_window K c d h h0,
    fun h h5 => drive_pdsch_sync_window K c d adjust h h5⟩
  intro h h9
  have a := advance_time_wrap c.rx.time h9
  have e := drive_common_pss2_window K
    { c with rx := { c.rx with time := advance_time c.rx.time } } d h a
  have e2 : (drive_common K { c with rx := { c.rx with time := advance_time c.rx.time } }
      d).rx.state =
      (if d.pss_detect ≠ c.rx.sync.n_id_2 ∧ ¬ |d.pss_sync.coarse - pss_target K| ≤ 3
        then lte_state.LTE_STATE_PSS_SYNC else lte_state.LTE_STATE_SSS_SYNC) := e
  have hcases : (drive_common K { c with rx := { c.rx with time := advance_time c.rx.time } }
        d).rx.state = lte_state.LTE_STATE_PSS_SYNC ∨
      (drive_common K { c with rx := { c.rx with time := advance_time c.rx.time } }
        d).rx.state = lte_state.LTE_STATE_SSS_SYNC := by
    rw [e2]
    split_ifs
    · exact Or.inl rfl
    · exact Or.inr rfl
  have hp := drive_pbch_of_not_pbch K c d
    (by rcases hcases with q | q <;> rw [q] <;> exact fun hh => by cases hh)
  have hq := drive_pdsch_of_acquiring K c d adjust
    (by rcases hcases with q | q
        · exact Or.inl q
        · exact Or.inr (Or.inr q))
  rw [hp, hq]
  exact ⟨e2, e2⟩

set_option maxRecDepth 100000 in
/-- C21 (amended) on the example runs, with a peak 4 samples late (953 for the target 949):
in `PSS_SYNC2` together with a failed sector check the step goes back to `PSS_SYNC`; in
`SSS_SYNC` without the secondary signal the count goes from 0 to 3; in `PBCH_SYNC` with the
count at 10 the state goes back to `PSS_SYNC`; in `PDSCH_SYNC` on subframe 5 the position is
a miss although the frequency-domain check passes, and the state is kept. -/
theorem timing_window_three_samples_witness :
    (drive_pbch K0 (run_pbch K0 (sync_start rx0 6 [] []) (List.replicate 10 dgood))
        dedge).2.rx.state = lte_state.LTE_STATE_PSS_SYNC ∧
    (drive_common K0
        { cSSS with rx := { cSSS.rx with time := advance_time cSSS.rx.time } }
        { dedge with sss_detect := -1 }).common_pss_miss_cnt = 3 ∧
    (drive_common K0 cPBS { dgood with pss_sync := { sy0 with coarse := 953 } }).rx.state
      = lte_state.LTE_STATE_PSS_SYNC ∧
    (pdsch_sync K0 { cTrack4.rx with time := advance_time cTrack4.rx.time }
        { dgood with fine_sync := { sy0 with coarse := 953 } }).1 = -SYNC_ERR_PSS_TIME ∧
    (drive_pdsch K0 cTrack4 { dgood with fine_sync := { sy0 with coarse := 953 } } 0).rx.state
      = lte_state.LTE_STATE_PDSCH_SYNC :=
  ⟨((timing_window_three_samples K0
        (run_pbch K0 (sync_start rx0 6 [] []) (List.replicate 10 dgood)) dedge 0).2.2.1
      (by decide) (by decide)).1.trans (by decide),
   ((timing_window_three_samples K0
        { cSSS with rx := { cSSS.rx with time := advance_time cSSS.rx.time } }
        { dedge with sss_detect := -1 } 0).2.2.2.1
      (by decide) (by decide) (by decide)).2.trans (by decide),
   ((timing_window_three_samples K0 cPBS
        { dgood with pss_sync := { sy0 with coarse := 953 } } 0).2.2.2.2.1
      (by decide) (by decide)).1.trans (by decide),
   ((timing_window_three_samples K0 cTrack4
        { dgood with fine_sync := { sy0 with coarse := 953 } } 0).1
      { cTrack4.rx with time := advance_time cTrack4.rx.time }).2.2.2.2.2.1.mpr (by decide),
   ((timing_window_three_samples K0 cTrack4
        { dgood with fine_sync := { sy0 with coarse := 953 } } 0).2.2.2.2.2
      (by decide) (by decide)).2 (by decide)⟩

end OpenPhy
